import Mathlib

/-!
# constexpr-string: a small-buffer-optimised string in three ABI variants

A shallow embedding of `src/constexpr-string/clang-bit-field.cpp`,
`src/constexpr-string/clang-common-initial-subsequence.cpp` and
`src/constexpr-string/gcc-msvc-abi.cpp`.

Conventions of the embedding.

* A `char` value is a natural number (a byte is a number below 256; no operation of the
  container computes with the value of a `char`).
* `std::size_t` is a natural number with an explicit `% 2^64` where the C++ arithmetic wraps;
  bit-fields of width `w` are reduced `% 2^w` on every store.
* All `char` storage is one map `Machine.mem` from pointers to bytes.  A pointer is a region
  (the arena `buffer<char>::data`, or the inline buffer embedded in one string object) and an
  index.  The arena is zero-initialised (`T data[5000] = {}`); the model does not bound its
  index, so a block handed out beyond element 5000 is still storage in the model.
* Each string object carries its identity `self` (its address), so the address of its
  embedded buffer is the pointer `⟨region.small self, 0⟩`.
* A union is an inductive type with one constructor per member.  The bytes of an embedded
  `char` array member live in `Machine.mem`; they are written by the value-initialisation
  `U{}` and are never read while the other member is active.
* `Machine.calls` is a ghost log of the `allocate` / `deallocate` calls, in order.
-/

namespace constexpr_string

/-- The C++ type `char`. -/
abbrev char := Nat

/-- A region of `char` storage: the arena `buffer<char>::data`, or the inline buffer embedded
in the string object with the given identity. -/
inductive region where
  | arena : region
  | small (object : Nat) : region
  deriving DecidableEq, Repr

/-- A `char *`: a position in a region. -/
structure pointer where
  base : region
  index : Nat
  deriving DecidableEq, Repr

/-- Pointer arithmetic `p + n`. -/
def pointer.add (p : pointer) (n : Nat) : pointer := ⟨p.base, p.index + n⟩

/-- The pointer `std::next(p)`. -/
def pointer.next (p : pointer) : pointer := ⟨p.base, p.index + 1⟩

/-- The pointer `std::prev(p)`. -/
def pointer.prev (p : pointer) : pointer := ⟨p.base, p.index - 1⟩

/-- One call of the allocator, as recorded in the ghost log. -/
inductive call where
  | allocate (result : pointer) (size : Nat) : call
  | deallocate (ptr : pointer) (size : Nat) : call
  deriving DecidableEq, Repr

/-- The state outside the scalar fields of the string objects: every byte of `char` storage,
the bump pointer `buffer<char>::pointer` (as an index into `buffer<char>::data`), and the ghost
log of allocator calls. -/
structure Machine where
  mem : pointer → char
  buff_pointer : Nat
  calls : List call

/-- The assignment `*p = v`. -/
def store (m : pointer → char) (p : pointer) (v : char) : pointer → char :=
  fun q => if q = p then v else m q

/-- Value-initialisation of the `n`-element inline buffer of object `object`
(`small{}` / `buffer{}`): every element becomes zero. -/
def zero_buffer (m : pointer → char) (object : Nat) (n : Nat) : pointer → char :=
  fun q => if q.base = region.small object ∧ q.index < n then 0 else m q

/-- The member `buffer<T>::data[5000]` has this many elements. -/
def buffer_elements : Nat := 5000

/-- A `buffer<char> buff{}`: the arena is all zero and `pointer = data`.  The inline buffers of
string objects not yet constructed hold `junk`. -/
def buffer.init (junk : pointer → char) : Machine :=
  { mem := fun q => if q.base = region.arena then 0 else junk q
    buff_pointer := 0
    calls := [] }

/-- The member function `allocator::allocate(size)`: returns the bump pointer and advances it. -/
def allocator.allocate (σ : Machine) (size : Nat) : Machine × pointer :=
  let result : pointer := ⟨region.arena, σ.buff_pointer⟩
  ({ σ with buff_pointer := σ.buff_pointer + size
            calls := σ.calls ++ [call.allocate result size] }, result)

/-- The member function `allocator::deallocate(ptr, size)`: the body is empty. -/
def allocator.deallocate (σ : Machine) (ptr : pointer) (size : Nat) : Machine :=
  { σ with calls := σ.calls ++ [call.deallocate ptr size] }

/-- The static function `allocator_traits::allocate`. -/
def allocator_traits.allocate (σ : Machine) (size : Nat) : Machine × pointer :=
  allocator.allocate σ size

/-- The static function `allocator_traits::deallocate`. -/
def allocator_traits.deallocate (σ : Machine) (ptr : pointer) (size : Nat) : Machine :=
  allocator.deallocate σ ptr size

/-- The static function `allocator_traits::construct`: `*ptr = T(args...)`. -/
def allocator_traits.construct (σ : Machine) (ptr : pointer) (v : char) : Machine :=
  { σ with mem := store σ.mem ptr v }

/-- The static function `allocator_traits::destroy`: the body is empty. -/
def allocator_traits.destroy (σ : Machine) (_ptr : pointer) : Machine := σ

/-- The loop of `uninitialized_copy`, run for `n = last - first` iterations. -/
def uninitialized_copy.loop (σ : Machine) : Nat → pointer → pointer → Machine × pointer
  | 0, _, out => (σ, out)
  | n + 1, first, out =>
    uninitialized_copy.loop (allocator_traits.construct σ out (σ.mem first)) n first.next out.next

/-- The function template `uninitialized_copy(alloc, first, last, out)` on `char` pointers. -/
def uninitialized_copy (σ : Machine) (first last out : pointer) : Machine × pointer :=
  uninitialized_copy.loop σ (last.index - first.index) first out

/-- The loop of `copy` on plain pointers, run for `n = last - first` iterations. -/
def copy.loop (σ : Machine) : Nat → pointer → pointer → Machine × pointer
  | 0, _, out => (σ, out)
  | n + 1, first, out =>
    copy.loop { σ with mem := store σ.mem out (σ.mem first) } n first.next out.next

/-- The function template `copy(first, last, out)` on `char` pointers. -/
def copy (σ : Machine) (first last out : pointer) : Machine × pointer :=
  copy.loop σ (last.index - first.index) first out

/-- The loop of `copy` on `std::reverse_iterator<char *>`.  A reverse iterator is given by its
base pointer `b`; it dereferences to `*(b - 1)` and `++` moves the base down by one. -/
def copy_reverse.loop (σ : Machine) : Nat → pointer → pointer → Machine × pointer
  | 0, _, out => (σ, out)
  | n + 1, first, out =>
    copy_reverse.loop { σ with mem := store σ.mem out.prev (σ.mem first.prev) } n first.prev out.prev

/-- The function template `copy(first, last, out)` instantiated with
`std::reverse_iterator<char *>`; the arguments are the base pointers of the three reverse
iterators, so the loop runs `first - last` times. -/
def copy_reverse (σ : Machine) (first last out : pointer) : Machine × pointer :=
  copy_reverse.loop σ (first.index - last.index) first out

/-- The `n` bytes stored at `p`, `p + 1`, ..., `p + (n - 1)`. -/
def read_bytes (σ : Machine) (p : pointer) (n : Nat) : List char :=
  (List.range n).map (fun i => σ.mem (p.add i))

/-- The largest number of elements of one object, `PTRDIFF_MAX + 1 = 2^63`: no block handed
out by an allocator has this many elements. -/
def max_elements : Nat := 2 ^ 63

/-! ## `clang-bit-field.cpp` -/

namespace clang_bit_field

/-- The constant `string::small_buffer_capacity`. -/
def small_buffer_capacity : Nat := 23

/-- The constant `large_t::bytes_remaining`. -/
def large_t.bytes_remaining : Nat := 7

/-- The struct `string::large_t`; `rest_of_capacity` lists the array from index 0 upwards. -/
structure large_t where
  rest_of_capacity : List Nat
  size : Nat
  data : pointer
  deriving DecidableEq, Repr

/-- The loop of the constructor of `large_t` over `little_endian_capacity()`, run for `n`
bytes: the last byte of the array receives `capacity` truncated to `unsigned char`, then
`capacity >>= CHAR_BIT`, and so on towards index 0. -/
def large_t.fill : Nat → Nat → List Nat
  | 0, _ => []
  | n + 1, capacity => large_t.fill n (capacity / 256) ++ [capacity % 256]

/-- The constructor `large_t(set_size, capacity, pointer)`. -/
def large_t.ctor (set_size capacity : Nat) (ptr : pointer) : large_t :=
  { rest_of_capacity := large_t.fill large_t.bytes_remaining capacity
    size := set_size
    data := ptr }

/-- The union `string::U`.  The bytes of `small.data` live in `Machine.mem`. -/
inductive U where
  | small : U
  | large (l : large_t) : U
  deriving DecidableEq, Repr

/-- Reading the member `u_.large` (the value given for `U.small` stands for a read of the
inactive member, which the code never performs on a valid string). -/
def U.get_large : U → large_t
  | U.large l => l
  | U.small => { rest_of_capacity := [], size := 0, data := ⟨region.arena, 0⟩ }

/-- The class `string` (the empty `allocator_` handle is left out). -/
structure string where
  self : Nat
  is_large_ : Bool
  size_or_first_byte_of_capacity_ : Nat
  u_ : U
  deriving DecidableEq, Repr

/-- The address of the member array `u_.small.data`. -/
def string.small_data (s : string) : pointer := ⟨region.small s.self, 0⟩

/-- The member function `is_large`. -/
def string.is_large (s : string) : Bool := s.is_large_

/-- The private member function `increment_size`. -/
def string.increment_size (s : string) : string :=
  if s.is_large then
    { s with u_ := U.large { s.u_.get_large with size := (s.u_.get_large.size + 1) % 2 ^ 64 } }
  else
    { s with size_or_first_byte_of_capacity_ := (s.size_or_first_byte_of_capacity_ + 1) % 2 ^ 7 }

/-- The private member function `decrement_size`. -/
def string.decrement_size (s : string) : string :=
  if s.is_large then
    { s with u_ := U.large { s.u_.get_large with
        size := (s.u_.get_large.size + 2 ^ 64 - 1) % 2 ^ 64 } }
  else
    { s with size_or_first_byte_of_capacity_ :=
        (s.size_or_first_byte_of_capacity_ + 2 ^ 7 - 1) % 2 ^ 7 }

/-- The member function `data`. -/
def string.data (s : string) : pointer :=
  if s.is_large then s.u_.get_large.data else s.small_data

/-- The member function `size`. -/
def string.size (s : string) : Nat :=
  if s.is_large then s.u_.get_large.size else s.size_or_first_byte_of_capacity_

/-- The member function `begin`. -/
def string.begin (s : string) : pointer := s.data

/-- The member function `end`. -/
def string.end (s : string) : pointer := s.begin.add s.size

/-- The member function `capacity`. -/
def string.capacity (s : string) : Nat :=
  if !s.is_large then small_buffer_capacity
  else
    s.u_.get_large.rest_of_capacity.foldl
      (fun result byte => ((result * 2 ^ 8) % 2 ^ 64) ||| byte)
      s.size_or_first_byte_of_capacity_

/-- The private member function `deallocate`. -/
def string.deallocate (s : string) (σ : Machine) : Machine :=
  if s.is_large then allocator_traits.deallocate σ s.u_.get_large.data s.capacity else σ

/-- The private member function `relocate`. -/
def string.relocate (s : string) (σ : Machine) (new_data : pointer) (new_capacity : Nat) :
    Machine × string :=
  let σ := s.deallocate σ
  let s := { s with u_ := U.large (large_t.ctor s.size new_capacity new_data) }
  let s := { s with is_large_ := true }
  (σ, { s with size_or_first_byte_of_capacity_ := (new_capacity / 2 ^ (8 * 7)) % 2 ^ 7 })

/-- The private member function `force_reserve`. -/
def string.force_reserve (s : string) (σ : Machine) (new_capacity : Nat) : Machine × string :=
  let r := allocator_traits.allocate σ new_capacity
  let temp := r.2
  let σ := (copy r.1 s.begin s.end temp).1
  s.relocate σ temp new_capacity

/-- The constructor `string(allocator_type alloc)` of the object with identity `self`. -/
def string.ctor (σ : Machine) (self : Nat) : Machine × string :=
  ({ σ with mem := zero_buffer σ.mem self small_buffer_capacity },
   { self := self, is_large_ := false, size_or_first_byte_of_capacity_ := 0, u_ := U.small })

/-- The move assignment `operator=(string && other)`; returns the machine, `*this` and
`other`.  Not meant for `this == &other`. -/
def string.operator_assign (s : string) (σ : Machine) (other : string) :
    Machine × string × string :=
  let σ := s.deallocate σ
  if other.is_large then
    let s := { s with u_ := U.large other.u_.get_large }
    let s := { s with is_large_ := true }
    let s := { s with size_or_first_byte_of_capacity_ := other.size_or_first_byte_of_capacity_ }
    let σ := { σ with mem := zero_buffer σ.mem other.self small_buffer_capacity }
    let other := { other with u_ := U.small }
    let other := { other with is_large_ := false }
    let other := { other with size_or_first_byte_of_capacity_ := 0 }
    (σ, s, other)
  else
    let σ := { σ with mem := zero_buffer σ.mem s.self small_buffer_capacity }
    let s := { s with u_ := U.small }
    let s := { s with is_large_ := false }
    let σ := (copy σ other.small_data
      (other.small_data.add other.size_or_first_byte_of_capacity_) s.small_data).1
    let s := { s with size_or_first_byte_of_capacity_ := other.size_or_first_byte_of_capacity_ }
    (σ, s, other)

/-- The move constructor `string(string && other)` of the object with identity `self`. -/
def string.ctor_move (σ : Machine) (self : Nat) (other : string) : Machine × string × string :=
  let r := string.ctor σ self
  r.2.operator_assign r.1 other

/-- The member function `reserve`. -/
def string.reserve (s : string) (σ : Machine) (requested_capacity : Nat) : Machine × string :=
  if requested_capacity > s.capacity then s.force_reserve σ requested_capacity else (σ, s)

/-- The member function `shrink_to_fit`. -/
def string.shrink_to_fit (s : string) (σ : Machine) : Machine × string :=
  let local_size := s.size
  if s.is_large ∧ s.capacity > local_size then
    if local_size > small_buffer_capacity then
      s.force_reserve σ local_size
    else
      let data := s.u_.get_large.data
      let original_capacity := s.capacity
      let σ := { σ with mem := zero_buffer σ.mem s.self small_buffer_capacity }
      let s := { s with u_ := U.small }
      let s := { s with is_large_ := false }
      let s := { s with size_or_first_byte_of_capacity_ := local_size % 2 ^ 7 }
      let σ := (copy σ data (data.add local_size) s.small_data).1
      (allocator_traits.deallocate σ data original_capacity, s)
  else (σ, s)

/-- The member function `insert(const_position, value)` with `const_position = begin() + offset`;
returns the machine, the string and the returned iterator. -/
def string.insert (s : string) (σ : Machine) (offset : Nat) (value : char) :
    Machine × string × pointer :=
  let position := s.begin.add offset
  let r : Machine × string :=
    if s.size < s.capacity then
      if offset = s.size then
        (allocator_traits.construct σ position value, s)
      else
        let prev_end := s.end.prev
        let σ := allocator_traits.construct σ s.end (σ.mem prev_end)
        let σ := (copy_reverse σ prev_end position s.end).1
        ({ σ with mem := store σ.mem position value }, s)
    else
      let new_capacity := (s.capacity * 2) % 2 ^ 64
      let a := allocator_traits.allocate σ new_capacity
      let temp := a.2
      let σ := (uninitialized_copy a.1 s.begin position temp).1
      let σ := allocator_traits.construct σ (temp.add offset) value
      let σ := if offset ≠ s.size then
          (uninitialized_copy σ position.next s.end (temp.add offset).next).1
        else σ
      s.relocate σ temp new_capacity
  let s₁ := r.2.increment_size
  (r.1, s₁, s₁.begin.add offset)

/-- The member function `pop_back`. -/
def string.pop_back (s : string) (σ : Machine) : Machine × string :=
  let s₁ := s.decrement_size
  (allocator_traits.destroy σ s₁.end, s₁)

/-- The first `size()` bytes at `data()`. -/
def string.view (s : string) (σ : Machine) : List char :=
  read_bytes σ s.data s.size

/-- The representation invariant of a live string in machine `σ`: the discriminant bit agrees
with the active member of the union; an inline string holds at most `small_buffer_capacity`
bytes; a heap string has well-formed capacity bytes, a capacity above the inline capacity, at
most `capacity()` bytes, and a block that lies in the part of the arena already handed out. -/
def string.valid (s : string) (σ : Machine) : Prop :=
  match s.u_ with
  | U.small =>
    s.is_large_ = false ∧ s.size_or_first_byte_of_capacity_ ≤ small_buffer_capacity
  | U.large l =>
    s.is_large_ = true ∧ l.data.base = region.arena ∧
    l.rest_of_capacity.length = large_t.bytes_remaining ∧
    (∀ b ∈ l.rest_of_capacity, b < 2 ^ 8) ∧
    s.size_or_first_byte_of_capacity_ < 2 ^ 7 ∧
    small_buffer_capacity < s.capacity ∧ l.size ≤ s.capacity ∧
    l.data.index + s.capacity ≤ σ.buff_pointer

instance string.valid.decidable (s : string) (σ : Machine) : Decidable (s.valid σ) := by
  unfold string.valid
  cases s.u_ <;> exact inferInstance

end clang_bit_field

/-! ## `clang-common-initial-subsequence.cpp` -/

namespace clang_common_initial_subsequence

/-- The constant `string::small_buffer_capacity`. -/
def small_buffer_capacity : Nat := 23

/-- The class `string::small_t`: the bit `force_large_` and the 7-bit field `size_` (kept as
its 7 raw bits).  The bytes of `data_` live in `Machine.mem`. -/
structure small_t where
  force_large_ : Bool
  size_ : Nat
  deriving DecidableEq, Repr

/-- The default constructor `small_t()`. -/
def small_t.ctor : small_t := { force_large_ := false, size_ := 0 }

/-- The member function `small_t::is_large`. -/
def small_t.is_large (s : small_t) : Bool := s.force_large_

/-- The static member function `small_t::capacity`. -/
def small_t.capacity : Nat := small_buffer_capacity

/-- The member function `small_t::size`: the field `char size_ : 7` converted to
`std::size_t` (plain `char` is signed on the targets of the file, so raw values from 64 on
are negative and convert modulo `2^64`). -/
def small_t.size (s : small_t) : Nat :=
  if s.size_ < 2 ^ 6 then s.size_ else 2 ^ 64 - 2 ^ 7 + s.size_

/-- The member function `small_t::set_size`: keeps the low 7 bits. -/
def small_t.set_size (s : small_t) (size : Nat) : small_t := { s with size_ := size % 2 ^ 7 }

/-- The class `string::large_t`; `size_` is a 63-bit field. -/
structure large_t where
  force_large_ : Bool
  size_ : Nat
  data_ : pointer
  capacity_ : Nat
  deriving DecidableEq, Repr

/-- The constructor `large_t(size, capacity, pointer)`. -/
def large_t.ctor (size capacity : Nat) (ptr : pointer) : large_t :=
  { force_large_ := true, size_ := size % 2 ^ 63, data_ := ptr, capacity_ := capacity }

/-- The member function `large_t::is_large`. -/
def large_t.is_large (l : large_t) : Bool := l.force_large_

/-- The member function `large_t::capacity`. -/
def large_t.capacity (l : large_t) : Nat := l.capacity_

/-- The member function `large_t::size`. -/
def large_t.size (l : large_t) : Nat := l.size_

/-- The member function `large_t::set_size`: keeps the low 63 bits. -/
def large_t.set_size (l : large_t) (size : Nat) : large_t := { l with size_ := size % 2 ^ 63 }

/-- The member function `large_t::data`. -/
def large_t.data (l : large_t) : pointer := l.data_

/-- The union `string::U`. -/
inductive U where
  | small (s : small_t) : U
  | large (l : large_t) : U
  deriving DecidableEq, Repr

/-- Reading the member `u_.small`.  With `large` active only `force_large_`, the common
initial sequence of the two classes, is read by the code. -/
def U.get_small : U → small_t
  | U.small s => s
  | U.large l => { force_large_ := l.force_large_, size_ := 0 }

/-- Reading the member `u_.large` (the value given for `U.small` stands for a read of the
inactive member, which the code never performs on a valid string). -/
def U.get_large : U → large_t
  | U.large l => l
  | U.small s =>
    { force_large_ := s.force_large_, size_ := 0, data_ := ⟨region.arena, 0⟩, capacity_ := 0 }

/-- The class `string` (the empty `allocator_` handle is left out). -/
structure string where
  self : Nat
  u_ : U
  deriving DecidableEq, Repr

/-- The address of the member array `u_.small.data_`, the result of `small_t::data`. -/
def string.small_data (s : string) : pointer := ⟨region.small s.self, 0⟩

/-- The member function `is_large`. -/
def string.is_large (s : string) : Bool := s.u_.get_small.is_large

/-- The private member function `increment_size`. -/
def string.increment_size (s : string) : string :=
  if s.is_large then
    { s with u_ := U.large (s.u_.get_large.set_size ((s.u_.get_large.size + 1) % 2 ^ 64)) }
  else
    { s with u_ := U.small (s.u_.get_small.set_size ((s.u_.get_small.size + 1) % 2 ^ 64)) }

/-- The private member function `decrement_size`. -/
def string.decrement_size (s : string) : string :=
  if s.is_large then
    { s with u_ := U.large (s.u_.get_large.set_size
        ((s.u_.get_large.size + 2 ^ 64 - 1) % 2 ^ 64)) }
  else
    { s with u_ := U.small (s.u_.get_small.set_size
        ((s.u_.get_small.size + 2 ^ 64 - 1) % 2 ^ 64)) }

/-- The member function `data`. -/
def string.data (s : string) : pointer :=
  if s.is_large then s.u_.get_large.data else s.small_data

/-- The member function `size`. -/
def string.size (s : string) : Nat :=
  if s.is_large then s.u_.get_large.size else s.u_.get_small.size

/-- The member function `begin`. -/
def string.begin (s : string) : pointer := s.data

/-- The member function `end`. -/
def string.end (s : string) : pointer := s.begin.add s.size

/-- The member function `capacity`. -/
def string.capacity (s : string) : Nat :=
  if s.is_large then s.u_.get_large.capacity else small_buffer_capacity

/-- The private member function `deallocate`. -/
def string.deallocate (s : string) (σ : Machine) : Machine :=
  if s.is_large then
    allocator_traits.deallocate σ s.u_.get_large.data s.u_.get_large.capacity
  else σ

/-- The private member function `relocate`. -/
def string.relocate (s : string) (σ : Machine) (new_data : pointer) (new_capacity : Nat) :
    Machine × string :=
  let σ := s.deallocate σ
  (σ, { s with u_ := U.large (large_t.ctor s.size new_capacity new_data) })

/-- The private member function `force_reserve`. -/
def string.force_reserve (s : string) (σ : Machine) (new_capacity : Nat) : Machine × string :=
  let r := allocator_traits.allocate σ new_capacity
  let temp := r.2
  let σ := (copy r.1 s.begin s.end temp).1
  s.relocate σ temp new_capacity

/-- The constructor `string(allocator_type alloc)` of the object with identity `self`. -/
def string.ctor (σ : Machine) (self : Nat) : Machine × string :=
  ({ σ with mem := zero_buffer σ.mem self small_buffer_capacity },
   { self := self, u_ := U.small small_t.ctor })

/-- The move assignment `operator=(string && other)`; returns the machine, `*this` and
`other`.  Not meant for `this == &other`. -/
def string.operator_assign (s : string) (σ : Machine) (other : string) :
    Machine × string × string :=
  let σ := s.deallocate σ
  if other.is_large then
    let s := { s with u_ := U.large other.u_.get_large }
    let σ := { σ with mem := zero_buffer σ.mem other.self small_buffer_capacity }
    let other := { other with u_ := U.small small_t.ctor }
    (σ, s, other)
  else
    let osmall := other.u_.get_small
    let σ := { σ with mem := zero_buffer σ.mem s.self small_buffer_capacity }
    let s := { s with u_ := U.small small_t.ctor }
    let σ := (copy σ other.small_data (other.small_data.add osmall.size) s.small_data).1
    let s := { s with u_ := U.small (s.u_.get_small.set_size osmall.size) }
    (σ, s, other)

/-- The move constructor `string(string && other)` of the object with identity `self`. -/
def string.ctor_move (σ : Machine) (self : Nat) (other : string) : Machine × string × string :=
  let r := string.ctor σ self
  r.2.operator_assign r.1 other

/-- The member function `reserve`. -/
def string.reserve (s : string) (σ : Machine) (requested_capacity : Nat) : Machine × string :=
  if requested_capacity > s.capacity then s.force_reserve σ requested_capacity else (σ, s)

/-- The member function `shrink_to_fit`. -/
def string.shrink_to_fit (s : string) (σ : Machine) : Machine × string :=
  let local_size := s.size
  if s.is_large ∧ s.capacity > local_size then
    if local_size > small_buffer_capacity then
      s.force_reserve σ local_size
    else
      let data := s.u_.get_large.data
      let σ := { σ with mem := zero_buffer σ.mem s.self small_buffer_capacity }
      let s := { s with u_ := U.small small_t.ctor }
      let σ := (copy σ data (data.add local_size) s.small_data).1
      (σ, s)
  else (σ, s)

/-- The member function `insert(const_position, value)` with `const_position = begin() + offset`;
returns the machine, the string and the returned iterator. -/
def string.insert (s : string) (σ : Machine) (offset : Nat) (value : char) :
    Machine × string × pointer :=
  let position := s.begin.add offset
  let r : Machine × string :=
    if s.size < s.capacity then
      if offset = s.size then
        (allocator_traits.construct σ position value, s)
      else
        let prev_end := s.end.prev
        let σ := allocator_traits.construct σ s.end (σ.mem prev_end)
        let σ := (copy_reverse σ prev_end position s.end).1
        ({ σ with mem := store σ.mem position value }, s)
    else
      let new_capacity := (s.capacity * 2) % 2 ^ 64
      let a := allocator_traits.allocate σ new_capacity
      let temp := a.2
      let σ := (uninitialized_copy a.1 s.begin position temp).1
      let σ := allocator_traits.construct σ (temp.add offset) value
      let σ := if offset ≠ s.size then
          (uninitialized_copy σ position.next s.end (temp.add offset).next).1
        else σ
      s.relocate σ temp new_capacity
  let s₁ := r.2.increment_size
  (r.1, s₁, s₁.begin.add offset)

/-- The member function `pop_back`. -/
def string.pop_back (s : string) (σ : Machine) : Machine × string :=
  let s₁ := s.decrement_size
  (allocator_traits.destroy σ s₁.end, s₁)

/-- The first `size()` bytes at `data()`. -/
def string.view (s : string) (σ : Machine) : List char :=
  read_bytes σ s.data s.size

/-- The representation invariant of a live string in machine `σ`: an inline string holds at
most `small_buffer_capacity` bytes; a heap string has a capacity above the inline capacity and
below `max_elements`, at most `capacity()` bytes, and a block that lies in the part of the
arena already handed out. -/
def string.valid (s : string) (σ : Machine) : Prop :=
  match s.u_ with
  | U.small sm => sm.force_large_ = false ∧ sm.size_ ≤ small_buffer_capacity
  | U.large l =>
    l.force_large_ = true ∧ l.data_.base = region.arena ∧
    small_buffer_capacity < l.capacity_ ∧ l.capacity_ < max_elements ∧
    l.size_ ≤ l.capacity_ ∧ l.data_.index + l.capacity_ ≤ σ.buff_pointer

instance string.valid.decidable (s : string) (σ : Machine) : Decidable (s.valid σ) := by
  unfold string.valid
  cases s.u_ <;> exact inferInstance

end clang_common_initial_subsequence

/-! ## `gcc-msvc-abi.cpp` -/

namespace gcc_msvc_abi

/-- The constant `string::small_buffer_capacity`. -/
def small_buffer_capacity : Nat := 16

/-- The union `string::U`: `char buffer[small_buffer_capacity]` or `std::size_t capacity`. -/
inductive U where
  | buffer : U
  | capacity (c : Nat) : U
  deriving DecidableEq, Repr

/-- Reading the member `u_.capacity` (0 stands for a read of the inactive member, which the
code never performs on a valid string). -/
def U.get_capacity : U → Nat
  | U.capacity c => c
  | U.buffer => 0

/-- The class `string` (the empty `allocator_` handle is left out). -/
structure string where
  self : Nat
  u_ : U
  data_ : pointer
  size_ : Nat
  deriving DecidableEq, Repr

/-- The address of the member array `u_.buffer`. -/
def string.buffer (s : string) : pointer := ⟨region.small s.self, 0⟩

/-- The member function `is_large`: `data_ != u_.buffer`. -/
def string.is_large (s : string) : Bool := decide (s.data_ ≠ s.buffer)

/-- The member function `data`. -/
def string.data (s : string) : pointer := s.data_

/-- The member function `size`. -/
def string.size (s : string) : Nat := s.size_

/-- The member function `begin`. -/
def string.begin (s : string) : pointer := s.data

/-- The member function `end`. -/
def string.end (s : string) : pointer := s.begin.add s.size

/-- The member function `capacity`. -/
def string.capacity (s : string) : Nat :=
  if s.is_large then s.u_.get_capacity else small_buffer_capacity

/-- The private member function `deallocate`. -/
def string.deallocate (s : string) (σ : Machine) : Machine :=
  if s.is_large then allocator_traits.deallocate σ s.data_ s.u_.get_capacity else σ

/-- The private member function `relocate`. -/
def string.relocate (s : string) (σ : Machine) (new_data : pointer) (new_capacity : Nat) :
    Machine × string :=
  let σ := s.deallocate σ
  (σ, { s with u_ := U.capacity new_capacity, data_ := new_data })

/-- The private member function `force_reserve`. -/
def string.force_reserve (s : string) (σ : Machine) (new_capacity : Nat) : Machine × string :=
  let r := allocator_traits.allocate σ new_capacity
  let temp := r.2
  let σ := (copy r.1 s.begin s.end temp).1
  s.relocate σ temp new_capacity

/-- The constructor `string(allocator_type alloc)` of the object with identity `self`. -/
def string.ctor (σ : Machine) (self : Nat) : Machine × string :=
  ({ σ with mem := zero_buffer σ.mem self small_buffer_capacity },
   { self := self, u_ := U.buffer, data_ := ⟨region.small self, 0⟩, size_ := 0 })

/-- The move assignment `operator=(string && other)`; returns the machine, `*this` and
`other`.  Not meant for `this == &other`. -/
def string.operator_assign (s : string) (σ : Machine) (other : string) :
    Machine × string × string :=
  let σ := s.deallocate σ
  if other.is_large then
    let s := { s with u_ := U.capacity other.u_.get_capacity }
    let σ := { σ with mem := zero_buffer σ.mem other.self small_buffer_capacity }
    let other := { other with u_ := U.buffer }
    let s := { s with data_ := other.data_ }
    let other := { other with data_ := other.buffer }
    let s := { s with size_ := other.size_ }
    let other := { other with size_ := 0 }
    (σ, s, other)
  else
    let σ := { σ with mem := zero_buffer σ.mem s.self small_buffer_capacity }
    let s := { s with u_ := U.buffer }
    let σ := (copy σ other.data_ (other.data_.add other.size_) s.buffer).1
    let s := { s with data_ := s.buffer }
    let s := { s with size_ := other.size_ }
    (σ, s, other)

/-- The move constructor `string(string && other)` of the object with identity `self`. -/
def string.ctor_move (σ : Machine) (self : Nat) (other : string) : Machine × string × string :=
  let r := string.ctor σ self
  r.2.operator_assign r.1 other

/-- The member function `reserve`. -/
def string.reserve (s : string) (σ : Machine) (requested_capacity : Nat) : Machine × string :=
  if requested_capacity > s.capacity then s.force_reserve σ requested_capacity else (σ, s)

/-- The member function `shrink_to_fit`. -/
def string.shrink_to_fit (s : string) (σ : Machine) : Machine × string :=
  if s.is_large ∧ s.capacity > s.size then
    if s.size > small_buffer_capacity then
      s.force_reserve σ s.size
    else
      let σ := { σ with mem := zero_buffer σ.mem s.self small_buffer_capacity }
      let s₁ := { s with u_ := U.buffer }
      let σ := (copy σ s₁.begin s₁.end s₁.buffer).1
      (σ, { s₁ with data_ := s₁.buffer })
  else (σ, s)

/-- The member function `insert(const_position, value)` with `const_position = begin() + offset`;
returns the machine, the string and the returned iterator. -/
def string.insert (s : string) (σ : Machine) (offset : Nat) (value : char) :
    Machine × string × pointer :=
  let position := s.begin.add offset
  let r : Machine × string :=
    if s.size < s.capacity then
      if offset = s.size then
        (allocator_traits.construct σ position value, s)
      else
        let prev_end := s.end.prev
        let σ := allocator_traits.construct σ s.end (σ.mem prev_end)
        let σ := (copy_reverse σ prev_end position s.end).1
        ({ σ with mem := store σ.mem position value }, s)
    else
      let new_capacity := (s.capacity * 2) % 2 ^ 64
      let a := allocator_traits.allocate σ new_capacity
      let temp := a.2
      let σ := (uninitialized_copy a.1 s.begin position temp).1
      let σ := allocator_traits.construct σ (temp.add offset) value
      let σ := if offset ≠ s.size then
          (uninitialized_copy σ position.next s.end (temp.add offset).next).1
        else σ
      s.relocate σ temp new_capacity
  let s₁ := { r.2 with size_ := (r.2.size_ + 1) % 2 ^ 64 }
  (r.1, s₁, s₁.begin.add offset)

/-- The member function `pop_back`. -/
def string.pop_back (s : string) (σ : Machine) : Machine × string :=
  let s₁ := { s with size_ := (s.size_ + 2 ^ 64 - 1) % 2 ^ 64 }
  (allocator_traits.destroy σ s₁.end, s₁)

/-- The first `size()` bytes at `data()`. -/
def string.view (s : string) (σ : Machine) : List char :=
  read_bytes σ s.data s.size

/-- The representation invariant of a live string in machine `σ`: an inline string points at
its own buffer and holds at most `small_buffer_capacity` bytes; a heap string has a capacity
above the inline capacity and below `max_elements`, at most `capacity()` bytes, and a block
that lies in the part of the arena already handed out. -/
def string.valid (s : string) (σ : Machine) : Prop :=
  match s.u_ with
  | U.buffer => s.data_ = s.buffer ∧ s.size_ ≤ small_buffer_capacity
  | U.capacity c =>
    s.data_.base = region.arena ∧ small_buffer_capacity < c ∧ c < max_elements ∧
    s.size_ ≤ c ∧ s.data_.index + c ≤ σ.buff_pointer

instance string.valid.decidable (s : string) (σ : Machine) : Decidable (s.valid σ) := by
  unfold string.valid
  cases s.u_ <;> exact inferInstance

end gcc_msvc_abi

/-! ## Programs over several strings -/

/-- The public operations shared by the three `string` classes, with the observers used to
state properties. -/
structure variant where
  string : Type
  small_buffer_capacity : Nat
  ctor : Machine → Nat → Machine × string
  ctor_move : Machine → Nat → string → Machine × string × string
  operator_assign : string → Machine → string → Machine × string × string
  reserve : string → Machine → Nat → Machine × string
  shrink_to_fit : string → Machine → Machine × string
  insert : string → Machine → Nat → char → Machine × string × pointer
  pop_back : string → Machine → Machine × string
  self : string → Nat
  is_large : string → Bool
  data : string → pointer
  size : string → Nat
  capacity : string → Nat

/-- The class `string` of `clang-bit-field.cpp`. -/
def clang_bit_field.impl : variant :=
  { string := clang_bit_field.string
    small_buffer_capacity := clang_bit_field.small_buffer_capacity
    ctor := clang_bit_field.string.ctor
    ctor_move := clang_bit_field.string.ctor_move
    operator_assign := clang_bit_field.string.operator_assign
    reserve := clang_bit_field.string.reserve
    shrink_to_fit := clang_bit_field.string.shrink_to_fit
    insert := clang_bit_field.string.insert
    pop_back := clang_bit_field.string.pop_back
    self := clang_bit_field.string.self
    is_large := clang_bit_field.string.is_large
    data := clang_bit_field.string.data
    size := clang_bit_field.string.size
    capacity := clang_bit_field.string.capacity }

/-- The class `string` of `clang-common-initial-subsequence.cpp`. -/
def clang_common_initial_subsequence.impl : variant :=
  { string := clang_common_initial_subsequence.string
    small_buffer_capacity := clang_common_initial_subsequence.small_buffer_capacity
    ctor := clang_common_initial_subsequence.string.ctor
    ctor_move := clang_common_initial_subsequence.string.ctor_move
    operator_assign := clang_common_initial_subsequence.string.operator_assign
    reserve := clang_common_initial_subsequence.string.reserve
    shrink_to_fit := clang_common_initial_subsequence.string.shrink_to_fit
    insert := clang_common_initial_subsequence.string.insert
    pop_back := clang_common_initial_subsequence.string.pop_back
    self := clang_common_initial_subsequence.string.self
    is_large := clang_common_initial_subsequence.string.is_large
    data := clang_common_initial_subsequence.string.data
    size := clang_common_initial_subsequence.string.size
    capacity := clang_common_initial_subsequence.string.capacity }

/-- The class `string` of `gcc-msvc-abi.cpp`. -/
def gcc_msvc_abi.impl : variant :=
  { string := gcc_msvc_abi.string
    small_buffer_capacity := gcc_msvc_abi.small_buffer_capacity
    ctor := gcc_msvc_abi.string.ctor
    ctor_move := gcc_msvc_abi.string.ctor_move
    operator_assign := gcc_msvc_abi.string.operator_assign
    reserve := gcc_msvc_abi.string.reserve
    shrink_to_fit := gcc_msvc_abi.string.shrink_to_fit
    insert := gcc_msvc_abi.string.insert
    pop_back := gcc_msvc_abi.string.pop_back
    self := gcc_msvc_abi.string.self
    is_large := gcc_msvc_abi.string.is_large
    data := gcc_msvc_abi.string.data
    size := gcc_msvc_abi.string.size
    capacity := gcc_msvc_abi.string.capacity }

/-- The log entry of the `deallocate` call that `relocate` and the move assignment make
first: present exactly when the string is in the heap state. -/
def release_call (large : Bool) (ptr : pointer) (size : Nat) : List call :=
  if large then [call.deallocate ptr size] else []

/-- The behaviour of the operations of a `string` class on valid strings, stated through the
observers `is_large`, `data`, `size`, `capacity`; `N` is the inline capacity and `valid` the
representation invariant of the class.  Each of the three classes is shown to satisfy these
statements, and statements about all three classes are derived from them. -/
structure laws (string : Type) (N : Nat)
    (ctor : Machine → Nat → Machine × string)
    (ctor_move : Machine → Nat → string → Machine × string × string)
    (operator_assign : string → Machine → string → Machine × string × string)
    (reserve : string → Machine → Nat → Machine × string)
    (shrink_to_fit : string → Machine → Machine × string)
    (insert : string → Machine → Nat → char → Machine × string × pointer)
    (pop_back : string → Machine → Machine × string)
    (identity : string → Nat) (is_large : string → Bool) (data : string → pointer)
    (size : string → Nat) (capacity : string → Nat)
    (valid : string → Machine → Prop) : Prop where
  small_pos : 0 < N
  valid_size : ∀ s σ, valid s σ → size s ≤ capacity s ∧ capacity s < max_elements
  valid_small : ∀ s σ, valid s σ → is_large s = false →
    capacity s = N ∧ data s = ⟨region.small (identity s), 0⟩
  valid_large : ∀ s σ, valid s σ → is_large s = true →
    N < capacity s ∧ (data s).base = region.arena ∧
    (data s).index + capacity s ≤ σ.buff_pointer
  valid_mono : ∀ s σ σ', valid s σ → σ.buff_pointer ≤ σ'.buff_pointer → valid s σ'
  ctor_spec : ∀ σ object,
    valid (ctor σ object).2 (ctor σ object).1 ∧
    identity (ctor σ object).2 = object ∧
    is_large (ctor σ object).2 = false ∧
    size (ctor σ object).2 = 0 ∧
    (ctor σ object).1.buff_pointer = σ.buff_pointer ∧
    (ctor σ object).1.calls = σ.calls ∧
    (ctor σ object).1.mem = zero_buffer σ.mem object N
  ctor_move_eq : ∀ σ object other,
    ctor_move σ object other = operator_assign (ctor σ object).2 (ctor σ object).1 other
  insert_in_place : ∀ s σ k v, valid s σ → size s < capacity s → k ≤ size s →
    valid (insert s σ k v).2.1 (insert s σ k v).1 ∧
    identity (insert s σ k v).2.1 = identity s ∧
    is_large (insert s σ k v).2.1 = is_large s ∧
    data (insert s σ k v).2.1 = data s ∧
    size (insert s σ k v).2.1 = size s + 1 ∧
    capacity (insert s σ k v).2.1 = capacity s ∧
    (insert s σ k v).2.2 = (data s).add k ∧
    (insert s σ k v).1.buff_pointer = σ.buff_pointer ∧
    (insert s σ k v).1.calls = σ.calls ∧
    ∀ q : pointer, (insert s σ k v).1.mem q =
      if q.base = (data s).base ∧ (data s).index + k ≤ q.index ∧
          q.index ≤ (data s).index + size s then
        (if q.index = (data s).index + k then v else σ.mem ⟨(data s).base, q.index - 1⟩)
      else σ.mem q
  insert_realloc : ∀ s σ k v, valid s σ → size s = capacity s → k ≤ size s →
    capacity s * 2 < max_elements →
    valid (insert s σ k v).2.1 (insert s σ k v).1 ∧
    identity (insert s σ k v).2.1 = identity s ∧
    is_large (insert s σ k v).2.1 = true ∧
    data (insert s σ k v).2.1 = ⟨region.arena, σ.buff_pointer⟩ ∧
    size (insert s σ k v).2.1 = size s + 1 ∧
    capacity (insert s σ k v).2.1 = capacity s * 2 ∧
    (insert s σ k v).2.2 = ⟨region.arena, σ.buff_pointer + k⟩ ∧
    (insert s σ k v).1.buff_pointer = σ.buff_pointer + capacity s * 2 ∧
    (insert s σ k v).1.calls =
      σ.calls ++ [call.allocate ⟨region.arena, σ.buff_pointer⟩ (capacity s * 2)] ++
        release_call (is_large s) (data s) (capacity s) ∧
    ∀ q : pointer, (insert s σ k v).1.mem q =
      if q.base = region.arena ∧ σ.buff_pointer ≤ q.index ∧
          q.index < σ.buff_pointer + size s ∧ q.index ≠ σ.buff_pointer + k then
        σ.mem ⟨(data s).base, (data s).index + (q.index - σ.buff_pointer)⟩
      else if q = ⟨region.arena, σ.buff_pointer + k⟩ then v else σ.mem q
  pop_back_spec : ∀ s σ, valid s σ → 0 < size s →
    valid (pop_back s σ).2 (pop_back s σ).1 ∧
    identity (pop_back s σ).2 = identity s ∧
    is_large (pop_back s σ).2 = is_large s ∧
    data (pop_back s σ).2 = data s ∧
    size (pop_back s σ).2 = size s - 1 ∧
    capacity (pop_back s σ).2 = capacity s ∧
    (pop_back s σ).1 = σ
  reserve_small : ∀ s σ r, r ≤ capacity s → reserve s σ r = (σ, s)
  reserve_grow : ∀ s σ r, valid s σ → capacity s < r → r < max_elements →
    valid (reserve s σ r).2 (reserve s σ r).1 ∧
    identity (reserve s σ r).2 = identity s ∧
    is_large (reserve s σ r).2 = true ∧
    data (reserve s σ r).2 = ⟨region.arena, σ.buff_pointer⟩ ∧
    size (reserve s σ r).2 = size s ∧
    capacity (reserve s σ r).2 = r ∧
    (reserve s σ r).1.buff_pointer = σ.buff_pointer + r ∧
    (reserve s σ r).1.calls =
      σ.calls ++ [call.allocate ⟨region.arena, σ.buff_pointer⟩ r] ++
        release_call (is_large s) (data s) (capacity s) ∧
    ∀ q : pointer, (reserve s σ r).1.mem q =
      if q.base = region.arena ∧ σ.buff_pointer ≤ q.index ∧
          q.index < σ.buff_pointer + size s then
        σ.mem ⟨(data s).base, (data s).index + (q.index - σ.buff_pointer)⟩
      else σ.mem q
  shrink_noop : ∀ s σ, valid s σ → is_large s = false ∨ capacity s = size s →
    shrink_to_fit s σ = (σ, s)
  shrink_heap : ∀ s σ, valid s σ → is_large s = true → size s < capacity s →
    N < size s →
    valid (shrink_to_fit s σ).2 (shrink_to_fit s σ).1 ∧
    identity (shrink_to_fit s σ).2 = identity s ∧
    is_large (shrink_to_fit s σ).2 = true ∧
    data (shrink_to_fit s σ).2 = ⟨region.arena, σ.buff_pointer⟩ ∧
    size (shrink_to_fit s σ).2 = size s ∧
    capacity (shrink_to_fit s σ).2 = size s ∧
    (shrink_to_fit s σ).1.buff_pointer = σ.buff_pointer + size s ∧
    (shrink_to_fit s σ).1.calls =
      σ.calls ++ [call.allocate ⟨region.arena, σ.buff_pointer⟩ (size s)] ++
        release_call (is_large s) (data s) (capacity s) ∧
    ∀ q : pointer, (shrink_to_fit s σ).1.mem q =
      if q.base = region.arena ∧ σ.buff_pointer ≤ q.index ∧
          q.index < σ.buff_pointer + size s then
        σ.mem ⟨(data s).base, (data s).index + (q.index - σ.buff_pointer)⟩
      else σ.mem q
  shrink_inline : ∀ s σ, valid s σ → is_large s = true → size s < capacity s →
    size s ≤ N →
    valid (shrink_to_fit s σ).2 (shrink_to_fit s σ).1 ∧
    identity (shrink_to_fit s σ).2 = identity s ∧
    is_large (shrink_to_fit s σ).2 = false ∧
    (shrink_to_fit s σ).1.buff_pointer = σ.buff_pointer ∧
    ∀ q : pointer, (shrink_to_fit s σ).1.mem q =
      if q.base = region.small (identity s) ∧ q.index < N then
        (if q.index < size s then σ.mem ⟨region.arena, (data s).index + q.index⟩ else 0)
      else σ.mem q
  assign_from_large : ∀ s σ other, valid s σ → valid other σ → identity s ≠ identity other →
    is_large other = true →
    valid (operator_assign s σ other).2.1 (operator_assign s σ other).1 ∧
    valid (operator_assign s σ other).2.2 (operator_assign s σ other).1 ∧
    identity (operator_assign s σ other).2.1 = identity s ∧
    identity (operator_assign s σ other).2.2 = identity other ∧
    is_large (operator_assign s σ other).2.1 = true ∧
    data (operator_assign s σ other).2.1 = data other ∧
    size (operator_assign s σ other).2.1 = size other ∧
    capacity (operator_assign s σ other).2.1 = capacity other ∧
    is_large (operator_assign s σ other).2.2 = false ∧
    size (operator_assign s σ other).2.2 = 0 ∧
    (operator_assign s σ other).1.buff_pointer = σ.buff_pointer ∧
    (operator_assign s σ other).1.calls =
      σ.calls ++ release_call (is_large s) (data s) (capacity s) ∧
    (operator_assign s σ other).1.mem =
      zero_buffer σ.mem (identity other) N
  assign_from_small : ∀ s σ other, valid s σ → valid other σ → identity s ≠ identity other →
    is_large other = false →
    valid (operator_assign s σ other).2.1 (operator_assign s σ other).1 ∧
    (operator_assign s σ other).2.2 = other ∧
    identity (operator_assign s σ other).2.1 = identity s ∧
    is_large (operator_assign s σ other).2.1 = false ∧
    size (operator_assign s σ other).2.1 = size other ∧
    (operator_assign s σ other).1.buff_pointer = σ.buff_pointer ∧
    (operator_assign s σ other).1.calls =
      σ.calls ++ release_call (is_large s) (data s) (capacity s) ∧
    ∀ q : pointer, (operator_assign s σ other).1.mem q =
      if q.base = region.small (identity s) ∧ q.index < N then
        (if q.index < size other then σ.mem ⟨region.small (identity other), q.index⟩ else 0)
      else σ.mem q

/-- The first `size()` bytes at `data()`. -/
def variant.view (V : variant) (s : V.string) (σ : Machine) : List char :=
  read_bytes σ (V.data s) (V.size s)

/-- One statement of a program over string objects; objects are named by the order of their
construction, which is also their identity. -/
inductive operation where
  | construct : operation
  | move_construct (j : Nat) : operation
  | insert (i offset : Nat) (value : char) : operation
  | pop_back (i : Nat) : operation
  | reserve (i requested_capacity : Nat) : operation
  | shrink_to_fit (i : Nat) : operation
  | move_assign (i j : Nat) : operation
  deriving DecidableEq, Repr

/-- The machine together with the string objects constructed so far. -/
structure System (V : variant) where
  σ : Machine
  objs : List V.string

/-- A `buffer<char> buff{}` and no string yet. -/
def System.init (V : variant) (junk : pointer → char) : System V :=
  { σ := buffer.init junk, objs := [] }

/-- Runs one statement.  The result is `none` when the statement names an object that does
not exist, breaks a precondition of the operation (`insert` outside `[begin(), end()]`,
`pop_back` on an empty string, a move from the object itself), or asks for a capacity that
reaches `max_elements`. -/
def System.step (V : variant) (sys : System V) : operation → Option (System V)
  | operation.construct =>
    let r := V.ctor sys.σ sys.objs.length
    some { σ := r.1, objs := sys.objs ++ [r.2] }
  | operation.move_construct j =>
    match sys.objs[j]? with
    | some other =>
      let r := V.ctor_move sys.σ sys.objs.length other
      some { σ := r.1, objs := sys.objs.set j r.2.2 ++ [r.2.1] }
    | none => none
  | operation.insert i offset value =>
    match sys.objs[i]? with
    | some s =>
      if offset ≤ V.size s ∧ (V.size s < V.capacity s ∨ V.capacity s * 2 < max_elements) then
        let r := V.insert s sys.σ offset value
        some { σ := r.1, objs := sys.objs.set i r.2.1 }
      else none
    | none => none
  | operation.pop_back i =>
    match sys.objs[i]? with
    | some s =>
      if 0 < V.size s then
        let r := V.pop_back s sys.σ
        some { σ := r.1, objs := sys.objs.set i r.2 }
      else none
    | none => none
  | operation.reserve i requested_capacity =>
    match sys.objs[i]? with
    | some s =>
      if requested_capacity < max_elements then
        let r := V.reserve s sys.σ requested_capacity
        some { σ := r.1, objs := sys.objs.set i r.2 }
      else none
    | none => none
  | operation.shrink_to_fit i =>
    match sys.objs[i]? with
    | some s =>
      let r := V.shrink_to_fit s sys.σ
      some { σ := r.1, objs := sys.objs.set i r.2 }
    | none => none
  | operation.move_assign i j =>
    match sys.objs[i]?, sys.objs[j]? with
    | some s, some other =>
      if i ≠ j then
        let r := V.operator_assign s sys.σ other
        some { σ := r.1, objs := (sys.objs.set i r.2.1).set j r.2.2 }
      else none
    | _, _ => none

/-- Runs a program, statement by statement. -/
def System.run (V : variant) (sys : System V) : List operation → Option (System V)
  | [] => some sys
  | o :: rest =>
    match System.step V sys o with
    | some sys₁ => System.run V sys₁ rest
    | none => none

/-- Inserts the bytes of `w` one at a time at `end()`, as the first loop of `test_individual`
does for `str`; `insert` and `size` are the member functions of the class. -/
def append_all {string : Type} (insert : string → Machine → Nat → char → Machine × string × pointer)
    (size : string → Nat) (s : string) (σ : Machine) : List char → Machine × string
  | [] => (σ, s)
  | c :: rest =>
    let r := insert s σ (size s) c
    append_all insert size r.2.1 r.1 rest

/-- The sizes requested by the `allocate` calls of a log, in order. -/
def allocate_sizes : List call → List Nat
  | [] => []
  | call.allocate _ size :: rest => size :: allocate_sizes rest
  | call.deallocate _ _ :: rest => allocate_sizes rest

/-- The blocks released by the `deallocate` calls of a log, in order. -/
def deallocate_blocks : List call → List (pointer × Nat)
  | [] => []
  | call.allocate _ _ :: rest => deallocate_blocks rest
  | call.deallocate ptr size :: rest => (ptr, size) :: deallocate_blocks rest

/-- The bytes of the literal `"0123"`, the `short_source` of `test`. -/
def short_source : List char := [48, 49, 50, 51]

/-- The machine after `buffer<char> buff{}`, with zero in every byte outside the arena too. -/
def fresh_machine : Machine := buffer.init (fun _ => 0)

/-! ## Concrete inputs -/

/-- The bytes `1, 2, ..., n`. -/
def counting (n : Nat) : List char := List.range' 1 n

/-- The string `str` of `test_individual(short_str, "0123")` after its first loop, in a fresh
machine (`clang-bit-field.cpp`). -/
def clang_bit_field.short_str : Machine × clang_bit_field.string :=
  append_all clang_bit_field.string.insert clang_bit_field.string.size
    (clang_bit_field.string.ctor fresh_machine 0).2
    (clang_bit_field.string.ctor fresh_machine 0).1 short_source

/-- A string that fills its inline buffer: the bytes `1, ..., 23` appended to a fresh string
(`clang-bit-field.cpp`). -/
def clang_bit_field.full_str : Machine × clang_bit_field.string :=
  append_all clang_bit_field.string.insert clang_bit_field.string.size
    (clang_bit_field.string.ctor fresh_machine 0).2
    (clang_bit_field.string.ctor fresh_machine 0).1 (counting 23)

/-- The string `"0123"` after `reserve(50)`: a heap string whose content fits the inline
buffer (`clang-bit-field.cpp`). -/
def clang_bit_field.reserved_str : Machine × clang_bit_field.string :=
  clang_bit_field.short_str.2.reserve clang_bit_field.short_str.1 50

/-- The string `str` of `test_individual(short_str, "0123")` after its first loop, in a fresh
machine (`clang-common-initial-subsequence.cpp`). -/
def clang_common_initial_subsequence.short_str :
    Machine × clang_common_initial_subsequence.string :=
  append_all clang_common_initial_subsequence.string.insert
    clang_common_initial_subsequence.string.size
    (clang_common_initial_subsequence.string.ctor fresh_machine 0).2
    (clang_common_initial_subsequence.string.ctor fresh_machine 0).1 short_source

/-- A string that fills its inline buffer: the bytes `1, ..., 23` appended to a fresh string
(`clang-common-initial-subsequence.cpp`). -/
def clang_common_initial_subsequence.full_str :
    Machine × clang_common_initial_subsequence.string :=
  append_all clang_common_initial_subsequence.string.insert
    clang_common_initial_subsequence.string.size
    (clang_common_initial_subsequence.string.ctor fresh_machine 0).2
    (clang_common_initial_subsequence.string.ctor fresh_machine 0).1 (counting 23)

/-- The string `"0123"` after `reserve(50)`: a heap string whose content fits the inline
buffer (`clang-common-initial-subsequence.cpp`). -/
def clang_common_initial_subsequence.reserved_str :
    Machine × clang_common_initial_subsequence.string :=
  clang_common_initial_subsequence.short_str.2.reserve
    clang_common_initial_subsequence.short_str.1 50

/-- The string `str` of `test_individual(short_str, "0123")` after its first loop, in a fresh
machine (`gcc-msvc-abi.cpp`). -/
def gcc_msvc_abi.short_str : Machine × gcc_msvc_abi.string :=
  append_all gcc_msvc_abi.string.insert gcc_msvc_abi.string.size
    (gcc_msvc_abi.string.ctor fresh_machine 0).2
    (gcc_msvc_abi.string.ctor fresh_machine 0).1 short_source

/-- A string that fills its inline buffer: the bytes `1, ..., 16` appended to a fresh string
(`gcc-msvc-abi.cpp`). -/
def gcc_msvc_abi.full_str : Machine × gcc_msvc_abi.string :=
  append_all gcc_msvc_abi.string.insert gcc_msvc_abi.string.size
    (gcc_msvc_abi.string.ctor fresh_machine 0).2
    (gcc_msvc_abi.string.ctor fresh_machine 0).1 (counting 16)

/-- The string `"0123"` after `reserve(50)`: a heap string whose content fits the inline
buffer (`gcc-msvc-abi.cpp`). -/
def gcc_msvc_abi.reserved_str : Machine × gcc_msvc_abi.string :=
  gcc_msvc_abi.short_str.2.reserve gcc_msvc_abi.short_str.1 50

/-- A program over two strings: build `"01"` in the first, construct a second, move the first
into it, reserve, pop and shrink. -/
def example_program : List operation :=
  [operation.construct, operation.insert 0 0 48, operation.insert 0 1 49,
    operation.construct, operation.move_assign 1 0, operation.reserve 1 50,
    operation.pop_back 1, operation.shrink_to_fit 1]

/-- Runs `insert(begin() + k, v)` for each pair `(k, v)` of the list, in order; `insert` is the
member function of the class. -/
def insert_all {string : Type} (insert : string → Machine → Nat → char → Machine × string × pointer)
    (s : string) (σ : Machine) : List (Nat × char) → Machine × string
  | [] => (σ, s)
  | (k, v) :: rest =>
    let r := insert s σ k v
    insert_all insert r.2.1 r.1 rest

/-- Every offset of the list is a valid position, `0 <= k <= size()`, at the time its insert
runs, for a string that has `n` bytes before the first insert. -/
def valid_offsets : Nat → List (Nat × char) → Bool
  | _, [] => true
  | n, (k, _) :: rest => decide (k ≤ n) && valid_offsets (n + 1) rest

/-- Three inserts into an empty string: `'a'` at offset 0, `'b'` at offset 0, `'c'` at
offset 1. -/
def three_inserts : List (Nat × char) := [(0, 97), (0, 98), (1, 99)]

/-- The `deallocate` call that hands back a block, when there is one. -/
def release_of : Option (pointer × Nat) → List call
  | none => []
  | some (p, n) => [call.deallocate p n]

/-- The block a string owns: `(data(), capacity())` for a heap string, none for an inline
string. -/
def variant.owned (V : variant) (s : V.string) : Option (pointer × Nat) :=
  if V.is_large s then some (V.data s, V.capacity s) else none

/-- The block owned by object `j` of the string objects `objs` (none when there is no such
object). -/
def blocks_of (V : variant) (objs : List V.string) (j : Nat) : Option (pointer × Nat) :=
  match objs[j]? with
  | some s => V.owned s
  | none => none

/-- The pointers passed to the `deallocate` calls of a log, in order. -/
def released (log : List call) : List pointer :=
  (deallocate_blocks log).map Prod.fst

/-- Each `deallocate(p, n)` call of the log comes after an `allocate` call of the log that
returned `p` for the size `n`. -/
def deallocate_matches (log : List call) : Prop :=
  ∀ (i : Nat) (p : pointer) (n : Nat), log[i]? = some (call.deallocate p n) →
    ∃ j, j < i ∧ log[j]? = some (call.allocate p n)

/-- No pointer is passed to `deallocate` more than once in the log. -/
def deallocate_once (log : List call) : Prop :=
  (released log).Nodup

/-- The ownership invariant of a system with log `log`, bump pointer index `bp` and owned
blocks `f` (by object): the log releases only blocks it handed out, and each at most once;
every block handed out starts below the bump pointer; every owned block was handed out and
has not been released; different objects own different blocks. -/
structure blocks_owned (log : List call) (bp : Nat) (f : Nat → Option (pointer × Nat)) :
    Prop where
  matched : deallocate_matches log
  once : deallocate_once log
  below : ∀ p n, call.allocate p n ∈ log → p.index < bp
  owned : ∀ j p n, f j = some (p, n) → call.allocate p n ∈ log ∧ p ∉ released log
  distinct : ∀ i j p n q m, i ≠ j → f i = some (p, n) → f j = some (q, m) → p ≠ q

/-- The value of `size()` of every string object of a system, in order of construction. -/
def System.sizes (V : variant) (sys : System V) : List Nat :=
  sys.objs.map V.size

/-- The content of every string object of a system, in order of construction. -/
def System.contents (V : variant) (sys : System V) : List (List char) :=
  sys.objs.map (fun s => V.view s sys.σ)

/-- What `test_individual` does to `short_str`, without the moves: the four bytes of `"0123"`
inserted at `end()`, then `reserve(50)` and `shrink_to_fit()`. -/
def shrink_program : List operation :=
  [operation.construct, operation.insert 0 0 48, operation.insert 0 1 49,
    operation.insert 0 2 50, operation.insert 0 3 51, operation.reserve 0 50,
    operation.shrink_to_fit 0]

/-- The bytes `1, ..., 16` inserted at `end()` of a fresh string, then `'a'` inserted at
`begin()`. -/
def front_program : List operation :=
  operation.construct :: (List.range 16).map (fun i => operation.insert 0 i (i + 1)) ++
    [operation.insert 0 0 97]

/-- A program that releases blocks: two `reserve` calls on one string, a `reserve` on a
second string, a move assignment of the first into the second, an `insert`, and two
`shrink_to_fit` calls. -/
def release_program : List operation :=
  [operation.construct, operation.reserve 0 50, operation.reserve 0 100,
    operation.construct, operation.reserve 1 60, operation.move_assign 1 0,
    operation.insert 1 0 97, operation.shrink_to_fit 1, operation.shrink_to_fit 1]

/-- The bytes of the 50-character literal `long_source` of `test`: `"0123456789"` five
times. -/
def long_source : List char :=
  (List.replicate 5 [48, 49, 50, 51, 52, 53, 54, 55, 56, 57]).flatten

/-- A heap string that is full: the bytes `1, ..., 24` appended to a fresh string, then
`shrink_to_fit()` (`clang-bit-field.cpp`). -/
def clang_bit_field.exact_str : Machine × clang_bit_field.string :=
  (append_all clang_bit_field.string.insert clang_bit_field.string.size
    (clang_bit_field.string.ctor fresh_machine 0).2
    (clang_bit_field.string.ctor fresh_machine 0).1 (counting 24)).2.shrink_to_fit
  (append_all clang_bit_field.string.insert clang_bit_field.string.size
    (clang_bit_field.string.ctor fresh_machine 0).2
    (clang_bit_field.string.ctor fresh_machine 0).1 (counting 24)).1

/-- A heap string that is full: the bytes `1, ..., 24` appended to a fresh string, then
`shrink_to_fit()` (`clang-common-initial-subsequence.cpp`). -/
def clang_common_initial_subsequence.exact_str :
    Machine × clang_common_initial_subsequence.string :=
  (append_all clang_common_initial_subsequence.string.insert
    clang_common_initial_subsequence.string.size
    (clang_common_initial_subsequence.string.ctor fresh_machine 0).2
    (clang_common_initial_subsequence.string.ctor fresh_machine 0).1
    (counting 24)).2.shrink_to_fit
  (append_all clang_common_initial_subsequence.string.insert
    clang_common_initial_subsequence.string.size
    (clang_common_initial_subsequence.string.ctor fresh_machine 0).2
    (clang_common_initial_subsequence.string.ctor fresh_machine 0).1 (counting 24)).1

/-- A heap string that is full: the bytes `1, ..., 24` appended to a fresh string, then
`shrink_to_fit()` (`gcc-msvc-abi.cpp`). -/
def gcc_msvc_abi.exact_str : Machine × gcc_msvc_abi.string :=
  (append_all gcc_msvc_abi.string.insert gcc_msvc_abi.string.size
    (gcc_msvc_abi.string.ctor fresh_machine 0).2
    (gcc_msvc_abi.string.ctor fresh_machine 0).1 (counting 24)).2.shrink_to_fit
  (append_all gcc_msvc_abi.string.insert gcc_msvc_abi.string.size
    (gcc_msvc_abi.string.ctor fresh_machine 0).2
    (gcc_msvc_abi.string.ctor fresh_machine 0).1 (counting 24)).1

/-- The machine of `full_str` after a second string object has been constructed and has
reserved 4970 elements: 30 elements of the arena are left (`clang-bit-field.cpp`). -/
def clang_bit_field.crowded_machine : Machine :=
  ((clang_bit_field.string.ctor clang_bit_field.full_str.1 1).2.reserve
    (clang_bit_field.string.ctor clang_bit_field.full_str.1 1).1 4970).1

/-- The machine of `full_str` after a second string object has been constructed and has
reserved 4970 elements: 30 elements of the arena are left
(`clang-common-initial-subsequence.cpp`). -/
def clang_common_initial_subsequence.crowded_machine : Machine :=
  ((clang_common_initial_subsequence.string.ctor
      clang_common_initial_subsequence.full_str.1 1).2.reserve
    (clang_common_initial_subsequence.string.ctor
      clang_common_initial_subsequence.full_str.1 1).1 4970).1

/-- The machine of `full_str` after a second string object has been constructed and has
reserved 4970 elements: 30 elements of the arena are left (`gcc-msvc-abi.cpp`). -/
def gcc_msvc_abi.crowded_machine : Machine :=
  ((gcc_msvc_abi.string.ctor gcc_msvc_abi.full_str.1 1).2.reserve
    (gcc_msvc_abi.string.ctor gcc_msvc_abi.full_str.1 1).1 4970).1

/-- A program that ends with a heap string: `reserve(50)` on a fresh string, then one
`insert`. -/
def heap_program : List operation :=
  [operation.construct, operation.reserve 0 50, operation.insert 0 0 97]

/-! ## Memory: the copy loops -/

theorem uninitialized_copy_loop_eq (n : Nat) : ∀ (σ : Machine) (first out : pointer),
    uninitialized_copy.loop σ n first out = copy.loop σ n first out := by
  induction n with
  | zero => intro σ first out; rfl
  | succ n ih =>
    intro σ first out
    simp only [uninitialized_copy.loop, copy.loop, allocator_traits.construct]
    exact ih _ _ _

theorem copy_loop_buff_pointer (n : Nat) : ∀ (σ : Machine) (first out : pointer),
    (copy.loop σ n first out).1.buff_pointer = σ.buff_pointer := by
  induction n with
  | zero => intro σ first out; rfl
  | succ n ih =>
    intro σ first out
    simp only [copy.loop]
    rw [ih]

theorem copy_loop_calls (n : Nat) : ∀ (σ : Machine) (first out : pointer),
    (copy.loop σ n first out).1.calls = σ.calls := by
  induction n with
  | zero => intro σ first out; rfl
  | succ n ih =>
    intro σ first out
    simp only [copy.loop]
    rw [ih]

/-- A forward copy between ranges that do not overlap. -/
theorem copy_loop_mem (n : Nat) : ∀ (σ : Machine) (first out : pointer),
    (first.base ≠ out.base ∨ first.index + n ≤ out.index ∨ out.index + n ≤ first.index) →
    ∀ q : pointer, (copy.loop σ n first out).1.mem q =
      if q.base = out.base ∧ out.index ≤ q.index ∧ q.index < out.index + n then
        σ.mem ⟨first.base, first.index + (q.index - out.index)⟩
      else σ.mem q := by
  induction n with
  | zero =>
    intro σ first out _ q
    have h0 : ¬ (q.base = out.base ∧ out.index ≤ q.index ∧ q.index < out.index + 0) := by omega
    simp only [copy.loop, h0, if_false]
  | succ n ih =>
    intro σ first out h q
    obtain ⟨fb, fi⟩ := first
    obtain ⟨ob, oi⟩ := out
    obtain ⟨qb, qi⟩ := q
    simp only [copy.loop, pointer.next]
    rw [ih]
    · simp only [store, pointer.mk.injEq]
      by_cases hb : qb = ob
      · subst hb
        by_cases h1 : oi + 1 ≤ qi ∧ qi < oi + 1 + n
        · have h2 : oi ≤ qi ∧ qi < oi + (n + 1) := by omega
          have h3 : ¬ (fb = qb ∧ fi + 1 + (qi - (oi + 1)) = oi) := by
            rintro ⟨rfl, h4⟩
            simp at h
            omega
          simp only [h1, h2, h3, and_self, if_true, if_false, true_and]
          congr 2
          omega
        · by_cases h5 : qi = oi
          · subst h5
            simp
          · have h2 : ¬ (oi ≤ qi ∧ qi < oi + (n + 1)) := by omega
            simp [h1, h2, h5]
      · simp [hb]
    · simp only
      rcases h with h | h | h
      · exact Or.inl h
      · right; left; simp only at h ⊢; omega
      · right; right; simp only at h ⊢; omega

theorem copy_reverse_loop_buff_pointer (n : Nat) : ∀ (σ : Machine) (first out : pointer),
    (copy_reverse.loop σ n first out).1.buff_pointer = σ.buff_pointer := by
  induction n with
  | zero => intro σ first out; rfl
  | succ n ih =>
    intro σ first out
    simp only [copy_reverse.loop]
    rw [ih]

theorem copy_reverse_loop_calls (n : Nat) : ∀ (σ : Machine) (first out : pointer),
    (copy_reverse.loop σ n first out).1.calls = σ.calls := by
  induction n with
  | zero => intro σ first out; rfl
  | succ n ih =>
    intro σ first out
    simp only [copy_reverse.loop]
    rw [ih]

/-- A reverse copy that moves the `n` bytes below `⟨b, a⟩` up by one place. -/
theorem copy_reverse_loop_mem (n : Nat) : ∀ (σ : Machine) (b : region) (a : Nat), n ≤ a →
    ∀ q : pointer, (copy_reverse.loop σ n ⟨b, a⟩ ⟨b, a + 1⟩).1.mem q =
      if q.base = b ∧ a - n < q.index ∧ q.index ≤ a then σ.mem ⟨b, q.index - 1⟩
      else σ.mem q := by
  induction n with
  | zero =>
    intro σ b a _ q
    have h0 : ¬ (q.base = b ∧ a - 0 < q.index ∧ q.index ≤ a) := by omega
    simp only [copy_reverse.loop, h0, if_false]
  | succ n ih =>
    intro σ b a h q
    obtain ⟨qb, qi⟩ := q
    simp only [copy_reverse.loop, pointer.prev, Nat.add_sub_cancel]
    have ha : a = (a - 1) + 1 := by omega
    have key := ih { σ with mem := store σ.mem ⟨b, a⟩ (σ.mem ⟨b, a - 1⟩) } b (a - 1) (by omega)
      ⟨qb, qi⟩
    rw [← ha] at key
    rw [key]
    simp only [store, pointer.mk.injEq]
    by_cases hb : qb = b
    · subst hb
      by_cases h1 : a - 1 - n < qi ∧ qi ≤ a - 1
      · have h2 : a - (n + 1) < qi ∧ qi ≤ a := by omega
        have h3 : ¬ (qi - 1 = a) := by omega
        simp only [h1, h2, h3, and_self, if_true, if_false, true_and, and_false]
      · by_cases h5 : qi = a
        · subst h5
          have h2 : qi - (n + 1) < qi ∧ qi ≤ qi := by omega
          simp [h1, h2]
        · have h2 : ¬ (a - (n + 1) < qi ∧ qi ≤ a) := by omega
          simp [h1, h2, h5]
    · simp [hb]

/-- The three writes of the in-place path of `insert` away from `end()`: the bytes from
offset `k` on move up by one place and `v` lands at offset `k`. -/
theorem insert_in_place_mem (σ : Machine) (d : pointer) (n k : Nat) (v : char) (hk : k < n)
    (q : pointer) :
    (store (copy_reverse (allocator_traits.construct σ (d.add n) (σ.mem (d.add n).prev))
        (d.add n).prev (d.add k) (d.add n)).1.mem (d.add k) v) q =
      if q.base = d.base ∧ d.index + k ≤ q.index ∧ q.index ≤ d.index + n then
        (if q.index = d.index + k then v else σ.mem ⟨d.base, q.index - 1⟩)
      else σ.mem q := by
  obtain ⟨db, di⟩ := d
  obtain ⟨qb, qi⟩ := q
  simp only [copy_reverse, pointer.add, pointer.prev]
  have ha : di + n = (di + n - 1) + 1 := by omega
  have key := copy_reverse_loop_mem (di + n - 1 - (di + k))
    (allocator_traits.construct σ ⟨db, di + n⟩ (σ.mem ⟨db, di + n - 1⟩)) db (di + n - 1)
    (by omega)
  rw [← ha] at key
  simp only [store]
  rw [key]
  simp only [store, allocator_traits.construct, pointer.mk.injEq]
  by_cases hb : qb = db
  · subst hb
    by_cases h1 : qi = di + k
    · subst h1
      have h2 : di + k ≤ di + k ∧ di + k ≤ di + n := by omega
      simp [h2]
    · by_cases h3 : di + n - 1 - (di + n - 1 - (di + k)) < qi ∧ qi ≤ di + n - 1
      · have h4 : di + k ≤ qi ∧ qi ≤ di + n := by omega
        have h5 : ¬ (qi - 1 = di + n) := by omega
        simp [h1, h3, h4, h5]
      · by_cases h6 : qi = di + n
        · subst h6
          have h4 : di + k ≤ di + n ∧ di + n ≤ di + n := by omega
          simp [h1, h3, h4]
        · have h4 : ¬ (di + k ≤ qi ∧ qi ≤ di + n) := by omega
          simp [h1, h3, h4, h6]
  · simp [hb]

theorem read_bytes_length (σ : Machine) (p : pointer) (n : Nat) :
    (read_bytes σ p n).length = n := by
  simp [read_bytes]

theorem read_bytes_getElem (σ : Machine) (p : pointer) (n i : Nat)
    (h : i < (read_bytes σ p n).length) :
    (read_bytes σ p n)[i] = σ.mem (p.add i) := by
  simp [read_bytes]

theorem read_bytes_congr (σ σ' : Machine) (p p' : pointer) (n : Nat)
    (h : ∀ i, i < n → σ'.mem (p'.add i) = σ.mem (p.add i)) :
    read_bytes σ' p' n = read_bytes σ p n := by
  apply List.ext_getElem
  · simp [read_bytes_length]
  · intro i h1 h2
    rw [read_bytes_getElem, read_bytes_getElem]
    apply h
    simpa [read_bytes_length] using h1

theorem read_bytes_succ (σ : Machine) (p : pointer) (n : Nat) :
    read_bytes σ p (n + 1) = read_bytes σ p n ++ [σ.mem (p.add n)] := by
  simp [read_bytes, List.range_succ]

/-- Reading back a range in which one byte was spliced in at offset `k`. -/
theorem read_bytes_splice (σ σ' : Machine) (p p' : pointer) (n k : Nat) (v : char) (hk : k ≤ n)
    (h : ∀ i, i ≤ n → σ'.mem (p'.add i) =
      if i < k then σ.mem (p.add i) else if i = k then v else σ.mem (p.add (i - 1))) :
    read_bytes σ' p' (n + 1) =
      (read_bytes σ p n).take k ++ v :: (read_bytes σ p n).drop k := by
  apply List.ext_getElem
  · simp [read_bytes_length]; omega
  · intro i h1 h2
    rw [read_bytes_getElem]
    have hi : i ≤ n := by
      have := h1; simp [read_bytes_length] at this; omega
    rw [h i hi]
    by_cases c1 : i < k
    · rw [List.getElem_append_left (by simp [read_bytes_length]; omega)]
      simp [c1, read_bytes_getElem]
    · rw [List.getElem_append_right (by simp [read_bytes_length]; omega)]
      by_cases c2 : i = k
      · subst c2
        simp [read_bytes_length, Nat.min_eq_left hk]
      · have h3 : i - min k n = (i - k - 1) + 1 := by
          rw [Nat.min_eq_left hk]; omega
        simp only [c1, c2, if_false, List.length_take, read_bytes_length]
        simp only [h3, List.getElem_cons_succ, List.getElem_drop, read_bytes_getElem]
        congr 2
        omega

theorem uninitialized_copy_eq (σ : Machine) (first last out : pointer) :
    uninitialized_copy σ first last out = copy σ first last out := by
  simp only [uninitialized_copy, copy, uninitialized_copy_loop_eq]

/-- A forward `copy` between ranges that do not overlap, by source and destination range. -/
theorem copy_mem (σ : Machine) (first last out : pointer)
    (h : first.base ≠ out.base ∨ last.index ≤ out.index ∨
      out.index + (last.index - first.index) ≤ first.index) (q : pointer) :
    (copy σ first last out).1.mem q =
      if q.base = out.base ∧ out.index ≤ q.index ∧
          q.index < out.index + (last.index - first.index) then
        σ.mem ⟨first.base, first.index + (q.index - out.index)⟩
      else σ.mem q := by
  unfold copy
  apply copy_loop_mem
  rcases h with h | h | h
  · exact Or.inl h
  · right; omega
  · right; right; exact h

theorem copy_buff_pointer (σ : Machine) (first last out : pointer) :
    (copy σ first last out).1.buff_pointer = σ.buff_pointer :=
  copy_loop_buff_pointer _ _ _ _

theorem copy_calls (σ : Machine) (first last out : pointer) :
    (copy σ first last out).1.calls = σ.calls :=
  copy_loop_calls _ _ _ _

/-- The writes of the reallocation path of `insert`: the new block receives the bytes before
the position, then `value`; when the position is not `end()` it receives the bytes after
`std::next(position)` at their old offsets, so the byte at the position is not copied. -/
theorem insert_realloc_mem (σ : Machine) (d : pointer) (n k c : Nat) (v : char) (hk : k ≤ n)
    (hd : d.base ≠ region.arena ∨ d.index + n ≤ σ.buff_pointer) (q : pointer) :
    (if k ≠ n then
        (uninitialized_copy
          (allocator_traits.construct
            (uninitialized_copy (allocator_traits.allocate σ c).1 d (d.add k)
              (allocator_traits.allocate σ c).2).1
            ((allocator_traits.allocate σ c).2.add k) v)
          (d.add k).next (d.add n) ((allocator_traits.allocate σ c).2.add k).next).1
      else
        allocator_traits.construct
          (uninitialized_copy (allocator_traits.allocate σ c).1 d (d.add k)
            (allocator_traits.allocate σ c).2).1
          ((allocator_traits.allocate σ c).2.add k) v).mem q =
      if q.base = region.arena ∧ σ.buff_pointer ≤ q.index ∧ q.index < σ.buff_pointer + n ∧
          q.index ≠ σ.buff_pointer + k then
        σ.mem ⟨d.base, d.index + (q.index - σ.buff_pointer)⟩
      else if q = ⟨region.arena, σ.buff_pointer + k⟩ then v else σ.mem q := by
  obtain ⟨db, di⟩ := d
  obtain ⟨qb, qi⟩ := q
  simp only [uninitialized_copy_eq, allocator_traits.allocate, allocator.allocate, pointer.add,
    pointer.next]
  have e1 : ∀ x : pointer, (copy
      { mem := σ.mem, buff_pointer := σ.buff_pointer + c,
        calls := σ.calls ++ [call.allocate ⟨region.arena, σ.buff_pointer⟩ c] }
      ⟨db, di⟩ ⟨db, di + k⟩ ⟨region.arena, σ.buff_pointer⟩).1.mem x =
      if x.base = region.arena ∧ σ.buff_pointer ≤ x.index ∧ x.index < σ.buff_pointer + k then
        σ.mem ⟨db, di + (x.index - σ.buff_pointer)⟩ else σ.mem x := by
    intro x
    rw [copy_mem]
    · simp only [Nat.add_sub_cancel_left]
    · simp only at hd ⊢
      rcases hd with hd | hd
      · exact Or.inl hd
      · right; left; omega
  split
  · rename_i hne
    rw [copy_mem]
    · simp only [allocator_traits.construct, store, e1, pointer.mk.injEq]
      by_cases hb : qb = region.arena
      · subst hb
        by_cases h1 : σ.buff_pointer + k + 1 ≤ qi ∧
            qi < σ.buff_pointer + k + 1 + (di + n - (di + k + 1))
        · have h2 : σ.buff_pointer ≤ qi ∧ qi < σ.buff_pointer + n ∧ qi ≠ σ.buff_pointer + k := by
            omega
          have h3 : ¬ (db = region.arena ∧
              di + k + 1 + (qi - (σ.buff_pointer + k + 1)) = σ.buff_pointer + k) := by
            rintro ⟨rfl, h4⟩
            simp at hd
            omega
          have h4 : ¬ (db = region.arena ∧
              σ.buff_pointer ≤ di + k + 1 + (qi - (σ.buff_pointer + k + 1)) ∧
              di + k + 1 + (qi - (σ.buff_pointer + k + 1)) < σ.buff_pointer + k) := by
            rintro ⟨rfl, h4⟩
            simp at hd
            omega
          simp only [h1, h2, h3, h4, and_self, if_true, if_false, true_and, ne_eq,
            not_false_eq_true]
          congr 2
          omega
        · by_cases h5 : qi = σ.buff_pointer + k
          · subst h5
            simp [h1]
          · by_cases h6 : σ.buff_pointer ≤ qi ∧ qi < σ.buff_pointer + k
            · have h2 : σ.buff_pointer ≤ qi ∧ qi < σ.buff_pointer + n := by omega
              simp [h1, h2, h5, h6]
            · have h2 : ¬ (σ.buff_pointer ≤ qi ∧ qi < σ.buff_pointer + n) := by omega
              simp [h1, h2, h5, h6]
      · simp [hb]
    · simp only at hd ⊢
      rcases hd with hd | hd
      · exact Or.inl hd
      · right; left; omega
  · rename_i heq
    have hkn : k = n := by
      by_contra hne; exact heq hne
    subst hkn
    simp only [allocator_traits.construct, store, e1, pointer.mk.injEq]
    by_cases hb : qb = region.arena
    · subst hb
      by_cases h5 : qi = σ.buff_pointer + k
      · subst h5
        simp
      · by_cases h6 : σ.buff_pointer ≤ qi ∧ qi < σ.buff_pointer + k
        · simp [h5, h6]
        · simp [h5, h6]
    · simp [hb]

/-- The reallocation path of `insert` makes one `allocate` call and moves the bump pointer. -/
theorem insert_realloc_frame (σ : Machine) (d : pointer) (n k c : Nat) (v : char) :
    (if k ≠ n then
        (uninitialized_copy
          (allocator_traits.construct
            (uninitialized_copy (allocator_traits.allocate σ c).1 d (d.add k)
              (allocator_traits.allocate σ c).2).1
            ((allocator_traits.allocate σ c).2.add k) v)
          (d.add k).next (d.add n) ((allocator_traits.allocate σ c).2.add k).next).1
      else
        allocator_traits.construct
          (uninitialized_copy (allocator_traits.allocate σ c).1 d (d.add k)
            (allocator_traits.allocate σ c).2).1
          ((allocator_traits.allocate σ c).2.add k) v).buff_pointer = σ.buff_pointer + c ∧
    (if k ≠ n then
        (uninitialized_copy
          (allocator_traits.construct
            (uninitialized_copy (allocator_traits.allocate σ c).1 d (d.add k)
              (allocator_traits.allocate σ c).2).1
            ((allocator_traits.allocate σ c).2.add k) v)
          (d.add k).next (d.add n) ((allocator_traits.allocate σ c).2.add k).next).1
      else
        allocator_traits.construct
          (uninitialized_copy (allocator_traits.allocate σ c).1 d (d.add k)
            (allocator_traits.allocate σ c).2).1
          ((allocator_traits.allocate σ c).2.add k) v).calls =
      σ.calls ++ [call.allocate ⟨region.arena, σ.buff_pointer⟩ c] := by
  split <;>
    simp [uninitialized_copy_eq, copy_buff_pointer, copy_calls, allocator_traits.construct,
      allocator_traits.allocate, allocator.allocate]

/-! ## `gcc-msvc-abi.cpp`: the operations on valid strings -/

namespace gcc_msvc_abi

theorem gcc_valid_cases (s : string) (σ : Machine) (h : s.valid σ) :
    (s.u_ = U.buffer ∧ s.data_ = ⟨region.small s.self, 0⟩ ∧ s.size_ ≤ 16 ∧
      s.is_large = false ∧ s.capacity = 16) ∨
    (∃ c p, s.u_ = U.capacity c ∧ s.data_ = ⟨region.arena, p⟩ ∧ 16 < c ∧ c < 2 ^ 63 ∧
      s.size_ ≤ c ∧ p + c ≤ σ.buff_pointer ∧ s.is_large = true ∧ s.capacity = c) := by
  obtain ⟨self, u, ⟨db, di⟩, n⟩ := s
  cases u with
  | buffer =>
    left
    simp only [string.valid, string.buffer, small_buffer_capacity, pointer.mk.injEq] at h
    obtain ⟨⟨rfl, rfl⟩, h2⟩ := h
    simp [string.is_large, string.capacity, string.buffer, small_buffer_capacity, h2]
  | capacity c =>
    right
    simp only [string.valid, small_buffer_capacity, max_elements] at h
    obtain ⟨h1, h2, h3, h4, h5⟩ := h
    subst h1
    exact ⟨c, di, rfl, rfl, h2, h3, h4, h5,
      by simp [string.is_large, string.buffer],
      by simp [string.is_large, string.capacity, string.buffer, U.get_capacity]⟩

theorem gcc_deallocate_mem (s : string) (σ : Machine) : (s.deallocate σ).mem = σ.mem := by
  unfold string.deallocate; split <;> rfl

theorem gcc_deallocate_buff_pointer (s : string) (σ : Machine) :
    (s.deallocate σ).buff_pointer = σ.buff_pointer := by
  unfold string.deallocate; split <;> rfl

theorem gcc_deallocate_calls (s : string) (σ : Machine) (hv : s.valid σ) :
    (s.deallocate σ).calls = σ.calls ++ release_call s.is_large s.data s.capacity := by
  rcases gcc_valid_cases s σ hv with ⟨-, -, -, h4, -⟩ | ⟨c, p, h1, -, -, -, -, -, h7, h8⟩
  · simp [string.deallocate, release_call, h4]
  · simp [string.deallocate, release_call, h7, h8, h1, U.get_capacity, string.data,
      allocator_traits.deallocate, allocator.deallocate]

theorem gcc_deallocate_calls_of (s : string) (σ σ' : Machine) (hv : s.valid σ') :
    (s.deallocate σ).calls = σ.calls ++ release_call s.is_large s.data s.capacity := by
  rcases gcc_valid_cases s σ' hv with ⟨-, -, -, h4, -⟩ | ⟨c, p, h1, -, -, -, -, -, h7, h8⟩
  · simp [string.deallocate, release_call, h4]
  · simp [string.deallocate, release_call, h7, h8, h1, U.get_capacity, string.data,
      allocator_traits.deallocate, allocator.deallocate]

theorem gcc_data_disjoint (s : string) (σ : Machine) (hv : s.valid σ) :
    s.data.base ≠ region.arena ∨ s.data.index + s.size ≤ σ.buff_pointer := by
  rcases gcc_valid_cases s σ hv with ⟨-, h2, -, -, -⟩ | ⟨c, p, -, h2, -, -, h5, h6, -, -⟩
  · left; simp [string.data, h2]
  · right; simp only [string.data, string.size, h2]; omega

theorem gcc_valid_heap (self c p n : Nat) (σ : Machine) (h1 : 16 < c) (h2 : c < 2 ^ 63)
    (h3 : n ≤ c) (h4 : p + c ≤ σ.buff_pointer) :
    string.valid ⟨self, U.capacity c, ⟨region.arena, p⟩, n⟩ σ := by
  simp only [string.valid, small_buffer_capacity, max_elements]
  exact ⟨trivial, h1, h2, h3, h4⟩

theorem gcc_valid_inline (self n : Nat) (σ : Machine) (h : n ≤ 16) :
    string.valid ⟨self, U.buffer, ⟨region.small self, 0⟩, n⟩ σ := by
  simp only [string.valid, small_buffer_capacity, string.buffer]
  exact ⟨trivial, h⟩

theorem gcc_valid_mono (s : string) (σ σ' : Machine) (hv : s.valid σ)
    (h : σ.buff_pointer ≤ σ'.buff_pointer) : s.valid σ' := by
  obtain ⟨self, u, d, n⟩ := s
  cases u with
  | buffer => exact hv
  | capacity c =>
    simp only [string.valid] at hv ⊢
    obtain ⟨h1, h2, h3, h4, h5⟩ := hv
    exact ⟨h1, h2, h3, h4, by omega⟩

/-- The in-place path of `insert`. -/
theorem gcc_insert_in_place (s : string) (σ : Machine) (k : Nat) (v : char) (hv : s.valid σ)
    (hlt : s.size < s.capacity) (hk : k ≤ s.size) :
    (s.insert σ k v).2.1 = { s with size_ := s.size_ + 1 } ∧
    (s.insert σ k v).2.2 = s.data.add k ∧
    (s.insert σ k v).1.buff_pointer = σ.buff_pointer ∧
    (s.insert σ k v).1.calls = σ.calls ∧
    ∀ q : pointer, (s.insert σ k v).1.mem q =
      if q.base = s.data.base ∧ s.data.index + k ≤ q.index ∧ q.index ≤ s.data.index + s.size then
        (if q.index = s.data.index + k then v else σ.mem ⟨s.data.base, q.index - 1⟩)
      else σ.mem q := by
  have hsz : s.size_ < 2 ^ 63 := by
    rcases gcc_valid_cases s σ hv with ⟨-, -, h3, -, h5⟩ | ⟨c, p, -, -, -, h4, h5, -, -, h8⟩
    · omega
    · omega
  have hmod : (s.size_ + 1) % 2 ^ 64 = s.size_ + 1 := Nat.mod_eq_of_lt (by omega)
  by_cases hkn : k = s.size
  · subst hkn
    simp only [string.insert, hlt, if_true]
    simp only [hmod, string.begin, string.data, allocator_traits.construct, true_and,
      string.size, store]
    intro q
    obtain ⟨qb, qi⟩ := q
    generalize s.data_ = d
    obtain ⟨db, di⟩ := d
    simp only [pointer.add, pointer.mk.injEq]
    by_cases h1 : qb = db ∧ qi = di + s.size_
    · obtain ⟨rfl, rfl⟩ := h1
      simp
    · have h2 : ¬ (qb = db ∧ di + s.size_ ≤ qi ∧ qi ≤ di + s.size_) := by
        rintro ⟨h3, h4⟩
        exact h1 ⟨h3, by omega⟩
      simp only [h1, h2, if_false]
  · have hk' : k < s.size := by omega
    simp only [string.insert, hlt, hkn, if_true, if_false]
    simp only [hmod, string.begin, string.end, true_and, copy_reverse_loop_buff_pointer,
      copy_reverse_loop_calls, copy_reverse, allocator_traits.construct]
    refine ⟨rfl, ?_⟩
    intro q
    have := insert_in_place_mem σ s.data s.size k v hk' q
    simp only [copy_reverse, allocator_traits.construct] at this
    exact this

/-- The reallocation path of `insert`. -/
theorem gcc_insert_realloc (s : string) (σ : Machine) (k : Nat) (v : char) (hv : s.valid σ)
    (hfull : s.size = s.capacity) (hk : k ≤ s.size) (hc : s.capacity * 2 < 2 ^ 63) :
    (s.insert σ k v).2.1 =
      ⟨s.self, U.capacity (s.capacity * 2), ⟨region.arena, σ.buff_pointer⟩, s.size_ + 1⟩ ∧
    (s.insert σ k v).2.2 = ⟨region.arena, σ.buff_pointer + k⟩ ∧
    (s.insert σ k v).1.buff_pointer = σ.buff_pointer + s.capacity * 2 ∧
    (s.insert σ k v).1.calls =
      σ.calls ++ [call.allocate ⟨region.arena, σ.buff_pointer⟩ (s.capacity * 2)] ++
        release_call s.is_large s.data s.capacity ∧
    ∀ q : pointer, (s.insert σ k v).1.mem q =
      if q.base = region.arena ∧ σ.buff_pointer ≤ q.index ∧
          q.index < σ.buff_pointer + s.size ∧ q.index ≠ σ.buff_pointer + k then
        σ.mem ⟨s.data.base, s.data.index + (q.index - σ.buff_pointer)⟩
      else if q = ⟨region.arena, σ.buff_pointer + k⟩ then v else σ.mem q := by
  have hnlt : ¬ s.size < s.capacity := by omega
  have hsz : s.size_ = s.capacity := hfull
  have hmod : (s.size_ + 1) % 2 ^ 64 = s.size_ + 1 := Nat.mod_eq_of_lt (by omega)
  have hmod2 : s.capacity * 2 % 2 ^ 64 = s.capacity * 2 := Nat.mod_eq_of_lt (by omega)
  have hfr := insert_realloc_frame σ s.begin s.size k (s.capacity * 2) v
  simp only [string.insert, hnlt, if_false, hmod2, string.relocate, string.end,
    gcc_deallocate_mem, gcc_deallocate_buff_pointer, hfr.1]
  refine ⟨?_, ?_, trivial, ?_, ?_⟩
  · rw [hmod]
    rfl
  · simp [string.begin, string.data, pointer.add, allocator_traits.allocate,
      allocator.allocate]
  · rw [gcc_deallocate_calls_of s _ σ hv, hfr.2]
  · intro q
    exact insert_realloc_mem σ s.begin s.size k (s.capacity * 2) v hk (gcc_data_disjoint s σ hv) q

theorem gcc_heap_is_large (self n p : Nat) (u : U) :
    string.is_large ⟨self, u, ⟨region.arena, p⟩, n⟩ = true := by
  simp [string.is_large, string.buffer]

theorem gcc_heap_capacity (self n p c : Nat) :
    string.capacity ⟨self, U.capacity c, ⟨region.arena, p⟩, n⟩ = c := by
  simp [string.capacity, gcc_heap_is_large, U.get_capacity]

theorem gcc_inline_is_large (self n : Nat) (u : U) :
    string.is_large ⟨self, u, ⟨region.small self, 0⟩, n⟩ = false := by
  simp [string.is_large, string.buffer]

theorem gcc_inline_capacity (self n : Nat) (u : U) :
    string.capacity ⟨self, u, ⟨region.small self, 0⟩, n⟩ = 16 := by
  simp [string.capacity, gcc_inline_is_large, small_buffer_capacity]

/-- The private member function `force_reserve` on a valid string. -/
theorem gcc_force_reserve_spec (s : string) (σ : Machine) (c : Nat) (hv : s.valid σ) :
    (s.force_reserve σ c).2 = ⟨s.self, U.capacity c, ⟨region.arena, σ.buff_pointer⟩, s.size_⟩ ∧
    (s.force_reserve σ c).1.buff_pointer = σ.buff_pointer + c ∧
    (s.force_reserve σ c).1.calls =
      σ.calls ++ [call.allocate ⟨region.arena, σ.buff_pointer⟩ c] ++ release_call s.is_large s.data s.capacity ∧
    ∀ q : pointer, (s.force_reserve σ c).1.mem q =
      if q.base = region.arena ∧ σ.buff_pointer ≤ q.index ∧
          q.index < σ.buff_pointer + s.size then
        σ.mem ⟨s.data.base, s.data.index + (q.index - σ.buff_pointer)⟩
      else σ.mem q := by
  simp only [string.force_reserve, string.relocate, gcc_deallocate_mem, gcc_deallocate_buff_pointer,
    copy_buff_pointer]
  refine ⟨rfl, rfl, ?_, ?_⟩
  · rw [gcc_deallocate_calls_of s _ σ hv, copy_calls]
    rfl
  · intro q
    rw [copy_mem]
    · simp only [string.end, string.begin, pointer.add, Nat.add_sub_cancel_left,
        allocator_traits.allocate, allocator.allocate]
    · rcases gcc_data_disjoint s σ hv with h | h
      · exact Or.inl h
      · right; left
        simpa [string.end, string.begin, pointer.add, allocator_traits.allocate,
          allocator.allocate] using h

theorem gcc_pop_back_spec (s : string) (σ : Machine) (hv : s.valid σ) (h : 0 < s.size) :
    s.pop_back σ = (σ, { s with size_ := s.size_ - 1 }) := by
  have hsz : s.size_ < 2 ^ 63 := by
    rcases gcc_valid_cases s σ hv with ⟨-, -, h3, -, -⟩ | ⟨c, p, -, -, -, h4, h5, -, -, -⟩ <;> omega
  have h0 : 0 < s.size_ := h
  have hmod : (s.size_ + 2 ^ 64 - 1) % 2 ^ 64 = s.size_ - 1 := by omega
  simp only [string.pop_back, allocator_traits.destroy, hmod]

theorem gcc_shrink_noop (s : string) (σ : Machine)
    (h : s.is_large = false ∨ s.capacity = s.size) : s.shrink_to_fit σ = (σ, s) := by
  have : ¬ (s.is_large = true ∧ s.capacity > s.size) := by
    rintro ⟨h1, h2⟩
    rcases h with h | h
    · rw [h] at h1; exact Bool.noConfusion h1
    · omega
  simp only [string.shrink_to_fit, this, if_false]

theorem gcc_shrink_heap_eq (s : string) (σ : Machine) (h1 : s.is_large = true)
    (h2 : s.size < s.capacity) (h3 : small_buffer_capacity < s.size) :
    s.shrink_to_fit σ = s.force_reserve σ s.size := by
  have : s.is_large = true ∧ s.capacity > s.size := ⟨h1, h2⟩
  have h4 : s.size > small_buffer_capacity := h3
  simp only [string.shrink_to_fit, this, h4, and_self, if_true]

theorem gcc_shrink_inline_spec (s : string) (σ : Machine) (hv : s.valid σ) (h1 : s.is_large = true)
    (h2 : s.size < s.capacity) (h3 : s.size ≤ small_buffer_capacity) :
    (s.shrink_to_fit σ).2 = ⟨s.self, U.buffer, ⟨region.small s.self, 0⟩, s.size_⟩ ∧
    (s.shrink_to_fit σ).1.buff_pointer = σ.buff_pointer ∧
    (s.shrink_to_fit σ).1.calls = σ.calls ∧
    ∀ q : pointer, (s.shrink_to_fit σ).1.mem q =
      if q.base = region.small s.self ∧ q.index < small_buffer_capacity then
        (if q.index < s.size then σ.mem ⟨region.arena, s.data.index + q.index⟩ else 0)
      else σ.mem q := by
  have hc : s.is_large = true ∧ s.capacity > s.size := ⟨h1, h2⟩
  have h4 : ¬ s.size > small_buffer_capacity := by omega
  rcases gcc_valid_cases s σ hv with ⟨-, -, -, h5, -⟩ | ⟨c, p, hu, hd, -, -, -, -, -, -⟩
  · rw [h5] at h1; exact Bool.noConfusion h1
  · simp only [string.shrink_to_fit, hc, h4, and_self, if_true, if_false, copy_buff_pointer,
      copy_calls]
    refine ⟨rfl, trivial, trivial, ?_⟩
    intro q
    obtain ⟨qb, qi⟩ := q
    rw [copy_mem]
    · simp only [string.buffer, string.end, string.begin, string.data, string.size, hd,
        pointer.add, zero_buffer, Nat.add_sub_cancel_left, Nat.zero_add, Nat.sub_zero,
        Nat.zero_le, true_and, small_buffer_capacity, reduceCtorEq, false_and, if_false]
      have h3' : s.size_ ≤ 16 := h3
      by_cases hq : qb = region.small s.self ∧ qi < s.size_
      · have hq' : qb = region.small s.self ∧ qi < 16 := ⟨hq.1, by omega⟩
        simp only [hq, hq', and_self, if_true]
      · by_cases hq' : qb = region.small s.self ∧ qi < 16
        · have : ¬ qi < s.size_ := fun h => hq ⟨hq'.1, h⟩
          simp [hq', this]
        · simp only [hq, hq', if_false]
    · left
      simp [string.begin, string.data, string.buffer, hd]

theorem gcc_ctor_spec (σ : Machine) (self : Nat) :
    (string.ctor σ self).2 = ⟨self, U.buffer, ⟨region.small self, 0⟩, 0⟩ ∧
    (string.ctor σ self).1 = { σ with mem := zero_buffer σ.mem self small_buffer_capacity } :=
  ⟨rfl, rfl⟩

/-- The move assignment from a heap string. -/
theorem gcc_assign_from_large (s other : string) (σ : Machine) (hs : s.valid σ)
    (h : other.is_large = true) :
    (s.operator_assign σ other).2.1 =
      ⟨s.self, U.capacity other.u_.get_capacity, other.data_, other.size_⟩ ∧
    (s.operator_assign σ other).2.2 =
      ⟨other.self, U.buffer, ⟨region.small other.self, 0⟩, 0⟩ ∧
    (s.operator_assign σ other).1.buff_pointer = σ.buff_pointer ∧
    (s.operator_assign σ other).1.calls = σ.calls ++ release_call s.is_large s.data s.capacity ∧
    (s.operator_assign σ other).1.mem = zero_buffer σ.mem other.self small_buffer_capacity := by
  have e : s.operator_assign σ other =
      ({ s.deallocate σ with
          mem := zero_buffer (s.deallocate σ).mem other.self small_buffer_capacity },
        ⟨s.self, U.capacity other.u_.get_capacity, other.data_, other.size_⟩,
        ⟨other.self, U.buffer, ⟨region.small other.self, 0⟩, 0⟩) := by
    simp only [string.operator_assign, h, if_true]
    rfl
  rw [e]
  exact ⟨rfl, rfl, gcc_deallocate_buff_pointer s σ, gcc_deallocate_calls s σ hs,
    by simp only [gcc_deallocate_mem]⟩

/-- The move assignment from an inline string. -/
theorem gcc_assign_from_small (s other : string) (σ : Machine) (hs : s.valid σ)
    (ho : other.valid σ) (hne : s.self ≠ other.self) (h : other.is_large = false) :
    (s.operator_assign σ other).2.1 =
      ⟨s.self, U.buffer, ⟨region.small s.self, 0⟩, other.size_⟩ ∧
    (s.operator_assign σ other).2.2 = other ∧
    (s.operator_assign σ other).1.buff_pointer = σ.buff_pointer ∧
    (s.operator_assign σ other).1.calls = σ.calls ++ release_call s.is_large s.data s.capacity ∧
    ∀ q : pointer, (s.operator_assign σ other).1.mem q =
      if q.base = region.small s.self ∧ q.index < small_buffer_capacity then
        (if q.index < other.size then σ.mem ⟨region.small other.self, q.index⟩ else 0)
      else σ.mem q := by
  have e : s.operator_assign σ other =
      ((copy { s.deallocate σ with
            mem := zero_buffer (s.deallocate σ).mem s.self small_buffer_capacity }
          other.data_ (other.data_.add other.size_) ⟨region.small s.self, 0⟩).1,
        ⟨s.self, U.buffer, ⟨region.small s.self, 0⟩, other.size_⟩, other) := by
    simp only [string.operator_assign, h, Bool.false_eq_true, if_false]
    rfl
  rw [e]
  rcases gcc_valid_cases other σ ho with ⟨-, hd, h3, -, -⟩ | ⟨c, p, -, -, -, -, -, -, h7, -⟩
  · refine ⟨rfl, rfl, ?_, ?_, ?_⟩
    · simp only [copy_buff_pointer, gcc_deallocate_buff_pointer]
    · simp only [copy_calls, gcc_deallocate_calls s σ hs]
    intro q
    obtain ⟨qb, qi⟩ := q
    simp only []
    rw [copy_mem]
    · simp only [string.size, hd, gcc_deallocate_mem,
        pointer.add, zero_buffer, Nat.add_sub_cancel_left, Nat.zero_add, Nat.sub_zero,
        Nat.zero_le, true_and, small_buffer_capacity, region.small.injEq]
      have hne' : ¬ (other.self = s.self) := fun e => hne e.symm
      by_cases hq : qb = region.small s.self ∧ qi < other.size_
      · have hq' : qb = region.small s.self ∧ qi < 16 := ⟨hq.1, by omega⟩
        simp only [hq, hq', hne', and_self, if_true, false_and, if_false]
      · by_cases hq' : qb = region.small s.self ∧ qi < 16
        · have : ¬ qi < other.size_ := fun h => hq ⟨hq'.1, h⟩
          simp [hq', this]
        · simp only [hq, hq', if_false]
    · left
      simp only [hd, ne_eq, region.small.injEq]
      exact fun e => hne e.symm
  · rw [h7] at h; exact Bool.noConfusion h

theorem gcc_valid_bounds (s : string) (σ : Machine) (hv : s.valid σ) :
    16 ≤ s.capacity ∧ s.size_ ≤ s.capacity ∧ s.capacity < 2 ^ 63 := by
  rcases gcc_valid_cases s σ hv with ⟨-, -, h3, -, h5⟩ | ⟨c, p, -, -, h3, h4, h5, -, -, h8⟩ <;> omega

theorem gcc_valid_set_size (s : string) (σ : Machine) (n : Nat) (hv : s.valid σ)
    (h : n ≤ s.capacity) : string.valid { s with size_ := n } σ := by
  rcases gcc_valid_cases s σ hv with ⟨a1, a2, a3, -, a5⟩ | ⟨c, p, a1, a2, a3, a4, a5, a6, -, a8⟩
  · obtain ⟨self, u, d, m⟩ := s
    simp only at a1 a2
    subst a1 a2
    exact gcc_valid_inline self _ _ (by omega)
  · obtain ⟨self, u, d, m⟩ := s
    simp only at a1 a2
    subst a1 a2
    exact gcc_valid_heap self c p _ _ a3 a4 (by omega) a6

theorem gcc_pop_back_valid (s : string) (σ : Machine) (hv : s.valid σ) (h : 0 < s.size) :
    string.valid (s.pop_back σ).2 (s.pop_back σ).1 := by
  rw [gcc_pop_back_spec s σ hv h]
  have hb := gcc_valid_bounds s σ hv
  exact gcc_valid_set_size s σ _ hv (by omega)

theorem gcc_insert_in_place_valid (s : string) (σ : Machine) (k : Nat) (v : char) (hv : s.valid σ)
    (hlt : s.size < s.capacity) (hk : k ≤ s.size) :
    string.valid (s.insert σ k v).2.1 (s.insert σ k v).1 := by
  obtain ⟨h1, -, h3, -, -⟩ := gcc_insert_in_place s σ k v hv hlt hk
  rw [h1]
  have hlt' : s.size_ < s.capacity := hlt
  exact gcc_valid_mono _ σ _ (gcc_valid_set_size s σ _ hv (by omega)) (by rw [h3])

theorem gcc_insert_realloc_valid (s : string) (σ : Machine) (k : Nat) (v : char) (hv : s.valid σ)
    (hfull : s.size = s.capacity) (hk : k ≤ s.size) (hc : s.capacity * 2 < 2 ^ 63) :
    string.valid (s.insert σ k v).2.1 (s.insert σ k v).1 := by
  obtain ⟨h1, -, h3, -, -⟩ := gcc_insert_realloc s σ k v hv hfull hk hc
  have hb := gcc_valid_bounds s σ hv
  have hsz : s.size_ = s.capacity := hfull
  rw [h1]
  exact gcc_valid_heap _ _ _ _ _ (by omega) hc (by omega) (by rw [h3])

theorem gcc_force_reserve_valid (s : string) (σ : Machine) (c : Nat) (hv : s.valid σ)
    (h1 : 16 < c) (h2 : c < 2 ^ 63) (h3 : s.size ≤ c) :
    string.valid (s.force_reserve σ c).2 (s.force_reserve σ c).1 := by
  obtain ⟨e1, e2, -, -⟩ := gcc_force_reserve_spec s σ c hv
  rw [e1]
  exact gcc_valid_heap _ _ _ _ _ h1 h2 h3 (by rw [e2])

theorem gcc_reserve_eq (s : string) (σ : Machine) (r : Nat) (h : s.capacity < r) :
    s.reserve σ r = s.force_reserve σ r := by
  have h' : r > s.capacity := h
  simp only [string.reserve, h', if_true]

theorem gcc_pop_back_law (s : string) (σ : Machine) (hv : s.valid σ) (h : 0 < s.size) :
    string.valid (s.pop_back σ).2 (s.pop_back σ).1 ∧
    string.self (s.pop_back σ).2 = s.self ∧
    string.is_large (s.pop_back σ).2 = s.is_large ∧
    string.data (s.pop_back σ).2 = s.data ∧
    string.size (s.pop_back σ).2 = s.size - 1 ∧
    string.capacity (s.pop_back σ).2 = s.capacity ∧
    (s.pop_back σ).1 = σ := by
  have e := gcc_pop_back_spec s σ hv h
  refine ⟨gcc_pop_back_valid s σ hv h, ?_, ?_, ?_, ?_, ?_, ?_⟩ <;> rw [e] <;> rfl

/-- The class `string` of `gcc-msvc-abi.cpp` satisfies the laws. -/
theorem gcc_impl_laws : laws string small_buffer_capacity string.ctor string.ctor_move
    string.operator_assign string.reserve string.shrink_to_fit string.insert string.pop_back
    string.self string.is_large string.data string.size string.capacity string.valid where
  small_pos := by decide
  valid_size := fun s σ hv => ⟨(gcc_valid_bounds s σ hv).2.1, (gcc_valid_bounds s σ hv).2.2⟩
  valid_small := by
    intro s σ hv h
    rcases gcc_valid_cases s σ hv with ⟨-, h2, -, -, h5⟩ | ⟨c, p, -, -, -, -, -, -, h7, -⟩
    · exact ⟨h5, h2⟩
    · exact Bool.noConfusion (h7.symm.trans h)
  valid_large := by
    intro s σ hv h
    rcases gcc_valid_cases s σ hv with ⟨-, -, -, h4, -⟩ | ⟨c, p, -, h2, h3, -, -, h6, -, h8⟩
    · exact Bool.noConfusion (h4.symm.trans h)
    · show 16 < s.capacity ∧ s.data_.base = region.arena ∧ s.data_.index + s.capacity ≤ _
      rw [h2, h8]
      exact ⟨h3, rfl, h6⟩
  valid_mono := gcc_valid_mono
  ctor_spec := fun σ self =>
    ⟨gcc_valid_inline self 0 _ (by omega), rfl, gcc_inline_is_large self 0 _, rfl, rfl, rfl, rfl⟩
  ctor_move_eq := fun _ _ _ => rfl
  insert_in_place := by
    intro s σ k v hv hlt hk
    obtain ⟨h1, h2, h3, h4, h5⟩ := gcc_insert_in_place s σ k v hv hlt hk
    exact ⟨gcc_insert_in_place_valid s σ k v hv hlt hk, (congrArg string.self h1 :),
      (congrArg string.is_large h1 :), (congrArg string.data h1 :), (congrArg string.size h1 :),
      (congrArg string.capacity h1 :), h2, h3, h4, h5⟩
  insert_realloc := by
    intro s σ k v hv hfull hk hc
    obtain ⟨h1, h2, h3, h4, h5⟩ := gcc_insert_realloc s σ k v hv hfull hk hc
    exact ⟨gcc_insert_realloc_valid s σ k v hv hfull hk hc, (congrArg string.self h1 :),
      ((congrArg string.is_large h1).trans (gcc_heap_is_large _ _ _ _) :), (congrArg string.data h1 :),
      (congrArg string.size h1 :), ((congrArg string.capacity h1).trans (gcc_heap_capacity _ _ _ _) :),
      h2, h3, h4, h5⟩
  pop_back_spec := fun s σ hv h => gcc_pop_back_law s σ hv h
  reserve_small := by
    intro s σ r h
    have h' : ¬ r > s.capacity := Nat.not_lt.mpr h
    show s.reserve σ r = (σ, s)
    simp only [string.reserve, h', if_false]
  reserve_grow := by
    intro s σ r hv hlt hr
    have e : string.reserve s σ r = s.force_reserve σ r := gcc_reserve_eq s σ r hlt
    obtain ⟨h1, h2, h3, h4⟩ := gcc_force_reserve_spec s σ r hv
    have hb := gcc_valid_bounds s σ hv
    have hlt' : s.capacity < r := hlt
    have hv' : string.valid (s.reserve σ r).2 (s.reserve σ r).1 := by
      rw [e]
      exact gcc_force_reserve_valid s σ r hv (by omega) hr (by show s.size_ ≤ r; omega)
    have e2 := (congrArg Prod.snd e).trans h1
    exact ⟨hv', (congrArg string.self e2 :),
      ((congrArg string.is_large e2).trans (gcc_heap_is_large _ _ _ _) :),
      (congrArg string.data e2 :), (congrArg string.size e2 :),
      ((congrArg string.capacity e2).trans (gcc_heap_capacity _ _ _ _) :),
      ((congrArg (fun r => r.1.buff_pointer) e).trans h2 :),
      ((congrArg (fun r => r.1.calls) e).trans h3 :),
      fun q => ((congrArg (fun r => r.1.mem q) e).trans (h4 q) :)⟩
  shrink_noop := fun s σ _ h => gcc_shrink_noop s σ h
  shrink_heap := by
    intro s σ hv hl hlt hn
    have e : string.shrink_to_fit s σ = s.force_reserve σ s.size := gcc_shrink_heap_eq s σ hl hlt hn
    obtain ⟨h1, h2, h3, h4⟩ := gcc_force_reserve_spec s σ s.size hv
    have hb := gcc_valid_bounds s σ hv
    have hn' : 16 < s.size := hn
    have hlt' : s.size < s.capacity := hlt
    have hv' : string.valid (s.shrink_to_fit σ).2 (s.shrink_to_fit σ).1 := by
      rw [e]
      exact gcc_force_reserve_valid s σ _ hv hn' (by omega) (Nat.le_refl _)
    have e2 := (congrArg Prod.snd e).trans h1
    exact ⟨hv', (congrArg string.self e2 :),
      ((congrArg string.is_large e2).trans (gcc_heap_is_large _ _ _ _) :),
      (congrArg string.data e2 :), (congrArg string.size e2 :),
      ((congrArg string.capacity e2).trans (gcc_heap_capacity _ _ _ _) :),
      ((congrArg (fun r => r.1.buff_pointer) e).trans h2 :),
      ((congrArg (fun r => r.1.calls) e).trans h3 :),
      fun q => ((congrArg (fun r => r.1.mem q) e).trans (h4 q) :)⟩
  shrink_inline := by
    intro s σ hv hl hlt hn
    obtain ⟨h1, h2, _, h4⟩ := gcc_shrink_inline_spec s σ hv hl hlt hn
    have hv' : string.valid (s.shrink_to_fit σ).2 (s.shrink_to_fit σ).1 := by
      rw [h1]; exact gcc_valid_inline _ _ _ hn
    exact ⟨hv', (congrArg string.self h1 :),
      ((congrArg string.is_large h1).trans (gcc_inline_is_large _ _ _) :), h2, h4⟩
  assign_from_large := by
    intro s σ other hs ho _ hl
    obtain ⟨h1, h2, h3, h4, h5⟩ := gcc_assign_from_large s other σ hs hl
    rcases gcc_valid_cases other σ ho with ⟨-, -, -, a4, -⟩ | ⟨c, p, a1, a2, a3, a4, a5, a6, -, a8⟩
    · exact Bool.noConfusion (a4.symm.trans hl)
    · rw [a1, a2] at h1
      simp only [U.get_capacity] at h1
      have hv1 : string.valid (s.operator_assign σ other).2.1 (s.operator_assign σ other).1 := by
        rw [h1]; exact gcc_valid_heap _ _ _ _ _ a3 a4 a5 (by rw [h3]; exact a6)
      have hv2 : string.valid (s.operator_assign σ other).2.2 (s.operator_assign σ other).1 := by
        rw [h2]; exact gcc_valid_inline _ _ _ (by omega)
      exact ⟨hv1, hv2, (congrArg string.self h1 :), (congrArg string.self h2 :),
        ((congrArg string.is_large h1).trans (gcc_heap_is_large _ _ _ _) :),
        ((congrArg string.data h1).trans a2.symm :), (congrArg string.size h1 :),
        (((congrArg string.capacity h1).trans (gcc_heap_capacity _ _ _ _)).trans a8.symm :),
        ((congrArg string.is_large h2).trans (gcc_inline_is_large _ _ _) :),
        (congrArg string.size h2 :), h3, h4, h5⟩
  assign_from_small := by
    intro s σ other hs ho hne hl
    obtain ⟨h1, h2, h3, h4, h5⟩ := gcc_assign_from_small s other σ hs ho hne hl
    have hsz : other.size_ ≤ 16 := by
      rcases gcc_valid_cases other σ ho with ⟨-, -, a3, -, -⟩ | ⟨c, p, -, -, -, -, -, -, a7, -⟩
      · exact a3
      · exact Bool.noConfusion (a7.symm.trans hl)
    have hv1 : string.valid (s.operator_assign σ other).2.1 (s.operator_assign σ other).1 := by
      rw [h1]; exact gcc_valid_inline _ _ _ hsz
    exact ⟨hv1, h2, (congrArg string.self h1 :),
      ((congrArg string.is_large h1).trans (gcc_inline_is_large _ _ _) :), (congrArg string.size h1 :),
      h3, h4, h5⟩

end gcc_msvc_abi

/-! ## `clang-common-initial-subsequence.cpp`: the operations on valid strings -/

namespace clang_common_initial_subsequence

theorem cis_inline_is_large (self n : Nat) : string.is_large ⟨self, U.small ⟨false, n⟩⟩ = false := rfl

theorem cis_inline_size (self n : Nat) (h : n ≤ 23) : string.size ⟨self, U.small ⟨false, n⟩⟩ = n := by
  have : n < 2 ^ 6 := by omega
  simp only [string.size, cis_inline_is_large, U.get_small, small_t.size, this, if_true,
    Bool.false_eq_true, if_false]

theorem cis_inline_capacity (self n : Nat) : string.capacity ⟨self, U.small ⟨false, n⟩⟩ = 23 := rfl

theorem cis_inline_data (self n : Nat) :
    string.data ⟨self, U.small ⟨false, n⟩⟩ = ⟨region.small self, 0⟩ := rfl

theorem cis_heap_is_large (self n c : Nat) (p : pointer) :
    string.is_large ⟨self, U.large ⟨true, n, p, c⟩⟩ = true := rfl

theorem cis_heap_size (self n c : Nat) (p : pointer) :
    string.size ⟨self, U.large ⟨true, n, p, c⟩⟩ = n := rfl

theorem cis_heap_capacity (self n c : Nat) (p : pointer) :
    string.capacity ⟨self, U.large ⟨true, n, p, c⟩⟩ = c := rfl

theorem cis_heap_data (self n c : Nat) (p : pointer) :
    string.data ⟨self, U.large ⟨true, n, p, c⟩⟩ = p := rfl

theorem cis_valid_cases (s : string) (σ : Machine) (h : s.valid σ) :
    (∃ n, s = ⟨s.self, U.small ⟨false, n⟩⟩ ∧ n ≤ 23) ∨
    (∃ n p c, s = ⟨s.self, U.large ⟨true, n, ⟨region.arena, p⟩, c⟩⟩ ∧ 23 < c ∧ c < 2 ^ 63 ∧
      n ≤ c ∧ p + c ≤ σ.buff_pointer) := by
  obtain ⟨self, u⟩ := s
  cases u with
  | small sm =>
    left
    obtain ⟨f, n⟩ := sm
    simp only [string.valid, small_buffer_capacity] at h
    obtain ⟨rfl, h2⟩ := h
    exact ⟨n, rfl, h2⟩
  | large l =>
    right
    obtain ⟨f, n, ⟨db, di⟩, c⟩ := l
    simp only [string.valid, small_buffer_capacity, max_elements] at h
    obtain ⟨rfl, rfl, h3, h4, h5, h6⟩ := h
    exact ⟨n, di, c, rfl, h3, h4, h5, h6⟩

theorem cis_valid_inline (self n : Nat) (σ : Machine) (h : n ≤ 23) :
    string.valid ⟨self, U.small ⟨false, n⟩⟩ σ := by
  simp only [string.valid, small_buffer_capacity]
  exact ⟨trivial, h⟩

theorem cis_valid_heap (self c p n : Nat) (σ : Machine) (h1 : 23 < c) (h2 : c < 2 ^ 63)
    (h3 : n ≤ c) (h4 : p + c ≤ σ.buff_pointer) :
    string.valid ⟨self, U.large ⟨true, n, ⟨region.arena, p⟩, c⟩⟩ σ := by
  simp only [string.valid, small_buffer_capacity, max_elements]
  exact ⟨trivial, trivial, h1, h2, h3, h4⟩

theorem cis_valid_mono (s : string) (σ σ' : Machine) (hv : s.valid σ)
    (h : σ.buff_pointer ≤ σ'.buff_pointer) : s.valid σ' := by
  rcases cis_valid_cases s σ hv with ⟨n, e, h1⟩ | ⟨n, p, c, e, h1, h2, h3, h4⟩
  · rw [e]; exact cis_valid_inline _ _ _ h1
  · rw [e]; exact cis_valid_heap _ _ _ _ _ h1 h2 h3 (by omega)

theorem cis_valid_bounds (s : string) (σ : Machine) (hv : s.valid σ) :
    23 ≤ s.capacity ∧ s.size ≤ s.capacity ∧ s.capacity < 2 ^ 63 := by
  rcases cis_valid_cases s σ hv with ⟨n, e, h1⟩ | ⟨n, p, c, e, h1, h2, h3, h4⟩
  · rw [e, cis_inline_size _ _ h1, cis_inline_capacity]; omega
  · rw [e, cis_heap_size, cis_heap_capacity]; omega

theorem cis_deallocate_mem (s : string) (σ : Machine) : (s.deallocate σ).mem = σ.mem := by
  unfold string.deallocate; split <;> rfl

theorem cis_deallocate_buff_pointer (s : string) (σ : Machine) :
    (s.deallocate σ).buff_pointer = σ.buff_pointer := by
  unfold string.deallocate; split <;> rfl

theorem cis_deallocate_calls (s : string) (σ σ' : Machine) (hv : s.valid σ') :
    (s.deallocate σ).calls = σ.calls ++ release_call s.is_large s.data s.capacity := by
  rcases cis_valid_cases s σ' hv with ⟨n, e, h1⟩ | ⟨n, p, c, e, h1, h2, h3, h4⟩
  · rw [e]
    simp only [string.deallocate, release_call, cis_inline_is_large, Bool.false_eq_true, if_false,
      List.append_nil]
  · rw [e]; rfl

theorem cis_data_disjoint (s : string) (σ : Machine) (hv : s.valid σ) :
    s.data.base ≠ region.arena ∨ s.data.index + s.size ≤ σ.buff_pointer := by
  rcases cis_valid_cases s σ hv with ⟨n, e, h1⟩ | ⟨n, p, c, e, h1, h2, h3, h4⟩
  · left; rw [e, cis_inline_data]; simp
  · right; rw [e, cis_heap_data, cis_heap_size]; simp only; omega

theorem cis_increment_size_spec (s : string) (σ : Machine) (hv : s.valid σ)
    (hlt : s.size < s.capacity) :
    s.increment_size.valid σ ∧ s.increment_size.self = s.self ∧
    s.increment_size.is_large = s.is_large ∧ s.increment_size.data = s.data ∧
    s.increment_size.size = s.size + 1 ∧ s.increment_size.capacity = s.capacity := by
  rcases cis_valid_cases s σ hv with ⟨n, e, h1⟩ | ⟨n, p, c, e, h1, h2, h3, h4⟩
  · rw [e] at hlt ⊢
    rw [cis_inline_size _ _ h1, cis_inline_capacity] at hlt
    have e2 : string.increment_size ⟨s.self, U.small ⟨false, n⟩⟩ =
        ⟨s.self, U.small ⟨false, n + 1⟩⟩ := by
      have h6 : n < 2 ^ 6 := by omega
      have hm : (n + 1) % 2 ^ 64 % 2 ^ 7 = n + 1 := by omega
      simp only [string.increment_size, cis_inline_is_large, U.get_small, small_t.set_size,
        small_t.size, h6, if_true, hm, Bool.false_eq_true, if_false]
    rw [e2, cis_inline_size _ _ h1, cis_inline_size _ _ (by omega)]
    exact ⟨cis_valid_inline _ _ _ (by omega), rfl, rfl, rfl, rfl, rfl⟩
  · rw [e] at hlt ⊢
    rw [cis_heap_size, cis_heap_capacity] at hlt
    have e2 : string.increment_size ⟨s.self, U.large ⟨true, n, ⟨region.arena, p⟩, c⟩⟩ =
        ⟨s.self, U.large ⟨true, n + 1, ⟨region.arena, p⟩, c⟩⟩ := by
      have hm : (n + 1) % 2 ^ 64 % 2 ^ 63 = n + 1 := by omega
      simp only [string.increment_size, cis_heap_is_large, U.get_large, large_t.set_size,
        large_t.size, hm, if_true]
    rw [e2]
    exact ⟨cis_valid_heap _ _ _ _ _ h1 h2 (by omega) h4, rfl, rfl, rfl, rfl, rfl⟩

theorem cis_decrement_size_spec (s : string) (σ : Machine) (hv : s.valid σ) (hpos : 0 < s.size) :
    s.decrement_size.valid σ ∧ s.decrement_size.self = s.self ∧
    s.decrement_size.is_large = s.is_large ∧ s.decrement_size.data = s.data ∧
    s.decrement_size.size = s.size - 1 ∧ s.decrement_size.capacity = s.capacity := by
  rcases cis_valid_cases s σ hv with ⟨n, e, h1⟩ | ⟨n, p, c, e, h1, h2, h3, h4⟩
  · rw [e] at hpos ⊢
    rw [cis_inline_size _ _ h1] at hpos
    have e2 : string.decrement_size ⟨s.self, U.small ⟨false, n⟩⟩ =
        ⟨s.self, U.small ⟨false, n - 1⟩⟩ := by
      have h6 : n < 2 ^ 6 := by omega
      have hm : (n + 2 ^ 64 - 1) % 2 ^ 64 % 2 ^ 7 = n - 1 := by omega
      simp only [string.decrement_size, cis_inline_is_large, U.get_small, small_t.set_size,
        small_t.size, h6, if_true, hm, Bool.false_eq_true, if_false]
    rw [e2, cis_inline_size _ _ h1, cis_inline_size _ _ (by omega)]
    exact ⟨cis_valid_inline _ _ _ (by omega), rfl, rfl, rfl, rfl, rfl⟩
  · rw [e] at hpos ⊢
    rw [cis_heap_size] at hpos
    have e2 : string.decrement_size ⟨s.self, U.large ⟨true, n, ⟨region.arena, p⟩, c⟩⟩ =
        ⟨s.self, U.large ⟨true, n - 1, ⟨region.arena, p⟩, c⟩⟩ := by
      have hm : (n + 2 ^ 64 - 1) % 2 ^ 64 % 2 ^ 63 = n - 1 := by omega
      simp only [string.decrement_size, cis_heap_is_large, U.get_large, large_t.set_size,
        large_t.size, hm, if_true]
    rw [e2]
    exact ⟨cis_valid_heap _ _ _ _ _ h1 h2 (by omega) h4, rfl, rfl, rfl, rfl, rfl⟩

/-- The in-place path of `insert`. -/
theorem cis_insert_in_place (s : string) (σ : Machine) (k : Nat) (v : char)
    (hlt : s.size < s.capacity) (hk : k ≤ s.size) :
    (s.insert σ k v).2.1 = s.increment_size ∧
    (s.insert σ k v).2.2 = s.increment_size.data.add k ∧
    (s.insert σ k v).1.buff_pointer = σ.buff_pointer ∧
    (s.insert σ k v).1.calls = σ.calls ∧
    ∀ q : pointer, (s.insert σ k v).1.mem q =
      if q.base = s.data.base ∧ s.data.index + k ≤ q.index ∧ q.index ≤ s.data.index + s.size then
        (if q.index = s.data.index + k then v else σ.mem ⟨s.data.base, q.index - 1⟩)
      else σ.mem q := by
  by_cases hkn : k = s.size
  · subst hkn
    refine ⟨?_, ?_, ?_, ?_, ?_⟩
    · simp only [string.insert, hlt, if_true]
    · simp only [string.insert, hlt, if_true, string.begin]
    · simp only [string.insert, hlt, if_true, allocator_traits.construct]
    · simp only [string.insert, hlt, if_true, allocator_traits.construct]
    simp only [string.insert, hlt, if_true, string.begin, allocator_traits.construct, store]
    intro q
    obtain ⟨qb, qi⟩ := q
    generalize s.data = d
    obtain ⟨db, di⟩ := d
    simp only [pointer.add, pointer.mk.injEq]
    by_cases h1 : qb = db ∧ qi = di + s.size
    · obtain ⟨rfl, rfl⟩ := h1
      simp
    · have h2 : ¬ (qb = db ∧ di + s.size ≤ qi ∧ qi ≤ di + s.size) := by
        rintro ⟨h3, h4⟩
        exact h1 ⟨h3, by omega⟩
      simp only [h1, h2, if_false]
  · have hk' : k < s.size := by omega
    refine ⟨?_, ?_, ?_, ?_, ?_⟩
    · simp only [string.insert, hlt, hkn, if_true, if_false]
    · simp only [string.insert, hlt, hkn, if_true, if_false, string.begin]
    · simp only [string.insert, hlt, hkn, if_true, if_false, copy_reverse,
        copy_reverse_loop_buff_pointer, allocator_traits.construct]
    · simp only [string.insert, hlt, hkn, if_true, if_false, copy_reverse,
        copy_reverse_loop_calls, allocator_traits.construct]
    · intro q
      simp only [string.insert, hlt, hkn, if_true, if_false, string.end, string.begin]
      exact insert_in_place_mem σ s.data s.size k v hk' q

theorem cis_increment_heap (self n c : Nat) (p : pointer) (h : n + 1 < 2 ^ 63) :
    string.increment_size ⟨self, U.large (large_t.ctor n c p)⟩ =
      ⟨self, U.large ⟨true, n + 1, p, c⟩⟩ := by
  have hm1 : n % 2 ^ 63 = n := Nat.mod_eq_of_lt (by omega)
  have hm : (n + 1) % 2 ^ 64 % 2 ^ 63 = n + 1 := by omega
  simp only [large_t.ctor, hm1, string.increment_size, cis_heap_is_large,
    U.get_large, large_t.set_size, large_t.size, hm, if_true]

/-- The reallocation path of `insert`. -/
theorem cis_insert_realloc (s : string) (σ : Machine) (k : Nat) (v : char) (hv : s.valid σ)
    (hfull : s.size = s.capacity) (hk : k ≤ s.size) (hc : s.capacity * 2 < 2 ^ 63) :
    (s.insert σ k v).2.1 =
      ⟨s.self, U.large ⟨true, s.size + 1, ⟨region.arena, σ.buff_pointer⟩, s.capacity * 2⟩⟩ ∧
    (s.insert σ k v).2.2 = ⟨region.arena, σ.buff_pointer + k⟩ ∧
    (s.insert σ k v).1.buff_pointer = σ.buff_pointer + s.capacity * 2 ∧
    (s.insert σ k v).1.calls =
      σ.calls ++ [call.allocate ⟨region.arena, σ.buff_pointer⟩ (s.capacity * 2)] ++
        release_call s.is_large s.data s.capacity ∧
    ∀ q : pointer, (s.insert σ k v).1.mem q =
      if q.base = region.arena ∧ σ.buff_pointer ≤ q.index ∧
          q.index < σ.buff_pointer + s.size ∧ q.index ≠ σ.buff_pointer + k then
        σ.mem ⟨s.data.base, s.data.index + (q.index - σ.buff_pointer)⟩
      else if q = ⟨region.arena, σ.buff_pointer + k⟩ then v else σ.mem q := by
  have hnlt : ¬ s.size < s.capacity := by omega
  have hb := cis_valid_bounds s σ hv
  have hmod2 : s.capacity * 2 % 2 ^ 64 = s.capacity * 2 := Nat.mod_eq_of_lt (by omega)
  have hfr := insert_realloc_frame σ s.begin s.size k (s.capacity * 2) v
  have h1 : (s.insert σ k v).2.1 =
      ⟨s.self, U.large ⟨true, s.size + 1, ⟨region.arena, σ.buff_pointer⟩, s.capacity * 2⟩⟩ := by
    simp only [string.insert, hnlt, if_false, hmod2, string.relocate]
    rw [cis_increment_heap _ _ _ _ (by omega)]
    rfl
  refine ⟨h1, ?_, ?_, ?_, ?_⟩
  · have : (s.insert σ k v).2.2 = (s.insert σ k v).2.1.begin.add k := rfl
    rw [this, h1]
    rfl
  · simp only [string.insert, hnlt, if_false, hmod2, string.end, string.relocate,
      cis_deallocate_buff_pointer]
    exact hfr.1
  · simp only [string.insert, hnlt, if_false, hmod2, string.end, string.relocate]
    rw [cis_deallocate_calls s _ σ hv, hfr.2]
  · intro q
    simp only [string.insert, hnlt, if_false, hmod2, string.end, string.relocate, cis_deallocate_mem]
    exact insert_realloc_mem σ s.begin s.size k (s.capacity * 2) v hk (cis_data_disjoint s σ hv) q

/-- The private member function `force_reserve` on a valid string. -/
theorem cis_force_reserve_spec (s : string) (σ : Machine) (c : Nat) (hv : s.valid σ) :
    (s.force_reserve σ c).2 =
      ⟨s.self, U.large ⟨true, s.size, ⟨region.arena, σ.buff_pointer⟩, c⟩⟩ ∧
    (s.force_reserve σ c).1.buff_pointer = σ.buff_pointer + c ∧
    (s.force_reserve σ c).1.calls =
      σ.calls ++ [call.allocate ⟨region.arena, σ.buff_pointer⟩ c] ++
        release_call s.is_large s.data s.capacity ∧
    ∀ q : pointer, (s.force_reserve σ c).1.mem q =
      if q.base = region.arena ∧ σ.buff_pointer ≤ q.index ∧
          q.index < σ.buff_pointer + s.size then
        σ.mem ⟨s.data.base, s.data.index + (q.index - σ.buff_pointer)⟩
      else σ.mem q := by
  have hb := cis_valid_bounds s σ hv
  have hm1 : s.size % 2 ^ 63 = s.size := Nat.mod_eq_of_lt (by omega)
  simp only [string.force_reserve, string.relocate, cis_deallocate_mem, cis_deallocate_buff_pointer,
    copy_buff_pointer, large_t.ctor, hm1]
  refine ⟨rfl, rfl, ?_, ?_⟩
  · rw [cis_deallocate_calls s _ σ hv, copy_calls]
    rfl
  · intro q
    rw [copy_mem]
    · simp only [string.end, string.begin, pointer.add, Nat.add_sub_cancel_left,
        allocator_traits.allocate, allocator.allocate]
    · rcases cis_data_disjoint s σ hv with h | h
      · exact Or.inl h
      · right; left
        simpa [string.end, string.begin, pointer.add, allocator_traits.allocate,
          allocator.allocate] using h

theorem cis_force_reserve_valid (s : string) (σ : Machine) (c : Nat) (hv : s.valid σ)
    (h1 : 23 < c) (h2 : c < 2 ^ 63) (h3 : s.size ≤ c) :
    string.valid (s.force_reserve σ c).2 (s.force_reserve σ c).1 := by
  obtain ⟨e1, e2, -, -⟩ := cis_force_reserve_spec s σ c hv
  rw [e1]
  exact cis_valid_heap _ _ _ _ _ h1 h2 h3 (by rw [e2])

theorem cis_reserve_eq (s : string) (σ : Machine) (r : Nat) (h : s.capacity < r) :
    s.reserve σ r = s.force_reserve σ r := by
  have h' : r > s.capacity := h
  simp only [string.reserve, h', if_true]

theorem cis_shrink_noop (s : string) (σ : Machine)
    (h : s.is_large = false ∨ s.capacity = s.size) : s.shrink_to_fit σ = (σ, s) := by
  have : ¬ (s.is_large = true ∧ s.capacity > s.size) := by
    rintro ⟨h1, h2⟩
    rcases h with h | h
    · rw [h] at h1; exact Bool.noConfusion h1
    · omega
  simp only [string.shrink_to_fit, this, if_false]

theorem cis_shrink_heap_eq (s : string) (σ : Machine) (h1 : s.is_large = true)
    (h2 : s.size < s.capacity) (h3 : small_buffer_capacity < s.size) :
    s.shrink_to_fit σ = s.force_reserve σ s.size := by
  have : s.is_large = true ∧ s.capacity > s.size := ⟨h1, h2⟩
  have h4 : s.size > small_buffer_capacity := h3
  simp only [string.shrink_to_fit, this, h4, and_self, if_true]

/-- The branch of `shrink_to_fit` that returns to the inline buffer: the bytes are copied, the
size is left at the 0 of the fresh `small_t`, and `deallocate` is not called. -/
theorem cis_shrink_inline_spec (s : string) (σ : Machine) (hv : s.valid σ) (h1 : s.is_large = true)
    (h2 : s.size < s.capacity) (h3 : s.size ≤ small_buffer_capacity) :
    (s.shrink_to_fit σ).2 = ⟨s.self, U.small ⟨false, 0⟩⟩ ∧
    (s.shrink_to_fit σ).1.buff_pointer = σ.buff_pointer ∧
    (s.shrink_to_fit σ).1.calls = σ.calls ∧
    ∀ q : pointer, (s.shrink_to_fit σ).1.mem q =
      if q.base = region.small s.self ∧ q.index < small_buffer_capacity then
        (if q.index < s.size then σ.mem ⟨region.arena, s.data.index + q.index⟩ else 0)
      else σ.mem q := by
  have hc : s.is_large = true ∧ s.capacity > s.size := ⟨h1, h2⟩
  have h4 : ¬ s.size > small_buffer_capacity := by omega
  rcases cis_valid_cases s σ hv with ⟨n, e, a1⟩ | ⟨n, p, c, e, a1, a2, a3, a4⟩
  · rw [e, cis_inline_is_large] at h1; exact Bool.noConfusion h1
  · simp only [string.shrink_to_fit, hc, h4, and_self, if_true, if_false, copy_buff_pointer,
      copy_calls]
    refine ⟨rfl, trivial, trivial, ?_⟩
    intro q
    obtain ⟨qb, qi⟩ := q
    have hd : s.data = ⟨region.arena, p⟩ := by rw [e]; rfl
    have hd' : s.u_.get_large.data = ⟨region.arena, p⟩ := by rw [e]; rfl
    rw [copy_mem]
    · simp only [string.small_data, hd, hd', pointer.add, zero_buffer, Nat.add_sub_cancel_left,
        Nat.zero_add, Nat.sub_zero, Nat.zero_le, true_and, small_buffer_capacity, reduceCtorEq,
        false_and, if_false]
      have h3' : s.size ≤ 23 := h3
      by_cases hq : qb = region.small s.self ∧ qi < s.size
      · have hq' : qb = region.small s.self ∧ qi < 23 := ⟨hq.1, by omega⟩
        simp only [hq, hq', and_self, if_true]
      · by_cases hq' : qb = region.small s.self ∧ qi < 23
        · have : ¬ qi < s.size := fun h => hq ⟨hq'.1, h⟩
          simp [hq', this]
        · simp only [hq, hq', if_false]
    · left
      simp [string.small_data, hd']

/-- The move assignment from a heap string. -/
theorem cis_assign_from_large (s other : string) (σ : Machine) (hs : s.valid σ)
    (h : other.is_large = true) :
    (s.operator_assign σ other).2.1 = ⟨s.self, U.large other.u_.get_large⟩ ∧
    (s.operator_assign σ other).2.2 = ⟨other.self, U.small ⟨false, 0⟩⟩ ∧
    (s.operator_assign σ other).1.buff_pointer = σ.buff_pointer ∧
    (s.operator_assign σ other).1.calls =
      σ.calls ++ release_call s.is_large s.data s.capacity ∧
    (s.operator_assign σ other).1.mem = zero_buffer σ.mem other.self small_buffer_capacity := by
  have e : s.operator_assign σ other =
      ({ s.deallocate σ with
          mem := zero_buffer (s.deallocate σ).mem other.self small_buffer_capacity },
        ⟨s.self, U.large other.u_.get_large⟩,
        ⟨other.self, U.small ⟨false, 0⟩⟩) := by
    simp only [string.operator_assign, h, if_true]
    rfl
  rw [e]
  exact ⟨rfl, rfl, cis_deallocate_buff_pointer s σ, cis_deallocate_calls s σ σ hs,
    by simp only [cis_deallocate_mem]⟩

/-- The move assignment from an inline string. -/
theorem cis_assign_from_small (s other : string) (σ : Machine) (hs : s.valid σ)
    (ho : other.valid σ) (hne : s.self ≠ other.self) (h : other.is_large = false) :
    (s.operator_assign σ other).2.1 = ⟨s.self, U.small ⟨false, other.size⟩⟩ ∧
    (s.operator_assign σ other).2.2 = other ∧
    (s.operator_assign σ other).1.buff_pointer = σ.buff_pointer ∧
    (s.operator_assign σ other).1.calls =
      σ.calls ++ release_call s.is_large s.data s.capacity ∧
    ∀ q : pointer, (s.operator_assign σ other).1.mem q =
      if q.base = region.small s.self ∧ q.index < small_buffer_capacity then
        (if q.index < other.size then σ.mem ⟨region.small other.self, q.index⟩ else 0)
      else σ.mem q := by
  rcases cis_valid_cases other σ ho with ⟨n, eo, a1⟩ | ⟨n, p, c, eo, a1, a2, a3, a4⟩
  · have hsz : other.size = n := by rw [eo]; exact cis_inline_size _ _ a1
    have hgs : other.u_.get_small.size = n := by
      have : other.size = other.u_.get_small.size := by
        simp only [string.size, h, Bool.false_eq_true, if_false]
      rw [← this, hsz]
    have hm : n % 2 ^ 7 = n := Nat.mod_eq_of_lt (by omega)
    have e : s.operator_assign σ other =
        ((copy { s.deallocate σ with
              mem := zero_buffer (s.deallocate σ).mem s.self small_buffer_capacity }
            other.small_data (other.small_data.add n) ⟨region.small s.self, 0⟩).1,
          ⟨s.self, U.small ⟨false, n⟩⟩, other) := by
      have hg : ∀ sm : small_t, (U.small sm).get_small = sm := fun _ => rfl
      simp only [string.operator_assign, h, Bool.false_eq_true, if_false, hgs, hg,
        small_t.set_size, small_t.ctor, hm]
      rfl
    rw [e, hsz]
    refine ⟨rfl, rfl, ?_, ?_, ?_⟩
    · simp only [copy_buff_pointer, cis_deallocate_buff_pointer]
    · simp only [copy_calls, cis_deallocate_calls s σ σ hs]
    intro q
    obtain ⟨qb, qi⟩ := q
    simp only []
    rw [copy_mem]
    · simp only [string.small_data, cis_deallocate_mem,
        pointer.add, zero_buffer, Nat.add_sub_cancel_left, Nat.zero_add, Nat.sub_zero,
        Nat.zero_le, true_and, small_buffer_capacity, region.small.injEq]
      have hne' : ¬ (other.self = s.self) := fun e => hne e.symm
      by_cases hq : qb = region.small s.self ∧ qi < n
      · have hq' : qb = region.small s.self ∧ qi < 23 := ⟨hq.1, by omega⟩
        simp only [hq, hq', hne', and_self, if_true, false_and, if_false]
      · by_cases hq' : qb = region.small s.self ∧ qi < 23
        · have : ¬ qi < n := fun h => hq ⟨hq'.1, h⟩
          simp [hq', this]
        · simp only [hq, hq', if_false]
    · left
      simp only [string.small_data, ne_eq, region.small.injEq]
      exact fun e => hne e.symm
  · rw [eo, cis_heap_is_large] at h; exact Bool.noConfusion h

theorem cis_insert_in_place_law (s : string) (σ : Machine) (k : Nat) (v : char) (hv : s.valid σ)
    (hlt : s.size < s.capacity) (hk : k ≤ s.size) :
    string.valid (s.insert σ k v).2.1 (s.insert σ k v).1 ∧
    (s.insert σ k v).2.1.self = s.self ∧
    (s.insert σ k v).2.1.is_large = s.is_large ∧
    (s.insert σ k v).2.1.data = s.data ∧
    (s.insert σ k v).2.1.size = s.size + 1 ∧
    (s.insert σ k v).2.1.capacity = s.capacity ∧
    (s.insert σ k v).2.2 = s.data.add k := by
  obtain ⟨h1, h2, h3, -, -⟩ := cis_insert_in_place s σ k v hlt hk
  obtain ⟨i1, i2, i3, i4, i5, i6⟩ := cis_increment_size_spec s σ hv hlt
  rw [h2, h1, i4]
  exact ⟨cis_valid_mono _ σ _ i1 (by rw [h3]), i2, i3, rfl, i5, i6, rfl⟩

theorem cis_pop_back_law (s : string) (σ : Machine) (hv : s.valid σ) (h : 0 < s.size) :
    string.valid (s.pop_back σ).2 (s.pop_back σ).1 ∧
    string.self (s.pop_back σ).2 = s.self ∧
    string.is_large (s.pop_back σ).2 = s.is_large ∧
    string.data (s.pop_back σ).2 = s.data ∧
    string.size (s.pop_back σ).2 = s.size - 1 ∧
    string.capacity (s.pop_back σ).2 = s.capacity ∧
    (s.pop_back σ).1 = σ := by
  obtain ⟨i1, i2, i3, i4, i5, i6⟩ := cis_decrement_size_spec s σ hv h
  exact ⟨i1, i2, i3, i4, i5, i6, rfl⟩

/-- The class `string` of `clang-common-initial-subsequence.cpp` satisfies the laws. -/
theorem cis_impl_laws : laws string small_buffer_capacity string.ctor string.ctor_move
    string.operator_assign string.reserve string.shrink_to_fit string.insert string.pop_back
    string.self string.is_large string.data string.size string.capacity string.valid where
  small_pos := by decide
  valid_size := fun s σ hv => ⟨(cis_valid_bounds s σ hv).2.1, (cis_valid_bounds s σ hv).2.2⟩
  valid_small := by
    intro s σ hv h
    rcases cis_valid_cases s σ hv with ⟨n, e, a1⟩ | ⟨n, p, c, e, a1, a2, a3, a4⟩
    · rw [e]; exact ⟨rfl, rfl⟩
    · rw [e, cis_heap_is_large] at h; exact Bool.noConfusion h
  valid_large := by
    intro s σ hv h
    rcases cis_valid_cases s σ hv with ⟨n, e, a1⟩ | ⟨n, p, c, e, a1, a2, a3, a4⟩
    · rw [e, cis_inline_is_large] at h; exact Bool.noConfusion h
    · rw [e]; exact ⟨a1, rfl, a4⟩
  valid_mono := cis_valid_mono
  ctor_spec := fun σ self =>
    ⟨cis_valid_inline self 0 _ (by omega), rfl, rfl, rfl, rfl, rfl, rfl⟩
  ctor_move_eq := fun _ _ _ => rfl
  insert_in_place := by
    intro s σ k v hv hlt hk
    obtain ⟨-, -, h3, h4, h5⟩ := cis_insert_in_place s σ k v hlt hk
    obtain ⟨l1, l2, l3, l4, l5, l6, l7⟩ := cis_insert_in_place_law s σ k v hv hlt hk
    exact ⟨l1, l2, l3, l4, l5, l6, l7, h3, h4, h5⟩
  insert_realloc := by
    intro s σ k v hv hfull hk hc
    obtain ⟨h1, h2, h3, h4, h5⟩ := cis_insert_realloc s σ k v hv hfull hk hc
    have hb := cis_valid_bounds s σ hv
    have hv' : string.valid (s.insert σ k v).2.1 (s.insert σ k v).1 := by
      rw [h1]
      exact cis_valid_heap _ _ _ _ _ (by omega) hc (by omega) (by rw [h3])
    exact ⟨hv', (congrArg string.self h1 :), (congrArg string.is_large h1 :),
      (congrArg string.data h1 :), (congrArg string.size h1 :),
      (congrArg string.capacity h1 :), h2, h3, h4, h5⟩
  pop_back_spec := fun s σ hv h => cis_pop_back_law s σ hv h
  reserve_small := by
    intro s σ r h
    have h' : ¬ r > s.capacity := Nat.not_lt.mpr h
    show s.reserve σ r = (σ, s)
    simp only [string.reserve, h', if_false]
  reserve_grow := by
    intro s σ r hv hlt hr
    have e : string.reserve s σ r = s.force_reserve σ r := cis_reserve_eq s σ r hlt
    obtain ⟨h1, h2, h3, h4⟩ := cis_force_reserve_spec s σ r hv
    have hb := cis_valid_bounds s σ hv
    have hlt' : s.capacity < r := hlt
    have hv' : string.valid (s.reserve σ r).2 (s.reserve σ r).1 := by
      rw [e]
      exact cis_force_reserve_valid s σ r hv (by omega) hr (by omega)
    have e2 := (congrArg Prod.snd e).trans h1
    exact ⟨hv', (congrArg string.self e2 :), (congrArg string.is_large e2 :),
      (congrArg string.data e2 :), (congrArg string.size e2 :),
      (congrArg string.capacity e2 :),
      ((congrArg (fun r => r.1.buff_pointer) e).trans h2 :),
      ((congrArg (fun r => r.1.calls) e).trans h3 :),
      fun q => ((congrArg (fun r => r.1.mem q) e).trans (h4 q) :)⟩
  shrink_noop := fun s σ _ h => cis_shrink_noop s σ h
  shrink_heap := by
    intro s σ hv hl hlt hn
    have e : string.shrink_to_fit s σ = s.force_reserve σ s.size := cis_shrink_heap_eq s σ hl hlt hn
    obtain ⟨h1, h2, h3, h4⟩ := cis_force_reserve_spec s σ s.size hv
    have hb := cis_valid_bounds s σ hv
    have hn' : 23 < s.size := hn
    have hlt' : s.size < s.capacity := hlt
    have hv' : string.valid (s.shrink_to_fit σ).2 (s.shrink_to_fit σ).1 := by
      rw [e]
      exact cis_force_reserve_valid s σ _ hv hn' (by omega) (Nat.le_refl _)
    have e2 := (congrArg Prod.snd e).trans h1
    exact ⟨hv', (congrArg string.self e2 :), (congrArg string.is_large e2 :),
      (congrArg string.data e2 :), (congrArg string.size e2 :),
      (congrArg string.capacity e2 :),
      ((congrArg (fun r => r.1.buff_pointer) e).trans h2 :),
      ((congrArg (fun r => r.1.calls) e).trans h3 :),
      fun q => ((congrArg (fun r => r.1.mem q) e).trans (h4 q) :)⟩
  shrink_inline := by
    intro s σ hv hl hlt hn
    obtain ⟨h1, h2, _, h4⟩ := cis_shrink_inline_spec s σ hv hl hlt hn
    have hv' : string.valid (s.shrink_to_fit σ).2 (s.shrink_to_fit σ).1 := by
      rw [h1]; exact cis_valid_inline _ _ _ (by omega)
    exact ⟨hv', (congrArg string.self h1 :), (congrArg string.is_large h1 :), h2, h4⟩
  assign_from_large := by
    intro s σ other hs ho _ hl
    obtain ⟨h1, h2, h3, h4, h5⟩ := cis_assign_from_large s other σ hs hl
    rcases cis_valid_cases other σ ho with ⟨n, e, a1⟩ | ⟨n, p, c, e, a1, a2, a3, a4⟩
    · rw [e, cis_inline_is_large] at hl; exact Bool.noConfusion hl
    · have hg : other.u_.get_large = ⟨true, n, ⟨region.arena, p⟩, c⟩ := by rw [e]; rfl
      rw [hg] at h1
      have hv1 : string.valid (s.operator_assign σ other).2.1 (s.operator_assign σ other).1 := by
        rw [h1]; exact cis_valid_heap _ _ _ _ _ a1 a2 a3 (by rw [h3]; exact a4)
      have hv2 : string.valid (s.operator_assign σ other).2.2 (s.operator_assign σ other).1 := by
        rw [h2]; exact cis_valid_inline _ _ _ (by omega)
      have d1 : other.data = ⟨region.arena, p⟩ := by rw [e]; rfl
      have d2 : other.size = n := by rw [e]; rfl
      have d3 : other.capacity = c := by rw [e]; rfl
      exact ⟨hv1, hv2, (congrArg string.self h1 :), (congrArg string.self h2 :),
        (congrArg string.is_large h1 :),
        ((congrArg string.data h1).trans d1.symm :),
        ((congrArg string.size h1).trans d2.symm :),
        ((congrArg string.capacity h1).trans d3.symm :),
        (congrArg string.is_large h2 :),
        (congrArg string.size h2 :), h3, h4, h5⟩
  assign_from_small := by
    intro s σ other hs ho hne hl
    obtain ⟨h1, h2, h3, h4, h5⟩ := cis_assign_from_small s other σ hs ho hne hl
    have hsz : other.size ≤ 23 := by
      rcases cis_valid_cases other σ ho with ⟨n, e, a1⟩ | ⟨n, p, c, e, a1, a2, a3, a4⟩
      · rw [e, cis_inline_size _ _ a1]; exact a1
      · rw [e, cis_heap_is_large] at hl; exact Bool.noConfusion hl
    have hv1 : string.valid (s.operator_assign σ other).2.1 (s.operator_assign σ other).1 := by
      rw [h1]; exact cis_valid_inline _ _ _ hsz
    exact ⟨hv1, h2, (congrArg string.self h1 :), (congrArg string.is_large h1 :),
      ((congrArg string.size h1).trans (cis_inline_size _ _ hsz) :), h3, h4, h5⟩

end clang_common_initial_subsequence

/-! ## `clang-bit-field.cpp`: the operations on valid strings -/

namespace clang_bit_field

/-- One step of the loop of `capacity`: the shifted value has its low byte clear, so `|=`
adds the byte. -/
theorem bf_shift_or_byte (r b : Nat) (hb : b < 2 ^ 8) :
    ((r * 2 ^ 8) % 2 ^ 64) ||| b = (r * 2 ^ 8) % 2 ^ 64 + b := by
  have h1 : (r * 2 ^ 8) % 2 ^ 64 = 2 ^ 8 * (r % 2 ^ 56) := by omega
  rw [h1]
  exact (Nat.mul_add_lt_is_or hb _).symm

/-- The value that `capacity` decodes from the 7-bit field and the 7 capacity bytes. -/
theorem bf_decode_eq (x b0 b1 b2 b3 b4 b5 b6 : Nat) (hx : x < 2 ^ 7) (h0 : b0 < 2 ^ 8)
    (h1 : b1 < 2 ^ 8) (h2 : b2 < 2 ^ 8) (h3 : b3 < 2 ^ 8) (h4 : b4 < 2 ^ 8) (h5 : b5 < 2 ^ 8)
    (h6 : b6 < 2 ^ 8) :
    [b0, b1, b2, b3, b4, b5, b6].foldl
      (fun result byte => ((result * 2 ^ 8) % 2 ^ 64) ||| byte) x =
    ((((((x * 256 + b0) * 256 + b1) * 256 + b2) * 256 + b3) * 256 + b4) * 256 + b5) * 256 + b6 := by
  simp only [List.foldl]
  rw [bf_shift_or_byte _ _ h0, bf_shift_or_byte _ _ h1, bf_shift_or_byte _ _ h2, bf_shift_or_byte _ _ h3,
    bf_shift_or_byte _ _ h4, bf_shift_or_byte _ _ h5, bf_shift_or_byte _ _ h6]
  omega

theorem bf_fill_seven (c : Nat) :
    large_t.fill 7 c =
      [c / 256 / 256 / 256 / 256 / 256 / 256 % 256, c / 256 / 256 / 256 / 256 / 256 % 256,
        c / 256 / 256 / 256 / 256 % 256, c / 256 / 256 / 256 % 256, c / 256 / 256 % 256,
        c / 256 % 256, c % 256] := by
  simp [large_t.fill]

/-- The packed capacity round trip: what `relocate` stores, `capacity` reads back. -/
theorem bf_capacity_relocated (self n c : Nat) (p : pointer) (hc : c < 2 ^ 63) :
    string.capacity ⟨self, true, (c / 2 ^ (8 * 7)) % 2 ^ 7, U.large (large_t.ctor n c p)⟩ = c := by
  simp only [string.capacity, string.is_large, Bool.not_true, Bool.false_eq_true, if_false,
    U.get_large, large_t.ctor, large_t.bytes_remaining, bf_fill_seven]
  rw [bf_decode_eq _ _ _ _ _ _ _ _ (by omega) (by omega) (by omega) (by omega) (by omega)
    (by omega) (by omega) (by omega)]
  omega

theorem bf_inline_is_large (self n : Nat) : string.is_large ⟨self, false, n, U.small⟩ = false := rfl

theorem bf_inline_size (self n : Nat) : string.size ⟨self, false, n, U.small⟩ = n := rfl

theorem bf_inline_capacity (self n : Nat) : string.capacity ⟨self, false, n, U.small⟩ = 23 := rfl

theorem bf_inline_data (self n : Nat) :
    string.data ⟨self, false, n, U.small⟩ = ⟨region.small self, 0⟩ := rfl

theorem bf_heap_is_large (self x : Nat) (l : large_t) :
    string.is_large ⟨self, true, x, U.large l⟩ = true := rfl

theorem bf_heap_size (self x : Nat) (l : large_t) :
    string.size ⟨self, true, x, U.large l⟩ = l.size := rfl

theorem bf_heap_data (self x : Nat) (l : large_t) :
    string.data ⟨self, true, x, U.large l⟩ = l.data := rfl

/-- The capacity of a heap string is read from the 7-bit field and the capacity bytes only. -/
theorem bf_heap_capacity_congr (self self' x n n' : Nat) (bytes : List Nat) (p p' : pointer) :
    string.capacity ⟨self, true, x, U.large ⟨bytes, n, p⟩⟩ =
      string.capacity ⟨self', true, x, U.large ⟨bytes, n', p'⟩⟩ := rfl

theorem bf_decode_lt (x : Nat) (bytes : List Nat) (hx : x < 2 ^ 7) (hl : bytes.length = 7)
    (hb : ∀ b ∈ bytes, b < 2 ^ 8) :
    bytes.foldl (fun result byte => ((result * 2 ^ 8) % 2 ^ 64) ||| byte) x < 2 ^ 63 := by
  match bytes, hl with
  | [b0, b1, b2, b3, b4, b5, b6], _ =>
    have h0 := hb b0 (by simp)
    have h1 := hb b1 (by simp)
    have h2 := hb b2 (by simp)
    have h3 := hb b3 (by simp)
    have h4 := hb b4 (by simp)
    have h5 := hb b5 (by simp)
    have h6 := hb b6 (by simp)
    rw [bf_decode_eq x b0 b1 b2 b3 b4 b5 b6 hx h0 h1 h2 h3 h4 h5 h6]
    omega

theorem bf_valid_cases (s : string) (σ : Machine) (h : s.valid σ) :
    (∃ n, s = ⟨s.self, false, n, U.small⟩ ∧ n ≤ 23) ∨
    (∃ x bytes n p, s = ⟨s.self, true, x, U.large ⟨bytes, n, ⟨region.arena, p⟩⟩⟩ ∧
      23 < s.capacity ∧ s.capacity < 2 ^ 63 ∧ n ≤ s.capacity ∧
      p + s.capacity ≤ σ.buff_pointer ∧ bytes.length = 7 ∧ (∀ b ∈ bytes, b < 2 ^ 8) ∧
      x < 2 ^ 7) := by
  obtain ⟨self, f, x, u⟩ := s
  cases u with
  | small =>
    left
    simp only [string.valid, small_buffer_capacity] at h
    obtain ⟨rfl, h2⟩ := h
    exact ⟨x, rfl, h2⟩
  | large l =>
    right
    obtain ⟨bytes, n, ⟨db, di⟩⟩ := l
    simp only [string.valid, small_buffer_capacity, large_t.bytes_remaining] at h
    obtain ⟨rfl, rfl, h3, h4, h5, h6, h7, h8⟩ := h
    refine ⟨x, bytes, n, di, rfl, h6, ?_, h7, h8, h3, h4, h5⟩
    exact bf_decode_lt x bytes h5 h3 h4

theorem bf_valid_inline (self n : Nat) (σ : Machine) (h : n ≤ 23) :
    string.valid ⟨self, false, n, U.small⟩ σ := by
  simp only [string.valid, small_buffer_capacity]
  exact ⟨trivial, h⟩

theorem bf_valid_heap (self x n p : Nat) (bytes : List Nat) (σ : Machine)
    (hl : bytes.length = 7) (hb : ∀ b ∈ bytes, b < 2 ^ 8) (hx : x < 2 ^ 7)
    (h1 : 23 < string.capacity ⟨self, true, x, U.large ⟨bytes, n, ⟨region.arena, p⟩⟩⟩)
    (h3 : n ≤ string.capacity ⟨self, true, x, U.large ⟨bytes, n, ⟨region.arena, p⟩⟩⟩)
    (h4 : p + string.capacity ⟨self, true, x, U.large ⟨bytes, n, ⟨region.arena, p⟩⟩⟩ ≤
      σ.buff_pointer) :
    string.valid ⟨self, true, x, U.large ⟨bytes, n, ⟨region.arena, p⟩⟩⟩ σ := by
  simp only [string.valid, small_buffer_capacity, large_t.bytes_remaining]
  exact ⟨trivial, trivial, hl, hb, hx, h1, h3, h4⟩

theorem bf_fill_length (c : Nat) : (large_t.fill 7 c).length = 7 := by
  rw [bf_fill_seven]; rfl

theorem bf_fill_lt (c : Nat) : ∀ b ∈ large_t.fill 7 c, b < 2 ^ 8 := by
  rw [bf_fill_seven]
  intro b hb
  simp only [List.mem_cons, List.mem_singleton, List.not_mem_nil, or_false] at hb
  rcases hb with h | h | h | h | h | h | h <;> omega

/-- The string that `relocate` leaves behind is valid. -/
theorem bf_valid_relocated (self n c p : Nat) (σ : Machine) (h1 : 23 < c) (h2 : c < 2 ^ 63)
    (h3 : n ≤ c) (h4 : p + c ≤ σ.buff_pointer) :
    string.valid
      ⟨self, true, (c / 2 ^ (8 * 7)) % 2 ^ 7, U.large (large_t.ctor n c ⟨region.arena, p⟩)⟩ σ := by
  have hc := bf_capacity_relocated self n c ⟨region.arena, p⟩ h2
  simp only [large_t.ctor, large_t.bytes_remaining] at hc ⊢
  apply bf_valid_heap
  · exact bf_fill_length c
  · exact bf_fill_lt c
  · omega
  · rw [hc]; exact h1
  · rw [hc]; exact h3
  · rw [hc]; exact h4

theorem bf_valid_mono (s : string) (σ σ' : Machine) (hv : s.valid σ)
    (h : σ.buff_pointer ≤ σ'.buff_pointer) : s.valid σ' := by
  rcases bf_valid_cases s σ hv with ⟨n, e, h1⟩ | ⟨x, bytes, n, p, e, h1, h2, h3, h4, h5, h6, h7⟩
  · rw [e]; exact bf_valid_inline _ _ _ h1
  · rw [e] at h1 h3 h4 ⊢
    exact bf_valid_heap _ _ _ _ _ _ h5 h6 h7 h1 h3 (by omega)

theorem bf_valid_bounds (s : string) (σ : Machine) (hv : s.valid σ) :
    23 ≤ s.capacity ∧ s.size ≤ s.capacity ∧ s.capacity < 2 ^ 63 := by
  rcases bf_valid_cases s σ hv with ⟨n, e, h1⟩ | ⟨x, bytes, n, p, e, h1, h2, h3, h4, h5, h6, h7⟩
  · rw [e, bf_inline_size, bf_inline_capacity]; omega
  · have : s.size = n := by rw [e]; rfl
    omega

theorem bf_deallocate_mem (s : string) (σ : Machine) : (s.deallocate σ).mem = σ.mem := by
  unfold string.deallocate; split <;> rfl

theorem bf_deallocate_buff_pointer (s : string) (σ : Machine) :
    (s.deallocate σ).buff_pointer = σ.buff_pointer := by
  unfold string.deallocate; split <;> rfl

theorem bf_deallocate_calls (s : string) (σ σ' : Machine) (hv : s.valid σ') :
    (s.deallocate σ).calls = σ.calls ++ release_call s.is_large s.data s.capacity := by
  rcases bf_valid_cases s σ' hv with ⟨n, e, h1⟩ | ⟨x, bytes, n, p, e, h1, h2, h3, h4, h5, h6, h7⟩
  · rw [e]
    simp only [string.deallocate, release_call, bf_inline_is_large, Bool.false_eq_true, if_false,
      List.append_nil]
  · rw [e]; rfl

theorem bf_data_disjoint (s : string) (σ : Machine) (hv : s.valid σ) :
    s.data.base ≠ region.arena ∨ s.data.index + s.size ≤ σ.buff_pointer := by
  rcases bf_valid_cases s σ hv with ⟨n, e, h1⟩ | ⟨x, bytes, n, p, e, h1, h2, h3, h4, h5, h6, h7⟩
  · left; rw [e, bf_inline_data]; simp
  · right
    have e1 : s.data = ⟨region.arena, p⟩ := by rw [e]; rfl
    have e2 : s.size = n := by rw [e]; rfl
    rw [e1, e2]; simp only; omega

theorem bf_increment_size_spec (s : string) (σ : Machine) (hv : s.valid σ)
    (hlt : s.size < s.capacity) :
    s.increment_size.valid σ ∧ s.increment_size.self = s.self ∧
    s.increment_size.is_large = s.is_large ∧ s.increment_size.data = s.data ∧
    s.increment_size.size = s.size + 1 ∧ s.increment_size.capacity = s.capacity := by
  rcases bf_valid_cases s σ hv with ⟨n, e, h1⟩ | ⟨x, bytes, n, p, e, h1, h2, h3, h4, h5, h6, h7⟩
  · rw [e] at hlt ⊢
    rw [bf_inline_size, bf_inline_capacity] at hlt
    have e2 : string.increment_size ⟨s.self, false, n, U.small⟩ =
        ⟨s.self, false, n + 1, U.small⟩ := by
      have hm : (n + 1) % 2 ^ 7 = n + 1 := by omega
      simp only [string.increment_size, bf_inline_is_large, hm, Bool.false_eq_true, if_false]
    rw [e2]
    exact ⟨bf_valid_inline _ _ _ (by omega), rfl, rfl, rfl, rfl, rfl⟩
  · rw [e] at hlt h1 h2 h3 h4 ⊢
    rw [bf_heap_size] at hlt
    have e2 : string.increment_size ⟨s.self, true, x, U.large ⟨bytes, n, ⟨region.arena, p⟩⟩⟩ =
        ⟨s.self, true, x, U.large ⟨bytes, n + 1, ⟨region.arena, p⟩⟩⟩ := by
      have hm : (n + 1) % 2 ^ 64 = n + 1 := by simp only at hlt; omega
      simp only [string.increment_size, bf_heap_is_large, U.get_large, hm, if_true]
    rw [e2]
    refine ⟨bf_valid_heap _ _ _ _ _ _ h5 h6 h7 h1 ?_ h4, rfl, rfl, rfl, rfl, rfl⟩
    rw [bf_heap_capacity_congr _ s.self x _ n bytes _ ⟨region.arena, p⟩]
    simp only at hlt
    omega

theorem bf_decrement_size_spec (s : string) (σ : Machine) (hv : s.valid σ) (hpos : 0 < s.size) :
    s.decrement_size.valid σ ∧ s.decrement_size.self = s.self ∧
    s.decrement_size.is_large = s.is_large ∧ s.decrement_size.data = s.data ∧
    s.decrement_size.size = s.size - 1 ∧ s.decrement_size.capacity = s.capacity := by
  rcases bf_valid_cases s σ hv with ⟨n, e, h1⟩ | ⟨x, bytes, n, p, e, h1, h2, h3, h4, h5, h6, h7⟩
  · rw [e] at hpos ⊢
    rw [bf_inline_size] at hpos
    have e2 : string.decrement_size ⟨s.self, false, n, U.small⟩ =
        ⟨s.self, false, n - 1, U.small⟩ := by
      have hm : (n + 2 ^ 7 - 1) % 2 ^ 7 = n - 1 := by omega
      simp only [string.decrement_size, bf_inline_is_large, hm, Bool.false_eq_true, if_false]
    rw [e2]
    exact ⟨bf_valid_inline _ _ _ (by omega), rfl, rfl, rfl, rfl, rfl⟩
  · rw [e] at hpos h1 h2 h3 h4 ⊢
    rw [bf_heap_size] at hpos
    have e2 : string.decrement_size ⟨s.self, true, x, U.large ⟨bytes, n, ⟨region.arena, p⟩⟩⟩ =
        ⟨s.self, true, x, U.large ⟨bytes, n - 1, ⟨region.arena, p⟩⟩⟩ := by
      have hm : (n + 2 ^ 64 - 1) % 2 ^ 64 = n - 1 := by simp only at hpos; omega
      simp only [string.decrement_size, bf_heap_is_large, U.get_large, hm, if_true]
    rw [e2]
    refine ⟨bf_valid_heap _ _ _ _ _ _ h5 h6 h7 h1 ?_ h4, rfl, rfl, rfl, rfl, rfl⟩
    rw [bf_heap_capacity_congr _ s.self x _ n bytes _ ⟨region.arena, p⟩]
    omega

/-- The in-place path of `insert`. -/
theorem bf_insert_in_place (s : string) (σ : Machine) (k : Nat) (v : char)
    (hlt : s.size < s.capacity) (hk : k ≤ s.size) :
    (s.insert σ k v).2.1 = s.increment_size ∧
    (s.insert σ k v).2.2 = s.increment_size.data.add k ∧
    (s.insert σ k v).1.buff_pointer = σ.buff_pointer ∧
    (s.insert σ k v).1.calls = σ.calls ∧
    ∀ q : pointer, (s.insert σ k v).1.mem q =
      if q.base = s.data.base ∧ s.data.index + k ≤ q.index ∧ q.index ≤ s.data.index + s.size then
        (if q.index = s.data.index + k then v else σ.mem ⟨s.data.base, q.index - 1⟩)
      else σ.mem q := by
  by_cases hkn : k = s.size
  · subst hkn
    refine ⟨?_, ?_, ?_, ?_, ?_⟩
    · simp only [string.insert, hlt, if_true]
    · simp only [string.insert, hlt, if_true, string.begin]
    · simp only [string.insert, hlt, if_true, allocator_traits.construct]
    · simp only [string.insert, hlt, if_true, allocator_traits.construct]
    simp only [string.insert, hlt, if_true, string.begin, allocator_traits.construct, store]
    intro q
    obtain ⟨qb, qi⟩ := q
    generalize s.data = d
    obtain ⟨db, di⟩ := d
    simp only [pointer.add, pointer.mk.injEq]
    by_cases h1 : qb = db ∧ qi = di + s.size
    · obtain ⟨rfl, rfl⟩ := h1
      simp
    · have h2 : ¬ (qb = db ∧ di + s.size ≤ qi ∧ qi ≤ di + s.size) := by
        rintro ⟨h3, h4⟩
        exact h1 ⟨h3, by omega⟩
      simp only [h1, h2, if_false]
  · have hk' : k < s.size := by omega
    refine ⟨?_, ?_, ?_, ?_, ?_⟩
    · simp only [string.insert, hlt, hkn, if_true, if_false]
    · simp only [string.insert, hlt, hkn, if_true, if_false, string.begin]
    · simp only [string.insert, hlt, hkn, if_true, if_false, copy_reverse,
        copy_reverse_loop_buff_pointer, allocator_traits.construct]
    · simp only [string.insert, hlt, hkn, if_true, if_false, copy_reverse,
        copy_reverse_loop_calls, allocator_traits.construct]
    · intro q
      simp only [string.insert, hlt, hkn, if_true, if_false, string.end, string.begin]
      exact insert_in_place_mem σ s.data s.size k v hk' q

theorem bf_increment_relocated (self n c x : Nat) (p : pointer) (h : n + 1 < 2 ^ 63) :
    string.increment_size ⟨self, true, x, U.large (large_t.ctor n c p)⟩ =
      ⟨self, true, x, U.large (large_t.ctor (n + 1) c p)⟩ := by
  have hm : (n + 1) % 2 ^ 64 = n + 1 := Nat.mod_eq_of_lt (by omega)
  simp only [large_t.ctor, string.increment_size, bf_heap_is_large, U.get_large, hm, if_true]

/-- The reallocation path of `insert`. -/
theorem bf_insert_realloc (s : string) (σ : Machine) (k : Nat) (v : char) (hv : s.valid σ)
    (hfull : s.size = s.capacity) (hk : k ≤ s.size) (hc : s.capacity * 2 < 2 ^ 63) :
    (s.insert σ k v).2.1 =
      ⟨s.self, true, (s.capacity * 2 / 2 ^ (8 * 7)) % 2 ^ 7,
        U.large (large_t.ctor (s.size + 1) (s.capacity * 2) ⟨region.arena, σ.buff_pointer⟩)⟩ ∧
    (s.insert σ k v).2.2 = ⟨region.arena, σ.buff_pointer + k⟩ ∧
    (s.insert σ k v).1.buff_pointer = σ.buff_pointer + s.capacity * 2 ∧
    (s.insert σ k v).1.calls =
      σ.calls ++ [call.allocate ⟨region.arena, σ.buff_pointer⟩ (s.capacity * 2)] ++
        release_call s.is_large s.data s.capacity ∧
    ∀ q : pointer, (s.insert σ k v).1.mem q =
      if q.base = region.arena ∧ σ.buff_pointer ≤ q.index ∧
          q.index < σ.buff_pointer + s.size ∧ q.index ≠ σ.buff_pointer + k then
        σ.mem ⟨s.data.base, s.data.index + (q.index - σ.buff_pointer)⟩
      else if q = ⟨region.arena, σ.buff_pointer + k⟩ then v else σ.mem q := by
  have hnlt : ¬ s.size < s.capacity := by omega
  have hb := bf_valid_bounds s σ hv
  have hmod2 : s.capacity * 2 % 2 ^ 64 = s.capacity * 2 := Nat.mod_eq_of_lt (by omega)
  have hfr := insert_realloc_frame σ s.begin s.size k (s.capacity * 2) v
  have h1 : (s.insert σ k v).2.1 =
      ⟨s.self, true, (s.capacity * 2 / 2 ^ (8 * 7)) % 2 ^ 7,
        U.large (large_t.ctor (s.size + 1) (s.capacity * 2) ⟨region.arena, σ.buff_pointer⟩)⟩ := by
    simp only [string.insert, hnlt, if_false, hmod2, string.relocate]
    rw [bf_increment_relocated _ _ _ _ _ (by omega)]
    rfl
  refine ⟨h1, ?_, ?_, ?_, ?_⟩
  · have : (s.insert σ k v).2.2 = (s.insert σ k v).2.1.begin.add k := rfl
    rw [this, h1]
    rfl
  · simp only [string.insert, hnlt, if_false, hmod2, string.end, string.relocate,
      bf_deallocate_buff_pointer]
    exact hfr.1
  · simp only [string.insert, hnlt, if_false, hmod2, string.end, string.relocate]
    rw [bf_deallocate_calls s _ σ hv, hfr.2]
  · intro q
    simp only [string.insert, hnlt, if_false, hmod2, string.end, string.relocate, bf_deallocate_mem]
    exact insert_realloc_mem σ s.begin s.size k (s.capacity * 2) v hk (bf_data_disjoint s σ hv) q

/-- The private member function `force_reserve` on a valid string. -/
theorem bf_force_reserve_spec (s : string) (σ : Machine) (c : Nat) (hv : s.valid σ) :
    (s.force_reserve σ c).2 =
      ⟨s.self, true, (c / 2 ^ (8 * 7)) % 2 ^ 7,
        U.large (large_t.ctor s.size c ⟨region.arena, σ.buff_pointer⟩)⟩ ∧
    (s.force_reserve σ c).1.buff_pointer = σ.buff_pointer + c ∧
    (s.force_reserve σ c).1.calls =
      σ.calls ++ [call.allocate ⟨region.arena, σ.buff_pointer⟩ c] ++
        release_call s.is_large s.data s.capacity ∧
    ∀ q : pointer, (s.force_reserve σ c).1.mem q =
      if q.base = region.arena ∧ σ.buff_pointer ≤ q.index ∧
          q.index < σ.buff_pointer + s.size then
        σ.mem ⟨s.data.base, s.data.index + (q.index - σ.buff_pointer)⟩
      else σ.mem q := by
  simp only [string.force_reserve, string.relocate, bf_deallocate_mem, bf_deallocate_buff_pointer,
    copy_buff_pointer]
  refine ⟨rfl, rfl, ?_, ?_⟩
  · rw [bf_deallocate_calls s _ σ hv, copy_calls]
    rfl
  · intro q
    rw [copy_mem]
    · simp only [string.end, string.begin, pointer.add, Nat.add_sub_cancel_left,
        allocator_traits.allocate, allocator.allocate]
    · rcases bf_data_disjoint s σ hv with h | h
      · exact Or.inl h
      · right; left
        simpa [string.end, string.begin, pointer.add, allocator_traits.allocate,
          allocator.allocate] using h

theorem bf_force_reserve_valid (s : string) (σ : Machine) (c : Nat) (hv : s.valid σ)
    (h1 : 23 < c) (h2 : c < 2 ^ 63) (h3 : s.size ≤ c) :
    string.valid (s.force_reserve σ c).2 (s.force_reserve σ c).1 := by
  obtain ⟨e1, e2, -, -⟩ := bf_force_reserve_spec s σ c hv
  rw [e1]
  exact bf_valid_relocated _ _ _ _ _ h1 h2 h3 (by rw [e2])

theorem bf_reserve_eq (s : string) (σ : Machine) (r : Nat) (h : s.capacity < r) :
    s.reserve σ r = s.force_reserve σ r := by
  have h' : r > s.capacity := h
  simp only [string.reserve, h', if_true]

theorem bf_shrink_noop (s : string) (σ : Machine)
    (h : s.is_large = false ∨ s.capacity = s.size) : s.shrink_to_fit σ = (σ, s) := by
  have : ¬ (s.is_large = true ∧ s.capacity > s.size) := by
    rintro ⟨h1, h2⟩
    rcases h with h | h
    · rw [h] at h1; exact Bool.noConfusion h1
    · omega
  simp only [string.shrink_to_fit, this, if_false]

theorem bf_shrink_heap_eq (s : string) (σ : Machine) (h1 : s.is_large = true)
    (h2 : s.size < s.capacity) (h3 : small_buffer_capacity < s.size) :
    s.shrink_to_fit σ = s.force_reserve σ s.size := by
  have : s.is_large = true ∧ s.capacity > s.size := ⟨h1, h2⟩
  have h4 : s.size > small_buffer_capacity := h3
  simp only [string.shrink_to_fit, this, h4, and_self, if_true]

/-- The branch of `shrink_to_fit` that returns to the inline buffer. -/
theorem bf_shrink_inline_spec (s : string) (σ : Machine) (hv : s.valid σ) (h1 : s.is_large = true)
    (h2 : s.size < s.capacity) (h3 : s.size ≤ small_buffer_capacity) :
    (s.shrink_to_fit σ).2 = ⟨s.self, false, s.size, U.small⟩ ∧
    (s.shrink_to_fit σ).1.buff_pointer = σ.buff_pointer ∧
    (s.shrink_to_fit σ).1.calls = σ.calls ++ [call.deallocate s.data s.capacity] ∧
    ∀ q : pointer, (s.shrink_to_fit σ).1.mem q =
      if q.base = region.small s.self ∧ q.index < small_buffer_capacity then
        (if q.index < s.size then σ.mem ⟨region.arena, s.data.index + q.index⟩ else 0)
      else σ.mem q := by
  have hc : s.is_large = true ∧ s.capacity > s.size := ⟨h1, h2⟩
  have h4 : ¬ s.size > small_buffer_capacity := by omega
  have h3' : s.size ≤ 23 := h3
  have hm : s.size % 2 ^ 7 = s.size := Nat.mod_eq_of_lt (by omega)
  rcases bf_valid_cases s σ hv with ⟨n, e, a1⟩ | ⟨x, bytes, n, p, e, a1, a2, a3, a4, a5, a6, a7⟩
  · rw [e, bf_inline_is_large] at h1; exact Bool.noConfusion h1
  · have hd : s.data = ⟨region.arena, p⟩ := by rw [e]; rfl
    have hd' : s.u_.get_large.data = ⟨region.arena, p⟩ := by rw [e]; rfl
    refine ⟨?_, ?_, ?_, ?_⟩
    · simp only [string.shrink_to_fit, hc, h4, and_self, if_true, if_false, hm]
    · simp only [string.shrink_to_fit, hc, h4, and_self, if_true, if_false,
        allocator_traits.deallocate, allocator.deallocate, copy_buff_pointer]
    · simp only [string.shrink_to_fit, hc, h4, and_self, if_true, if_false,
        allocator_traits.deallocate, allocator.deallocate, copy_calls, hd, hd']
    intro q
    obtain ⟨qb, qi⟩ := q
    simp only [string.shrink_to_fit, hc, h4, and_self, if_true, if_false,
      allocator_traits.deallocate, allocator.deallocate]
    rw [copy_mem]
    · simp only [string.small_data, hd, hd', pointer.add, zero_buffer, Nat.add_sub_cancel_left,
        Nat.zero_add, Nat.sub_zero, Nat.zero_le, true_and, small_buffer_capacity, reduceCtorEq,
        false_and, if_false]
      by_cases hq : qb = region.small s.self ∧ qi < s.size
      · have hq' : qb = region.small s.self ∧ qi < 23 := ⟨hq.1, by omega⟩
        simp only [hq, hq', and_self, if_true]
      · by_cases hq' : qb = region.small s.self ∧ qi < 23
        · have : ¬ qi < s.size := fun h => hq ⟨hq'.1, h⟩
          simp [hq', this]
        · simp only [hq, hq', if_false]
    · left
      simp [string.small_data, hd']

/-- The move assignment from a heap string. -/
theorem bf_assign_from_large (s other : string) (σ : Machine) (hs : s.valid σ)
    (h : other.is_large = true) :
    (s.operator_assign σ other).2.1 =
      ⟨s.self, true, other.size_or_first_byte_of_capacity_, U.large other.u_.get_large⟩ ∧
    (s.operator_assign σ other).2.2 = ⟨other.self, false, 0, U.small⟩ ∧
    (s.operator_assign σ other).1.buff_pointer = σ.buff_pointer ∧
    (s.operator_assign σ other).1.calls =
      σ.calls ++ release_call s.is_large s.data s.capacity ∧
    (s.operator_assign σ other).1.mem = zero_buffer σ.mem other.self small_buffer_capacity := by
  have e : s.operator_assign σ other =
      ({ s.deallocate σ with
          mem := zero_buffer (s.deallocate σ).mem other.self small_buffer_capacity },
        ⟨s.self, true, other.size_or_first_byte_of_capacity_, U.large other.u_.get_large⟩,
        ⟨other.self, false, 0, U.small⟩) := by
    simp only [string.operator_assign, h, if_true]
  rw [e]
  exact ⟨rfl, rfl, bf_deallocate_buff_pointer s σ, bf_deallocate_calls s σ σ hs,
    by simp only [bf_deallocate_mem]⟩

/-- The move assignment from an inline string. -/
theorem bf_assign_from_small (s other : string) (σ : Machine) (hs : s.valid σ)
    (ho : other.valid σ) (hne : s.self ≠ other.self) (h : other.is_large = false) :
    (s.operator_assign σ other).2.1 = ⟨s.self, false, other.size, U.small⟩ ∧
    (s.operator_assign σ other).2.2 = other ∧
    (s.operator_assign σ other).1.buff_pointer = σ.buff_pointer ∧
    (s.operator_assign σ other).1.calls =
      σ.calls ++ release_call s.is_large s.data s.capacity ∧
    ∀ q : pointer, (s.operator_assign σ other).1.mem q =
      if q.base = region.small s.self ∧ q.index < small_buffer_capacity then
        (if q.index < other.size then σ.mem ⟨region.small other.self, q.index⟩ else 0)
      else σ.mem q := by
  rcases bf_valid_cases other σ ho with
    ⟨n, eo, a1⟩ | ⟨x, bytes, n, p, eo, a1, a2, a3, a4, a5, a6, a7⟩
  · have hsz : other.size = n := by rw [eo]; rfl
    have hgs : other.size_or_first_byte_of_capacity_ = n := by rw [eo]
    have e : s.operator_assign σ other =
        ((copy { s.deallocate σ with
              mem := zero_buffer (s.deallocate σ).mem s.self small_buffer_capacity }
            other.small_data (other.small_data.add n) ⟨region.small s.self, 0⟩).1,
          ⟨s.self, false, n, U.small⟩, other) := by
      simp only [string.operator_assign, h, Bool.false_eq_true, if_false, hgs]
      rfl
    rw [e, hsz]
    refine ⟨rfl, rfl, ?_, ?_, ?_⟩
    · simp only [copy_buff_pointer, bf_deallocate_buff_pointer]
    · simp only [copy_calls, bf_deallocate_calls s σ σ hs]
    intro q
    obtain ⟨qb, qi⟩ := q
    simp only []
    rw [copy_mem]
    · simp only [string.small_data, bf_deallocate_mem,
        pointer.add, zero_buffer, Nat.add_sub_cancel_left, Nat.zero_add, Nat.sub_zero,
        Nat.zero_le, true_and, small_buffer_capacity, region.small.injEq]
      have hne' : ¬ (other.self = s.self) := fun e => hne e.symm
      by_cases hq : qb = region.small s.self ∧ qi < n
      · have hq' : qb = region.small s.self ∧ qi < 23 := ⟨hq.1, by omega⟩
        simp only [hq, hq', hne', and_self, if_true, false_and, if_false]
      · by_cases hq' : qb = region.small s.self ∧ qi < 23
        · have : ¬ qi < n := fun h => hq ⟨hq'.1, h⟩
          simp [hq', this]
        · simp only [hq, hq', if_false]
    · left
      simp only [string.small_data, ne_eq, region.small.injEq]
      exact fun e => hne e.symm
  · rw [eo, bf_heap_is_large] at h; exact Bool.noConfusion h

theorem bf_insert_in_place_law (s : string) (σ : Machine) (k : Nat) (v : char) (hv : s.valid σ)
    (hlt : s.size < s.capacity) (hk : k ≤ s.size) :
    string.valid (s.insert σ k v).2.1 (s.insert σ k v).1 ∧
    (s.insert σ k v).2.1.self = s.self ∧
    (s.insert σ k v).2.1.is_large = s.is_large ∧
    (s.insert σ k v).2.1.data = s.data ∧
    (s.insert σ k v).2.1.size = s.size + 1 ∧
    (s.insert σ k v).2.1.capacity = s.capacity ∧
    (s.insert σ k v).2.2 = s.data.add k := by
  obtain ⟨h1, h2, h3, -, -⟩ := bf_insert_in_place s σ k v hlt hk
  obtain ⟨i1, i2, i3, i4, i5, i6⟩ := bf_increment_size_spec s σ hv hlt
  rw [h2, h1, i4]
  exact ⟨bf_valid_mono _ σ _ i1 (by rw [h3]), i2, i3, rfl, i5, i6, rfl⟩

theorem bf_pop_back_law (s : string) (σ : Machine) (hv : s.valid σ) (h : 0 < s.size) :
    string.valid (s.pop_back σ).2 (s.pop_back σ).1 ∧
    string.self (s.pop_back σ).2 = s.self ∧
    string.is_large (s.pop_back σ).2 = s.is_large ∧
    string.data (s.pop_back σ).2 = s.data ∧
    string.size (s.pop_back σ).2 = s.size - 1 ∧
    string.capacity (s.pop_back σ).2 = s.capacity ∧
    (s.pop_back σ).1 = σ := by
  obtain ⟨i1, i2, i3, i4, i5, i6⟩ := bf_decrement_size_spec s σ hv h
  exact ⟨i1, i2, i3, i4, i5, i6, rfl⟩

/-- The observers on the string that `relocate` leaves behind. -/
theorem bf_relocated_observers (self n c : Nat) (p : pointer) (hc : c < 2 ^ 63) :
    string.self ⟨self, true, (c / 2 ^ (8 * 7)) % 2 ^ 7, U.large (large_t.ctor n c p)⟩ = self ∧
    string.is_large ⟨self, true, (c / 2 ^ (8 * 7)) % 2 ^ 7, U.large (large_t.ctor n c p)⟩ =
      true ∧
    string.data ⟨self, true, (c / 2 ^ (8 * 7)) % 2 ^ 7, U.large (large_t.ctor n c p)⟩ = p ∧
    string.size ⟨self, true, (c / 2 ^ (8 * 7)) % 2 ^ 7, U.large (large_t.ctor n c p)⟩ = n ∧
    string.capacity ⟨self, true, (c / 2 ^ (8 * 7)) % 2 ^ 7, U.large (large_t.ctor n c p)⟩ = c :=
  ⟨rfl, rfl, rfl, rfl, bf_capacity_relocated self n c p hc⟩

/-- The class `string` of `clang-bit-field.cpp` satisfies the laws. -/
theorem bf_impl_laws : laws string small_buffer_capacity string.ctor string.ctor_move
    string.operator_assign string.reserve string.shrink_to_fit string.insert string.pop_back
    string.self string.is_large string.data string.size string.capacity string.valid where
  small_pos := by decide
  valid_size := fun s σ hv => ⟨(bf_valid_bounds s σ hv).2.1, (bf_valid_bounds s σ hv).2.2⟩
  valid_small := by
    intro s σ hv h
    rcases bf_valid_cases s σ hv with ⟨n, e, a1⟩ | ⟨x, bytes, n, p, e, a1, a2, a3, a4, a5, a6, a7⟩
    · rw [e]; exact ⟨rfl, rfl⟩
    · rw [e, bf_heap_is_large] at h; exact Bool.noConfusion h
  valid_large := by
    intro s σ hv h
    rcases bf_valid_cases s σ hv with ⟨n, e, a1⟩ | ⟨x, bytes, n, p, e, a1, a2, a3, a4, a5, a6, a7⟩
    · rw [e, bf_inline_is_large] at h; exact Bool.noConfusion h
    · have hd : s.data = ⟨region.arena, p⟩ := by rw [e]; rfl
      rw [hd]
      exact ⟨a1, rfl, a4⟩
  valid_mono := bf_valid_mono
  ctor_spec := fun σ self =>
    ⟨bf_valid_inline self 0 _ (by omega), rfl, rfl, rfl, rfl, rfl, rfl⟩
  ctor_move_eq := fun _ _ _ => rfl
  insert_in_place := by
    intro s σ k v hv hlt hk
    obtain ⟨-, -, h3, h4, h5⟩ := bf_insert_in_place s σ k v hlt hk
    obtain ⟨l1, l2, l3, l4, l5, l6, l7⟩ := bf_insert_in_place_law s σ k v hv hlt hk
    exact ⟨l1, l2, l3, l4, l5, l6, l7, h3, h4, h5⟩
  insert_realloc := by
    intro s σ k v hv hfull hk hc
    obtain ⟨h1, h2, h3, h4, h5⟩ := bf_insert_realloc s σ k v hv hfull hk hc
    have hb := bf_valid_bounds s σ hv
    have hv' : string.valid (s.insert σ k v).2.1 (s.insert σ k v).1 := by
      rw [h1]
      exact bf_valid_relocated _ _ _ _ _ (by omega) hc (by omega) (by rw [h3])
    obtain ⟨o1, o2, o3, o4, o5⟩ := bf_relocated_observers s.self (s.size + 1) (s.capacity * 2)
      ⟨region.arena, σ.buff_pointer⟩ hc
    exact ⟨hv', ((congrArg string.self h1).trans o1 :),
      ((congrArg string.is_large h1).trans o2 :),
      ((congrArg string.data h1).trans o3 :), ((congrArg string.size h1).trans o4 :),
      ((congrArg string.capacity h1).trans o5 :), h2, h3, h4, h5⟩
  pop_back_spec := fun s σ hv h => bf_pop_back_law s σ hv h
  reserve_small := by
    intro s σ r h
    have h' : ¬ r > s.capacity := Nat.not_lt.mpr h
    show s.reserve σ r = (σ, s)
    simp only [string.reserve, h', if_false]
  reserve_grow := by
    intro s σ r hv hlt hr
    have e : string.reserve s σ r = s.force_reserve σ r := bf_reserve_eq s σ r hlt
    obtain ⟨h1, h2, h3, h4⟩ := bf_force_reserve_spec s σ r hv
    have hb := bf_valid_bounds s σ hv
    have hlt' : s.capacity < r := hlt
    have hv' : string.valid (s.reserve σ r).2 (s.reserve σ r).1 := by
      rw [e]
      exact bf_force_reserve_valid s σ r hv (by omega) hr (by omega)
    have e2 := (congrArg Prod.snd e).trans h1
    obtain ⟨o1, o2, o3, o4, o5⟩ := bf_relocated_observers s.self s.size r
      ⟨region.arena, σ.buff_pointer⟩ hr
    exact ⟨hv', ((congrArg string.self e2).trans o1 :),
      ((congrArg string.is_large e2).trans o2 :),
      ((congrArg string.data e2).trans o3 :), ((congrArg string.size e2).trans o4 :),
      ((congrArg string.capacity e2).trans o5 :),
      ((congrArg (fun r => r.1.buff_pointer) e).trans h2 :),
      ((congrArg (fun r => r.1.calls) e).trans h3 :),
      fun q => ((congrArg (fun r => r.1.mem q) e).trans (h4 q) :)⟩
  shrink_noop := fun s σ _ h => bf_shrink_noop s σ h
  shrink_heap := by
    intro s σ hv hl hlt hn
    have e : string.shrink_to_fit s σ = s.force_reserve σ s.size := bf_shrink_heap_eq s σ hl hlt hn
    obtain ⟨h1, h2, h3, h4⟩ := bf_force_reserve_spec s σ s.size hv
    have hb := bf_valid_bounds s σ hv
    have hn' : 23 < s.size := hn
    have hlt' : s.size < s.capacity := hlt
    have hv' : string.valid (s.shrink_to_fit σ).2 (s.shrink_to_fit σ).1 := by
      rw [e]
      exact bf_force_reserve_valid s σ _ hv hn' (by omega) (Nat.le_refl _)
    have e2 := (congrArg Prod.snd e).trans h1
    obtain ⟨o1, o2, o3, o4, o5⟩ := bf_relocated_observers s.self s.size s.size
      ⟨region.arena, σ.buff_pointer⟩ (by omega)
    exact ⟨hv', ((congrArg string.self e2).trans o1 :),
      ((congrArg string.is_large e2).trans o2 :),
      ((congrArg string.data e2).trans o3 :), ((congrArg string.size e2).trans o4 :),
      ((congrArg string.capacity e2).trans o5 :),
      ((congrArg (fun r => r.1.buff_pointer) e).trans h2 :),
      ((congrArg (fun r => r.1.calls) e).trans h3 :),
      fun q => ((congrArg (fun r => r.1.mem q) e).trans (h4 q) :)⟩
  shrink_inline := by
    intro s σ hv hl hlt hn
    obtain ⟨h1, h2, _, h4⟩ := bf_shrink_inline_spec s σ hv hl hlt hn
    have hv' : string.valid (s.shrink_to_fit σ).2 (s.shrink_to_fit σ).1 := by
      rw [h1]; exact bf_valid_inline _ _ _ hn
    exact ⟨hv', (congrArg string.self h1 :), (congrArg string.is_large h1 :), h2, h4⟩
  assign_from_large := by
    intro s σ other hs ho _ hl
    obtain ⟨h1, h2, h3, h4, h5⟩ := bf_assign_from_large s other σ hs hl
    rcases bf_valid_cases other σ ho with
      ⟨n, e, a1⟩ | ⟨x, bytes, n, p, e, a1, a2, a3, a4, a5, a6, a7⟩
    · rw [e, bf_inline_is_large] at hl; exact Bool.noConfusion hl
    · have hg : other.u_.get_large = ⟨bytes, n, ⟨region.arena, p⟩⟩ := by rw [e]; rfl
      have hx : other.size_or_first_byte_of_capacity_ = x := by rw [e]
      rw [hg, hx] at h1
      have d1 : other.data = ⟨region.arena, p⟩ := by rw [e]; rfl
      have d2 : other.size = n := by rw [e]; rfl
      have d3 : other.capacity =
          string.capacity ⟨s.self, true, x, U.large ⟨bytes, n, ⟨region.arena, p⟩⟩⟩ := by
        rw [e]; rfl
      rw [d3] at a1 a3 a4
      have hv1 : string.valid (s.operator_assign σ other).2.1 (s.operator_assign σ other).1 := by
        rw [h1]
        exact bf_valid_heap _ _ _ _ _ _ a5 a6 a7 a1 a3 (by rw [h3]; exact a4)
      have hv2 : string.valid (s.operator_assign σ other).2.2 (s.operator_assign σ other).1 := by
        rw [h2]; exact bf_valid_inline _ _ _ (by omega)
      exact ⟨hv1, hv2, (congrArg string.self h1 :), (congrArg string.self h2 :),
        (congrArg string.is_large h1 :),
        ((congrArg string.data h1).trans d1.symm :),
        ((congrArg string.size h1).trans d2.symm :),
        ((congrArg string.capacity h1).trans d3.symm :),
        (congrArg string.is_large h2 :),
        (congrArg string.size h2 :), h3, h4, h5⟩
  assign_from_small := by
    intro s σ other hs ho hne hl
    obtain ⟨h1, h2, h3, h4, h5⟩ := bf_assign_from_small s other σ hs ho hne hl
    have hsz : other.size ≤ 23 := by
      rcases bf_valid_cases other σ ho with
        ⟨n, e, a1⟩ | ⟨x, bytes, n, p, e, a1, a2, a3, a4, a5, a6, a7⟩
      · rw [e, bf_inline_size]; exact a1
      · rw [e, bf_heap_is_large] at hl; exact Bool.noConfusion hl
    have hv1 : string.valid (s.operator_assign σ other).2.1 (s.operator_assign σ other).1 := by
      rw [h1]; exact bf_valid_inline _ _ _ hsz
    exact ⟨hv1, h2, (congrArg string.self h1 :), (congrArg string.is_large h1 :),
      (congrArg string.size h1 :), h3, h4, h5⟩

end clang_bit_field

/-! ## Statements that hold for every class satisfying the laws -/

section generic

variable {string : Type} {N : Nat}
  {ctor : Machine → Nat → Machine × string}
  {ctor_move : Machine → Nat → string → Machine × string × string}
  {operator_assign : string → Machine → string → Machine × string × string}
  {reserve : string → Machine → Nat → Machine × string}
  {shrink_to_fit : string → Machine → Machine × string}
  {insert : string → Machine → Nat → char → Machine × string × pointer}
  {pop_back : string → Machine → Machine × string}
  {identity : string → Nat} {is_large : string → Bool} {data : string → pointer}
  {size : string → Nat} {capacity : string → Nat}
  {valid : string → Machine → Prop}
  (L : laws string N ctor ctor_move operator_assign reserve shrink_to_fit insert pop_back
    identity is_large data size capacity valid)

include L

/-- The storage of a valid string does not reach into the part of the arena that has not
been handed out. -/
theorem laws_data_disjoint (s : string) (σ : Machine) (hv : valid s σ) :
    (data s).base ≠ region.arena ∨ (data s).index + size s ≤ σ.buff_pointer := by
  have hs := (L.valid_size s σ hv).1
  cases h : is_large s with
  | false =>
    left
    rw [(L.valid_small s σ hv h).2]
    simp
  | true =>
    right
    have := (L.valid_large s σ hv h).2.2
    omega

/-- The in-place path of `insert` splices the byte into the content. -/
theorem laws_insert_in_place_view (s : string) (σ : Machine) (k : Nat) (v : char)
    (hv : valid s σ) (hlt : size s < capacity s) (hk : k ≤ size s) :
    read_bytes (insert s σ k v).1 (data (insert s σ k v).2.1) (size (insert s σ k v).2.1) =
      (read_bytes σ (data s) (size s)).take k ++ v :: (read_bytes σ (data s) (size s)).drop k := by
  obtain ⟨-, -, -, hd, hsz, -, -, -, -, hm⟩ := L.insert_in_place s σ k v hv hlt hk
  rw [hd, hsz]
  apply read_bytes_splice _ _ _ _ _ _ _ hk
  intro i hi
  rw [hm]
  simp only [pointer.add]
  by_cases c1 : i < k
  · have : ¬ ((data s).index + k ≤ (data s).index + i ∧
        (data s).index + i ≤ (data s).index + size s) := by omega
    simp only [this, and_false, if_false, c1, if_true]
  · have h2 : (data s).index + k ≤ (data s).index + i ∧
        (data s).index + i ≤ (data s).index + size s := by omega
    by_cases c2 : i = k
    · subst c2
      simp only [h2, and_self, if_true, c1, if_false]
    · have h3 : ¬ ((data s).index + i = (data s).index + k) := by omega
      simp only [h2, and_self, if_true, h3, c1, c2, if_false]
      congr 2
      omega

/-- The reallocation path of `insert` at `end()` appends the byte to the content. -/
theorem laws_insert_realloc_end_view (s : string) (σ : Machine) (v : char)
    (hv : valid s σ) (hfull : size s = capacity s) (hc : capacity s * 2 < max_elements) :
    read_bytes (insert s σ (size s) v).1 (data (insert s σ (size s) v).2.1)
        (size (insert s σ (size s) v).2.1) =
      read_bytes σ (data s) (size s) ++ [v] := by
  obtain ⟨-, -, -, hd, hsz, -, -, -, -, hm⟩ :=
    L.insert_realloc s σ (size s) v hv hfull (Nat.le_refl _) hc
  have hdis := laws_data_disjoint L s σ hv
  rw [hd, hsz, read_bytes_succ]
  congr 1
  · apply read_bytes_congr
    intro i hi
    rw [hm]
    have h1 : σ.buff_pointer ≤ σ.buff_pointer + i ∧ σ.buff_pointer + i < σ.buff_pointer + size s ∧
        σ.buff_pointer + i ≠ σ.buff_pointer + size s := by omega
    simp only [pointer.add]
    rw [if_pos ⟨trivial, h1⟩, Nat.add_sub_cancel_left]
  · rw [hm]
    have h1 : ¬ (True ∧ σ.buff_pointer ≤ σ.buff_pointer + size s ∧
        σ.buff_pointer + size s < σ.buff_pointer + size s ∧
        σ.buff_pointer + size s ≠ σ.buff_pointer + size s) := by omega
    simp only [pointer.add]
    rw [if_neg h1, if_pos trivial]

/-- An `insert` at `end()` with room for the doubled capacity appends the byte, whichever
path runs. -/
theorem laws_insert_end (s : string) (σ : Machine) (v : char) (hv : valid s σ)
    (hc : size s * 2 < max_elements) :
    valid (insert s σ (size s) v).2.1 (insert s σ (size s) v).1 ∧
    size (insert s σ (size s) v).2.1 = size s + 1 ∧
    read_bytes (insert s σ (size s) v).1 (data (insert s σ (size s) v).2.1)
        (size (insert s σ (size s) v).2.1) =
      read_bytes σ (data s) (size s) ++ [v] := by
  have hs := (L.valid_size s σ hv).1
  by_cases hlt : size s < capacity s
  · obtain ⟨h1, -, -, -, h5, -⟩ := L.insert_in_place s σ (size s) v hv hlt (Nat.le_refl _)
    refine ⟨h1, h5, ?_⟩
    rw [laws_insert_in_place_view L s σ (size s) v hv hlt (Nat.le_refl _)]
    have hl : (read_bytes σ (data s) (size s)).length ≤ size s := by
      rw [read_bytes_length]
    rw [List.take_of_length_le hl, List.drop_of_length_le hl]
  · have hfull : size s = capacity s := by omega
    have hc' : capacity s * 2 < max_elements := by rw [← hfull]; exact hc
    obtain ⟨h1, -, -, -, h5, -⟩ := L.insert_realloc s σ (size s) v hv hfull (Nat.le_refl _) hc'
    exact ⟨h1, h5, laws_insert_realloc_end_view L s σ v hv hfull hc'⟩

/-- Appending a byte sequence to a valid string, one `insert` at `end()` per byte. -/
theorem laws_append_all (w : List char) : ∀ (s : string) (σ : Machine), valid s σ →
    (size s + w.length) * 2 ≤ max_elements →
    valid (append_all insert size s σ w).2 (append_all insert size s σ w).1 ∧
    size (append_all insert size s σ w).2 = size s + w.length ∧
    read_bytes (append_all insert size s σ w).1 (data (append_all insert size s σ w).2)
        (size (append_all insert size s σ w).2) =
      read_bytes σ (data s) (size s) ++ w := by
  induction w with
  | nil =>
    intro s σ hv _
    simp only [append_all, List.length_nil, Nat.add_zero, List.append_nil]
    exact ⟨hv, trivial, trivial⟩
  | cons c rest ih =>
    intro s σ hv hb
    simp only [List.length_cons] at hb
    obtain ⟨h1, h2, h3⟩ := laws_insert_end L s σ c hv (by omega)
    obtain ⟨i1, i2, i3⟩ := ih (insert s σ (size s) c).2.1 (insert s σ (size s) c).1 h1
      (by rw [h2]; omega)
    simp only [append_all]
    refine ⟨i1, ?_, ?_⟩
    · rw [i2, h2, List.length_cons]; omega
    · rw [i3, h3, List.append_assoc]
      rfl

/-- A freshly constructed string has no content. -/
theorem laws_ctor_view (σ : Machine) (object : Nat) :
    read_bytes (ctor σ object).1 (data (ctor σ object).2) (size (ctor σ object).2) = [] := by
  obtain ⟨-, -, -, h4, -⟩ := L.ctor_spec σ object
  rw [h4]
  rfl

/-- The move assignment gives the destination the size, capacity and content of the
source. -/
theorem laws_assign_destination (s other : string) (σ : Machine) (hs : valid s σ)
    (ho : valid other σ) (hne : identity s ≠ identity other) :
    valid (operator_assign s σ other).2.1 (operator_assign s σ other).1 ∧
    identity (operator_assign s σ other).2.1 = identity s ∧
    is_large (operator_assign s σ other).2.1 = is_large other ∧
    size (operator_assign s σ other).2.1 = size other ∧
    capacity (operator_assign s σ other).2.1 = capacity other ∧
    read_bytes (operator_assign s σ other).1 (data (operator_assign s σ other).2.1)
        (size (operator_assign s σ other).2.1) =
      read_bytes σ (data other) (size other) := by
  cases hl : is_large other with
  | true =>
    obtain ⟨h1, -, h3, -, h5, h6, h7, h8, -, -, -, -, h13⟩ :=
      L.assign_from_large s σ other hs ho hne hl
    refine ⟨h1, h3, h5, h7, h8, ?_⟩
    rw [h6, h7]
    apply read_bytes_congr
    intro i _
    rw [h13]
    have hb := (L.valid_large other σ ho hl).2.1
    simp only [zero_buffer, pointer.add, hb, reduceCtorEq, false_and, if_false]
  | false =>
    obtain ⟨h1, -, h3, h4, h5, -, -, h8⟩ := L.assign_from_small s σ other hs ho hne hl
    obtain ⟨c1, d1⟩ := L.valid_small _ _ h1 h4
    obtain ⟨c2, d2⟩ := L.valid_small other σ ho hl
    have hsz := (L.valid_size other σ ho).1
    refine ⟨h1, h3, h4, h5, by rw [c1, c2], ?_⟩
    rw [d1, h5, d2, h3]
    apply read_bytes_congr
    intro i hi
    rw [h8]
    have hq : True ∧ 0 + i < N := ⟨trivial, by omega⟩
    have hi' : 0 + i < size other := by omega
    simp only [pointer.add]
    rw [if_pos hq, if_pos hi']

/-- The move assignment leaves the source inline; a heap source is left empty, an inline
source is left as it was. -/
theorem laws_assign_source (s other : string) (σ : Machine) (hs : valid s σ)
    (ho : valid other σ) (hne : identity s ≠ identity other) :
    valid (operator_assign s σ other).2.2 (operator_assign s σ other).1 ∧
    identity (operator_assign s σ other).2.2 = identity other ∧
    is_large (operator_assign s σ other).2.2 = false ∧
    (is_large other = true → size (operator_assign s σ other).2.2 = 0) ∧
    (is_large other = false → (operator_assign s σ other).2.2 = other ∧
      read_bytes (operator_assign s σ other).1 (data other) (size other) =
        read_bytes σ (data other) (size other)) := by
  cases hl : is_large other with
  | true =>
    obtain ⟨-, h2, -, h4, -, -, -, -, h9, h10, -, -, -⟩ :=
      L.assign_from_large s σ other hs ho hne hl
    exact ⟨h2, h4, h9, fun _ => h10, fun h => Bool.noConfusion h⟩
  | false =>
    obtain ⟨-, h2, -, -, -, h6, -, h8⟩ := L.assign_from_small s σ other hs ho hne hl
    obtain ⟨c2, d2⟩ := L.valid_small other σ ho hl
    rw [h2]
    refine ⟨L.valid_mono other σ _ ho (by rw [h6]), rfl, hl, fun h => Bool.noConfusion h,
      fun _ => ⟨rfl, ?_⟩⟩
    apply read_bytes_congr
    intro i _
    rw [h8, d2]
    have hq : ¬ ((region.small (identity other) = region.small (identity s)) ∧ 0 + i < N) := by
      rintro ⟨h, -⟩
      exact hne (region.small.inj h).symm
    simp only [pointer.add]
    rw [if_neg hq]

/-- The function `reserve` that grows the block keeps the content. -/
theorem laws_reserve_grow_view (s : string) (σ : Machine) (r : Nat) (hv : valid s σ)
    (hlt : capacity s < r) (hr : r < max_elements) :
    read_bytes (reserve s σ r).1 (data (reserve s σ r).2) (size (reserve s σ r).2) =
      read_bytes σ (data s) (size s) := by
  obtain ⟨-, -, -, h4, h5, -, -, -, h9⟩ := L.reserve_grow s σ r hv hlt hr
  rw [h4, h5]
  apply read_bytes_congr
  intro i hi
  rw [h9]
  have h1 : True ∧ σ.buff_pointer ≤ σ.buff_pointer + i ∧
      σ.buff_pointer + i < σ.buff_pointer + size s := ⟨trivial, by omega, by omega⟩
  simp only [pointer.add]
  rw [if_pos h1, Nat.add_sub_cancel_left]

/-- Every `insert` within its preconditions keeps the string valid and never moves the bump
pointer back. -/
theorem laws_insert_step (s : string) (σ : Machine) (k : Nat) (v : char) (hv : valid s σ)
    (hk : k ≤ size s) (hc : size s < capacity s ∨ capacity s * 2 < max_elements) :
    valid (insert s σ k v).2.1 (insert s σ k v).1 ∧
    identity (insert s σ k v).2.1 = identity s ∧
    σ.buff_pointer ≤ (insert s σ k v).1.buff_pointer := by
  have hs := (L.valid_size s σ hv).1
  by_cases hlt : size s < capacity s
  · obtain ⟨h1, h2, -, -, -, -, -, h8, -⟩ := L.insert_in_place s σ k v hv hlt hk
    exact ⟨h1, h2, by rw [h8]⟩
  · have hfull : size s = capacity s := by omega
    have hc' : capacity s * 2 < max_elements := by
      rcases hc with h | h
      · exact absurd h hlt
      · exact h
    obtain ⟨h1, h2, -, -, -, -, -, h8, -⟩ := L.insert_realloc s σ k v hv hfull hk hc'
    exact ⟨h1, h2, by rw [h8]; omega⟩

/-- Every `reserve` below `max_elements` keeps the string valid and never moves the bump
pointer back. -/
theorem laws_reserve_step (s : string) (σ : Machine) (r : Nat) (hv : valid s σ)
    (hr : r < max_elements) :
    valid (reserve s σ r).2 (reserve s σ r).1 ∧
    identity (reserve s σ r).2 = identity s ∧
    σ.buff_pointer ≤ (reserve s σ r).1.buff_pointer := by
  by_cases hle : r ≤ capacity s
  · rw [L.reserve_small s σ r hle]
    exact ⟨hv, rfl, Nat.le_refl _⟩
  · obtain ⟨h1, h2, -, -, -, -, h7, -⟩ := L.reserve_grow s σ r hv (by omega) hr
    exact ⟨h1, h2, by rw [h7]; omega⟩

/-- Every `shrink_to_fit` keeps the string valid and never moves the bump pointer back. -/
theorem laws_shrink_step (s : string) (σ : Machine) (hv : valid s σ) :
    valid (shrink_to_fit s σ).2 (shrink_to_fit s σ).1 ∧
    identity (shrink_to_fit s σ).2 = identity s ∧
    σ.buff_pointer ≤ (shrink_to_fit s σ).1.buff_pointer := by
  have hs := (L.valid_size s σ hv).1
  cases hl : is_large s with
  | false =>
    rw [L.shrink_noop s σ hv (Or.inl hl)]
    exact ⟨hv, rfl, Nat.le_refl _⟩
  | true =>
    by_cases hlt : size s < capacity s
    · by_cases hn : N < size s
      · obtain ⟨h1, h2, -, -, -, -, h7, -⟩ := L.shrink_heap s σ hv hl hlt hn
        exact ⟨h1, h2, by rw [h7]; omega⟩
      · obtain ⟨h1, h2, -, h4, -⟩ := L.shrink_inline s σ hv hl hlt (by omega)
        exact ⟨h1, h2, by rw [h4]⟩
    · rw [L.shrink_noop s σ hv (Or.inr (by omega))]
      exact ⟨hv, rfl, Nat.le_refl _⟩

/-- The move assignment keeps both strings valid and does not move the bump pointer. -/
theorem laws_assign_step (s other : string) (σ : Machine) (hs : valid s σ)
    (ho : valid other σ) (hne : identity s ≠ identity other) :
    valid (operator_assign s σ other).2.1 (operator_assign s σ other).1 ∧
    identity (operator_assign s σ other).2.1 = identity s ∧
    valid (operator_assign s σ other).2.2 (operator_assign s σ other).1 ∧
    identity (operator_assign s σ other).2.2 = identity other ∧
    (operator_assign s σ other).1.buff_pointer = σ.buff_pointer := by
  obtain ⟨a1, a2, -⟩ := laws_assign_destination L s other σ hs ho hne
  obtain ⟨b1, b2, -⟩ := laws_assign_source L s other σ hs ho hne
  refine ⟨a1, a2, b1, b2, ?_⟩
  cases hl : is_large other with
  | true => exact (L.assign_from_large s σ other hs ho hne hl).2.2.2.2.2.2.2.2.2.2.1
  | false => exact (L.assign_from_small s σ other hs ho hne hl).2.2.2.2.2.1

/-- The content of a valid string is not touched by the construction of another object. -/
theorem laws_ctor_frame (s : string) (σ : Machine) (object : Nat) (hv : valid s σ)
    (hne : object ≠ identity s) :
    valid s (ctor σ object).1 ∧
    read_bytes (ctor σ object).1 (data s) (size s) = read_bytes σ (data s) (size s) := by
  obtain ⟨-, -, -, -, h5, -, h7⟩ := L.ctor_spec σ object
  refine ⟨L.valid_mono s σ _ hv (by rw [h5]), ?_⟩
  apply read_bytes_congr
  intro i _
  rw [h7]
  have hq : ¬ (((data s).add i).base = region.small object ∧ ((data s).add i).index < N) := by
    rintro ⟨h, -⟩
    cases hl : is_large s with
    | true =>
      have hb := (L.valid_large s σ hv hl).2.1
      simp only [pointer.add, hb, reduceCtorEq] at h
    | false =>
      have hd := (L.valid_small s σ hv hl).2
      simp only [pointer.add, hd, region.small.injEq] at h
      exact hne h.symm
  simp only [zero_buffer]
  rw [if_neg hq]

/-- Moving a string into a freshly constructed string and back restores its size and
content. -/
theorem laws_move_round_trip (str : string) (σ : Machine) (object : Nat) (hv : valid str σ)
    (hne : object ≠ identity str) :
    size (operator_assign (ctor_move σ object str).2.2 (ctor_move σ object str).1
        (ctor_move σ object str).2.1).2.1 = size str ∧
    read_bytes
        (operator_assign (ctor_move σ object str).2.2 (ctor_move σ object str).1
          (ctor_move σ object str).2.1).1
        (data (operator_assign (ctor_move σ object str).2.2 (ctor_move σ object str).1
          (ctor_move σ object str).2.1).2.1)
        (size (operator_assign (ctor_move σ object str).2.2 (ctor_move σ object str).1
          (ctor_move σ object str).2.1).2.1) =
      read_bytes σ (data str) (size str) := by
  rw [L.ctor_move_eq]
  obtain ⟨c1, c2, -⟩ := L.ctor_spec σ object
  obtain ⟨f1, f2⟩ := laws_ctor_frame L str σ object hv hne
  have hne1 : identity (ctor σ object).2 ≠ identity str := by rw [c2]; exact hne
  obtain ⟨a1, a2, -, a4, -, a6⟩ := laws_assign_destination L _ str _ c1 f1 hne1
  obtain ⟨b1, b2, -⟩ := laws_assign_source L _ str _ c1 f1 hne1
  have hne2 : identity (operator_assign (ctor σ object).2 (ctor σ object).1 str).2.2 ≠
      identity (operator_assign (ctor σ object).2 (ctor σ object).1 str).2.1 := by
    rw [a2, b2, c2]; exact fun h => hne h.symm
  obtain ⟨-, -, -, d4, -, d6⟩ := laws_assign_destination L _ _ _ b1 a1 hne2
  exact ⟨d4.trans a4, d6.trans (a6.trans f2)⟩

/-- The reallocation path of `insert` at a position before `end()`: the byte that stood at
the position is dropped, the bytes after it keep their offsets, and the last byte of the new
content is whatever the fresh block held there. -/
theorem laws_insert_realloc_view (s : string) (σ : Machine) (k : Nat) (v : char)
    (hv : valid s σ) (hfull : size s = capacity s) (hk : k < size s)
    (hc : capacity s * 2 < max_elements) :
    read_bytes (insert s σ k v).1 (data (insert s σ k v).2.1) (size (insert s σ k v).2.1) =
      (read_bytes σ (data s) (size s)).take k ++
        (v :: ((read_bytes σ (data s) (size s)).drop (k + 1) ++
          [σ.mem ⟨region.arena, σ.buff_pointer + size s⟩])) := by
  obtain ⟨-, -, -, hd, hsz, -, -, -, -, hm⟩ := L.insert_realloc s σ k v hv hfull (by omega) hc
  rw [hd, hsz]
  apply List.ext_getElem
  · simp only [read_bytes_length, List.length_append, List.length_take, List.length_cons,
      List.length_drop, List.length_singleton, List.length_nil]
    omega
  · intro i h1 h2
    rw [read_bytes_getElem, hm]
    have hi : i ≤ size s := by
      have := h1
      simp only [read_bytes_length] at this
      omega
    simp only [pointer.add, pointer.mk.injEq, true_and]
    by_cases c1 : i < k
    · have e1 : σ.buff_pointer ≤ σ.buff_pointer + i ∧
          σ.buff_pointer + i < σ.buff_pointer + size s ∧
          σ.buff_pointer + i ≠ σ.buff_pointer + k := by omega
      rw [if_pos e1, List.getElem_append_left (by
        simp only [List.length_take, read_bytes_length]; omega)]
      simp only [List.getElem_take, read_bytes_getElem, pointer.add, Nat.add_sub_cancel_left]
    · rw [List.getElem_append_right (by
        simp only [List.length_take, read_bytes_length]; omega)]
      have hlen : (List.take k (read_bytes σ (data s) (size s))).length = k := by
        simp only [List.length_take, read_bytes_length]; omega
      by_cases c2 : i = k
      · subst c2
        have e1 : ¬ (σ.buff_pointer ≤ σ.buff_pointer + i ∧
            σ.buff_pointer + i < σ.buff_pointer + size s ∧
            σ.buff_pointer + i ≠ σ.buff_pointer + i) := by omega
        rw [if_neg e1, if_pos rfl]
        simp only [hlen, Nat.sub_self, List.cons_append, List.getElem_cons_zero]
      · by_cases c3 : i < size s
        · have e1 : σ.buff_pointer ≤ σ.buff_pointer + i ∧
              σ.buff_pointer + i < σ.buff_pointer + size s ∧
              σ.buff_pointer + i ≠ σ.buff_pointer + k := by omega
          rw [if_pos e1]
          have e2 : i - k = (i - k - 1) + 1 := by omega
          simp only [hlen, List.cons_append]
          rw [List.getElem_cons]
          rw [dif_neg (by omega)]
          rw [List.getElem_append_left (by
            simp only [List.length_drop, read_bytes_length]; omega)]
          simp only [List.getElem_drop, read_bytes_getElem, pointer.add,
            Nat.add_sub_cancel_left]
          congr 2
          omega
        · have e0 : i = size s := by omega
          subst e0
          have e1 : ¬ (σ.buff_pointer ≤ σ.buff_pointer + size s ∧
              σ.buff_pointer + size s < σ.buff_pointer + size s ∧
              σ.buff_pointer + size s ≠ σ.buff_pointer + k) := by omega
          have e3 : ¬ (σ.buff_pointer + size s = σ.buff_pointer + k) := by omega
          rw [if_neg e1, if_neg e3]
          simp only [hlen, List.cons_append]
          rw [List.getElem_cons]
          rw [dif_neg (by omega)]
          rw [List.getElem_append_right (by
            simp only [List.length_drop, read_bytes_length]; omega)]
          simp only [List.length_drop, read_bytes_length]
          have e4 : size s - k - 1 - (size s - (k + 1)) = 0 := by omega
          simp only [e4, List.getElem_cons_zero]

end generic

section programs

variable (V : variant) {valid : V.string → Machine → Prop}
  (L : laws V.string V.small_buffer_capacity V.ctor V.ctor_move V.operator_assign V.reserve
    V.shrink_to_fit V.insert V.pop_back V.self V.is_large V.data V.size V.capacity valid)

include L

/-- Replacing one object by a valid one keeps every object valid and in its place. -/
theorem objs_set_valid (objs : List V.string) (σ σ' : Machine) (i : Nat) (s' : V.string)
    (hinv : ∀ j s, objs[j]? = some s → valid s σ ∧ V.self s = j)
    (hbp : σ.buff_pointer ≤ σ'.buff_pointer) (hv : valid s' σ') (hid : V.self s' = i) :
    ∀ j s, (objs.set i s')[j]? = some s → valid s σ' ∧ V.self s = j := by
  intro j s hj
  rw [List.getElem?_set] at hj
  by_cases hij : i = j
  · rw [if_pos hij] at hj
    by_cases hlen : i < objs.length
    · rw [if_pos hlen] at hj
      cases hj
      exact ⟨hv, hid.trans hij⟩
    · rw [if_neg hlen] at hj
      cases hj
  · rw [if_neg hij] at hj
    obtain ⟨h1, h2⟩ := hinv j s hj
    exact ⟨L.valid_mono s σ σ' h1 hbp, h2⟩

/-- Adding a valid object at the end keeps every object valid and in its place. -/
theorem objs_append_valid (objs : List V.string) (σ σ' : Machine) (s' : V.string)
    (hinv : ∀ j s, objs[j]? = some s → valid s σ ∧ V.self s = j)
    (hbp : σ.buff_pointer ≤ σ'.buff_pointer) (hv : valid s' σ')
    (hid : V.self s' = objs.length) :
    ∀ j s, (objs ++ [s'])[j]? = some s → valid s σ' ∧ V.self s = j := by
  intro j s hj
  rw [List.getElem?_append] at hj
  by_cases hlt : j < objs.length
  · rw [if_pos hlt] at hj
    obtain ⟨h1, h2⟩ := hinv j s hj
    exact ⟨L.valid_mono s σ σ' h1 hbp, h2⟩
  · rw [if_neg hlt] at hj
    have hj' : [s'][j - objs.length]? = some s := hj
    by_cases h0 : j - objs.length = 0
    · rw [h0] at hj'
      have hss : s' = s := by simpa using hj'
      subst hss
      exact ⟨hv, by rw [hid]; omega⟩
    · have : [s'][j - objs.length]? = none := List.getElem?_eq_none (by simp; omega)
      rw [this] at hj'
      cases hj'

/-- One statement of a program keeps every string object valid and in its place. -/
theorem step_valid (sys sys' : System V) (o : operation)
    (hinv : ∀ j s, sys.objs[j]? = some s → valid s sys.σ ∧ V.self s = j)
    (h : System.step V sys o = some sys') :
    ∀ j s, sys'.objs[j]? = some s → valid s sys'.σ ∧ V.self s = j := by
  cases o with
  | construct =>
    simp only [System.step, Option.some.injEq] at h
    subst h
    obtain ⟨h1, h2, -, -, h5, -⟩ := L.ctor_spec sys.σ sys.objs.length
    exact objs_append_valid V L sys.objs sys.σ _ _ hinv (by rw [h5]) h1 h2
  | move_construct j =>
    simp only [System.step] at h
    cases ho : sys.objs[j]? with
    | none => rw [ho] at h; cases h
    | some other =>
      rw [ho] at h
      simp only [Option.some.injEq] at h
      subst h
      obtain ⟨o1, o2⟩ := hinv j other ho
      have hlen : j < sys.objs.length := by
        obtain ⟨hlt, -⟩ := List.getElem?_eq_some.mp ho
        exact hlt
      obtain ⟨c1, c2, -, -, c5, -⟩ := L.ctor_spec sys.σ sys.objs.length
      have o1' : valid other (V.ctor sys.σ sys.objs.length).1 :=
        L.valid_mono other _ _ o1 (by rw [c5])
      have hne : V.self (V.ctor sys.σ sys.objs.length).2 ≠ V.self other := by
        rw [c2, o2]; omega
      rw [L.ctor_move_eq]
      obtain ⟨a1, a2, a3, a4, a5⟩ := laws_assign_step L _ other _ c1 o1' hne
      have hbp : sys.σ.buff_pointer ≤
          (V.operator_assign (V.ctor sys.σ sys.objs.length).2 (V.ctor sys.σ sys.objs.length).1
            other).1.buff_pointer := by
        rw [a5, c5]
      have hset := objs_set_valid V L sys.objs sys.σ _ j _ hinv hbp a3 (a4.trans o2)
      have hlen' : (V.self (V.operator_assign (V.ctor sys.σ sys.objs.length).2
          (V.ctor sys.σ sys.objs.length).1 other).2.1) = (sys.objs.set j
          (V.operator_assign (V.ctor sys.σ sys.objs.length).2
            (V.ctor sys.σ sys.objs.length).1 other).2.2).length := by
        rw [a2, c2, List.length_set]
      exact objs_append_valid V L _ _ _ _ hset (Nat.le_refl _) a1 hlen'
  | insert i offset value =>
    simp only [System.step] at h
    cases ho : sys.objs[i]? with
    | none => rw [ho] at h; cases h
    | some s =>
      rw [ho] at h
      simp only [] at h
      split at h
      · rename_i hc
        simp only [Option.some.injEq] at h
        subst h
        obtain ⟨o1, o2⟩ := hinv i s ho
        obtain ⟨a1, a2, a3⟩ := laws_insert_step L s sys.σ offset value o1 hc.1 hc.2
        exact objs_set_valid V L sys.objs sys.σ _ i _ hinv a3 a1 (a2.trans o2)
      · cases h
  | pop_back i =>
    simp only [System.step] at h
    cases ho : sys.objs[i]? with
    | none => rw [ho] at h; cases h
    | some s =>
      rw [ho] at h
      simp only [] at h
      split at h
      · rename_i hc
        simp only [Option.some.injEq] at h
        subst h
        obtain ⟨o1, o2⟩ := hinv i s ho
        obtain ⟨a1, a2, -, -, -, -, a7⟩ := L.pop_back_spec s sys.σ o1 hc
        exact objs_set_valid V L sys.objs sys.σ _ i _ hinv (by rw [a7]) a1 (a2.trans o2)
      · cases h
  | reserve i r =>
    simp only [System.step] at h
    cases ho : sys.objs[i]? with
    | none => rw [ho] at h; cases h
    | some s =>
      rw [ho] at h
      simp only [] at h
      split at h
      · rename_i hc
        simp only [Option.some.injEq] at h
        subst h
        obtain ⟨o1, o2⟩ := hinv i s ho
        obtain ⟨a1, a2, a3⟩ := laws_reserve_step L s sys.σ r o1 hc
        exact objs_set_valid V L sys.objs sys.σ _ i _ hinv a3 a1 (a2.trans o2)
      · cases h
  | shrink_to_fit i =>
    simp only [System.step] at h
    cases ho : sys.objs[i]? with
    | none => rw [ho] at h; cases h
    | some s =>
      rw [ho] at h
      simp only [Option.some.injEq] at h
      subst h
      obtain ⟨o1, o2⟩ := hinv i s ho
      obtain ⟨a1, a2, a3⟩ := laws_shrink_step L s sys.σ o1
      exact objs_set_valid V L sys.objs sys.σ _ i _ hinv a3 a1 (a2.trans o2)
  | move_assign i j =>
    simp only [System.step] at h
    cases hs : sys.objs[i]? with
    | none => rw [hs] at h; cases h
    | some s =>
      cases ho : sys.objs[j]? with
      | none => rw [hs, ho] at h; cases h
      | some other =>
        rw [hs, ho] at h
        simp only [] at h
        split at h
        · rename_i hij
          simp only [Option.some.injEq] at h
          subst h
          obtain ⟨s1, s2⟩ := hinv i s hs
          obtain ⟨o1, o2⟩ := hinv j other ho
          have hne : V.self s ≠ V.self other := by rw [s2, o2]; exact hij
          obtain ⟨a1, a2, a3, a4, a5⟩ := laws_assign_step L s other sys.σ s1 o1 hne
          have hset := objs_set_valid V L sys.objs sys.σ _ i _ hinv (by rw [a5]) a1
            (a2.trans s2)
          exact objs_set_valid V L _ _ _ j _ hset (Nat.le_refl _) a3 (a4.trans o2)
        · cases h

/-- Every string object of a program that ran from an empty system is valid. -/
theorem run_valid (ops : List operation) : ∀ (sys sys' : System V),
    (∀ j s, sys.objs[j]? = some s → valid s sys.σ ∧ V.self s = j) →
    System.run V sys ops = some sys' →
    ∀ j s, sys'.objs[j]? = some s → valid s sys'.σ ∧ V.self s = j := by
  induction ops with
  | nil =>
    intro sys sys' hinv h
    simp only [System.run, Option.some.injEq] at h
    subst h
    exact hinv
  | cons o rest ih =>
    intro sys sys' hinv h
    simp only [System.run] at h
    cases hs : System.step V sys o with
    | none => rw [hs] at h; cases h
    | some sys₁ =>
      rw [hs] at h
      exact ih sys₁ sys' (step_valid V L sys sys₁ o hinv hs) h

/-- In every state a program reaches from the empty system, `size() <= capacity()` holds for
every string object. -/
theorem run_size_le_capacity (junk : pointer → char) (ops : List operation) (sys : System V)
    (h : System.run V (System.init V junk) ops = some sys) :
    ∀ s ∈ sys.objs, V.size s ≤ V.capacity s := by
  intro s hs
  obtain ⟨j, hj⟩ := List.mem_iff_getElem?.mp hs
  have hinv : ∀ j s, (System.init V junk).objs[j]? = some s →
      valid s (System.init V junk).σ ∧ V.self s = j := by
    intro j s hj
    simp [System.init] at hj
  exact (L.valid_size s sys.σ (run_valid V L ops _ sys hinv h j s hj).1).1

end programs

/-! ## The claims -/

section generic_claims

variable {string : Type} {N : Nat}
  {ctor : Machine → Nat → Machine × string}
  {ctor_move : Machine → Nat → string → Machine × string × string}
  {operator_assign : string → Machine → string → Machine × string × string}
  {reserve : string → Machine → Nat → Machine × string}
  {shrink_to_fit : string → Machine → Machine × string}
  {insert : string → Machine → Nat → char → Machine × string × pointer}
  {pop_back : string → Machine → Machine × string}
  {identity : string → Nat} {is_large : string → Bool} {data : string → pointer}
  {size : string → Nat} {capacity : string → Nat}
  {valid : string → Machine → Prop}
  (L : laws string N ctor ctor_move operator_assign reserve shrink_to_fit insert pop_back
    identity is_large data size capacity valid)

include L

/-- The in-place path of `insert`: content, size and capacity. -/
theorem laws_insert_in_place_spec (s : string) (σ : Machine) (k : Nat) (v : char)
    (hv : valid s σ) (hlt : size s < capacity s) (hk : k ≤ size s) :
    read_bytes (insert s σ k v).1 (data (insert s σ k v).2.1) (size (insert s σ k v).2.1) =
      (read_bytes σ (data s) (size s)).take k ++ v :: (read_bytes σ (data s) (size s)).drop k ∧
    size (insert s σ k v).2.1 = size s + 1 ∧
    capacity (insert s σ k v).2.1 = capacity s := by
  obtain ⟨-, -, -, -, h5, h6, -⟩ := L.insert_in_place s σ k v hv hlt hk
  exact ⟨laws_insert_in_place_view L s σ k v hv hlt hk, h5, h6⟩

/-- Appending a byte sequence to a freshly constructed string. -/
theorem laws_append_fresh (σ : Machine) (object : Nat) (w : List char)
    (hw : w.length ≤ 2 ^ 62) :
    size (append_all insert size (ctor σ object).2 (ctor σ object).1 w).2 = w.length ∧
    read_bytes (append_all insert size (ctor σ object).2 (ctor σ object).1 w).1
        (data (append_all insert size (ctor σ object).2 (ctor σ object).1 w).2)
        (size (append_all insert size (ctor σ object).2 (ctor σ object).1 w).2) = w ∧
    size (append_all insert size (ctor σ object).2 (ctor σ object).1 w).2 ≤
      capacity (append_all insert size (ctor σ object).2 (ctor σ object).1 w).2 := by
  obtain ⟨c1, -, -, c4, -⟩ := L.ctor_spec σ object
  have hb : (size (ctor σ object).2 + w.length) * 2 ≤ max_elements := by
    rw [c4]
    simp only [max_elements]
    omega
  obtain ⟨h1, h2, h3⟩ := laws_append_all L w (ctor σ object).2 (ctor σ object).1 c1 hb
  refine ⟨by rw [h2, c4]; omega, ?_, (L.valid_size _ _ h1).1⟩
  rw [h3, laws_ctor_view L σ object]
  rfl

end generic_claims

set_option maxRecDepth 100000 in
/-- C1 (defect): the reallocation path of `insert` does not keep the content when the
position is before `end()`.  In each variant, a string that fills its inline buffer with the
bytes `1, ..., N` has `size() == capacity()`; after `insert(begin(), 97)` the content is
`97, 2, ..., N, 0`: the byte `1` that stood at the position is gone, and the last byte is the
zero of the fresh arena block instead of `N`. -/
theorem C1_insert_realloc_drops_byte :
    (clang_bit_field.full_str.2.size = clang_bit_field.full_str.2.capacity ∧
      clang_bit_field.full_str.2.view clang_bit_field.full_str.1 = counting 23 ∧
      (clang_bit_field.full_str.2.insert clang_bit_field.full_str.1 0 97).2.1.view
          (clang_bit_field.full_str.2.insert clang_bit_field.full_str.1 0 97).1 =
        97 :: (counting 23).drop 1 ++ [0]) ∧
    (clang_common_initial_subsequence.full_str.2.size =
        clang_common_initial_subsequence.full_str.2.capacity ∧
      clang_common_initial_subsequence.full_str.2.view
        clang_common_initial_subsequence.full_str.1 = counting 23 ∧
      (clang_common_initial_subsequence.full_str.2.insert
          clang_common_initial_subsequence.full_str.1 0 97).2.1.view
          (clang_common_initial_subsequence.full_str.2.insert
            clang_common_initial_subsequence.full_str.1 0 97).1 =
        97 :: (counting 23).drop 1 ++ [0]) ∧
    (gcc_msvc_abi.full_str.2.size = gcc_msvc_abi.full_str.2.capacity ∧
      gcc_msvc_abi.full_str.2.view gcc_msvc_abi.full_str.1 = counting 16 ∧
      (gcc_msvc_abi.full_str.2.insert gcc_msvc_abi.full_str.1 0 97).2.1.view
          (gcc_msvc_abi.full_str.2.insert gcc_msvc_abi.full_str.1 0 97).1 =
        97 :: (counting 16).drop 1 ++ [0]) := by
  refine ⟨⟨?_, ?_, ?_⟩, ⟨?_, ?_, ?_⟩, ⟨?_, ?_, ?_⟩⟩ <;> decide

/-- C2: the in-place path of `insert` splices the byte in.  In every variant, for every valid
string with `size() < capacity()`, every offset `k <= size()` and every byte `v`, after
`insert(begin() + k, v)` the content is `old[0..k) ++ [v] ++ old[k..size)`, the size has grown
by exactly 1 and the capacity is unchanged. -/
theorem C2_insert_in_place_splices :
    (∀ (s : clang_bit_field.string) (σ : Machine) (k : Nat) (v : char),
      s.valid σ → s.size < s.capacity → k ≤ s.size →
      (s.insert σ k v).2.1.view (s.insert σ k v).1 =
        (s.view σ).take k ++ v :: (s.view σ).drop k ∧
      (s.insert σ k v).2.1.size = s.size + 1 ∧
      (s.insert σ k v).2.1.capacity = s.capacity) ∧
    (∀ (s : clang_common_initial_subsequence.string) (σ : Machine) (k : Nat) (v : char),
      s.valid σ → s.size < s.capacity → k ≤ s.size →
      (s.insert σ k v).2.1.view (s.insert σ k v).1 =
        (s.view σ).take k ++ v :: (s.view σ).drop k ∧
      (s.insert σ k v).2.1.size = s.size + 1 ∧
      (s.insert σ k v).2.1.capacity = s.capacity) ∧
    (∀ (s : gcc_msvc_abi.string) (σ : Machine) (k : Nat) (v : char),
      s.valid σ → s.size < s.capacity → k ≤ s.size →
      (s.insert σ k v).2.1.view (s.insert σ k v).1 =
        (s.view σ).take k ++ v :: (s.view σ).drop k ∧
      (s.insert σ k v).2.1.size = s.size + 1 ∧
      (s.insert σ k v).2.1.capacity = s.capacity) :=
  ⟨fun s σ k v hv hlt hk =>
      laws_insert_in_place_spec clang_bit_field.bf_impl_laws s σ k v hv hlt hk,
    fun s σ k v hv hlt hk =>
      laws_insert_in_place_spec clang_common_initial_subsequence.cis_impl_laws s σ k v hv hlt hk,
    fun s σ k v hv hlt hk =>
      laws_insert_in_place_spec gcc_msvc_abi.gcc_impl_laws s σ k v hv hlt hk⟩

/-- C2 at a concrete input: `insert(begin() + 1, 97)` into `"0123"`, in each variant. -/
theorem C2_insert_in_place_splices_witness :
    ((clang_bit_field.short_str.2.insert clang_bit_field.short_str.1 1 97).2.1.view
        (clang_bit_field.short_str.2.insert clang_bit_field.short_str.1 1 97).1 =
      (clang_bit_field.short_str.2.view clang_bit_field.short_str.1).take 1 ++
        97 :: (clang_bit_field.short_str.2.view clang_bit_field.short_str.1).drop 1) ∧
    ((clang_common_initial_subsequence.short_str.2.insert
        clang_common_initial_subsequence.short_str.1 1 97).2.1.size =
      clang_common_initial_subsequence.short_str.2.size + 1) ∧
    ((gcc_msvc_abi.short_str.2.insert gcc_msvc_abi.short_str.1 1 97).2.1.capacity =
      gcc_msvc_abi.short_str.2.capacity) :=
  ⟨(C2_insert_in_place_splices.1 clang_bit_field.short_str.2 clang_bit_field.short_str.1 1 97
      (by decide) (by decide) (by decide)).1,
    (C2_insert_in_place_splices.2.1 clang_common_initial_subsequence.short_str.2
      clang_common_initial_subsequence.short_str.1 1 97
      (by decide) (by decide) (by decide)).2.1,
    (C2_insert_in_place_splices.2.2 gcc_msvc_abi.short_str.2 gcc_msvc_abi.short_str.1 1 97
      (by decide) (by decide) (by decide)).2.2⟩

/-- C3: the append round trip.  In every variant, for every byte sequence `w` (of at most
`2^62` bytes), inserting the bytes of `w` one at a time at `end()` into a freshly
constructed string yields `size() == |w|`, content `w` and `capacity() >= size()`. -/
theorem C3_append_round_trip :
    (∀ (σ : Machine) (object : Nat) (w : List char), w.length ≤ 2 ^ 62 →
      (append_all clang_bit_field.string.insert clang_bit_field.string.size
        (clang_bit_field.string.ctor σ object).2
        (clang_bit_field.string.ctor σ object).1 w).2.size = w.length ∧
      (append_all clang_bit_field.string.insert clang_bit_field.string.size
        (clang_bit_field.string.ctor σ object).2
        (clang_bit_field.string.ctor σ object).1 w).2.view
          (append_all clang_bit_field.string.insert clang_bit_field.string.size
            (clang_bit_field.string.ctor σ object).2
            (clang_bit_field.string.ctor σ object).1 w).1 = w ∧
      (append_all clang_bit_field.string.insert clang_bit_field.string.size
        (clang_bit_field.string.ctor σ object).2
        (clang_bit_field.string.ctor σ object).1 w).2.size ≤
        (append_all clang_bit_field.string.insert clang_bit_field.string.size
          (clang_bit_field.string.ctor σ object).2
          (clang_bit_field.string.ctor σ object).1 w).2.capacity) ∧
    (∀ (σ : Machine) (object : Nat) (w : List char), w.length ≤ 2 ^ 62 →
      (append_all clang_common_initial_subsequence.string.insert
        clang_common_initial_subsequence.string.size
        (clang_common_initial_subsequence.string.ctor σ object).2
        (clang_common_initial_subsequence.string.ctor σ object).1 w).2.size = w.length ∧
      (append_all clang_common_initial_subsequence.string.insert
        clang_common_initial_subsequence.string.size
        (clang_common_initial_subsequence.string.ctor σ object).2
        (clang_common_initial_subsequence.string.ctor σ object).1 w).2.view
          (append_all clang_common_initial_subsequence.string.insert
            clang_common_initial_subsequence.string.size
            (clang_common_initial_subsequence.string.ctor σ object).2
            (clang_common_initial_subsequence.string.ctor σ object).1 w).1 = w ∧
      (append_all clang_common_initial_subsequence.string.insert
        clang_common_initial_subsequence.string.size
        (clang_common_initial_subsequence.string.ctor σ object).2
        (clang_common_initial_subsequence.string.ctor σ object).1 w).2.size ≤
        (append_all clang_common_initial_subsequence.string.insert
          clang_common_initial_subsequence.string.size
          (clang_common_initial_subsequence.string.ctor σ object).2
          (clang_common_initial_subsequence.string.ctor σ object).1 w).2.capacity) ∧
    (∀ (σ : Machine) (object : Nat) (w : List char), w.length ≤ 2 ^ 62 →
      (append_all gcc_msvc_abi.string.insert gcc_msvc_abi.string.size
        (gcc_msvc_abi.string.ctor σ object).2
        (gcc_msvc_abi.string.ctor σ object).1 w).2.size = w.length ∧
      (append_all gcc_msvc_abi.string.insert gcc_msvc_abi.string.size
        (gcc_msvc_abi.string.ctor σ object).2
        (gcc_msvc_abi.string.ctor σ object).1 w).2.view
          (append_all gcc_msvc_abi.string.insert gcc_msvc_abi.string.size
            (gcc_msvc_abi.string.ctor σ object).2
            (gcc_msvc_abi.string.ctor σ object).1 w).1 = w ∧
      (append_all gcc_msvc_abi.string.insert gcc_msvc_abi.string.size
        (gcc_msvc_abi.string.ctor σ object).2
        (gcc_msvc_abi.string.ctor σ object).1 w).2.size ≤
        (append_all gcc_msvc_abi.string.insert gcc_msvc_abi.string.size
          (gcc_msvc_abi.string.ctor σ object).2
          (gcc_msvc_abi.string.ctor σ object).1 w).2.capacity) :=
  ⟨fun σ object w hw => laws_append_fresh clang_bit_field.bf_impl_laws σ object w hw,
    fun σ object w hw =>
      laws_append_fresh clang_common_initial_subsequence.cis_impl_laws σ object w hw,
    fun σ object w hw => laws_append_fresh gcc_msvc_abi.gcc_impl_laws σ object w hw⟩

/-- C3 at a concrete input: the bytes of `"0123"` appended to a fresh string, as
`test_individual` does, in each variant. -/
theorem C3_append_round_trip_witness :
    short_source.length ≤ 2 ^ 62 ∧
    clang_bit_field.short_str.2.view clang_bit_field.short_str.1 = short_source ∧
    clang_common_initial_subsequence.short_str.2.size = short_source.length ∧
    gcc_msvc_abi.short_str.2.size ≤ gcc_msvc_abi.short_str.2.capacity :=
  ⟨by decide,
    (C3_append_round_trip.1 fresh_machine 0 short_source (by decide)).2.1,
    (C3_append_round_trip.2.1 fresh_machine 0 short_source (by decide)).1,
    (C3_append_round_trip.2.2 fresh_machine 0 short_source (by decide)).2.2⟩

theorem allocate_sizes_append (xs ys : List call) :
    allocate_sizes (xs ++ ys) = allocate_sizes xs ++ allocate_sizes ys := by
  induction xs with
  | nil => rfl
  | cons x rest ih =>
    cases x with
    | allocate p n =>
      show n :: allocate_sizes (rest ++ ys) = n :: allocate_sizes rest ++ allocate_sizes ys
      rw [ih]
      rfl
    | deallocate p n =>
      show allocate_sizes (rest ++ ys) = allocate_sizes rest ++ allocate_sizes ys
      exact ih

theorem allocate_sizes_release (large : Bool) (p : pointer) (c : Nat) :
    allocate_sizes (release_call large p c) = [] := by
  cases large <;> rfl

/-- The log after one `allocate` call followed by the release of the old block. -/
theorem allocate_sizes_grow (calls : List call) (p q : pointer) (r c : Nat) (large : Bool) :
    allocate_sizes (calls ++ [call.allocate p r] ++ release_call large q c) =
      allocate_sizes calls ++ [r] := by
  rw [allocate_sizes_append, allocate_sizes_append, allocate_sizes_release, List.append_nil]
  rfl

section generic_claims_two

variable {string : Type} {N : Nat}
  {ctor : Machine → Nat → Machine × string}
  {ctor_move : Machine → Nat → string → Machine × string × string}
  {operator_assign : string → Machine → string → Machine × string × string}
  {reserve : string → Machine → Nat → Machine × string}
  {shrink_to_fit : string → Machine → Machine × string}
  {insert : string → Machine → Nat → char → Machine × string × pointer}
  {pop_back : string → Machine → Machine × string}
  {identity : string → Nat} {is_large : string → Bool} {data : string → pointer}
  {size : string → Nat} {capacity : string → Nat}
  {valid : string → Machine → Prop}
  (L : laws string N ctor ctor_move operator_assign reserve shrink_to_fit insert pop_back
    identity is_large data size capacity valid)

include L

/-- What the move assignment leaves in the source. -/
theorem laws_assign_source_spec (s other : string) (σ : Machine) (hs : valid s σ)
    (ho : valid other σ) (hne : identity s ≠ identity other) :
    is_large (operator_assign s σ other).2.2 = false ∧
    (is_large other = true → size (operator_assign s σ other).2.2 = 0) ∧
    (is_large other = false → (operator_assign s σ other).2.2 = other ∧
      read_bytes (operator_assign s σ other).1 (data other) (size other) =
        read_bytes σ (data other) (size other)) :=
  (laws_assign_source L s other σ hs ho hne).2.2

/-- What the move constructor leaves in the source. -/
theorem laws_ctor_move_source_spec (other : string) (σ : Machine) (object : Nat)
    (ho : valid other σ) (hne : object ≠ identity other) :
    is_large (ctor_move σ object other).2.2 = false ∧
    (is_large other = true → size (ctor_move σ object other).2.2 = 0) ∧
    (is_large other = false → (ctor_move σ object other).2.2 = other ∧
      read_bytes (ctor_move σ object other).1 (data other) (size other) =
        read_bytes σ (data other) (size other)) := by
  rw [L.ctor_move_eq]
  obtain ⟨c1, c2, -⟩ := L.ctor_spec σ object
  obtain ⟨f1, f2⟩ := laws_ctor_frame L other σ object ho hne
  have hne1 : identity (ctor σ object).2 ≠ identity other := by rw [c2]; exact hne
  obtain ⟨h1, h2, h3⟩ := laws_assign_source_spec L _ other _ c1 f1 hne1
  exact ⟨h1, h2, fun hl => ⟨(h3 hl).1, (h3 hl).2.trans f2⟩⟩

/-- What the move assignment gives the destination. -/
theorem laws_assign_destination_spec (s other : string) (σ : Machine) (hs : valid s σ)
    (ho : valid other σ) (hne : identity s ≠ identity other) :
    size (operator_assign s σ other).2.1 = size other ∧
    capacity (operator_assign s σ other).2.1 = capacity other ∧
    read_bytes (operator_assign s σ other).1 (data (operator_assign s σ other).2.1)
        (size (operator_assign s σ other).2.1) =
      read_bytes σ (data other) (size other) :=
  (laws_assign_destination L s other σ hs ho hne).2.2.2

/-- The postcondition of `reserve`. -/
theorem laws_reserve_spec (s : string) (σ : Machine) (r : Nat) (hv : valid s σ)
    (hr : r < 2 ^ 63) :
    (r ≤ capacity s → reserve s σ r = (σ, s)) ∧
    (capacity s < r →
      is_large (reserve s σ r).2 = true ∧
      capacity (reserve s σ r).2 = r ∧
      allocate_sizes (reserve s σ r).1.calls = allocate_sizes σ.calls ++ [r] ∧
      size (reserve s σ r).2 = size s ∧
      read_bytes (reserve s σ r).1 (data (reserve s σ r).2) (size (reserve s σ r).2) =
        read_bytes σ (data s) (size s)) := by
  refine ⟨fun h => L.reserve_small s σ r h, fun h => ?_⟩
  obtain ⟨-, -, h3, -, h5, h6, -, h8, -⟩ := L.reserve_grow s σ r hv h hr
  refine ⟨h3, h6, ?_, h5, laws_reserve_grow_view L s σ r hv h hr⟩
  rw [h8, allocate_sizes_grow]

/-- The growth of a full string on `insert`. -/
theorem laws_insert_growth (s : string) (σ : Machine) (k : Nat) (v : char) (hv : valid s σ)
    (hfull : size s = capacity s) (hc : capacity s < 2 ^ 62) (hk : k ≤ size s) :
    capacity (insert s σ k v).2.1 = 2 * capacity s ∧
    size (insert s σ k v).2.1 = capacity s + 1 ∧
    allocate_sizes (insert s σ k v).1.calls = allocate_sizes σ.calls ++ [2 * capacity s] := by
  have hc' : capacity s * 2 < max_elements := by
    simp only [max_elements]
    omega
  obtain ⟨-, -, -, -, h5, h6, -, -, h9, -⟩ := L.insert_realloc s σ k v hv hfull hk hc'
  refine ⟨by rw [h6]; omega, by rw [h5, hfull], ?_⟩
  rw [h9, allocate_sizes_grow, Nat.mul_comm]

/-- The representation that `shrink_to_fit` chooses. -/
theorem laws_shrink_representation (s : string) (σ : Machine) (hv : valid s σ) :
    (is_large s = true → size s < capacity s → size s ≤ N →
      is_large (shrink_to_fit s σ).2 = false ∧ capacity (shrink_to_fit s σ).2 = N) ∧
    (is_large s = true → size s < capacity s → N < size s →
      is_large (shrink_to_fit s σ).2 = true ∧ capacity (shrink_to_fit s σ).2 = size s) ∧
    (is_large s = false ∨ capacity s = size s → shrink_to_fit s σ = (σ, s)) := by
  refine ⟨fun hl hlt hn => ?_, fun hl hlt hn => ?_, fun h => L.shrink_noop s σ hv h⟩
  · obtain ⟨h1, -, h3, -⟩ := L.shrink_inline s σ hv hl hlt hn
    exact ⟨h3, (L.valid_small _ _ h1 h3).1⟩
  · obtain ⟨-, -, h3, -, -, h6, -⟩ := L.shrink_heap s σ hv hl hlt hn
    exact ⟨h3, h6⟩

end generic_claims_two

/-- C4 (as the claim states it, refuted): in each variant, moving the inline string `"0123"`
into a freshly constructed string, a different object, leaves the source with `size() == 4`,
not 0. -/
theorem C4_move_inline_source_counterexample :
    ((clang_bit_field.string.ctor clang_bit_field.short_str.1 1).2.valid (clang_bit_field.string.ctor clang_bit_field.short_str.1 1).1 ∧
      clang_bit_field.short_str.2.valid (clang_bit_field.string.ctor clang_bit_field.short_str.1 1).1 ∧
      (clang_bit_field.string.ctor clang_bit_field.short_str.1 1).2.self ≠ clang_bit_field.short_str.2.self ∧
      ((clang_bit_field.string.ctor clang_bit_field.short_str.1 1).2.operator_assign
        (clang_bit_field.string.ctor clang_bit_field.short_str.1 1).1 clang_bit_field.short_str.2).2.2.size = 4 ∧
      ¬ ((clang_bit_field.string.ctor clang_bit_field.short_str.1 1).2.operator_assign
        (clang_bit_field.string.ctor clang_bit_field.short_str.1 1).1 clang_bit_field.short_str.2).2.2.size = 0) ∧
    ((clang_common_initial_subsequence.string.ctor clang_common_initial_subsequence.short_str.1 1).2.valid (clang_common_initial_subsequence.string.ctor clang_common_initial_subsequence.short_str.1 1).1 ∧
      clang_common_initial_subsequence.short_str.2.valid (clang_common_initial_subsequence.string.ctor clang_common_initial_subsequence.short_str.1 1).1 ∧
      (clang_common_initial_subsequence.string.ctor clang_common_initial_subsequence.short_str.1 1).2.self ≠ clang_common_initial_subsequence.short_str.2.self ∧
      ((clang_common_initial_subsequence.string.ctor clang_common_initial_subsequence.short_str.1 1).2.operator_assign
        (clang_common_initial_subsequence.string.ctor clang_common_initial_subsequence.short_str.1 1).1 clang_common_initial_subsequence.short_str.2).2.2.size = 4 ∧
      ¬ ((clang_common_initial_subsequence.string.ctor clang_common_initial_subsequence.short_str.1 1).2.operator_assign
        (clang_common_initial_subsequence.string.ctor clang_common_initial_subsequence.short_str.1 1).1 clang_common_initial_subsequence.short_str.2).2.2.size = 0) ∧
    ((gcc_msvc_abi.string.ctor gcc_msvc_abi.short_str.1 1).2.valid (gcc_msvc_abi.string.ctor gcc_msvc_abi.short_str.1 1).1 ∧
      gcc_msvc_abi.short_str.2.valid (gcc_msvc_abi.string.ctor gcc_msvc_abi.short_str.1 1).1 ∧
      (gcc_msvc_abi.string.ctor gcc_msvc_abi.short_str.1 1).2.self ≠ gcc_msvc_abi.short_str.2.self ∧
      ((gcc_msvc_abi.string.ctor gcc_msvc_abi.short_str.1 1).2.operator_assign
        (gcc_msvc_abi.string.ctor gcc_msvc_abi.short_str.1 1).1 gcc_msvc_abi.short_str.2).2.2.size = 4 ∧
      ¬ ((gcc_msvc_abi.string.ctor gcc_msvc_abi.short_str.1 1).2.operator_assign
        (gcc_msvc_abi.string.ctor gcc_msvc_abi.short_str.1 1).1 gcc_msvc_abi.short_str.2).2.2.size = 0) := by
  refine ⟨⟨?_, ?_, ?_, ?_, ?_⟩, ⟨?_, ?_, ?_, ?_, ?_⟩, ⟨?_, ?_, ?_, ?_, ?_⟩⟩ <;> decide

/-- C4 (amended): the move assignment and the move constructor leave the source in the inline
representation; a source that was in the heap state is left with `size() == 0`; a source
that was inline is left as it was, with its size and content.  In every variant, for valid
strings `a` and `b` that are different objects. -/
theorem C4_move_source_after :
    ((∀ (a b : clang_bit_field.string) (σ : Machine),
        a.valid σ → b.valid σ → a.self ≠ b.self →
        (a.operator_assign σ b).2.2.is_large = false ∧
        (b.is_large = true → (a.operator_assign σ b).2.2.size = 0) ∧
        (b.is_large = false → (a.operator_assign σ b).2.2 = b ∧
          b.view (a.operator_assign σ b).1 = b.view σ)) ∧
      (∀ (b : clang_bit_field.string) (σ : Machine) (object : Nat),
        b.valid σ → object ≠ b.self →
        (clang_bit_field.string.ctor_move σ object b).2.2.is_large = false ∧
        (b.is_large = true → (clang_bit_field.string.ctor_move σ object b).2.2.size = 0) ∧
        (b.is_large = false → (clang_bit_field.string.ctor_move σ object b).2.2 = b ∧
          b.view (clang_bit_field.string.ctor_move σ object b).1 = b.view σ))) ∧
    ((∀ (a b : clang_common_initial_subsequence.string) (σ : Machine),
        a.valid σ → b.valid σ → a.self ≠ b.self →
        (a.operator_assign σ b).2.2.is_large = false ∧
        (b.is_large = true → (a.operator_assign σ b).2.2.size = 0) ∧
        (b.is_large = false → (a.operator_assign σ b).2.2 = b ∧
          b.view (a.operator_assign σ b).1 = b.view σ)) ∧
      (∀ (b : clang_common_initial_subsequence.string) (σ : Machine) (object : Nat),
        b.valid σ → object ≠ b.self →
        (clang_common_initial_subsequence.string.ctor_move σ object b).2.2.is_large = false ∧
        (b.is_large = true → (clang_common_initial_subsequence.string.ctor_move σ object b).2.2.size = 0) ∧
        (b.is_large = false → (clang_common_initial_subsequence.string.ctor_move σ object b).2.2 = b ∧
          b.view (clang_common_initial_subsequence.string.ctor_move σ object b).1 = b.view σ))) ∧
    ((∀ (a b : gcc_msvc_abi.string) (σ : Machine),
        a.valid σ → b.valid σ → a.self ≠ b.self →
        (a.operator_assign σ b).2.2.is_large = false ∧
        (b.is_large = true → (a.operator_assign σ b).2.2.size = 0) ∧
        (b.is_large = false → (a.operator_assign σ b).2.2 = b ∧
          b.view (a.operator_assign σ b).1 = b.view σ)) ∧
      (∀ (b : gcc_msvc_abi.string) (σ : Machine) (object : Nat),
        b.valid σ → object ≠ b.self →
        (gcc_msvc_abi.string.ctor_move σ object b).2.2.is_large = false ∧
        (b.is_large = true → (gcc_msvc_abi.string.ctor_move σ object b).2.2.size = 0) ∧
        (b.is_large = false → (gcc_msvc_abi.string.ctor_move σ object b).2.2 = b ∧
          b.view (gcc_msvc_abi.string.ctor_move σ object b).1 = b.view σ))) :=
  ⟨⟨fun a b σ ha hb hne => laws_assign_source_spec clang_bit_field.bf_impl_laws a b σ ha hb hne,
      fun b σ object hb hne => laws_ctor_move_source_spec clang_bit_field.bf_impl_laws b σ object hb hne⟩,
    ⟨fun a b σ ha hb hne => laws_assign_source_spec clang_common_initial_subsequence.cis_impl_laws a b σ ha hb hne,
      fun b σ object hb hne => laws_ctor_move_source_spec clang_common_initial_subsequence.cis_impl_laws b σ object hb hne⟩,
    ⟨fun a b σ ha hb hne => laws_assign_source_spec gcc_msvc_abi.gcc_impl_laws a b σ ha hb hne,
      fun b σ object hb hne => laws_ctor_move_source_spec gcc_msvc_abi.gcc_impl_laws b σ object hb hne⟩⟩

/-- C4 (amended) at concrete inputs: a heap source (`"0123"` after `reserve(50)`) in
`clang-bit-field.cpp` and in `clang-common-initial-subsequence.cpp`, an inline source
(`"0123"`) in `gcc-msvc-abi.cpp`, each moved into a freshly constructed string. -/
theorem C4_move_source_after_witness :
    ((clang_bit_field.string.ctor clang_bit_field.reserved_str.1 1).2.operator_assign
      (clang_bit_field.string.ctor clang_bit_field.reserved_str.1 1).1
      clang_bit_field.reserved_str.2).2.2.size = 0 ∧
    (clang_common_initial_subsequence.string.ctor_move
      clang_common_initial_subsequence.reserved_str.1 1
      clang_common_initial_subsequence.reserved_str.2).2.2.is_large = false ∧
    ((gcc_msvc_abi.string.ctor gcc_msvc_abi.short_str.1 1).2.operator_assign
      (gcc_msvc_abi.string.ctor gcc_msvc_abi.short_str.1 1).1
      gcc_msvc_abi.short_str.2).2.2 = gcc_msvc_abi.short_str.2 :=
  ⟨(C4_move_source_after.1.1 (clang_bit_field.string.ctor clang_bit_field.reserved_str.1 1).2
      clang_bit_field.reserved_str.2
      (clang_bit_field.string.ctor clang_bit_field.reserved_str.1 1).1
      (by decide) (by decide) (by decide)).2.1 (by decide),
    (C4_move_source_after.2.1.2 clang_common_initial_subsequence.reserved_str.2
      clang_common_initial_subsequence.reserved_str.1 1 (by decide) (by decide)).1,
    ((C4_move_source_after.2.2.1 (gcc_msvc_abi.string.ctor gcc_msvc_abi.short_str.1 1).2
      gcc_msvc_abi.short_str.2 (gcc_msvc_abi.string.ctor gcc_msvc_abi.short_str.1 1).1
      (by decide) (by decide) (by decide)).2.2 (by decide)).1⟩

/-- C5: the move assignment gives the destination what the source held.  In every variant,
for valid strings `a` and `b` that are different objects, after `a = std::move(b)` the size,
the capacity and the content of `a` are those of `b` before the move; and moving a string
into a freshly constructed string and back, as `test_individual` does, restores its size and
content. -/
theorem C5_move_destination :
    ((∀ (a b : clang_bit_field.string) (σ : Machine),
        a.valid σ → b.valid σ → a.self ≠ b.self →
        (a.operator_assign σ b).2.1.size = b.size ∧
        (a.operator_assign σ b).2.1.capacity = b.capacity ∧
        (a.operator_assign σ b).2.1.view (a.operator_assign σ b).1 = b.view σ) ∧
      (∀ (str : clang_bit_field.string) (σ : Machine) (object : Nat),
        str.valid σ → object ≠ str.self →
        ((clang_bit_field.string.ctor_move σ object str).2.2.operator_assign
          (clang_bit_field.string.ctor_move σ object str).1
          (clang_bit_field.string.ctor_move σ object str).2.1).2.1.size = str.size ∧
        ((clang_bit_field.string.ctor_move σ object str).2.2.operator_assign
          (clang_bit_field.string.ctor_move σ object str).1
          (clang_bit_field.string.ctor_move σ object str).2.1).2.1.view
            ((clang_bit_field.string.ctor_move σ object str).2.2.operator_assign
              (clang_bit_field.string.ctor_move σ object str).1
              (clang_bit_field.string.ctor_move σ object str).2.1).1 = str.view σ)) ∧
    ((∀ (a b : clang_common_initial_subsequence.string) (σ : Machine),
        a.valid σ → b.valid σ → a.self ≠ b.self →
        (a.operator_assign σ b).2.1.size = b.size ∧
        (a.operator_assign σ b).2.1.capacity = b.capacity ∧
        (a.operator_assign σ b).2.1.view (a.operator_assign σ b).1 = b.view σ) ∧
      (∀ (str : clang_common_initial_subsequence.string) (σ : Machine) (object : Nat),
        str.valid σ → object ≠ str.self →
        ((clang_common_initial_subsequence.string.ctor_move σ object str).2.2.operator_assign
          (clang_common_initial_subsequence.string.ctor_move σ object str).1
          (clang_common_initial_subsequence.string.ctor_move σ object str).2.1).2.1.size = str.size ∧
        ((clang_common_initial_subsequence.string.ctor_move σ object str).2.2.operator_assign
          (clang_common_initial_subsequence.string.ctor_move σ object str).1
          (clang_common_initial_subsequence.string.ctor_move σ object str).2.1).2.1.view
            ((clang_common_initial_subsequence.string.ctor_move σ object str).2.2.operator_assign
              (clang_common_initial_subsequence.string.ctor_move σ object str).1
              (clang_common_initial_subsequence.string.ctor_move σ object str).2.1).1 = str.view σ)) ∧
    ((∀ (a b : gcc_msvc_abi.string) (σ : Machine),
        a.valid σ → b.valid σ → a.self ≠ b.self →
        (a.operator_assign σ b).2.1.size = b.size ∧
        (a.operator_assign σ b).2.1.capacity = b.capacity ∧
        (a.operator_assign σ b).2.1.view (a.operator_assign σ b).1 = b.view σ) ∧
      (∀ (str : gcc_msvc_abi.string) (σ : Machine) (object : Nat),
        str.valid σ → object ≠ str.self →
        ((gcc_msvc_abi.string.ctor_move σ object str).2.2.operator_assign
          (gcc_msvc_abi.string.ctor_move σ object str).1
          (gcc_msvc_abi.string.ctor_move σ object str).2.1).2.1.size = str.size ∧
        ((gcc_msvc_abi.string.ctor_move σ object str).2.2.operator_assign
          (gcc_msvc_abi.string.ctor_move σ object str).1
          (gcc_msvc_abi.string.ctor_move σ object str).2.1).2.1.view
            ((gcc_msvc_abi.string.ctor_move σ object str).2.2.operator_assign
              (gcc_msvc_abi.string.ctor_move σ object str).1
              (gcc_msvc_abi.string.ctor_move σ object str).2.1).1 = str.view σ)) :=
  ⟨⟨fun a b σ ha hb hne => laws_assign_destination_spec clang_bit_field.bf_impl_laws a b σ ha hb hne,
      fun str σ object hv hne => laws_move_round_trip clang_bit_field.bf_impl_laws str σ object hv hne⟩,
    ⟨fun a b σ ha hb hne => laws_assign_destination_spec clang_common_initial_subsequence.cis_impl_laws a b σ ha hb hne,
      fun str σ object hv hne => laws_move_round_trip clang_common_initial_subsequence.cis_impl_laws str σ object hv hne⟩,
    ⟨fun a b σ ha hb hne => laws_assign_destination_spec gcc_msvc_abi.gcc_impl_laws a b σ ha hb hne,
      fun str σ object hv hne => laws_move_round_trip gcc_msvc_abi.gcc_impl_laws str σ object hv hne⟩⟩

/-- C5 at concrete inputs: the heap string `"0123"` after `reserve(50)` moved into a fresh
string (`clang-bit-field.cpp`), the inline string `"0123"` moved into a fresh string
(`clang-common-initial-subsequence.cpp`), and `"0123"` moved out and back
(`gcc-msvc-abi.cpp`). -/
theorem C5_move_destination_witness :
    ((clang_bit_field.string.ctor clang_bit_field.reserved_str.1 1).2.operator_assign
      (clang_bit_field.string.ctor clang_bit_field.reserved_str.1 1).1
      clang_bit_field.reserved_str.2).2.1.capacity = clang_bit_field.reserved_str.2.capacity ∧
    ((clang_common_initial_subsequence.string.ctor
        clang_common_initial_subsequence.short_str.1 1).2.operator_assign
      (clang_common_initial_subsequence.string.ctor
        clang_common_initial_subsequence.short_str.1 1).1
      clang_common_initial_subsequence.short_str.2).2.1.size =
      clang_common_initial_subsequence.short_str.2.size ∧
    ((gcc_msvc_abi.string.ctor_move gcc_msvc_abi.short_str.1 1
        gcc_msvc_abi.short_str.2).2.2.operator_assign
      (gcc_msvc_abi.string.ctor_move gcc_msvc_abi.short_str.1 1 gcc_msvc_abi.short_str.2).1
      (gcc_msvc_abi.string.ctor_move gcc_msvc_abi.short_str.1 1
        gcc_msvc_abi.short_str.2).2.1).2.1.size = gcc_msvc_abi.short_str.2.size :=
  ⟨((C5_move_destination.1.1 (clang_bit_field.string.ctor clang_bit_field.reserved_str.1 1).2
      clang_bit_field.reserved_str.2
      (clang_bit_field.string.ctor clang_bit_field.reserved_str.1 1).1
      (by decide) (by decide) (by decide)).2.1),
    ((C5_move_destination.2.1.1
      (clang_common_initial_subsequence.string.ctor
        clang_common_initial_subsequence.short_str.1 1).2
      clang_common_initial_subsequence.short_str.2
      (clang_common_initial_subsequence.string.ctor
        clang_common_initial_subsequence.short_str.1 1).1
      (by decide) (by decide) (by decide)).1),
    ((C5_move_destination.2.2.2 gcc_msvc_abi.short_str.2 gcc_msvc_abi.short_str.1 1
      (by decide) (by decide)).1)⟩

/-- C6 (defect): `shrink_to_fit` of `clang-common-initial-subsequence.cpp` loses the value
when it returns to the inline buffer.  The string `"0123"` after `reserve(50)` is a valid heap
string of size 4 with content `"0123"`; after `shrink_to_fit()` its size is 0 and its content
is empty.  The same calls in `clang-bit-field.cpp` and `gcc-msvc-abi.cpp` keep size 4 and the
content. -/
theorem C6_shrink_to_fit_loses_size :
    (clang_common_initial_subsequence.reserved_str.2.valid
        clang_common_initial_subsequence.reserved_str.1 ∧
      clang_common_initial_subsequence.reserved_str.2.is_large = true ∧
      clang_common_initial_subsequence.reserved_str.2.size = 4 ∧
      clang_common_initial_subsequence.reserved_str.2.view
        clang_common_initial_subsequence.reserved_str.1 = short_source ∧
      (clang_common_initial_subsequence.reserved_str.2.shrink_to_fit
        clang_common_initial_subsequence.reserved_str.1).2.size = 0 ∧
      (clang_common_initial_subsequence.reserved_str.2.shrink_to_fit
        clang_common_initial_subsequence.reserved_str.1).2.view
          (clang_common_initial_subsequence.reserved_str.2.shrink_to_fit
            clang_common_initial_subsequence.reserved_str.1).1 = []) ∧
    ((clang_bit_field.reserved_str.2.shrink_to_fit clang_bit_field.reserved_str.1).2.size = 4 ∧
      (clang_bit_field.reserved_str.2.shrink_to_fit clang_bit_field.reserved_str.1).2.view
        (clang_bit_field.reserved_str.2.shrink_to_fit clang_bit_field.reserved_str.1).1 =
          short_source) ∧
    ((gcc_msvc_abi.reserved_str.2.shrink_to_fit gcc_msvc_abi.reserved_str.1).2.size = 4 ∧
      (gcc_msvc_abi.reserved_str.2.shrink_to_fit gcc_msvc_abi.reserved_str.1).2.view
        (gcc_msvc_abi.reserved_str.2.shrink_to_fit gcc_msvc_abi.reserved_str.1).1 =
          short_source) := by
  refine ⟨⟨?_, ?_, ?_, ?_, ?_, ?_⟩, ⟨?_, ?_⟩, ⟨?_, ?_⟩⟩ <;> decide

/-- C7: the postcondition of `reserve(r)`.  In every variant, for every valid string and
every `r` below `2^63`: if `r <= capacity()` neither the string nor the machine changes (so
`allocate` is not called); if `r > capacity()` the string is afterwards in the heap state with
`capacity() == r`, the log of `allocate` calls has grown by exactly one call, for `r`
elements, and the size and the content are unchanged. -/
theorem C7_reserve_postcondition :
    (∀ (s : clang_bit_field.string) (σ : Machine) (r : Nat), s.valid σ → r < 2 ^ 63 →
      (r ≤ s.capacity → s.reserve σ r = (σ, s)) ∧
      (s.capacity < r →
        (s.reserve σ r).2.is_large = true ∧
        (s.reserve σ r).2.capacity = r ∧
        allocate_sizes (s.reserve σ r).1.calls = allocate_sizes σ.calls ++ [r] ∧
        (s.reserve σ r).2.size = s.size ∧
        (s.reserve σ r).2.view (s.reserve σ r).1 = s.view σ)) ∧
    (∀ (s : clang_common_initial_subsequence.string) (σ : Machine) (r : Nat), s.valid σ → r < 2 ^ 63 →
      (r ≤ s.capacity → s.reserve σ r = (σ, s)) ∧
      (s.capacity < r →
        (s.reserve σ r).2.is_large = true ∧
        (s.reserve σ r).2.capacity = r ∧
        allocate_sizes (s.reserve σ r).1.calls = allocate_sizes σ.calls ++ [r] ∧
        (s.reserve σ r).2.size = s.size ∧
        (s.reserve σ r).2.view (s.reserve σ r).1 = s.view σ)) ∧
    (∀ (s : gcc_msvc_abi.string) (σ : Machine) (r : Nat), s.valid σ → r < 2 ^ 63 →
      (r ≤ s.capacity → s.reserve σ r = (σ, s)) ∧
      (s.capacity < r →
        (s.reserve σ r).2.is_large = true ∧
        (s.reserve σ r).2.capacity = r ∧
        allocate_sizes (s.reserve σ r).1.calls = allocate_sizes σ.calls ++ [r] ∧
        (s.reserve σ r).2.size = s.size ∧
        (s.reserve σ r).2.view (s.reserve σ r).1 = s.view σ)) :=
  ⟨fun s σ r hv hr => laws_reserve_spec clang_bit_field.bf_impl_laws s σ r hv hr,
    fun s σ r hv hr => laws_reserve_spec clang_common_initial_subsequence.cis_impl_laws s σ r hv hr,
    fun s σ r hv hr => laws_reserve_spec gcc_msvc_abi.gcc_impl_laws s σ r hv hr⟩

/-- C7 at concrete inputs: `reserve(50)` and `reserve(10)` on `"0123"`. -/
theorem C7_reserve_postcondition_witness :
    (clang_bit_field.short_str.2.reserve clang_bit_field.short_str.1 50).2.capacity = 50 ∧
    clang_common_initial_subsequence.short_str.2.reserve
        clang_common_initial_subsequence.short_str.1 10 =
      (clang_common_initial_subsequence.short_str.1,
        clang_common_initial_subsequence.short_str.2) ∧
    (gcc_msvc_abi.short_str.2.reserve gcc_msvc_abi.short_str.1 50).2.view
        (gcc_msvc_abi.short_str.2.reserve gcc_msvc_abi.short_str.1 50).1 =
      gcc_msvc_abi.short_str.2.view gcc_msvc_abi.short_str.1 :=
  ⟨((C7_reserve_postcondition.1 clang_bit_field.short_str.2 clang_bit_field.short_str.1 50
      (by decide) (by decide)).2 (by decide)).2.1,
    (C7_reserve_postcondition.2.1 clang_common_initial_subsequence.short_str.2
      clang_common_initial_subsequence.short_str.1 10 (by decide) (by decide)).1 (by decide),
    ((C7_reserve_postcondition.2.2 gcc_msvc_abi.short_str.2 gcc_msvc_abi.short_str.1 50
      (by decide) (by decide)).2 (by decide)).2.2.2.2⟩

/-- C8: the growth factor is exactly 2.  In every variant, for every valid string with
`size() == capacity() == C`, `C < 2^62`, and every offset `k <= size()`, after the `insert`
the capacity is `2 * C`, the size is `C + 1`, and the log of `allocate` calls has grown by
exactly one call, for `2 * C` elements. -/
theorem C8_growth_factor :
    (∀ (s : clang_bit_field.string) (σ : Machine) (k : Nat) (v : char), s.valid σ →
      s.size = s.capacity → s.capacity < 2 ^ 62 → k ≤ s.size →
      (s.insert σ k v).2.1.capacity = 2 * s.capacity ∧
      (s.insert σ k v).2.1.size = s.capacity + 1 ∧
      allocate_sizes (s.insert σ k v).1.calls = allocate_sizes σ.calls ++ [2 * s.capacity]) ∧
    (∀ (s : clang_common_initial_subsequence.string) (σ : Machine) (k : Nat) (v : char), s.valid σ →
      s.size = s.capacity → s.capacity < 2 ^ 62 → k ≤ s.size →
      (s.insert σ k v).2.1.capacity = 2 * s.capacity ∧
      (s.insert σ k v).2.1.size = s.capacity + 1 ∧
      allocate_sizes (s.insert σ k v).1.calls = allocate_sizes σ.calls ++ [2 * s.capacity]) ∧
    (∀ (s : gcc_msvc_abi.string) (σ : Machine) (k : Nat) (v : char), s.valid σ →
      s.size = s.capacity → s.capacity < 2 ^ 62 → k ≤ s.size →
      (s.insert σ k v).2.1.capacity = 2 * s.capacity ∧
      (s.insert σ k v).2.1.size = s.capacity + 1 ∧
      allocate_sizes (s.insert σ k v).1.calls = allocate_sizes σ.calls ++ [2 * s.capacity]) :=
  ⟨fun s σ k v hv hf hc hk => laws_insert_growth clang_bit_field.bf_impl_laws s σ k v hv hf hc hk,
    fun s σ k v hv hf hc hk => laws_insert_growth clang_common_initial_subsequence.cis_impl_laws s σ k v hv hf hc hk,
    fun s σ k v hv hf hc hk => laws_insert_growth gcc_msvc_abi.gcc_impl_laws s σ k v hv hf hc hk⟩

set_option maxRecDepth 100000 in
/-- C8 at concrete inputs: an `insert` into the string that fills its inline buffer. -/
theorem C8_growth_factor_witness :
    (clang_bit_field.full_str.2.insert clang_bit_field.full_str.1 23 97).2.1.capacity =
      2 * clang_bit_field.full_str.2.capacity ∧
    (clang_common_initial_subsequence.full_str.2.insert
      clang_common_initial_subsequence.full_str.1 0 97).2.1.size =
      clang_common_initial_subsequence.full_str.2.capacity + 1 ∧
    allocate_sizes (gcc_msvc_abi.full_str.2.insert gcc_msvc_abi.full_str.1 5 97).1.calls =
      allocate_sizes gcc_msvc_abi.full_str.1.calls ++ [2 * gcc_msvc_abi.full_str.2.capacity] :=
  ⟨(C8_growth_factor.1 clang_bit_field.full_str.2 clang_bit_field.full_str.1 23 97
      (by decide) (by decide) (by decide) (by decide)).1,
    (C8_growth_factor.2.1 clang_common_initial_subsequence.full_str.2
      clang_common_initial_subsequence.full_str.1 0 97
      (by decide) (by decide) (by decide) (by decide)).2.1,
    (C8_growth_factor.2.2 gcc_msvc_abi.full_str.2 gcc_msvc_abi.full_str.1 5 97
      (by decide) (by decide) (by decide) (by decide)).2.2⟩

/-- C9: `size() <= capacity()` is an invariant.  In every variant, in every state reached
from an empty system by a program of constructions, `insert` (at an offset in
`[0, size()]`), `pop_back` (on a non-empty string), `reserve`, `shrink_to_fit` and move
assignments and constructions between different objects, with no requested or doubled
capacity reaching `2^63`, every string object has `size() <= capacity()`. -/
theorem C9_size_le_capacity :
    (∀ (junk : pointer → char) (ops : List operation) (sys : System clang_bit_field.impl),
      System.run clang_bit_field.impl (System.init clang_bit_field.impl junk) ops = some sys →
      ∀ s ∈ sys.objs, clang_bit_field.string.size s ≤ clang_bit_field.string.capacity s) ∧
    (∀ (junk : pointer → char) (ops : List operation) (sys : System clang_common_initial_subsequence.impl),
      System.run clang_common_initial_subsequence.impl (System.init clang_common_initial_subsequence.impl junk) ops = some sys →
      ∀ s ∈ sys.objs, clang_common_initial_subsequence.string.size s ≤ clang_common_initial_subsequence.string.capacity s) ∧
    (∀ (junk : pointer → char) (ops : List operation) (sys : System gcc_msvc_abi.impl),
      System.run gcc_msvc_abi.impl (System.init gcc_msvc_abi.impl junk) ops = some sys →
      ∀ s ∈ sys.objs, gcc_msvc_abi.string.size s ≤ gcc_msvc_abi.string.capacity s) :=
  ⟨fun junk ops sys h => run_size_le_capacity clang_bit_field.impl clang_bit_field.bf_impl_laws junk ops sys h,
    fun junk ops sys h => run_size_le_capacity clang_common_initial_subsequence.impl clang_common_initial_subsequence.cis_impl_laws junk ops sys h,
    fun junk ops sys h => run_size_le_capacity gcc_msvc_abi.impl gcc_msvc_abi.gcc_impl_laws junk ops sys h⟩

set_option maxRecDepth 100000 in
/-- C9 at a concrete input: the objects left by `example_program`, in each variant. -/
theorem C9_size_le_capacity_witness :
    (∃ sys, System.run clang_bit_field.impl
        (System.init clang_bit_field.impl (fun _ => 0)) example_program = some sys ∧
      (sys.objs.all fun s => decide (clang_bit_field.string.size s ≤
        clang_bit_field.string.capacity s)) = true) ∧
    (∃ sys, System.run clang_common_initial_subsequence.impl
        (System.init clang_common_initial_subsequence.impl (fun _ => 0)) example_program =
          some sys ∧
      (sys.objs.all fun s => decide (clang_common_initial_subsequence.string.size s ≤
        clang_common_initial_subsequence.string.capacity s)) = true) ∧
    (∃ sys, System.run gcc_msvc_abi.impl
        (System.init gcc_msvc_abi.impl (fun _ => 0)) example_program = some sys ∧
      (sys.objs.all fun s => decide (gcc_msvc_abi.string.size s ≤
        gcc_msvc_abi.string.capacity s)) = true) := by
  refine ⟨?_, ?_, ?_⟩
  · cases h : System.run clang_bit_field.impl
        (System.init clang_bit_field.impl (fun _ => 0)) example_program with
    | none =>
      have hs : (System.run clang_bit_field.impl
        (System.init clang_bit_field.impl (fun _ => 0)) example_program).isSome = true := by
        decide
      rw [h] at hs
      cases hs
    | some sys =>
      exact ⟨sys, rfl, List.all_eq_true.mpr fun s hs =>
        decide_eq_true (C9_size_le_capacity.1 _ _ sys h s hs)⟩
  · cases h : System.run clang_common_initial_subsequence.impl
        (System.init clang_common_initial_subsequence.impl (fun _ => 0)) example_program with
    | none =>
      have hs : (System.run clang_common_initial_subsequence.impl
        (System.init clang_common_initial_subsequence.impl (fun _ => 0))
          example_program).isSome = true := by
        decide
      rw [h] at hs
      cases hs
    | some sys =>
      exact ⟨sys, rfl, List.all_eq_true.mpr fun s hs =>
        decide_eq_true (C9_size_le_capacity.2.1 _ _ sys h s hs)⟩
  · cases h : System.run gcc_msvc_abi.impl
        (System.init gcc_msvc_abi.impl (fun _ => 0)) example_program with
    | none =>
      have hs : (System.run gcc_msvc_abi.impl
        (System.init gcc_msvc_abi.impl (fun _ => 0)) example_program).isSome = true := by
        decide
      rw [h] at hs
      cases hs
    | some sys =>
      exact ⟨sys, rfl, List.all_eq_true.mpr fun s hs =>
        decide_eq_true (C9_size_le_capacity.2.2 _ _ sys h s hs)⟩

/-- C10: `shrink_to_fit` chooses the minimal representation.  In every variant with inline
capacity `N`, for every valid heap string with `capacity() > size()`: if `size() <= N` the
result is inline with `capacity() == N`; if `size() > N` the result is a heap string with
`capacity() == size()`; and for a string that is inline, or a heap string with
`capacity() == size()`, neither the string nor the machine changes (so neither `allocate` nor
`deallocate` is called). -/
theorem C10_shrink_to_fit_representation :
    (∀ (s : clang_bit_field.string) (σ : Machine), s.valid σ →
      (s.is_large = true → s.size < s.capacity → s.size ≤ clang_bit_field.small_buffer_capacity →
        (s.shrink_to_fit σ).2.is_large = false ∧
        (s.shrink_to_fit σ).2.capacity = clang_bit_field.small_buffer_capacity) ∧
      (s.is_large = true → s.size < s.capacity → clang_bit_field.small_buffer_capacity < s.size →
        (s.shrink_to_fit σ).2.is_large = true ∧ (s.shrink_to_fit σ).2.capacity = s.size) ∧
      (s.is_large = false ∨ s.capacity = s.size → s.shrink_to_fit σ = (σ, s))) ∧
    (∀ (s : clang_common_initial_subsequence.string) (σ : Machine), s.valid σ →
      (s.is_large = true → s.size < s.capacity → s.size ≤ clang_common_initial_subsequence.small_buffer_capacity →
        (s.shrink_to_fit σ).2.is_large = false ∧
        (s.shrink_to_fit σ).2.capacity = clang_common_initial_subsequence.small_buffer_capacity) ∧
      (s.is_large = true → s.size < s.capacity → clang_common_initial_subsequence.small_buffer_capacity < s.size →
        (s.shrink_to_fit σ).2.is_large = true ∧ (s.shrink_to_fit σ).2.capacity = s.size) ∧
      (s.is_large = false ∨ s.capacity = s.size → s.shrink_to_fit σ = (σ, s))) ∧
    (∀ (s : gcc_msvc_abi.string) (σ : Machine), s.valid σ →
      (s.is_large = true → s.size < s.capacity → s.size ≤ gcc_msvc_abi.small_buffer_capacity →
        (s.shrink_to_fit σ).2.is_large = false ∧
        (s.shrink_to_fit σ).2.capacity = gcc_msvc_abi.small_buffer_capacity) ∧
      (s.is_large = true → s.size < s.capacity → gcc_msvc_abi.small_buffer_capacity < s.size →
        (s.shrink_to_fit σ).2.is_large = true ∧ (s.shrink_to_fit σ).2.capacity = s.size) ∧
      (s.is_large = false ∨ s.capacity = s.size → s.shrink_to_fit σ = (σ, s))) :=
  ⟨fun s σ hv => laws_shrink_representation clang_bit_field.bf_impl_laws s σ hv,
    fun s σ hv => laws_shrink_representation clang_common_initial_subsequence.cis_impl_laws s σ hv,
    fun s σ hv => laws_shrink_representation gcc_msvc_abi.gcc_impl_laws s σ hv⟩

/-- C10 at concrete inputs: `shrink_to_fit` on `"0123"` after `reserve(50)` (back to the
inline buffer) and on the inline `"0123"` (nothing happens). -/
theorem C10_shrink_to_fit_representation_witness :
    (clang_bit_field.reserved_str.2.shrink_to_fit clang_bit_field.reserved_str.1).2.capacity =
      clang_bit_field.small_buffer_capacity ∧
    (clang_common_initial_subsequence.reserved_str.2.shrink_to_fit
      clang_common_initial_subsequence.reserved_str.1).2.is_large = false ∧
    gcc_msvc_abi.short_str.2.shrink_to_fit gcc_msvc_abi.short_str.1 =
      (gcc_msvc_abi.short_str.1, gcc_msvc_abi.short_str.2) :=
  ⟨((C10_shrink_to_fit_representation.1 clang_bit_field.reserved_str.2
      clang_bit_field.reserved_str.1 (by decide)).1 (by decide) (by decide) (by decide)).2,
    ((C10_shrink_to_fit_representation.2.1 clang_common_initial_subsequence.reserved_str.2
      clang_common_initial_subsequence.reserved_str.1 (by decide)).1
        (by decide) (by decide) (by decide)).1,
    (C10_shrink_to_fit_representation.2.2 gcc_msvc_abi.short_str.2 gcc_msvc_abi.short_str.1
      (by decide)).2.2 (Or.inl (by decide))⟩

/-! ## A heap string stays a heap string -/

namespace clang_common_initial_subsequence

theorem cis_set_size_is_large (self : Nat) (l : large_t) (n : Nat) :
    string.is_large ⟨self, U.large (l.set_size n)⟩ = l.force_large_ := rfl

theorem cis_get_large_force_large (s : string) :
    s.u_.get_large.force_large_ = s.is_large := by
  cases hu : s.u_ with
  | small sm => simp only [string.is_large, hu, U.get_large, U.get_small, small_t.is_large]
  | large l => simp only [string.is_large, hu, U.get_large, U.get_small, small_t.is_large]

theorem cis_increment_size_is_large (s : string) (h : s.is_large = true) :
    s.increment_size.is_large = true := by
  have e : s.increment_size =
      ⟨s.self, U.large (s.u_.get_large.set_size ((s.u_.get_large.size + 1) % 2 ^ 64))⟩ := by
    rw [string.increment_size, if_pos h]
  rw [e, cis_set_size_is_large, cis_get_large_force_large]
  exact h

theorem cis_decrement_size_is_large (s : string) (h : s.is_large = true) :
    s.decrement_size.is_large = true := by
  have e : s.decrement_size =
      ⟨s.self, U.large (s.u_.get_large.set_size
        ((s.u_.get_large.size + 2 ^ 64 - 1) % 2 ^ 64))⟩ := by
    rw [string.decrement_size, if_pos h]
  rw [e, cis_set_size_is_large, cis_get_large_force_large]
  exact h

theorem cis_relocate_is_large (s : string) (σ : Machine) (p : pointer) (c : Nat) :
    (s.relocate σ p c).2.is_large = true := rfl

theorem cis_force_reserve_is_large (s : string) (σ : Machine) (c : Nat) :
    (s.force_reserve σ c).2.is_large = true := rfl

theorem cis_insert_eq (s : string) (σ : Machine) (k : Nat) (v : char) :
    (s.insert σ k v).2.1 =
      (if s.size < s.capacity then s
        else (s.relocate σ ⟨region.arena, σ.buff_pointer⟩
          ((s.capacity * 2) % 2 ^ 64)).2).increment_size := by
  by_cases hlt : s.size < s.capacity
  · by_cases hk : k = s.size
    · simp only [string.insert, hlt, hk, if_true]
    · simp only [string.insert, hlt, hk, if_true, if_false]
  · simp only [string.insert, hlt, if_false]
    rfl

theorem cis_insert_is_large (s : string) (σ : Machine) (k : Nat) (v : char)
    (h : s.is_large = true) : (s.insert σ k v).2.1.is_large = true := by
  rw [cis_insert_eq]
  apply cis_increment_size_is_large
  split
  · exact h
  · exact cis_relocate_is_large s σ _ _

theorem cis_pop_back_is_large (s : string) (σ : Machine) (h : s.is_large = true) :
    (s.pop_back σ).2.is_large = true := by
  have e : (s.pop_back σ).2 = s.decrement_size := rfl
  rw [e]
  exact cis_decrement_size_is_large s h

theorem cis_reserve_is_large (s : string) (σ : Machine) (r : Nat) (h : s.is_large = true) :
    (s.reserve σ r).2.is_large = true := by
  unfold string.reserve
  split
  · exact cis_force_reserve_is_large s σ r
  · exact h

end clang_common_initial_subsequence

namespace clang_bit_field

theorem bf_relocate_is_large (s : string) (σ : Machine) (p : pointer) (c : Nat) :
    (s.relocate σ p c).2.is_large = true := rfl

theorem bf_force_reserve_is_large (s : string) (σ : Machine) (c : Nat) :
    (s.force_reserve σ c).2.is_large = true := rfl

theorem bf_increment_size_is_large (s : string) :
    s.increment_size.is_large = s.is_large := by
  unfold string.increment_size
  split <;> rfl

theorem bf_decrement_size_is_large (s : string) :
    s.decrement_size.is_large = s.is_large := by
  unfold string.decrement_size
  split <;> rfl

theorem bf_insert_eq (s : string) (σ : Machine) (k : Nat) (v : char) :
    (s.insert σ k v).2.1 =
      (if s.size < s.capacity then s
        else (s.relocate σ ⟨region.arena, σ.buff_pointer⟩
          ((s.capacity * 2) % 2 ^ 64)).2).increment_size := by
  by_cases hlt : s.size < s.capacity
  · by_cases hk : k = s.size
    · simp only [string.insert, hlt, hk, if_true]
    · simp only [string.insert, hlt, hk, if_true, if_false]
  · simp only [string.insert, hlt, if_false]
    rfl

theorem bf_insert_is_large (s : string) (σ : Machine) (k : Nat) (v : char)
    (h : s.is_large = true) : (s.insert σ k v).2.1.is_large = true := by
  rw [bf_insert_eq, bf_increment_size_is_large]
  split
  · exact h
  · rfl

theorem bf_pop_back_is_large (s : string) (σ : Machine) (h : s.is_large = true) :
    (s.pop_back σ).2.is_large = true := by
  have e : (s.pop_back σ).2 = s.decrement_size := rfl
  rw [e, bf_decrement_size_is_large]
  exact h

theorem bf_reserve_is_large (s : string) (σ : Machine) (r : Nat) (h : s.is_large = true) :
    (s.reserve σ r).2.is_large = true := by
  unfold string.reserve
  split
  · exact bf_force_reserve_is_large s σ r
  · exact h

end clang_bit_field

namespace gcc_msvc_abi

theorem gcc_set_size_is_large (s : string) (n : Nat) :
    ({ s with size_ := n } : string).is_large = s.is_large := rfl

theorem gcc_pop_back_eq (s : string) (σ : Machine) :
    (s.pop_back σ).2 = { s with size_ := (s.size_ + 2 ^ 64 - 1) % 2 ^ 64 } := rfl

theorem gcc_pop_back_is_large (s : string) (σ : Machine) (h : s.is_large = true) :
    (s.pop_back σ).2.is_large = true := by
  rw [gcc_pop_back_eq, gcc_set_size_is_large]
  exact h

theorem gcc_relocate_is_large (s : string) (σ : Machine) (n c : Nat) :
    (s.relocate σ ⟨region.arena, n⟩ c).2.is_large = true := by
  simp [string.relocate, string.is_large, string.buffer]

theorem gcc_force_reserve_is_large (s : string) (σ : Machine) (c : Nat) :
    (s.force_reserve σ c).2.is_large = true := by
  have e : (s.force_reserve σ c).2 = (s.relocate σ ⟨region.arena, σ.buff_pointer⟩ c).2 := rfl
  rw [e]
  exact gcc_relocate_is_large s σ _ c

theorem gcc_reserve_is_large (s : string) (σ : Machine) (r : Nat) (h : s.is_large = true) :
    (s.reserve σ r).2.is_large = true := by
  unfold string.reserve
  split
  · exact gcc_force_reserve_is_large s σ r
  · exact h

theorem gcc_insert_eq (s : string) (σ : Machine) (k : Nat) (v : char) :
    (s.insert σ k v).2.1 =
      if s.size < s.capacity then { s with size_ := (s.size_ + 1) % 2 ^ 64 }
      else { (s.relocate σ ⟨region.arena, σ.buff_pointer⟩ ((s.capacity * 2) % 2 ^ 64)).2 with
        size_ := (s.size_ + 1) % 2 ^ 64 } := by
  by_cases hlt : s.size < s.capacity
  · by_cases hk : k = s.size
    · simp only [string.insert, hlt, hk, if_true]
    · simp only [string.insert, hlt, hk, if_true, if_false]
  · simp only [string.insert, hlt, if_false]
    rfl

theorem gcc_insert_is_large (s : string) (σ : Machine) (k : Nat) (v : char)
    (h : s.is_large = true) : (s.insert σ k v).2.1.is_large = true := by
  rw [gcc_insert_eq]
  split
  · rw [gcc_set_size_is_large]
    exact h
  · rw [gcc_set_size_is_large]
    exact gcc_relocate_is_large s σ _ _

end gcc_msvc_abi

/-! ## The iterator that `insert` returns -/

namespace clang_common_initial_subsequence

theorem cis_insert_returns (s : string) (σ : Machine) (k : Nat) (v : char) :
    (s.insert σ k v).2.2 = (s.insert σ k v).2.1.begin.add k := rfl

theorem cis_set_size_data (self : Nat) (l : large_t) (n : Nat) (h : l.force_large_ = true) :
    string.data ⟨self, U.large (l.set_size n)⟩ = l.data_ := by
  simp only [string.data, string.is_large, U.get_small, small_t.is_large, large_t.set_size, h,
    if_true, U.get_large, large_t.data]

theorem cis_increment_size_data (s : string) (h : s.is_large = true) :
    s.increment_size.data = s.u_.get_large.data_ := by
  have e : s.increment_size =
      ⟨s.self, U.large (s.u_.get_large.set_size ((s.u_.get_large.size + 1) % 2 ^ 64))⟩ := by
    rw [string.increment_size, if_pos h]
  rw [e, cis_set_size_data _ _ _ ((cis_get_large_force_large s).trans h)]

theorem cis_insert_realloc_value (s : string) (σ : Machine) (k : Nat) (v : char)
    (hv : s.valid σ) (hfull : s.size = s.capacity) (hk : k ≤ s.size) :
    (s.insert σ k v).2.1.data = ⟨region.arena, σ.buff_pointer⟩ ∧
    (s.insert σ k v).1.mem ⟨region.arena, σ.buff_pointer + k⟩ = v := by
  have hnlt : ¬ s.size < s.capacity := by omega
  have hb := cis_valid_bounds s σ hv
  have hmod2 : s.capacity * 2 % 2 ^ 64 = s.capacity * 2 := Nat.mod_eq_of_lt (by omega)
  constructor
  · rw [cis_insert_eq, if_neg hnlt, cis_increment_size_data _ (cis_relocate_is_large _ _ _ _)]
    rfl
  · have hm : ∀ q : pointer, (s.insert σ k v).1.mem q =
        if q.base = region.arena ∧ σ.buff_pointer ≤ q.index ∧
            q.index < σ.buff_pointer + s.size ∧ q.index ≠ σ.buff_pointer + k then
          σ.mem ⟨s.data.base, s.data.index + (q.index - σ.buff_pointer)⟩
        else if q = ⟨region.arena, σ.buff_pointer + k⟩ then v else σ.mem q := by
      intro q
      simp only [string.insert, hnlt, if_false, hmod2, string.end, string.relocate,
        cis_deallocate_mem]
      exact insert_realloc_mem σ s.begin s.size k (s.capacity * 2) v hk
        (cis_data_disjoint s σ hv) q
    rw [hm, if_neg (fun h => h.2.2.2 rfl), if_pos rfl]

/-- The iterator returned by `insert` and the byte it points at. -/
theorem cis_insert_iterator (s : string) (σ : Machine) (k : Nat) (v : char) (hv : s.valid σ)
    (hk : k ≤ s.size) :
    (s.insert σ k v).2.2 = (s.insert σ k v).2.1.begin.add k ∧
    (s.insert σ k v).1.mem (s.insert σ k v).2.2 = v := by
  refine ⟨cis_insert_returns s σ k v, ?_⟩
  by_cases hlt : s.size < s.capacity
  · obtain ⟨-, -, -, -, -, -, h7, -, -, hm⟩ := cis_impl_laws.insert_in_place s σ k v hv hlt hk
    rw [h7, hm]
    simp only [pointer.add]
    rw [if_pos ⟨trivial, Nat.le_refl _, by omega⟩, if_pos trivial]
  · have hfull : s.size = s.capacity := by
      have := (cis_valid_bounds s σ hv).2.1
      omega
    obtain ⟨h1, h2⟩ := cis_insert_realloc_value s σ k v hv hfull hk
    rw [cis_insert_returns, string.begin, h1]
    exact h2

end clang_common_initial_subsequence

namespace clang_bit_field

theorem bf_insert_returns (s : string) (σ : Machine) (k : Nat) (v : char) :
    (s.insert σ k v).2.2 = (s.insert σ k v).2.1.begin.add k := rfl

theorem bf_set_size_data (self x : Nat) (l : large_t) (n : Nat) :
    string.data ⟨self, true, x, U.large { l with size := n }⟩ = l.data := rfl

theorem bf_increment_size_data (s : string) (h : s.is_large = true) :
    s.increment_size.data = s.u_.get_large.data := by
  have e : s.increment_size =
      ⟨s.self, true, s.size_or_first_byte_of_capacity_,
        U.large { s.u_.get_large with size := (s.u_.get_large.size + 1) % 2 ^ 64 }⟩ := by
    have h' : s.is_large_ = true := h
    rw [string.increment_size, if_pos h]
    cases s
    simp only at h'
    subst h'
    rfl
  rw [e, bf_set_size_data]

theorem bf_insert_realloc_value (s : string) (σ : Machine) (k : Nat) (v : char)
    (hv : s.valid σ) (hfull : s.size = s.capacity) (hk : k ≤ s.size) :
    (s.insert σ k v).2.1.data = ⟨region.arena, σ.buff_pointer⟩ ∧
    (s.insert σ k v).1.mem ⟨region.arena, σ.buff_pointer + k⟩ = v := by
  have hnlt : ¬ s.size < s.capacity := by omega
  have hb := bf_valid_bounds s σ hv
  have hmod2 : s.capacity * 2 % 2 ^ 64 = s.capacity * 2 := Nat.mod_eq_of_lt (by omega)
  constructor
  · rw [bf_insert_eq, if_neg hnlt, bf_increment_size_data _ (bf_relocate_is_large _ _ _ _)]
    rfl
  · have hm : ∀ q : pointer, (s.insert σ k v).1.mem q =
        if q.base = region.arena ∧ σ.buff_pointer ≤ q.index ∧
            q.index < σ.buff_pointer + s.size ∧ q.index ≠ σ.buff_pointer + k then
          σ.mem ⟨s.data.base, s.data.index + (q.index - σ.buff_pointer)⟩
        else if q = ⟨region.arena, σ.buff_pointer + k⟩ then v else σ.mem q := by
      intro q
      simp only [string.insert, hnlt, if_false, hmod2, string.end, string.relocate,
        bf_deallocate_mem]
      exact insert_realloc_mem σ s.begin s.size k (s.capacity * 2) v hk
        (bf_data_disjoint s σ hv) q
    rw [hm, if_neg (fun h => h.2.2.2 rfl), if_pos rfl]

/-- The iterator returned by `insert` and the byte it points at. -/
theorem bf_insert_iterator (s : string) (σ : Machine) (k : Nat) (v : char) (hv : s.valid σ)
    (hk : k ≤ s.size) :
    (s.insert σ k v).2.2 = (s.insert σ k v).2.1.begin.add k ∧
    (s.insert σ k v).1.mem (s.insert σ k v).2.2 = v := by
  refine ⟨bf_insert_returns s σ k v, ?_⟩
  by_cases hlt : s.size < s.capacity
  · obtain ⟨-, -, -, -, -, -, h7, -, -, hm⟩ := bf_impl_laws.insert_in_place s σ k v hv hlt hk
    rw [h7, hm]
    simp only [pointer.add]
    rw [if_pos ⟨trivial, Nat.le_refl _, by omega⟩, if_pos trivial]
  · have hfull : s.size = s.capacity := by
      have := (bf_valid_bounds s σ hv).2.1
      omega
    obtain ⟨h1, h2⟩ := bf_insert_realloc_value s σ k v hv hfull hk
    rw [bf_insert_returns, string.begin, h1]
    exact h2

end clang_bit_field

namespace gcc_msvc_abi

theorem gcc_insert_returns (s : string) (σ : Machine) (k : Nat) (v : char) :
    (s.insert σ k v).2.2 = (s.insert σ k v).2.1.begin.add k := rfl

theorem gcc_set_size_data (s : string) (n : Nat) :
    ({ s with size_ := n } : string).data = s.data := rfl

theorem gcc_insert_realloc_value (s : string) (σ : Machine) (k : Nat) (v : char)
    (hv : s.valid σ) (hfull : s.size = s.capacity) (hk : k ≤ s.size) :
    (s.insert σ k v).2.1.data = ⟨region.arena, σ.buff_pointer⟩ ∧
    (s.insert σ k v).1.mem ⟨region.arena, σ.buff_pointer + k⟩ = v := by
  have hnlt : ¬ s.size < s.capacity := by omega
  have hb := gcc_valid_bounds s σ hv
  have hmod2 : s.capacity * 2 % 2 ^ 64 = s.capacity * 2 := Nat.mod_eq_of_lt (by omega)
  constructor
  · rw [gcc_insert_eq, if_neg hnlt, gcc_set_size_data]
    rfl
  · have hm : ∀ q : pointer, (s.insert σ k v).1.mem q =
        if q.base = region.arena ∧ σ.buff_pointer ≤ q.index ∧
            q.index < σ.buff_pointer + s.size ∧ q.index ≠ σ.buff_pointer + k then
          σ.mem ⟨s.data.base, s.data.index + (q.index - σ.buff_pointer)⟩
        else if q = ⟨region.arena, σ.buff_pointer + k⟩ then v else σ.mem q := by
      intro q
      simp only [string.insert, hnlt, if_false, hmod2, string.relocate, string.end,
        gcc_deallocate_mem]
      exact insert_realloc_mem σ s.begin s.size k (s.capacity * 2) v hk
        (gcc_data_disjoint s σ hv) q
    rw [hm, if_neg (fun h => h.2.2.2 rfl), if_pos rfl]

/-- The iterator returned by `insert` and the byte it points at. -/
theorem gcc_insert_iterator (s : string) (σ : Machine) (k : Nat) (v : char) (hv : s.valid σ)
    (hk : k ≤ s.size) :
    (s.insert σ k v).2.2 = (s.insert σ k v).2.1.begin.add k ∧
    (s.insert σ k v).1.mem (s.insert σ k v).2.2 = v := by
  refine ⟨gcc_insert_returns s σ k v, ?_⟩
  by_cases hlt : s.size < s.capacity
  · obtain ⟨-, h2, -, -, hm⟩ := gcc_insert_in_place s σ k v hv hlt hk
    rw [h2, hm]
    simp only [pointer.add]
    rw [if_pos ⟨trivial, Nat.le_refl _, by omega⟩, if_pos trivial]
  · have hfull : s.size = s.capacity := by
      have := (gcc_valid_bounds s σ hv).2.1
      have e : s.size = s.size_ := rfl
      omega
    obtain ⟨h1, h2⟩ := gcc_insert_realloc_value s σ k v hv hfull hk
    rw [gcc_insert_returns, string.begin, h1]
    exact h2

end gcc_msvc_abi

/-! ## The claims, continued -/

theorem valid_offsets_take (ops : List (Nat × char)) : ∀ (n m : Nat),
    valid_offsets n ops = true → valid_offsets n (ops.take m) = true := by
  induction ops with
  | nil => intro n m h; simp [valid_offsets]
  | cons o rest ih =>
    intro n m h
    cases m with
    | zero => simp [valid_offsets]
    | succ m =>
      obtain ⟨k, v⟩ := o
      simp only [valid_offsets, Bool.and_eq_true, decide_eq_true_eq, List.take_succ_cons] at h ⊢
      exact ⟨h.1, ih (n + 1) m h.2⟩

section generic_claims_three

variable {string : Type} {N : Nat}
  {ctor : Machine → Nat → Machine × string}
  {ctor_move : Machine → Nat → string → Machine × string × string}
  {operator_assign : string → Machine → string → Machine × string × string}
  {reserve : string → Machine → Nat → Machine × string}
  {shrink_to_fit : string → Machine → Machine × string}
  {insert : string → Machine → Nat → char → Machine × string × pointer}
  {pop_back : string → Machine → Machine × string}
  {identity : string → Nat} {is_large : string → Bool} {data : string → pointer}
  {size : string → Nat} {capacity : string → Nat}
  {valid : string → Machine → Prop}
  (L : laws string N ctor ctor_move operator_assign reserve shrink_to_fit insert pop_back
    identity is_large data size capacity valid)

include L

/-- A second `shrink_to_fit` changes neither the machine nor the string. -/
theorem laws_shrink_twice (s : string) (σ : Machine) (hv : valid s σ) :
    shrink_to_fit (shrink_to_fit s σ).2 (shrink_to_fit s σ).1 = shrink_to_fit s σ := by
  by_cases h : is_large s = false ∨ capacity s = size s
  · rw [L.shrink_noop s σ hv h]
    exact L.shrink_noop s σ hv h
  · have hl : is_large s = true := by
      cases hb : is_large s with
      | false => exact absurd (Or.inl hb) h
      | true => rfl
    have hlt : size s < capacity s := by
      have h1 := (L.valid_size s σ hv).1
      have h2 : capacity s ≠ size s := fun e => h (Or.inr e)
      omega
    by_cases hn : size s ≤ N
    · obtain ⟨h1, -, h3, -⟩ := L.shrink_inline s σ hv hl hlt hn
      exact L.shrink_noop _ _ h1 (Or.inl h3)
    · obtain ⟨h1, -, -, -, h5, h6, -⟩ := L.shrink_heap s σ hv hl hlt (by omega)
      exact L.shrink_noop _ _ h1 (Or.inr (h6.trans h5.symm))

/-- Inserts that keep the size within the inline capacity keep the string inline and call
neither `allocate` nor `deallocate`. -/
theorem laws_insert_all_inline (ops : List (Nat × char)) : ∀ (s : string) (σ : Machine),
    valid s σ → is_large s = false → size s + ops.length ≤ N →
    valid_offsets (size s) ops = true →
    valid (insert_all insert s σ ops).2 (insert_all insert s σ ops).1 ∧
    is_large (insert_all insert s σ ops).2 = false ∧
    size (insert_all insert s σ ops).2 = size s + ops.length ∧
    (insert_all insert s σ ops).1.buff_pointer = σ.buff_pointer ∧
    (insert_all insert s σ ops).1.calls = σ.calls := by
  induction ops with
  | nil =>
    intro s σ hv hl _ _
    exact ⟨hv, hl, rfl, rfl, rfl⟩
  | cons o rest ih =>
    intro s σ hv hl hlen hoff
    obtain ⟨k, v⟩ := o
    simp only [valid_offsets, Bool.and_eq_true, decide_eq_true_eq] at hoff
    simp only [List.length_cons] at hlen
    have hcap := (L.valid_small s σ hv hl).1
    obtain ⟨h1, -, h3, -, h5, -, -, h8, h9, -⟩ :=
      L.insert_in_place s σ k v hv (by omega) hoff.1
    obtain ⟨i1, i2, i3, i4, i5⟩ := ih (insert s σ k v).2.1 (insert s σ k v).1 h1
      (h3.trans hl) (by rw [h5]; omega) (by rw [h5]; exact hoff.2)
    refine ⟨i1, i2, ?_, i4.trans h8, i5.trans h9⟩
    rw [show insert_all insert s σ ((k, v) :: rest) =
      insert_all insert (insert s σ k v).2.1 (insert s σ k v).1 rest from rfl, i3, h5,
      List.length_cons]
    omega

/-- Inserts into a fresh string that keep the size within the inline capacity: after every
prefix the string is inline and the allocator has not been called. -/
theorem laws_insert_all_fresh (σ : Machine) (object : Nat) (ops : List (Nat × char))
    (hlen : ops.length ≤ N) (hoff : valid_offsets 0 ops = true) (n : Nat) :
    is_large (insert_all insert (ctor σ object).2 (ctor σ object).1 (ops.take n)).2 = false ∧
    (insert_all insert (ctor σ object).2 (ctor σ object).1 (ops.take n)).1.buff_pointer =
      σ.buff_pointer ∧
    (insert_all insert (ctor σ object).2 (ctor σ object).1 (ops.take n)).1.calls = σ.calls := by
  obtain ⟨c1, -, c3, c4, c5, c6, -⟩ := L.ctor_spec σ object
  have hl : size (ctor σ object).2 + (ops.take n).length ≤ N := by
    rw [c4, List.length_take]
    omega
  have ho : valid_offsets (size (ctor σ object).2) (ops.take n) = true := by
    rw [c4]
    exact valid_offsets_take ops 0 n hoff
  obtain ⟨-, h2, -, h4, h5⟩ := laws_insert_all_inline L (ops.take n) _ _ c1 c3 hl ho
  exact ⟨h2, h4.trans c5, h5.trans c6⟩

/-- One `insert` into an inline string that is full moves it to the heap with one `allocate`
call. -/
theorem laws_insert_full_inline (s : string) (σ : Machine) (k : Nat) (v : char)
    (hv : valid s σ) (hl : is_large s = false) (hfull : size s = N) (hk : k ≤ size s)
    (hN : N * 2 < max_elements) :
    is_large (insert s σ k v).2.1 = true ∧
    (insert s σ k v).1.calls = σ.calls ++ [call.allocate ⟨region.arena, σ.buff_pointer⟩ (2 * N)] ∧
    size (insert s σ k v).2.1 = N + 1 ∧
    size (insert s σ k v).2.1 ≤ capacity (insert s σ k v).2.1 := by
  have hcap := (L.valid_small s σ hv hl).1
  obtain ⟨-, -, h3, -, h5, h6, -, -, h9, -⟩ :=
    L.insert_realloc s σ k v hv (hfull.trans hcap.symm) hk (by rw [hcap]; exact hN)
  have hp := L.small_pos
  refine ⟨h3, ?_, by rw [h5, hfull], by rw [h5, h6, hfull, hcap]; omega⟩
  rw [h9, hl, hcap, Nat.mul_comm]
  simp only [release_call, Bool.false_eq_true, if_false, List.append_nil]

/-- The effect of `pop_back`: the last byte goes, everything else stays. -/
theorem laws_pop_back_view (s : string) (σ : Machine) (hv : valid s σ) (hpos : 0 < size s) :
    size (pop_back s σ).2 = size s - 1 ∧
    read_bytes (pop_back s σ).1 (data (pop_back s σ).2) (size (pop_back s σ).2) =
      (read_bytes σ (data s) (size s)).dropLast ∧
    capacity (pop_back s σ).2 = capacity s ∧
    is_large (pop_back s σ).2 = is_large s ∧
    data (pop_back s σ).2 = data s ∧
    (pop_back s σ).1 = σ := by
  obtain ⟨-, -, h3, h4, h5, h6, h7⟩ := L.pop_back_spec s σ hv hpos
  refine ⟨h5, ?_, h6, h3, h4, h7⟩
  rw [h7, h4, h5]
  obtain ⟨n, hn⟩ : ∃ n, size s = n + 1 := ⟨size s - 1, by omega⟩
  rw [hn, read_bytes_succ, List.dropLast_concat]
  rfl

/-- A move assignment from a heap string hands its block over: same pointer, no `allocate`,
no write to the arena. -/
theorem laws_assign_transfer (s other : string) (σ : Machine) (hs : valid s σ)
    (ho : valid other σ) (hne : identity s ≠ identity other) (hl : is_large other = true) :
    is_large (operator_assign s σ other).2.1 = true ∧
    data (operator_assign s σ other).2.1 = data other ∧
    (operator_assign s σ other).1.buff_pointer = σ.buff_pointer ∧
    allocate_sizes (operator_assign s σ other).1.calls = allocate_sizes σ.calls ∧
    ∀ q : pointer, q.base = region.arena → (operator_assign s σ other).1.mem q = σ.mem q := by
  obtain ⟨-, -, -, -, h5, h6, -, -, -, -, h11, h12, h13⟩ :=
    L.assign_from_large s σ other hs ho hne hl
  refine ⟨h5, h6, h11, ?_, fun q hq => ?_⟩
  · rw [h12, allocate_sizes_append, allocate_sizes_release, List.append_nil]
  · rw [h13]
    simp only [zero_buffer, hq]
    rw [if_neg (by simp)]

end generic_claims_three

/-- C11: `shrink_to_fit` is idempotent.  In every variant, for every valid string, a second
`shrink_to_fit()` right after the first returns the machine (memory, bump pointer and the log
of `allocate` / `deallocate` calls) and the string (representation, `size()`, `capacity()`,
data pointer) exactly as the first call left them. -/
theorem C11_shrink_to_fit_idempotent :
    (∀ (s : clang_bit_field.string) (σ : Machine), s.valid σ →
      (s.shrink_to_fit σ).2.shrink_to_fit (s.shrink_to_fit σ).1 = s.shrink_to_fit σ) ∧
    (∀ (s : clang_common_initial_subsequence.string) (σ : Machine), s.valid σ →
      (s.shrink_to_fit σ).2.shrink_to_fit (s.shrink_to_fit σ).1 = s.shrink_to_fit σ) ∧
    (∀ (s : gcc_msvc_abi.string) (σ : Machine), s.valid σ →
      (s.shrink_to_fit σ).2.shrink_to_fit (s.shrink_to_fit σ).1 = s.shrink_to_fit σ) :=
  ⟨fun s σ hv => laws_shrink_twice clang_bit_field.bf_impl_laws s σ hv,
    fun s σ hv => laws_shrink_twice clang_common_initial_subsequence.cis_impl_laws s σ hv,
    fun s σ hv => laws_shrink_twice gcc_msvc_abi.gcc_impl_laws s σ hv⟩

/-- C11 at a concrete input: the heap string `"0123"` with capacity 50, in each variant. -/
theorem C11_shrink_to_fit_idempotent_witness :
    (clang_bit_field.reserved_str.2.valid clang_bit_field.reserved_str.1 ∧
      (clang_bit_field.reserved_str.2.shrink_to_fit clang_bit_field.reserved_str.1).2.shrink_to_fit
          (clang_bit_field.reserved_str.2.shrink_to_fit clang_bit_field.reserved_str.1).1 =
        clang_bit_field.reserved_str.2.shrink_to_fit clang_bit_field.reserved_str.1) ∧
    (clang_common_initial_subsequence.reserved_str.2.valid clang_common_initial_subsequence.reserved_str.1 ∧
      (clang_common_initial_subsequence.reserved_str.2.shrink_to_fit clang_common_initial_subsequence.reserved_str.1).2.shrink_to_fit
          (clang_common_initial_subsequence.reserved_str.2.shrink_to_fit clang_common_initial_subsequence.reserved_str.1).1 =
        clang_common_initial_subsequence.reserved_str.2.shrink_to_fit clang_common_initial_subsequence.reserved_str.1) ∧
    (gcc_msvc_abi.reserved_str.2.valid gcc_msvc_abi.reserved_str.1 ∧
      (gcc_msvc_abi.reserved_str.2.shrink_to_fit gcc_msvc_abi.reserved_str.1).2.shrink_to_fit
          (gcc_msvc_abi.reserved_str.2.shrink_to_fit gcc_msvc_abi.reserved_str.1).1 =
        gcc_msvc_abi.reserved_str.2.shrink_to_fit gcc_msvc_abi.reserved_str.1) :=
  ⟨⟨by decide, C11_shrink_to_fit_idempotent.1 _ _ (by decide)⟩,
    ⟨by decide, C11_shrink_to_fit_idempotent.2.1 _ _ (by decide)⟩,
    ⟨by decide, C11_shrink_to_fit_idempotent.2.2 _ _ (by decide)⟩⟩

/-- C12: no allocation while the content fits inline.  In every variant with inline capacity
`N`, for every sequence of at most `N` inserts at valid offsets into a freshly constructed
string, after every step (every prefix of the sequence) the string is inline, the bump pointer
of the arena is the one before the construction, and the log of allocator calls has not
grown. -/
theorem C12_no_allocation_while_inline :
    (∀ (σ : Machine) (object : Nat) (ops : List (Nat × char)),
      ops.length ≤ clang_bit_field.small_buffer_capacity → valid_offsets 0 ops = true →
      ∀ n : Nat,
        (insert_all clang_bit_field.string.insert (clang_bit_field.string.ctor σ object).2
          (clang_bit_field.string.ctor σ object).1 (ops.take n)).2.is_large = false ∧
        (insert_all clang_bit_field.string.insert (clang_bit_field.string.ctor σ object).2
          (clang_bit_field.string.ctor σ object).1 (ops.take n)).1.buff_pointer = σ.buff_pointer ∧
        (insert_all clang_bit_field.string.insert (clang_bit_field.string.ctor σ object).2
          (clang_bit_field.string.ctor σ object).1 (ops.take n)).1.calls = σ.calls) ∧
    (∀ (σ : Machine) (object : Nat) (ops : List (Nat × char)),
      ops.length ≤ clang_common_initial_subsequence.small_buffer_capacity → valid_offsets 0 ops = true →
      ∀ n : Nat,
        (insert_all clang_common_initial_subsequence.string.insert (clang_common_initial_subsequence.string.ctor σ object).2
          (clang_common_initial_subsequence.string.ctor σ object).1 (ops.take n)).2.is_large = false ∧
        (insert_all clang_common_initial_subsequence.string.insert (clang_common_initial_subsequence.string.ctor σ object).2
          (clang_common_initial_subsequence.string.ctor σ object).1 (ops.take n)).1.buff_pointer = σ.buff_pointer ∧
        (insert_all clang_common_initial_subsequence.string.insert (clang_common_initial_subsequence.string.ctor σ object).2
          (clang_common_initial_subsequence.string.ctor σ object).1 (ops.take n)).1.calls = σ.calls) ∧
    (∀ (σ : Machine) (object : Nat) (ops : List (Nat × char)),
      ops.length ≤ gcc_msvc_abi.small_buffer_capacity → valid_offsets 0 ops = true →
      ∀ n : Nat,
        (insert_all gcc_msvc_abi.string.insert (gcc_msvc_abi.string.ctor σ object).2
          (gcc_msvc_abi.string.ctor σ object).1 (ops.take n)).2.is_large = false ∧
        (insert_all gcc_msvc_abi.string.insert (gcc_msvc_abi.string.ctor σ object).2
          (gcc_msvc_abi.string.ctor σ object).1 (ops.take n)).1.buff_pointer = σ.buff_pointer ∧
        (insert_all gcc_msvc_abi.string.insert (gcc_msvc_abi.string.ctor σ object).2
          (gcc_msvc_abi.string.ctor σ object).1 (ops.take n)).1.calls = σ.calls) :=
  ⟨fun σ object ops hlen hoff n => laws_insert_all_fresh clang_bit_field.bf_impl_laws σ object ops hlen hoff n,
    fun σ object ops hlen hoff n => laws_insert_all_fresh clang_common_initial_subsequence.cis_impl_laws σ object ops hlen hoff n,
    fun σ object ops hlen hoff n => laws_insert_all_fresh gcc_msvc_abi.gcc_impl_laws σ object ops hlen hoff n⟩

/-- C12 at a concrete input: three inserts at the offsets 0, 0, 1 into a fresh string, after
two and after three steps. -/
theorem C12_no_allocation_while_inline_witness :
    three_inserts.length ≤ clang_bit_field.small_buffer_capacity ∧
    valid_offsets 0 three_inserts = true ∧
    (insert_all clang_bit_field.string.insert (clang_bit_field.string.ctor fresh_machine 0).2
      (clang_bit_field.string.ctor fresh_machine 0).1 (three_inserts.take 2)).2.is_large = false ∧
    (insert_all clang_common_initial_subsequence.string.insert
      (clang_common_initial_subsequence.string.ctor fresh_machine 0).2
      (clang_common_initial_subsequence.string.ctor fresh_machine 0).1
      (three_inserts.take 3)).1.buff_pointer = fresh_machine.buff_pointer ∧
    (insert_all gcc_msvc_abi.string.insert (gcc_msvc_abi.string.ctor fresh_machine 0).2
      (gcc_msvc_abi.string.ctor fresh_machine 0).1 (three_inserts.take 3)).1.calls =
        fresh_machine.calls :=
  ⟨by decide, by decide,
    (C12_no_allocation_while_inline.1 fresh_machine 0 three_inserts (by decide) (by decide) 2).1,
    (C12_no_allocation_while_inline.2.1 fresh_machine 0 three_inserts (by decide)
      (by decide) 3).2.1,
    (C12_no_allocation_while_inline.2.2 fresh_machine 0 three_inserts (by decide)
      (by decide) 3).2.2⟩

/-- C13: the transition from inline to heap.  In every variant with inline capacity `N`, for
every valid inline string with `size() == N` and every offset `k <= size()`, one `insert` makes
the string a heap string, adds exactly one call to the log of allocator calls, an `allocate` of
`2 * N` elements, and leaves `size() == N + 1 <= capacity()`. -/
theorem C13_inline_to_heap :
    (∀ (s : clang_bit_field.string) (σ : Machine) (k : Nat) (v : char),
      s.valid σ → s.is_large = false → s.size = clang_bit_field.small_buffer_capacity → k ≤ s.size →
      (s.insert σ k v).2.1.is_large = true ∧
      (s.insert σ k v).1.calls =
        σ.calls ++ [call.allocate ⟨region.arena, σ.buff_pointer⟩
          (2 * clang_bit_field.small_buffer_capacity)] ∧
      (s.insert σ k v).2.1.size = clang_bit_field.small_buffer_capacity + 1 ∧
      (s.insert σ k v).2.1.size ≤ (s.insert σ k v).2.1.capacity) ∧
    (∀ (s : clang_common_initial_subsequence.string) (σ : Machine) (k : Nat) (v : char),
      s.valid σ → s.is_large = false → s.size = clang_common_initial_subsequence.small_buffer_capacity → k ≤ s.size →
      (s.insert σ k v).2.1.is_large = true ∧
      (s.insert σ k v).1.calls =
        σ.calls ++ [call.allocate ⟨region.arena, σ.buff_pointer⟩
          (2 * clang_common_initial_subsequence.small_buffer_capacity)] ∧
      (s.insert σ k v).2.1.size = clang_common_initial_subsequence.small_buffer_capacity + 1 ∧
      (s.insert σ k v).2.1.size ≤ (s.insert σ k v).2.1.capacity) ∧
    (∀ (s : gcc_msvc_abi.string) (σ : Machine) (k : Nat) (v : char),
      s.valid σ → s.is_large = false → s.size = gcc_msvc_abi.small_buffer_capacity → k ≤ s.size →
      (s.insert σ k v).2.1.is_large = true ∧
      (s.insert σ k v).1.calls =
        σ.calls ++ [call.allocate ⟨region.arena, σ.buff_pointer⟩
          (2 * gcc_msvc_abi.small_buffer_capacity)] ∧
      (s.insert σ k v).2.1.size = gcc_msvc_abi.small_buffer_capacity + 1 ∧
      (s.insert σ k v).2.1.size ≤ (s.insert σ k v).2.1.capacity) :=
  ⟨fun s σ k v hv hl hfull hk => laws_insert_full_inline clang_bit_field.bf_impl_laws s σ k v hv hl hfull hk (by decide),
    fun s σ k v hv hl hfull hk => laws_insert_full_inline clang_common_initial_subsequence.cis_impl_laws s σ k v hv hl hfull hk (by decide),
    fun s σ k v hv hl hfull hk => laws_insert_full_inline gcc_msvc_abi.gcc_impl_laws s σ k v hv hl hfull hk (by decide)⟩

set_option maxRecDepth 100000 in
/-- C13 at a concrete input: `insert(begin() + 5, 97)` into a string that fills its inline
buffer, in each variant. -/
theorem C13_inline_to_heap_witness :
    (clang_bit_field.full_str.2.valid clang_bit_field.full_str.1 ∧ clang_bit_field.full_str.2.is_large = false ∧
      clang_bit_field.full_str.2.size = clang_bit_field.small_buffer_capacity ∧
      (clang_bit_field.full_str.2.insert clang_bit_field.full_str.1 5 97).2.1.is_large = true ∧
      (clang_bit_field.full_str.2.insert clang_bit_field.full_str.1 5 97).2.1.size = clang_bit_field.small_buffer_capacity + 1) ∧
    (clang_common_initial_subsequence.full_str.2.valid clang_common_initial_subsequence.full_str.1 ∧ clang_common_initial_subsequence.full_str.2.is_large = false ∧
      clang_common_initial_subsequence.full_str.2.size = clang_common_initial_subsequence.small_buffer_capacity ∧
      (clang_common_initial_subsequence.full_str.2.insert clang_common_initial_subsequence.full_str.1 5 97).2.1.is_large = true ∧
      (clang_common_initial_subsequence.full_str.2.insert clang_common_initial_subsequence.full_str.1 5 97).2.1.size = clang_common_initial_subsequence.small_buffer_capacity + 1) ∧
    (gcc_msvc_abi.full_str.2.valid gcc_msvc_abi.full_str.1 ∧ gcc_msvc_abi.full_str.2.is_large = false ∧
      gcc_msvc_abi.full_str.2.size = gcc_msvc_abi.small_buffer_capacity ∧
      (gcc_msvc_abi.full_str.2.insert gcc_msvc_abi.full_str.1 5 97).2.1.is_large = true ∧
      (gcc_msvc_abi.full_str.2.insert gcc_msvc_abi.full_str.1 5 97).2.1.size = gcc_msvc_abi.small_buffer_capacity + 1) :=
  ⟨⟨by decide, by decide, by decide,
      (C13_inline_to_heap.1 _ _ 5 97 (by decide) (by decide) (by decide) (by decide)).1,
      (C13_inline_to_heap.1 _ _ 5 97 (by decide) (by decide) (by decide) (by decide)).2.2.1⟩,
    ⟨by decide, by decide, by decide,
      (C13_inline_to_heap.2.1 _ _ 5 97 (by decide) (by decide) (by decide) (by decide)).1,
      (C13_inline_to_heap.2.1 _ _ 5 97 (by decide) (by decide) (by decide) (by decide)).2.2.1⟩,
    ⟨by decide, by decide, by decide,
      (C13_inline_to_heap.2.2 _ _ 5 97 (by decide) (by decide) (by decide) (by decide)).1,
      (C13_inline_to_heap.2.2 _ _ 5 97 (by decide) (by decide) (by decide) (by decide)).2.2.1⟩⟩

/-- C14: `insert` returns an iterator to the inserted element on both paths.  In every variant,
for every valid string, every offset `k <= size()` and every byte `v`, the pointer returned by
`insert(begin() + k, v)` is `begin() + k` of the string after the call (the new block when a
reallocation happened), and the byte stored there after the call is `v`. -/
theorem C14_insert_returns_iterator :
    (∀ (s : clang_bit_field.string) (σ : Machine) (k : Nat) (v : char),
      s.valid σ → k ≤ s.size →
      (s.insert σ k v).2.2 = (s.insert σ k v).2.1.begin.add k ∧
      (s.insert σ k v).1.mem (s.insert σ k v).2.2 = v) ∧
    (∀ (s : clang_common_initial_subsequence.string) (σ : Machine) (k : Nat) (v : char),
      s.valid σ → k ≤ s.size →
      (s.insert σ k v).2.2 = (s.insert σ k v).2.1.begin.add k ∧
      (s.insert σ k v).1.mem (s.insert σ k v).2.2 = v) ∧
    (∀ (s : gcc_msvc_abi.string) (σ : Machine) (k : Nat) (v : char),
      s.valid σ → k ≤ s.size →
      (s.insert σ k v).2.2 = (s.insert σ k v).2.1.begin.add k ∧
      (s.insert σ k v).1.mem (s.insert σ k v).2.2 = v) :=
  ⟨fun s σ k v hv hk => clang_bit_field.bf_insert_iterator s σ k v hv hk,
    fun s σ k v hv hk => clang_common_initial_subsequence.cis_insert_iterator s σ k v hv hk,
    fun s σ k v hv hk => gcc_msvc_abi.gcc_insert_iterator s σ k v hv hk⟩

set_option maxRecDepth 100000 in
/-- C14 at concrete inputs: an in-place `insert(begin() + 1, 97)` into `"0123"` and a
reallocating `insert(begin() + 5, 97)` into a full inline string. -/
theorem C14_insert_returns_iterator_witness :
    (clang_bit_field.short_str.2.insert clang_bit_field.short_str.1 1 97).1.mem
      (clang_bit_field.short_str.2.insert clang_bit_field.short_str.1 1 97).2.2 = 97 ∧
    (clang_common_initial_subsequence.full_str.2.insert
      clang_common_initial_subsequence.full_str.1 5 97).2.2 =
      (clang_common_initial_subsequence.full_str.2.insert
        clang_common_initial_subsequence.full_str.1 5 97).2.1.begin.add 5 ∧
    (gcc_msvc_abi.full_str.2.insert gcc_msvc_abi.full_str.1 5 97).1.mem
      (gcc_msvc_abi.full_str.2.insert gcc_msvc_abi.full_str.1 5 97).2.2 = 97 :=
  ⟨(C14_insert_returns_iterator.1 clang_bit_field.short_str.2 clang_bit_field.short_str.1 1 97
      (by decide) (by decide)).2,
    (C14_insert_returns_iterator.2.1 clang_common_initial_subsequence.full_str.2
      clang_common_initial_subsequence.full_str.1 5 97 (by decide) (by decide)).1,
    (C14_insert_returns_iterator.2.2 gcc_msvc_abi.full_str.2 gcc_msvc_abi.full_str.1 5 97
      (by decide) (by decide)).2⟩

/-- C15: `pop_back` removes exactly the last byte.  In every variant, for every valid string
with `size() > 0`, after `pop_back()` the size is one less, the content is the old content
without its last byte, `capacity()`, the representation and `data()` are unchanged, and the
machine (memory, bump pointer, log of allocator calls) is unchanged. -/
theorem C15_pop_back_removes_last :
    (∀ (s : clang_bit_field.string) (σ : Machine), s.valid σ → 0 < s.size →
      (s.pop_back σ).2.size = s.size - 1 ∧
      (s.pop_back σ).2.view (s.pop_back σ).1 = (s.view σ).dropLast ∧
      (s.pop_back σ).2.capacity = s.capacity ∧
      (s.pop_back σ).2.is_large = s.is_large ∧
      (s.pop_back σ).2.data = s.data ∧
      (s.pop_back σ).1 = σ) ∧
    (∀ (s : clang_common_initial_subsequence.string) (σ : Machine), s.valid σ → 0 < s.size →
      (s.pop_back σ).2.size = s.size - 1 ∧
      (s.pop_back σ).2.view (s.pop_back σ).1 = (s.view σ).dropLast ∧
      (s.pop_back σ).2.capacity = s.capacity ∧
      (s.pop_back σ).2.is_large = s.is_large ∧
      (s.pop_back σ).2.data = s.data ∧
      (s.pop_back σ).1 = σ) ∧
    (∀ (s : gcc_msvc_abi.string) (σ : Machine), s.valid σ → 0 < s.size →
      (s.pop_back σ).2.size = s.size - 1 ∧
      (s.pop_back σ).2.view (s.pop_back σ).1 = (s.view σ).dropLast ∧
      (s.pop_back σ).2.capacity = s.capacity ∧
      (s.pop_back σ).2.is_large = s.is_large ∧
      (s.pop_back σ).2.data = s.data ∧
      (s.pop_back σ).1 = σ) :=
  ⟨fun s σ hv hpos => laws_pop_back_view clang_bit_field.bf_impl_laws s σ hv hpos,
    fun s σ hv hpos => laws_pop_back_view clang_common_initial_subsequence.cis_impl_laws s σ hv hpos,
    fun s σ hv hpos => laws_pop_back_view gcc_msvc_abi.gcc_impl_laws s σ hv hpos⟩

/-- C15 at concrete inputs: `pop_back()` on the inline string `"0123"` and on the heap string
`"0123"` with capacity 50. -/
theorem C15_pop_back_removes_last_witness :
    (clang_bit_field.short_str.2.pop_back clang_bit_field.short_str.1).2.view
        (clang_bit_field.short_str.2.pop_back clang_bit_field.short_str.1).1 =
      (clang_bit_field.short_str.2.view clang_bit_field.short_str.1).dropLast ∧
    (clang_common_initial_subsequence.reserved_str.2.pop_back
        clang_common_initial_subsequence.reserved_str.1).2.size =
      clang_common_initial_subsequence.reserved_str.2.size - 1 ∧
    (gcc_msvc_abi.reserved_str.2.pop_back gcc_msvc_abi.reserved_str.1).1 =
      gcc_msvc_abi.reserved_str.1 :=
  ⟨(C15_pop_back_removes_last.1 clang_bit_field.short_str.2 clang_bit_field.short_str.1
      (by decide) (by decide)).2.1,
    (C15_pop_back_removes_last.2.1 clang_common_initial_subsequence.reserved_str.2
      clang_common_initial_subsequence.reserved_str.1 (by decide) (by decide)).1,
    (C15_pop_back_removes_last.2.2 gcc_msvc_abi.reserved_str.2 gcc_msvc_abi.reserved_str.1
      (by decide) (by decide)).2.2.2.2.2⟩

/-- C16: heap ownership is transferred, not copied.  In every variant, for every valid heap
string `b` and every valid destination `a`, a different object, after `a = std::move(b)` the
destination is a heap string whose `data()` is the pointer `b.data()` had before the move, the
bump pointer is unchanged, the log holds no new `allocate` call, and every byte of the arena
(so every byte of the block) is what it was. -/
theorem C16_heap_ownership_transferred :
    (∀ (a b : clang_bit_field.string) (σ : Machine), a.valid σ → b.valid σ → a.self ≠ b.self →
      b.is_large = true →
      (a.operator_assign σ b).2.1.is_large = true ∧
      (a.operator_assign σ b).2.1.data = b.data ∧
      (a.operator_assign σ b).1.buff_pointer = σ.buff_pointer ∧
      allocate_sizes (a.operator_assign σ b).1.calls = allocate_sizes σ.calls ∧
      ∀ q : pointer, q.base = region.arena → (a.operator_assign σ b).1.mem q = σ.mem q) ∧
    (∀ (a b : clang_common_initial_subsequence.string) (σ : Machine), a.valid σ → b.valid σ → a.self ≠ b.self →
      b.is_large = true →
      (a.operator_assign σ b).2.1.is_large = true ∧
      (a.operator_assign σ b).2.1.data = b.data ∧
      (a.operator_assign σ b).1.buff_pointer = σ.buff_pointer ∧
      allocate_sizes (a.operator_assign σ b).1.calls = allocate_sizes σ.calls ∧
      ∀ q : pointer, q.base = region.arena → (a.operator_assign σ b).1.mem q = σ.mem q) ∧
    (∀ (a b : gcc_msvc_abi.string) (σ : Machine), a.valid σ → b.valid σ → a.self ≠ b.self →
      b.is_large = true →
      (a.operator_assign σ b).2.1.is_large = true ∧
      (a.operator_assign σ b).2.1.data = b.data ∧
      (a.operator_assign σ b).1.buff_pointer = σ.buff_pointer ∧
      allocate_sizes (a.operator_assign σ b).1.calls = allocate_sizes σ.calls ∧
      ∀ q : pointer, q.base = region.arena → (a.operator_assign σ b).1.mem q = σ.mem q) :=
  ⟨fun a b σ ha hb hne hl => laws_assign_transfer clang_bit_field.bf_impl_laws a b σ ha hb hne hl,
    fun a b σ ha hb hne hl => laws_assign_transfer clang_common_initial_subsequence.cis_impl_laws a b σ ha hb hne hl,
    fun a b σ ha hb hne hl => laws_assign_transfer gcc_msvc_abi.gcc_impl_laws a b σ ha hb hne hl⟩

/-- C16 at a concrete input: the heap string `"0123"` with capacity 50 moved into a freshly
constructed string, in each variant. -/
theorem C16_heap_ownership_transferred_witness :
    (((clang_bit_field.string.ctor clang_bit_field.reserved_str.1 1).2.operator_assign
        (clang_bit_field.string.ctor clang_bit_field.reserved_str.1 1).1 clang_bit_field.reserved_str.2).2.1.data =
      clang_bit_field.reserved_str.2.data) ∧
    (((clang_common_initial_subsequence.string.ctor clang_common_initial_subsequence.reserved_str.1 1).2.operator_assign
        (clang_common_initial_subsequence.string.ctor clang_common_initial_subsequence.reserved_str.1 1).1 clang_common_initial_subsequence.reserved_str.2).2.1.data =
      clang_common_initial_subsequence.reserved_str.2.data) ∧
    (((gcc_msvc_abi.string.ctor gcc_msvc_abi.reserved_str.1 1).2.operator_assign
        (gcc_msvc_abi.string.ctor gcc_msvc_abi.reserved_str.1 1).1 gcc_msvc_abi.reserved_str.2).2.1.data =
      gcc_msvc_abi.reserved_str.2.data) :=
  ⟨(C16_heap_ownership_transferred.1 _ _ _ (by decide) (by decide) (by decide)
      (by decide)).2.1,
    (C16_heap_ownership_transferred.2.1 _ _ _ (by decide) (by decide) (by decide)
      (by decide)).2.1,
    (C16_heap_ownership_transferred.2.2 _ _ _ (by decide) (by decide) (by decide)
      (by decide)).2.1⟩

/-- C17: a heap string never falls back to inline except through `shrink_to_fit`.  In every
variant, for every heap string, `insert` at any offset with any byte, `pop_back` and `reserve`
with any argument leave the string in the heap representation. -/
theorem C17_heap_stays_heap :
    (∀ (s : clang_bit_field.string) (σ : Machine), s.is_large = true →
      (∀ (k : Nat) (v : char), (s.insert σ k v).2.1.is_large = true) ∧
      (s.pop_back σ).2.is_large = true ∧
      (∀ r : Nat, (s.reserve σ r).2.is_large = true)) ∧
    (∀ (s : clang_common_initial_subsequence.string) (σ : Machine), s.is_large = true →
      (∀ (k : Nat) (v : char), (s.insert σ k v).2.1.is_large = true) ∧
      (s.pop_back σ).2.is_large = true ∧
      (∀ r : Nat, (s.reserve σ r).2.is_large = true)) ∧
    (∀ (s : gcc_msvc_abi.string) (σ : Machine), s.is_large = true →
      (∀ (k : Nat) (v : char), (s.insert σ k v).2.1.is_large = true) ∧
      (s.pop_back σ).2.is_large = true ∧
      (∀ r : Nat, (s.reserve σ r).2.is_large = true)) :=
  ⟨fun s σ h => ⟨fun k v => clang_bit_field.bf_insert_is_large s σ k v h, clang_bit_field.bf_pop_back_is_large s σ h,
      fun r => clang_bit_field.bf_reserve_is_large s σ r h⟩,
    fun s σ h => ⟨fun k v => clang_common_initial_subsequence.cis_insert_is_large s σ k v h, clang_common_initial_subsequence.cis_pop_back_is_large s σ h,
      fun r => clang_common_initial_subsequence.cis_reserve_is_large s σ r h⟩,
    fun s σ h => ⟨fun k v => gcc_msvc_abi.gcc_insert_is_large s σ k v h, gcc_msvc_abi.gcc_pop_back_is_large s σ h,
      fun r => gcc_msvc_abi.gcc_reserve_is_large s σ r h⟩⟩

/-- C17 at a concrete input: the heap string `"0123"` with capacity 50, in each variant. -/
theorem C17_heap_stays_heap_witness :
    (clang_bit_field.reserved_str.2.is_large = true ∧
      (clang_bit_field.reserved_str.2.insert clang_bit_field.reserved_str.1 2 97).2.1.is_large =
        true) ∧
    (clang_common_initial_subsequence.reserved_str.2.pop_back
      clang_common_initial_subsequence.reserved_str.1).2.is_large = true ∧
    (gcc_msvc_abi.reserved_str.2.reserve gcc_msvc_abi.reserved_str.1 100).2.is_large = true :=
  ⟨⟨by decide, (C17_heap_stays_heap.1 clang_bit_field.reserved_str.2
      clang_bit_field.reserved_str.1 (by decide)).1 2 97⟩,
    (C17_heap_stays_heap.2.1 clang_common_initial_subsequence.reserved_str.2
      clang_common_initial_subsequence.reserved_str.1 (by decide)).2.1,
    (C17_heap_stays_heap.2.2 gcc_msvc_abi.reserved_str.2 gcc_msvc_abi.reserved_str.1
      (by decide)).2.2 100⟩

/-! ## The log of allocator calls -/

theorem deallocate_blocks_append (xs ys : List call) :
    deallocate_blocks (xs ++ ys) = deallocate_blocks xs ++ deallocate_blocks ys := by
  induction xs with
  | nil => rfl
  | cons x rest ih =>
    cases x with
    | allocate p n =>
      show deallocate_blocks (rest ++ ys) = deallocate_blocks rest ++ deallocate_blocks ys
      exact ih
    | deallocate p n =>
      show (p, n) :: deallocate_blocks (rest ++ ys) =
        (p, n) :: deallocate_blocks rest ++ deallocate_blocks ys
      rw [ih]
      rfl

theorem released_append (xs ys : List call) :
    released (xs ++ ys) = released xs ++ released ys := by
  simp only [released, deallocate_blocks_append, List.map_append]

theorem mem_deallocate_blocks (log : List call) (p : pointer) (n : Nat) :
    (p, n) ∈ deallocate_blocks log ↔ call.deallocate p n ∈ log := by
  induction log with
  | nil => simp [deallocate_blocks]
  | cons x rest ih =>
    cases x with
    | allocate q m => simp [deallocate_blocks, ih]
    | deallocate q m => simp [deallocate_blocks, ih]

theorem mem_released (log : List call) (p : pointer) :
    p ∈ released log ↔ ∃ n, call.deallocate p n ∈ log := by
  simp only [released, List.mem_map, Prod.exists, exists_and_right, exists_eq_right,
    mem_deallocate_blocks]

/-- In a log whose `deallocate` calls are matched, a released block was handed out. -/
theorem released_allocated (log : List call) (hm : deallocate_matches log) (p : pointer)
    (n : Nat) (h : call.deallocate p n ∈ log) : call.allocate p n ∈ log := by
  obtain ⟨i, hi⟩ := List.mem_iff_getElem?.mp h
  obtain ⟨j, -, hj⟩ := hm i p n hi
  exact List.mem_iff_getElem?.mpr ⟨j, hj⟩

theorem deallocate_matches_append_allocate (log : List call) (hm : deallocate_matches log)
    (p : pointer) (n : Nat) : deallocate_matches (log ++ [call.allocate p n]) := by
  intro i q m hi
  rw [List.getElem?_append] at hi
  by_cases hlt : i < log.length
  · rw [if_pos hlt] at hi
    obtain ⟨j, hj, hj'⟩ := hm i q m hi
    refine ⟨j, hj, ?_⟩
    rw [List.getElem?_append, if_pos (by omega)]
    exact hj'
  · rw [if_neg hlt] at hi
    cases hk : i - log.length with
    | zero => rw [hk] at hi; simp at hi
    | succ k => rw [hk] at hi; simp at hi

theorem deallocate_matches_append_deallocate (log : List call) (hm : deallocate_matches log)
    (p : pointer) (n : Nat) (h : call.allocate p n ∈ log) :
    deallocate_matches (log ++ [call.deallocate p n]) := by
  intro i q m hi
  rw [List.getElem?_append] at hi
  by_cases hlt : i < log.length
  · rw [if_pos hlt] at hi
    obtain ⟨j, hj, hj'⟩ := hm i q m hi
    refine ⟨j, hj, ?_⟩
    rw [List.getElem?_append, if_pos (by omega)]
    exact hj'
  · rw [if_neg hlt] at hi
    cases hk : i - log.length with
    | zero =>
      rw [hk] at hi
      simp only [List.getElem?_cons_zero, Option.some.injEq, call.deallocate.injEq] at hi
      obtain ⟨rfl, rfl⟩ := hi
      obtain ⟨j, hj⟩ := List.mem_iff_getElem?.mp h
      have hjlt : j < log.length := (List.getElem?_eq_some.mp hj).1
      refine ⟨j, by omega, ?_⟩
      rw [List.getElem?_append, if_pos hjlt]
      exact hj
    | succ k => rw [hk] at hi; simp at hi

/-- Releasing a block that was handed out and not yet released keeps the log well formed. -/
theorem log_release (log : List call) (old : Option (pointer × Nat))
    (hm : deallocate_matches log) (ho : deallocate_once log)
    (hold : ∀ p n, old = some (p, n) → call.allocate p n ∈ log ∧ p ∉ released log) :
    deallocate_matches (log ++ release_of old) ∧ deallocate_once (log ++ release_of old) ∧
    (∀ p n, call.allocate p n ∈ log ++ release_of old ↔ call.allocate p n ∈ log) ∧
    (∀ q, q ∈ released (log ++ release_of old) ↔ q ∈ released log ∨ ∃ n, old = some (q, n)) := by
  cases old with
  | none =>
    have e : log ++ release_of none = log := List.append_nil log
    rw [e]
    exact ⟨hm, ho, fun _ _ => Iff.rfl, fun q => by simp⟩
  | some b =>
    obtain ⟨p, n⟩ := b
    obtain ⟨h1, h2⟩ := hold p n rfl
    refine ⟨deallocate_matches_append_deallocate log hm p n h1, ?_, ?_, ?_⟩
    · simp only [deallocate_once, release_of, released_append]
      have : released [call.deallocate p n] = [p] := rfl
      rw [this]
      exact List.nodup_append.mpr ⟨ho, List.nodup_singleton p, by
        intro a ha hb
        rw [List.mem_singleton] at hb
        subst hb
        exact h2 ha⟩
    · intro q m
      simp [release_of]
    · intro q
      simp only [release_of, released_append]
      have : released [call.deallocate p n] = [p] := rfl
      rw [this]
      simp only [List.mem_append, List.mem_singleton, Option.some.injEq, Prod.mk.injEq]
      constructor
      · rintro (h | h)
        · exact Or.inl h
        · exact Or.inr ⟨n, h.symm, rfl⟩
      · rintro (h | ⟨m, h, -⟩)
        · exact Or.inl h
        · exact Or.inr h.symm

/-- The invariant after a step that moves blocks between objects (`g` names the object a
block comes from) and releases at most the block of object `i`. -/
theorem blocks_owned_release {log : List call} {bp bp' : Nat}
    {f f' : Nat → Option (pointer × Nat)} (h : blocks_owned log bp f) (hbp : bp ≤ bp')
    (i : Nat) (g : Nat → Nat) (l : List call) (hl : l = [] ∨ l = release_of (f i))
    (hsrc : ∀ k p n, f' k = some (p, n) → f (g k) = some (p, n) ∧ (l ≠ [] → g k ≠ i))
    (hinj : ∀ k k' p n q m, k ≠ k' → f' k = some (p, n) → f' k' = some (q, m) → g k ≠ g k') :
    blocks_owned (log ++ l) bp' f' := by
  rcases hl with hl | hl
  · subst hl
    rw [List.append_nil]
    refine ⟨h.matched, h.once, fun p n hp => Nat.lt_of_lt_of_le (h.below p n hp) hbp, ?_, ?_⟩
    · intro k p n hk
      exact h.owned (g k) p n (hsrc k p n hk).1
    · intro k k' p n q m hne hk hk'
      exact h.distinct (g k) (g k') p n q m (hinj k k' p n q m hne hk hk') (hsrc k p n hk).1
        (hsrc k' q m hk').1
  · obtain ⟨r1, r2, r3, r4⟩ := log_release log (f i) h.matched h.once
      (fun p n hp => h.owned i p n hp)
    rw [hl]
    refine ⟨r1, r2, fun p n hp => Nat.lt_of_lt_of_le (h.below p n ((r3 p n).mp hp)) hbp,
      ?_, ?_⟩
    · intro k p n hk
      obtain ⟨s1, s2⟩ := hsrc k p n hk
      obtain ⟨o1, o2⟩ := h.owned (g k) p n s1
      refine ⟨(r3 p n).mpr o1, fun hp => ?_⟩
      rcases (r4 p).mp hp with hp | ⟨m, hp⟩
      · exact o2 hp
      · have hne : l ≠ [] := by
          rw [hl, hp]
          simp [release_of]
        exact h.distinct (g k) i p n p m (s2 hne) s1 hp rfl
    · intro k k' p n q m hne hk hk'
      exact h.distinct (g k) (g k') p n q m (hinj k k' p n q m hne hk hk') (hsrc k p n hk).1
        (hsrc k' q m hk').1

/-- The invariant after object `i` takes a fresh block of `n` elements and releases the block
it had. -/
theorem blocks_owned_grow {log : List call} {bp : Nat} {f f' : Nat → Option (pointer × Nat)}
    (h : blocks_owned log bp f) (i n : Nat) (hn : 0 < n)
    (hi : f' i = some (⟨region.arena, bp⟩, n)) (hf : ∀ k, k ≠ i → f' k = f k) :
    blocks_owned (log ++ [call.allocate ⟨region.arena, bp⟩ n] ++ release_of (f i)) (bp + n)
      f' := by
  have hm1 := deallocate_matches_append_allocate log h.matched ⟨region.arena, bp⟩ n
  have ho1 : deallocate_once (log ++ [call.allocate ⟨region.arena, bp⟩ n]) := by
    simp only [deallocate_once, released_append]
    have : released [call.allocate ⟨region.arena, bp⟩ n] = [] := rfl
    rw [this, List.append_nil]
    exact h.once
  have hrel : ∀ q, q ∈ released (log ++ [call.allocate ⟨region.arena, bp⟩ n]) ↔
      q ∈ released log := by
    intro q
    simp only [released_append]
    have : released [call.allocate ⟨region.arena, bp⟩ n] = [] := rfl
    rw [this, List.append_nil]
  obtain ⟨r1, r2, r3, r4⟩ := log_release (log ++ [call.allocate ⟨region.arena, bp⟩ n]) (f i)
    hm1 ho1 (fun p m hp => ⟨List.mem_append_left _ (h.owned i p m hp).1,
      fun hq => (h.owned i p m hp).2 ((hrel p).mp hq)⟩)
  have hbelow : ∀ p m, call.allocate p m ∈ log ++ [call.allocate ⟨region.arena, bp⟩ n] →
      p.index < bp + n := by
    intro p m hp
    rcases List.mem_append.mp hp with hp | hp
    · have := h.below p m hp
      omega
    · simp only [List.mem_singleton, call.allocate.injEq] at hp
      rw [hp.1]
      show bp < bp + n
      omega
  have hfresh : ∀ p m, call.allocate p m ∈ log → p ≠ ⟨region.arena, bp⟩ := by
    intro p m hp he
    have := h.below p m hp
    rw [he] at this
    exact Nat.lt_irrefl _ this
  refine ⟨r1, r2, fun p m hp => hbelow p m ((r3 p m).mp hp), ?_, ?_⟩
  · intro k p m hk
    by_cases hki : k = i
    · subst hki
      rw [hi] at hk
      simp only [Option.some.injEq, Prod.mk.injEq] at hk
      obtain ⟨rfl, rfl⟩ := hk
      refine ⟨(r3 _ _).mpr (List.mem_append_right _ (List.mem_singleton.mpr rfl)), fun hp => ?_⟩
      rcases (r4 _).mp hp with hp | ⟨m', hp⟩
      · obtain ⟨m', hm'⟩ := (mem_released log _).mp ((hrel _).mp hp)
        exact hfresh _ m' (released_allocated log h.matched _ m' hm') rfl
      · exact hfresh _ m' (h.owned k _ m' hp).1 rfl
    · rw [hf k hki] at hk
      obtain ⟨o1, o2⟩ := h.owned k p m hk
      refine ⟨(r3 p m).mpr (List.mem_append_left _ o1), fun hp => ?_⟩
      rcases (r4 p).mp hp with hp | ⟨m', hp⟩
      · exact o2 ((hrel p).mp hp)
      · exact h.distinct k i p m p m' hki hk hp rfl
  · intro k k' p m q m' hne hk hk'
    by_cases hki : k = i
    · subst hki
      have hk'i : k' ≠ k := fun e => hne e.symm
      rw [hi] at hk
      rw [hf k' hk'i] at hk'
      simp only [Option.some.injEq, Prod.mk.injEq] at hk
      obtain ⟨rfl, rfl⟩ := hk
      exact fun e => hfresh q m' (h.owned k' q m' hk').1 e.symm
    · rw [hf k hki] at hk
      by_cases hk'i : k' = i
      · subst hk'i
        rw [hi] at hk'
        simp only [Option.some.injEq, Prod.mk.injEq] at hk'
        obtain ⟨rfl, rfl⟩ := hk'
        exact hfresh p m (h.owned k p m hk).1
      · rw [hf k' hk'i] at hk'
        exact h.distinct k k' p m q m' hne hk hk'

/-- A step that changes neither the log nor the owned blocks. -/
theorem blocks_owned_frame {log : List call} {bp bp' : Nat}
    {f f' : Nat → Option (pointer × Nat)} (h : blocks_owned log bp f) (hbp : bp ≤ bp')
    (hf : ∀ k, f' k = f k) : blocks_owned log bp' f' := by
  have this : blocks_owned (log ++ []) bp' f' :=
    blocks_owned_release h hbp 0 id [] (Or.inl rfl)
      (fun k p n hk => ⟨(hf k).symm.trans hk, fun hne => absurd rfl hne⟩)
      (fun k k' p n q m hne _ _ => hne)
  rw [List.append_nil] at this
  exact this

/-- A step after which object `i` owns no block, with or without a release of the block it
had. -/
theorem blocks_owned_drop {log : List call} {bp bp' : Nat}
    {f f' : Nat → Option (pointer × Nat)} (h : blocks_owned log bp f) (hbp : bp ≤ bp')
    (i : Nat) (l : List call) (hl : l = [] ∨ l = release_of (f i)) (hi : f' i = none)
    (hf : ∀ k, k ≠ i → f' k = f k) : blocks_owned (log ++ l) bp' f' := by
  refine blocks_owned_release h hbp i id l hl (fun k p n hk => ?_)
    (fun k k' p n q m hne _ _ => hne)
  have hki : k ≠ i := by
    intro e
    rw [e, hi] at hk
    cases hk
  exact ⟨(hf k hki).symm.trans hk, fun _ => hki⟩

/-- A step in which object `i` releases its block and takes over the block of object `j`. -/
theorem blocks_owned_transfer {log : List call} {bp : Nat}
    {f f' : Nat → Option (pointer × Nat)} (h : blocks_owned log bp f) (i j : Nat)
    (hij : i ≠ j) (hi : f' i = f j) (hj : f' j = none)
    (hf : ∀ k, k ≠ i → k ≠ j → f' k = f k) :
    blocks_owned (log ++ release_of (f i)) bp f' := by
  have hnj : ∀ k p n, f' k = some (p, n) → k ≠ j := by
    intro k p n hk e
    rw [e, hj] at hk
    cases hk
  refine blocks_owned_release h (Nat.le_refl _) i (fun k => if k = i then j else k) _
    (Or.inr rfl) (fun k p n hk => ?_) (fun k k' p n q m hne hk hk' => ?_)
  · dsimp only
    by_cases hki : k = i
    · rw [if_pos hki]
      rw [hki, hi] at hk
      exact ⟨hk, fun _ e => hij e.symm⟩
    · rw [if_neg hki]
      exact ⟨(hf k hki (hnj k p n hk)).symm.trans hk, fun _ => hki⟩
  · have h1 := hnj k p n hk
    have h2 := hnj k' q m hk'
    dsimp only
    by_cases hki : k = i
    · have hk'i : k' ≠ i := fun e => hne (hki.trans e.symm)
      rw [if_pos hki, if_neg hk'i]
      exact fun e => h2 e.symm
    · rw [if_neg hki]
      by_cases hk'i : k' = i
      · rw [if_pos hk'i]
        exact h1
      · rw [if_neg hk'i]
        exact hne

theorem blocks_of_at (V : variant) (objs : List V.string) (i : Nat) (s : V.string)
    (hi : objs[i]? = some s) : blocks_of V objs i = V.owned s := by
  simp only [blocks_of, hi]

theorem blocks_of_none (V : variant) (objs : List V.string) (k : Nat)
    (hk : objs.length ≤ k) : blocks_of V objs k = none := by
  have : objs[k]? = none := List.getElem?_eq_none hk
  simp only [blocks_of, this]

theorem blocks_of_set (V : variant) (objs : List V.string) (i : Nat) (s s' : V.string)
    (hi : objs[i]? = some s) :
    blocks_of V (objs.set i s') i = V.owned s' ∧
    ∀ k, k ≠ i → blocks_of V (objs.set i s') k = blocks_of V objs k := by
  have hlt : i < objs.length := (List.getElem?_eq_some.mp hi).1
  constructor
  · have : (objs.set i s')[i]? = some s' := by
      rw [List.getElem?_set, if_pos rfl, if_pos hlt]
    simp only [blocks_of, this]
  · intro k hk
    have : (objs.set i s')[k]? = objs[k]? := by
      rw [List.getElem?_set, if_neg (Ne.symm hk)]
    simp only [blocks_of, this]

theorem blocks_of_append (V : variant) (objs : List V.string) (s' : V.string) :
    blocks_of V (objs ++ [s']) objs.length = V.owned s' ∧
    ∀ k, k ≠ objs.length → blocks_of V (objs ++ [s']) k = blocks_of V objs k := by
  constructor
  · have : (objs ++ [s'])[objs.length]? = some s' := by
      rw [List.getElem?_append, if_neg (Nat.lt_irrefl _), Nat.sub_self]
      rfl
    simp only [blocks_of, this]
  · intro k hk
    by_cases hlt : k < objs.length
    · have : (objs ++ [s'])[k]? = objs[k]? := by
        rw [List.getElem?_append, if_pos hlt]
      simp only [blocks_of, this]
    · have h1 : (objs ++ [s'])[k]? = none :=
        List.getElem?_eq_none (by rw [List.length_append, List.length_singleton]; omega)
      have h2 : objs[k]? = none := List.getElem?_eq_none (by omega)
      simp only [blocks_of, h1, h2]

theorem release_call_owned (V : variant) (s : V.string) :
    release_call (V.is_large s) (V.data s) (V.capacity s) = release_of (V.owned s) := by
  cases h : V.is_large s <;> simp [release_call, variant.owned, release_of, h]

section programs_two

variable (V : variant) {valid : V.string → Machine → Prop}
  (L : laws V.string V.small_buffer_capacity V.ctor V.ctor_move V.operator_assign V.reserve
    V.shrink_to_fit V.insert V.pop_back V.self V.is_large V.data V.size V.capacity valid)

include L

/-- The capacity of a valid string is not zero. -/
theorem capacity_pos (s : V.string) (σ : Machine) (hv : valid s σ) : 0 < V.capacity s := by
  have hp := L.small_pos
  cases hl : V.is_large s with
  | false =>
    rw [(L.valid_small s σ hv hl).1]
    exact hp
  | true =>
    have := (L.valid_large s σ hv hl).1
    omega

/-- What the move assignment does to the owned blocks and to the log. -/
theorem assign_owned (s other : V.string) (σ : Machine) (hs : valid s σ) (ho : valid other σ)
    (hne : V.self s ≠ V.self other) :
    V.owned (V.operator_assign s σ other).2.1 = V.owned other ∧
    V.owned (V.operator_assign s σ other).2.2 = none ∧
    (V.operator_assign s σ other).1.calls = σ.calls ++ release_of (V.owned s) ∧
    (V.operator_assign s σ other).1.buff_pointer = σ.buff_pointer := by
  cases hl : V.is_large other with
  | true =>
    obtain ⟨-, -, -, -, h5, h6, -, h8, h9, -, h11, h12, -⟩ :=
      L.assign_from_large s σ other hs ho hne hl
    refine ⟨?_, ?_, ?_, h11⟩
    · simp only [variant.owned, h5, h6, h8, hl, if_true]
    · simp only [variant.owned, h9, Bool.false_eq_true, if_false]
    · rw [h12, release_call_owned]
  | false =>
    obtain ⟨-, h2, -, h4, -, h6, h7, -⟩ := L.assign_from_small s σ other hs ho hne hl
    refine ⟨?_, ?_, ?_, h6⟩
    · simp only [variant.owned, h4, hl, Bool.false_eq_true, if_false]
    · rw [h2]
      simp only [variant.owned, hl, Bool.false_eq_true, if_false]
    · rw [h7, release_call_owned]

/-- One statement of a program keeps the ownership invariant. -/
theorem step_blocks
    (hshrink : ∀ s σ, valid s σ → V.is_large s = true → V.size s < V.capacity s →
      V.size s ≤ V.small_buffer_capacity →
      (V.shrink_to_fit s σ).1.calls = σ.calls ∨
      (V.shrink_to_fit s σ).1.calls = σ.calls ++ [call.deallocate (V.data s) (V.capacity s)])
    (sys sys' : System V) (o : operation)
    (hinv : ∀ j s, sys.objs[j]? = some s → valid s sys.σ ∧ V.self s = j)
    (hb : blocks_owned sys.σ.calls sys.σ.buff_pointer (blocks_of V sys.objs))
    (h : System.step V sys o = some sys') :
    blocks_owned sys'.σ.calls sys'.σ.buff_pointer (blocks_of V sys'.objs) := by
  cases o with
  | construct =>
    simp only [System.step, Option.some.injEq] at h
    subst h
    obtain ⟨-, -, c3, -, c5, c6, -⟩ := L.ctor_spec sys.σ sys.objs.length
    obtain ⟨a1, a2⟩ := blocks_of_append V sys.objs (V.ctor sys.σ sys.objs.length).2
    dsimp only
    rw [c5, c6]
    refine blocks_owned_frame hb (Nat.le_refl _) (fun k => ?_)
    by_cases hk : k = sys.objs.length
    · rw [hk, a1, blocks_of_none V sys.objs _ (Nat.le_refl _)]
      simp only [variant.owned, c3, Bool.false_eq_true, if_false]
    · exact a2 k hk
  | move_construct j =>
    simp only [System.step] at h
    cases ho : sys.objs[j]? with
    | none => rw [ho] at h; cases h
    | some other =>
      rw [ho] at h
      simp only [Option.some.injEq] at h
      subst h
      obtain ⟨o1, o2⟩ := hinv j other ho
      have hlen : j < sys.objs.length := (List.getElem?_eq_some.mp ho).1
      obtain ⟨c1, c2, -, -, c5, c6, -⟩ := L.ctor_spec sys.σ sys.objs.length
      have o1' : valid other (V.ctor sys.σ sys.objs.length).1 :=
        L.valid_mono other _ _ o1 (by rw [c5])
      have hne : V.self (V.ctor sys.σ sys.objs.length).2 ≠ V.self other := by
        rw [c2, o2]; omega
      obtain ⟨a1, a2, a3, a4⟩ := assign_owned V L _ other _ c1 o1' hne
      dsimp only
      rw [L.ctor_move_eq, a3, a4, c5, c6]
      have hnone := blocks_of_none V sys.objs sys.objs.length (Nat.le_refl _)
      have hc3 : V.owned (V.ctor sys.σ sys.objs.length).2 = none := by
        obtain ⟨-, -, c3, -⟩ := L.ctor_spec sys.σ sys.objs.length
        simp only [variant.owned, c3, Bool.false_eq_true, if_false]
      rw [hc3, ← hnone]
      obtain ⟨s1, s2⟩ := blocks_of_set V sys.objs j other
        (V.operator_assign (V.ctor sys.σ sys.objs.length).2 (V.ctor sys.σ sys.objs.length).1
          other).2.2 ho
      obtain ⟨p1, p2⟩ := blocks_of_append V (sys.objs.set j
        (V.operator_assign (V.ctor sys.σ sys.objs.length).2 (V.ctor sys.σ sys.objs.length).1
          other).2.2)
        (V.operator_assign (V.ctor sys.σ sys.objs.length).2 (V.ctor sys.σ sys.objs.length).1
          other).2.1
      rw [List.length_set] at p1 p2
      refine blocks_owned_transfer hb sys.objs.length j (by omega) ?_ ?_ ?_
      · rw [p1, a1, blocks_of_at V sys.objs j other ho]
      · rw [p2 j (by omega), s1, a2]
      · intro k hk1 hk2
        rw [p2 k hk1, s2 k hk2]
  | insert i offset value =>
    simp only [System.step] at h
    cases ho : sys.objs[i]? with
    | none => rw [ho] at h; cases h
    | some s =>
      rw [ho] at h
      simp only [] at h
      split at h
      · rename_i hc
        simp only [Option.some.injEq] at h
        subst h
        obtain ⟨o1, o2⟩ := hinv i s ho
        obtain ⟨b1, b2⟩ := blocks_of_set V sys.objs i s (V.insert s sys.σ offset value).2.1 ho
        have hat := blocks_of_at V sys.objs i s ho
        dsimp only
        by_cases hlt : V.size s < V.capacity s
        · obtain ⟨-, -, a3, a4, -, a6, -, a8, a9, -⟩ :=
            L.insert_in_place s sys.σ offset value o1 hlt hc.1
          rw [a8, a9]
          refine blocks_owned_frame hb (Nat.le_refl _) (fun k => ?_)
          by_cases hk : k = i
          · rw [hk, b1, hat]
            simp only [variant.owned, a3, a4, a6]
          · exact b2 k hk
        · have hfull : V.size s = V.capacity s := by
            have := (L.valid_size s sys.σ o1).1
            omega
          have hc' : V.capacity s * 2 < max_elements := by
            rcases hc.2 with h | h
            · exact absurd h hlt
            · exact h
          obtain ⟨-, -, a3, a4, -, a6, -, a8, a9, -⟩ :=
            L.insert_realloc s sys.σ offset value o1 hfull hc.1 hc'
          rw [a8, a9, release_call_owned, ← hat]
          refine blocks_owned_grow hb i (V.capacity s * 2)
            (by have := capacity_pos V L s sys.σ o1; omega) ?_ b2
          rw [b1]
          simp only [variant.owned, a3, a4, a6, if_true]
      · cases h
  | pop_back i =>
    simp only [System.step] at h
    cases ho : sys.objs[i]? with
    | none => rw [ho] at h; cases h
    | some s =>
      rw [ho] at h
      simp only [] at h
      split at h
      · rename_i hc
        simp only [Option.some.injEq] at h
        subst h
        obtain ⟨o1, o2⟩ := hinv i s ho
        obtain ⟨b1, b2⟩ := blocks_of_set V sys.objs i s (V.pop_back s sys.σ).2 ho
        have hat := blocks_of_at V sys.objs i s ho
        obtain ⟨-, -, a3, a4, -, a6, a7⟩ := L.pop_back_spec s sys.σ o1 hc
        dsimp only
        rw [a7]
        refine blocks_owned_frame hb (Nat.le_refl _) (fun k => ?_)
        by_cases hk : k = i
        · rw [hk, b1, hat]
          simp only [variant.owned, a3, a4, a6]
        · exact b2 k hk
      · cases h
  | reserve i r =>
    simp only [System.step] at h
    cases ho : sys.objs[i]? with
    | none => rw [ho] at h; cases h
    | some s =>
      rw [ho] at h
      simp only [] at h
      split at h
      · rename_i hc
        simp only [Option.some.injEq] at h
        subst h
        obtain ⟨o1, o2⟩ := hinv i s ho
        obtain ⟨b1, b2⟩ := blocks_of_set V sys.objs i s (V.reserve s sys.σ r).2 ho
        have hat := blocks_of_at V sys.objs i s ho
        dsimp only
        by_cases hle : r ≤ V.capacity s
        · have e := L.reserve_small s sys.σ r hle
          rw [e] at b1 b2 ⊢
          dsimp only at b1 b2 ⊢
          refine blocks_owned_frame hb (Nat.le_refl _) (fun k => ?_)
          by_cases hk : k = i
          · rw [hk, b1, hat]
          · exact b2 k hk
        · obtain ⟨-, -, a3, a4, -, a6, a7, a8, -⟩ :=
            L.reserve_grow s sys.σ r o1 (by omega) hc
          rw [a7, a8, release_call_owned, ← hat]
          refine blocks_owned_grow hb i r (by omega) ?_ b2
          rw [b1]
          simp only [variant.owned, a3, a4, a6, if_true]
      · cases h
  | shrink_to_fit i =>
    simp only [System.step] at h
    cases ho : sys.objs[i]? with
    | none => rw [ho] at h; cases h
    | some s =>
      rw [ho] at h
      simp only [Option.some.injEq] at h
      subst h
      obtain ⟨o1, o2⟩ := hinv i s ho
      obtain ⟨b1, b2⟩ := blocks_of_set V sys.objs i s (V.shrink_to_fit s sys.σ).2 ho
      have hat := blocks_of_at V sys.objs i s ho
      dsimp only
      by_cases hn : V.is_large s = false ∨ V.capacity s = V.size s
      · have e := L.shrink_noop s sys.σ o1 hn
        rw [e] at b1 b2 ⊢
        dsimp only at b1 b2 ⊢
        refine blocks_owned_frame hb (Nat.le_refl _) (fun k => ?_)
        by_cases hk : k = i
        · rw [hk, b1, hat]
        · exact b2 k hk
      · have hl : V.is_large s = true := by
          cases hb' : V.is_large s with
          | false => exact absurd (Or.inl hb') hn
          | true => rfl
        have hlt : V.size s < V.capacity s := by
          have h1 := (L.valid_size s sys.σ o1).1
          have h2 : V.capacity s ≠ V.size s := fun e => hn (Or.inr e)
          omega
        by_cases hN : V.size s ≤ V.small_buffer_capacity
        · obtain ⟨-, -, a3, a4, -⟩ := L.shrink_inline s sys.σ o1 hl hlt hN
          have hdrop : V.owned (V.shrink_to_fit s sys.σ).2 = none := by
            simp only [variant.owned, a3, Bool.false_eq_true, if_false]
          have hrel : release_of (blocks_of V sys.objs i) =
              [call.deallocate (V.data s) (V.capacity s)] := by
            rw [hat]
            simp only [variant.owned, hl, if_true, release_of]
          rcases hshrink s sys.σ o1 hl hlt hN with e | e
          · have := blocks_owned_drop hb (Nat.le_of_eq a4.symm) i [] (Or.inl rfl)
              (b1.trans hdrop) b2
            rw [List.append_nil] at this
            rw [e]
            exact this
          · rw [e, ← hrel]
            exact blocks_owned_drop hb (Nat.le_of_eq a4.symm) i _ (Or.inr rfl)
              (b1.trans hdrop) b2
        · obtain ⟨-, -, a3, a4, -, a6, a7, a8, -⟩ :=
            L.shrink_heap s sys.σ o1 hl hlt (by omega)
          rw [a7, a8, release_call_owned, ← hat]
          refine blocks_owned_grow hb i (V.size s) (by omega) ?_ b2
          rw [b1]
          simp only [variant.owned, a3, a4, a6, if_true]
  | move_assign i j =>
    simp only [System.step] at h
    cases hs : sys.objs[i]? with
    | none => rw [hs] at h; cases h
    | some s =>
      cases ho : sys.objs[j]? with
      | none => rw [hs, ho] at h; cases h
      | some other =>
        rw [hs, ho] at h
        simp only [] at h
        split at h
        · rename_i hij
          simp only [Option.some.injEq] at h
          subst h
          obtain ⟨s1, s2⟩ := hinv i s hs
          obtain ⟨o1, o2⟩ := hinv j other ho
          have hne : V.self s ≠ V.self other := by rw [s2, o2]; exact hij
          obtain ⟨a1, a2, a3, a4⟩ := assign_owned V L s other sys.σ s1 o1 hne
          obtain ⟨b1, b2⟩ := blocks_of_set V sys.objs i s
            (V.operator_assign s sys.σ other).2.1 hs
          have ho' : (sys.objs.set i (V.operator_assign s sys.σ other).2.1)[j]? =
              some other := by
            rw [List.getElem?_set, if_neg hij]
            exact ho
          obtain ⟨d1, d2⟩ := blocks_of_set V
            (sys.objs.set i (V.operator_assign s sys.σ other).2.1) j other
            (V.operator_assign s sys.σ other).2.2 ho'
          dsimp only
          rw [a3, a4, ← blocks_of_at V sys.objs i s hs]
          refine blocks_owned_transfer hb i j hij ?_ ?_ ?_
          · rw [d2 i hij, b1, a1, blocks_of_at V sys.objs j other ho]
          · rw [d1, a2]
          · intro k hk1 hk2
            rw [d2 k hk2, b2 k hk1]
        · cases h

/-- The ownership invariant holds in every state a program reaches. -/
theorem run_blocks
    (hshrink : ∀ s σ, valid s σ → V.is_large s = true → V.size s < V.capacity s →
      V.size s ≤ V.small_buffer_capacity →
      (V.shrink_to_fit s σ).1.calls = σ.calls ∨
      (V.shrink_to_fit s σ).1.calls = σ.calls ++ [call.deallocate (V.data s) (V.capacity s)])
    (ops : List operation) : ∀ (sys sys' : System V),
    (∀ j s, sys.objs[j]? = some s → valid s sys.σ ∧ V.self s = j) →
    blocks_owned sys.σ.calls sys.σ.buff_pointer (blocks_of V sys.objs) →
    System.run V sys ops = some sys' →
    blocks_owned sys'.σ.calls sys'.σ.buff_pointer (blocks_of V sys'.objs) := by
  induction ops with
  | nil =>
    intro sys sys' _ hb h
    simp only [System.run, Option.some.injEq] at h
    subst h
    exact hb
  | cons o rest ih =>
    intro sys sys' hinv hb h
    simp only [System.run] at h
    cases hs : System.step V sys o with
    | none => rw [hs] at h; cases h
    | some sys₁ =>
      rw [hs] at h
      exact ih sys₁ sys' (step_valid V L sys sys₁ o hinv hs)
        (step_blocks V L hshrink sys sys₁ o hinv hb hs) h

/-- In the log of a program run from an empty system every `deallocate` call hands back a
block that an earlier `allocate` call returned, with the size of that call, and no block is
handed back twice. -/
theorem run_deallocate_matches
    (hshrink : ∀ s σ, valid s σ → V.is_large s = true → V.size s < V.capacity s →
      V.size s ≤ V.small_buffer_capacity →
      (V.shrink_to_fit s σ).1.calls = σ.calls ∨
      (V.shrink_to_fit s σ).1.calls = σ.calls ++ [call.deallocate (V.data s) (V.capacity s)])
    (junk : pointer → char) (ops : List operation) (sys : System V)
    (h : System.run V (System.init V junk) ops = some sys) :
    deallocate_matches sys.σ.calls ∧ deallocate_once sys.σ.calls := by
  have hinv : ∀ j s, (System.init V junk).objs[j]? = some s →
      valid s (System.init V junk).σ ∧ V.self s = j := by
    intro j s hj
    simp [System.init] at hj
  have hb : blocks_owned (System.init V junk).σ.calls (System.init V junk).σ.buff_pointer
      (blocks_of V (System.init V junk).objs) := by
    refine ⟨?_, ?_, ?_, ?_, ?_⟩
    · intro i p n hi
      simp [System.init, buffer.init] at hi
    · simp [deallocate_once, released, deallocate_blocks, System.init, buffer.init]
    · intro p n hp
      simp [System.init, buffer.init] at hp
    · intro j p n hj
      simp [blocks_of, System.init] at hj
    · intro i j p n q m _ hi
      simp [blocks_of, System.init] at hi
  have := run_blocks V L hshrink ops _ sys hinv hb h
  exact ⟨this.matched, this.once⟩

end programs_two

/-! ## The calls of `shrink_to_fit` when the content fits inline -/

namespace clang_bit_field

theorem bf_shrink_calls (s : string) (σ : Machine) (hv : s.valid σ) (h1 : s.is_large = true)
    (h2 : s.size < s.capacity) (h3 : s.size ≤ small_buffer_capacity) :
    (s.shrink_to_fit σ).1.calls = σ.calls ∨
    (s.shrink_to_fit σ).1.calls = σ.calls ++ [call.deallocate s.data s.capacity] :=
  Or.inr (bf_shrink_inline_spec s σ hv h1 h2 h3).2.2.1

end clang_bit_field

namespace clang_common_initial_subsequence

theorem cis_shrink_calls (s : string) (σ : Machine) (hv : s.valid σ) (h1 : s.is_large = true)
    (h2 : s.size < s.capacity) (h3 : s.size ≤ small_buffer_capacity) :
    (s.shrink_to_fit σ).1.calls = σ.calls ∨
    (s.shrink_to_fit σ).1.calls = σ.calls ++ [call.deallocate s.data s.capacity] :=
  Or.inl (cis_shrink_inline_spec s σ hv h1 h2 h3).2.2.1

end clang_common_initial_subsequence

namespace gcc_msvc_abi

theorem gcc_shrink_calls (s : string) (σ : Machine) (hv : s.valid σ) (h1 : s.is_large = true)
    (h2 : s.size < s.capacity) (h3 : s.size ≤ small_buffer_capacity) :
    (s.shrink_to_fit σ).1.calls = σ.calls ∨
    (s.shrink_to_fit σ).1.calls = σ.calls ++ [call.deallocate s.data s.capacity] :=
  Or.inl (gcc_shrink_inline_spec s σ hv h1 h2 h3).2.2.1

end gcc_msvc_abi

section generic_claims_four

variable {string : Type} {N : Nat}
  {ctor : Machine → Nat → Machine × string}
  {ctor_move : Machine → Nat → string → Machine × string × string}
  {operator_assign : string → Machine → string → Machine × string × string}
  {reserve : string → Machine → Nat → Machine × string}
  {shrink_to_fit : string → Machine → Machine × string}
  {insert : string → Machine → Nat → char → Machine × string × pointer}
  {pop_back : string → Machine → Machine × string}
  {identity : string → Nat} {is_large : string → Bool} {data : string → pointer}
  {size : string → Nat} {capacity : string → Nat}
  {valid : string → Machine → Prop}
  (L : laws string N ctor ctor_move operator_assign reserve shrink_to_fit insert pop_back
    identity is_large data size capacity valid)

include L

/-- The function `reserve` with a request above the capacity adopts the block that `allocate`
returns, whatever is left of the arena: no check is made. -/
theorem laws_reserve_past_arena (s : string) (σ : Machine) (r : Nat) (hv : valid s σ)
    (hlt : capacity s < r) (hr : r < 2 ^ 63) :
    is_large (reserve s σ r).2 = true ∧
    capacity (reserve s σ r).2 = r ∧
    data (reserve s σ r).2 = ⟨region.arena, σ.buff_pointer⟩ ∧
    size (reserve s σ r).2 = size s ∧
    read_bytes (reserve s σ r).1 (data (reserve s σ r).2) (size (reserve s σ r).2) =
      read_bytes σ (data s) (size s) := by
  obtain ⟨-, -, h3, h4, h5, h6, -⟩ := L.reserve_grow s σ r hv hlt hr
  exact ⟨h3, h6, h4, h5, laws_reserve_grow_view L s σ r hv hlt hr⟩

/-- The function `insert` on a full string adopts the block that `allocate` returns, whatever
is left of the arena: no check is made. -/
theorem laws_insert_past_arena (s : string) (σ : Machine) (k : Nat) (v : char)
    (hv : valid s σ) (hfull : size s = capacity s) (hk : k ≤ size s)
    (hc : capacity s * 2 < 2 ^ 63) :
    is_large (insert s σ k v).2.1 = true ∧
    capacity (insert s σ k v).2.1 = capacity s * 2 ∧
    data (insert s σ k v).2.1 = ⟨region.arena, σ.buff_pointer⟩ ∧
    size (insert s σ k v).2.1 = size s + 1 := by
  obtain ⟨-, -, h3, h4, h5, h6, -⟩ := L.insert_realloc s σ k v hv hfull hk hc
  exact ⟨h3, h6, h4, h5⟩

end generic_claims_four

set_option maxRecDepth 1000000 in
/-- C18 (the code departs from the claim): the three variants do not report the same sizes
and contents.  After the statements `test_individual` runs on `short_str` (four inserts at
`end()`, `reserve(50)`, `shrink_to_fit()`), `size()` is 4 in `clang-bit-field.cpp` and in
`gcc-msvc-abi.cpp` and 0 in `clang-common-initial-subsequence.cpp`; after sixteen inserts at
`end()` and one at `begin()`, the content is `'a', 1, ..., 16` in `clang-bit-field.cpp` and
`'a', 2, ..., 16, 0` in `gcc-msvc-abi.cpp`. -/
theorem C18_variants_disagree :
    (System.run clang_bit_field.impl (System.init clang_bit_field.impl (fun _ => 0))
      shrink_program).map (System.sizes clang_bit_field.impl) = some [4] ∧
    (System.run clang_common_initial_subsequence.impl
      (System.init clang_common_initial_subsequence.impl (fun _ => 0))
      shrink_program).map (System.sizes clang_common_initial_subsequence.impl) = some [0] ∧
    (System.run gcc_msvc_abi.impl (System.init gcc_msvc_abi.impl (fun _ => 0))
      shrink_program).map (System.sizes gcc_msvc_abi.impl) = some [4] ∧
    (System.run clang_bit_field.impl (System.init clang_bit_field.impl (fun _ => 0))
      front_program).map (System.contents clang_bit_field.impl) =
        some [[97, 1, 2, 3, 4, 5, 6, 7, 8, 9, 10, 11, 12, 13, 14, 15, 16]] ∧
    (System.run gcc_msvc_abi.impl (System.init gcc_msvc_abi.impl (fun _ => 0))
      front_program).map (System.contents gcc_msvc_abi.impl) =
        some [[97, 2, 3, 4, 5, 6, 7, 8, 9, 10, 11, 12, 13, 14, 15, 16, 0]] := by
  decide

/-- C19 (as the claim states it, refuted): in each variant, `reserve(6000)` on the string
`"0123"` in a fresh arena, whose 5000 elements cannot hold the request, adopts a block: the
inline string becomes a heap string with `capacity() == 6000`, not the capacity it had. -/
theorem C19_allocation_failure_counterexample :
    (buffer_elements - clang_bit_field.short_str.1.buff_pointer < 6000 ∧
      clang_bit_field.short_str.2.capacity < 6000 ∧
      clang_bit_field.short_str.2.is_large = false ∧
      (clang_bit_field.short_str.2.reserve clang_bit_field.short_str.1 6000).2.is_large = true ∧
      (clang_bit_field.short_str.2.reserve clang_bit_field.short_str.1 6000).2.capacity = 6000 ∧
      ¬ (clang_bit_field.short_str.2.reserve clang_bit_field.short_str.1 6000).2.capacity = clang_bit_field.short_str.2.capacity) ∧
    (buffer_elements - clang_common_initial_subsequence.short_str.1.buff_pointer < 6000 ∧
      clang_common_initial_subsequence.short_str.2.capacity < 6000 ∧
      clang_common_initial_subsequence.short_str.2.is_large = false ∧
      (clang_common_initial_subsequence.short_str.2.reserve clang_common_initial_subsequence.short_str.1 6000).2.is_large = true ∧
      (clang_common_initial_subsequence.short_str.2.reserve clang_common_initial_subsequence.short_str.1 6000).2.capacity = 6000 ∧
      ¬ (clang_common_initial_subsequence.short_str.2.reserve clang_common_initial_subsequence.short_str.1 6000).2.capacity = clang_common_initial_subsequence.short_str.2.capacity) ∧
    (buffer_elements - gcc_msvc_abi.short_str.1.buff_pointer < 6000 ∧
      gcc_msvc_abi.short_str.2.capacity < 6000 ∧
      gcc_msvc_abi.short_str.2.is_large = false ∧
      (gcc_msvc_abi.short_str.2.reserve gcc_msvc_abi.short_str.1 6000).2.is_large = true ∧
      (gcc_msvc_abi.short_str.2.reserve gcc_msvc_abi.short_str.1 6000).2.capacity = 6000 ∧
      ¬ (gcc_msvc_abi.short_str.2.reserve gcc_msvc_abi.short_str.1 6000).2.capacity = gcc_msvc_abi.short_str.2.capacity) := by
  decide

/-- C19 (amended): an allocation that the arena cannot satisfy is not reported, the block is
adopted.  In every variant, for every valid string and every requested capacity
`r > capacity()` (below `2^63`) that exceeds the free elements of the 5000-element arena,
while the `size()` bytes that `reserve` copies still lie inside the arena
(`bump pointer + size() <= 5000`, so that no write leaves the array), `reserve(r)` adopts the
block that `allocate` returns: the string is a heap string with `capacity() == r` whose data
is the old bump pointer, and `size()` and the content are unchanged; likewise `insert` on a
full string whose doubled capacity exceeds the free elements, while the `size() + 1` bytes it
writes still lie inside the arena, adopts a block of `2 * capacity()` elements at the old
bump pointer and has `size()` one more.  Nothing is stated when the bytes written would
leave the array, where the source has no defined behaviour. -/
theorem C19_no_allocation_failure_path :
    (∀ (s : clang_bit_field.string) (σ : Machine),
      s.valid σ →
      (∀ r : Nat, s.capacity < r → r < 2 ^ 63 → buffer_elements - σ.buff_pointer < r →
        σ.buff_pointer + s.size ≤ buffer_elements →
        (s.reserve σ r).2.is_large = true ∧
        (s.reserve σ r).2.capacity = r ∧
        (s.reserve σ r).2.data = ⟨region.arena, σ.buff_pointer⟩ ∧
        (s.reserve σ r).2.size = s.size ∧
        (s.reserve σ r).2.view (s.reserve σ r).1 = s.view σ) ∧
      (∀ (k : Nat) (v : char), s.size = s.capacity → k ≤ s.size → s.capacity * 2 < 2 ^ 63 →
        buffer_elements - σ.buff_pointer < s.capacity * 2 →
        σ.buff_pointer + s.size + 1 ≤ buffer_elements →
        (s.insert σ k v).2.1.is_large = true ∧
        (s.insert σ k v).2.1.capacity = s.capacity * 2 ∧
        (s.insert σ k v).2.1.data = ⟨region.arena, σ.buff_pointer⟩ ∧
        (s.insert σ k v).2.1.size = s.size + 1)) ∧
    (∀ (s : clang_common_initial_subsequence.string) (σ : Machine),
      s.valid σ →
      (∀ r : Nat, s.capacity < r → r < 2 ^ 63 → buffer_elements - σ.buff_pointer < r →
        σ.buff_pointer + s.size ≤ buffer_elements →
        (s.reserve σ r).2.is_large = true ∧
        (s.reserve σ r).2.capacity = r ∧
        (s.reserve σ r).2.data = ⟨region.arena, σ.buff_pointer⟩ ∧
        (s.reserve σ r).2.size = s.size ∧
        (s.reserve σ r).2.view (s.reserve σ r).1 = s.view σ) ∧
      (∀ (k : Nat) (v : char), s.size = s.capacity → k ≤ s.size → s.capacity * 2 < 2 ^ 63 →
        buffer_elements - σ.buff_pointer < s.capacity * 2 →
        σ.buff_pointer + s.size + 1 ≤ buffer_elements →
        (s.insert σ k v).2.1.is_large = true ∧
        (s.insert σ k v).2.1.capacity = s.capacity * 2 ∧
        (s.insert σ k v).2.1.data = ⟨region.arena, σ.buff_pointer⟩ ∧
        (s.insert σ k v).2.1.size = s.size + 1)) ∧
    (∀ (s : gcc_msvc_abi.string) (σ : Machine),
      s.valid σ →
      (∀ r : Nat, s.capacity < r → r < 2 ^ 63 → buffer_elements - σ.buff_pointer < r →
        σ.buff_pointer + s.size ≤ buffer_elements →
        (s.reserve σ r).2.is_large = true ∧
        (s.reserve σ r).2.capacity = r ∧
        (s.reserve σ r).2.data = ⟨region.arena, σ.buff_pointer⟩ ∧
        (s.reserve σ r).2.size = s.size ∧
        (s.reserve σ r).2.view (s.reserve σ r).1 = s.view σ) ∧
      (∀ (k : Nat) (v : char), s.size = s.capacity → k ≤ s.size → s.capacity * 2 < 2 ^ 63 →
        buffer_elements - σ.buff_pointer < s.capacity * 2 →
        σ.buff_pointer + s.size + 1 ≤ buffer_elements →
        (s.insert σ k v).2.1.is_large = true ∧
        (s.insert σ k v).2.1.capacity = s.capacity * 2 ∧
        (s.insert σ k v).2.1.data = ⟨region.arena, σ.buff_pointer⟩ ∧
        (s.insert σ k v).2.1.size = s.size + 1)) :=
  ⟨fun s σ hv =>
      ⟨fun r hlt hr _ _ => laws_reserve_past_arena clang_bit_field.bf_impl_laws s σ r hv hlt hr,
        fun k v hfull hk hc _ _ => laws_insert_past_arena clang_bit_field.bf_impl_laws s σ k v hv hfull hk hc⟩,
    fun s σ hv =>
      ⟨fun r hlt hr _ _ => laws_reserve_past_arena clang_common_initial_subsequence.cis_impl_laws s σ r hv hlt hr,
        fun k v hfull hk hc _ _ => laws_insert_past_arena clang_common_initial_subsequence.cis_impl_laws s σ k v hv hfull hk hc⟩,
    fun s σ hv =>
      ⟨fun r hlt hr _ _ => laws_reserve_past_arena gcc_msvc_abi.gcc_impl_laws s σ r hv hlt hr,
        fun k v hfull hk hc _ _ => laws_insert_past_arena gcc_msvc_abi.gcc_impl_laws s σ k v hv hfull hk hc⟩⟩

set_option maxRecDepth 100000 in
/-- C19 (amended) at concrete inputs, in each variant: `reserve(6000)` on `"0123"` in a fresh
arena, and `insert(begin() + 5, 97)` into a full inline string when 30 elements of the arena
are left. -/
theorem C19_no_allocation_failure_path_witness :
    (clang_bit_field.short_str.2.valid clang_bit_field.short_str.1 ∧ clang_bit_field.short_str.2.capacity < 6000 ∧
      buffer_elements - clang_bit_field.short_str.1.buff_pointer < 6000 ∧
      clang_bit_field.short_str.1.buff_pointer + clang_bit_field.short_str.2.size ≤ buffer_elements ∧
      (clang_bit_field.short_str.2.reserve clang_bit_field.short_str.1 6000).2.view
          (clang_bit_field.short_str.2.reserve clang_bit_field.short_str.1 6000).1 =
        clang_bit_field.short_str.2.view clang_bit_field.short_str.1 ∧
      clang_bit_field.full_str.2.valid clang_bit_field.crowded_machine ∧
      clang_bit_field.full_str.2.size = clang_bit_field.full_str.2.capacity ∧
      buffer_elements - clang_bit_field.crowded_machine.buff_pointer < clang_bit_field.full_str.2.capacity * 2 ∧
      clang_bit_field.crowded_machine.buff_pointer + clang_bit_field.full_str.2.size + 1 ≤ buffer_elements ∧
      (clang_bit_field.full_str.2.insert clang_bit_field.crowded_machine 5 97).2.1.capacity =
        clang_bit_field.full_str.2.capacity * 2) ∧
    (clang_common_initial_subsequence.short_str.2.valid clang_common_initial_subsequence.short_str.1 ∧ clang_common_initial_subsequence.short_str.2.capacity < 6000 ∧
      buffer_elements - clang_common_initial_subsequence.short_str.1.buff_pointer < 6000 ∧
      clang_common_initial_subsequence.short_str.1.buff_pointer + clang_common_initial_subsequence.short_str.2.size ≤ buffer_elements ∧
      (clang_common_initial_subsequence.short_str.2.reserve clang_common_initial_subsequence.short_str.1 6000).2.view
          (clang_common_initial_subsequence.short_str.2.reserve clang_common_initial_subsequence.short_str.1 6000).1 =
        clang_common_initial_subsequence.short_str.2.view clang_common_initial_subsequence.short_str.1 ∧
      clang_common_initial_subsequence.full_str.2.valid clang_common_initial_subsequence.crowded_machine ∧
      clang_common_initial_subsequence.full_str.2.size = clang_common_initial_subsequence.full_str.2.capacity ∧
      buffer_elements - clang_common_initial_subsequence.crowded_machine.buff_pointer < clang_common_initial_subsequence.full_str.2.capacity * 2 ∧
      clang_common_initial_subsequence.crowded_machine.buff_pointer + clang_common_initial_subsequence.full_str.2.size + 1 ≤ buffer_elements ∧
      (clang_common_initial_subsequence.full_str.2.insert clang_common_initial_subsequence.crowded_machine 5 97).2.1.capacity =
        clang_common_initial_subsequence.full_str.2.capacity * 2) ∧
    (gcc_msvc_abi.short_str.2.valid gcc_msvc_abi.short_str.1 ∧ gcc_msvc_abi.short_str.2.capacity < 6000 ∧
      buffer_elements - gcc_msvc_abi.short_str.1.buff_pointer < 6000 ∧
      gcc_msvc_abi.short_str.1.buff_pointer + gcc_msvc_abi.short_str.2.size ≤ buffer_elements ∧
      (gcc_msvc_abi.short_str.2.reserve gcc_msvc_abi.short_str.1 6000).2.view
          (gcc_msvc_abi.short_str.2.reserve gcc_msvc_abi.short_str.1 6000).1 =
        gcc_msvc_abi.short_str.2.view gcc_msvc_abi.short_str.1 ∧
      gcc_msvc_abi.full_str.2.valid gcc_msvc_abi.crowded_machine ∧
      gcc_msvc_abi.full_str.2.size = gcc_msvc_abi.full_str.2.capacity ∧
      buffer_elements - gcc_msvc_abi.crowded_machine.buff_pointer < gcc_msvc_abi.full_str.2.capacity * 2 ∧
      gcc_msvc_abi.crowded_machine.buff_pointer + gcc_msvc_abi.full_str.2.size + 1 ≤ buffer_elements ∧
      (gcc_msvc_abi.full_str.2.insert gcc_msvc_abi.crowded_machine 5 97).2.1.capacity =
        gcc_msvc_abi.full_str.2.capacity * 2) :=
  ⟨⟨by decide, by decide, by decide, by decide,
      ((C19_no_allocation_failure_path.1 _ _ (by decide)).1 6000 (by decide) (by decide)
        (by decide) (by decide)).2.2.2.2,
      by decide, by decide, by decide, by decide,
      ((C19_no_allocation_failure_path.1 _ _ (by decide)).2 5 97 (by decide) (by decide)
        (by decide) (by decide) (by decide)).2.1⟩,
    ⟨by decide, by decide, by decide, by decide,
      ((C19_no_allocation_failure_path.2.1 _ _ (by decide)).1 6000 (by decide) (by decide)
        (by decide) (by decide)).2.2.2.2,
      by decide, by decide, by decide, by decide,
      ((C19_no_allocation_failure_path.2.1 _ _ (by decide)).2 5 97 (by decide) (by decide)
        (by decide) (by decide) (by decide)).2.1⟩,
    ⟨by decide, by decide, by decide, by decide,
      ((C19_no_allocation_failure_path.2.2 _ _ (by decide)).1 6000 (by decide) (by decide)
        (by decide) (by decide)).2.2.2.2,
      by decide, by decide, by decide, by decide,
      ((C19_no_allocation_failure_path.2.2 _ _ (by decide)).2 5 97 (by decide) (by decide)
        (by decide) (by decide) (by decide)).2.1⟩⟩

/-- C20: `deallocate` always matches its `allocate`.  In every variant, in the log of
allocator calls of every program of constructions, `insert`, `pop_back`, `reserve`,
`shrink_to_fit`, move assignments and move constructions run from an empty system
(capacities below `2^63`), each `deallocate(p, n)` call comes after an `allocate` call that
returned `p` for the size `n`, and no pointer is passed to `deallocate` twice. -/
theorem C20_deallocate_matches_allocate :
    (∀ (junk : pointer → char) (ops : List operation) (sys : System clang_bit_field.impl),
      System.run clang_bit_field.impl (System.init clang_bit_field.impl junk) ops = some sys →
      deallocate_matches sys.σ.calls ∧ deallocate_once sys.σ.calls) ∧
    (∀ (junk : pointer → char) (ops : List operation) (sys : System clang_common_initial_subsequence.impl),
      System.run clang_common_initial_subsequence.impl (System.init clang_common_initial_subsequence.impl junk) ops = some sys →
      deallocate_matches sys.σ.calls ∧ deallocate_once sys.σ.calls) ∧
    (∀ (junk : pointer → char) (ops : List operation) (sys : System gcc_msvc_abi.impl),
      System.run gcc_msvc_abi.impl (System.init gcc_msvc_abi.impl junk) ops = some sys →
      deallocate_matches sys.σ.calls ∧ deallocate_once sys.σ.calls) :=
  ⟨fun junk ops sys h =>
      run_deallocate_matches clang_bit_field.impl clang_bit_field.bf_impl_laws
        (fun s σ hv hl hlt hn => clang_bit_field.bf_shrink_calls s σ hv hl hlt hn) junk ops sys h,
    fun junk ops sys h =>
      run_deallocate_matches clang_common_initial_subsequence.impl clang_common_initial_subsequence.cis_impl_laws
        (fun s σ hv hl hlt hn => clang_common_initial_subsequence.cis_shrink_calls s σ hv hl hlt hn) junk ops sys h,
    fun junk ops sys h =>
      run_deallocate_matches gcc_msvc_abi.impl gcc_msvc_abi.gcc_impl_laws
        (fun s σ hv hl hlt hn => gcc_msvc_abi.gcc_shrink_calls s σ hv hl hlt hn) junk ops sys h⟩

set_option maxRecDepth 100000 in
/-- C20 at a concrete input: the log left by `release_program`, in each variant; in
`clang-bit-field.cpp` it holds three `deallocate` calls. -/
theorem C20_deallocate_matches_allocate_witness :
    (∃ sys, System.run clang_bit_field.impl (System.init clang_bit_field.impl (fun _ => 0)) release_program =
        some sys ∧
      deallocate_matches sys.σ.calls ∧ deallocate_once sys.σ.calls) ∧
    (∃ sys, System.run clang_common_initial_subsequence.impl (System.init clang_common_initial_subsequence.impl (fun _ => 0)) release_program =
        some sys ∧
      deallocate_matches sys.σ.calls ∧ deallocate_once sys.σ.calls) ∧
    (∃ sys, System.run gcc_msvc_abi.impl (System.init gcc_msvc_abi.impl (fun _ => 0)) release_program =
        some sys ∧
      deallocate_matches sys.σ.calls ∧ deallocate_once sys.σ.calls) ∧
    (System.run clang_bit_field.impl (System.init clang_bit_field.impl (fun _ => 0))
      release_program).map (fun sys => sys.σ.calls) =
        some [call.allocate ⟨region.arena, 0⟩ 50, call.allocate ⟨region.arena, 50⟩ 100,
          call.deallocate ⟨region.arena, 0⟩ 50, call.allocate ⟨region.arena, 150⟩ 60,
          call.deallocate ⟨region.arena, 150⟩ 60, call.deallocate ⟨region.arena, 50⟩ 100] := by
  refine ⟨?_, ?_, ?_, ?_⟩
  · cases h : System.run clang_bit_field.impl (System.init clang_bit_field.impl (fun _ => 0)) release_program with
    | none =>
      have hs : (System.run clang_bit_field.impl (System.init clang_bit_field.impl (fun _ => 0))
          release_program).isSome = true := by
        decide
      rw [h] at hs
      cases hs
    | some sys =>
      exact ⟨sys, rfl, C20_deallocate_matches_allocate.1 _ _ sys h⟩
  · cases h : System.run clang_common_initial_subsequence.impl (System.init clang_common_initial_subsequence.impl (fun _ => 0)) release_program with
    | none =>
      have hs : (System.run clang_common_initial_subsequence.impl (System.init clang_common_initial_subsequence.impl (fun _ => 0))
          release_program).isSome = true := by
        decide
      rw [h] at hs
      cases hs
    | some sys =>
      exact ⟨sys, rfl, C20_deallocate_matches_allocate.2.1 _ _ sys h⟩
  · cases h : System.run gcc_msvc_abi.impl (System.init gcc_msvc_abi.impl (fun _ => 0)) release_program with
    | none =>
      have hs : (System.run gcc_msvc_abi.impl (System.init gcc_msvc_abi.impl (fun _ => 0))
          release_program).isSome = true := by
        decide
      rw [h] at hs
      cases hs
    | some sys =>
      exact ⟨sys, rfl, C20_deallocate_matches_allocate.2.2 _ _ sys h⟩
  · decide

/-! ## `increment_size`, `decrement_size` and `relocate` of `clang-bit-field.cpp` -/

namespace clang_bit_field

/-- The private member function `increment_size` on a valid string, full or not. -/
theorem bf_increment_size_frame (s : string) (σ : Machine) (hv : s.valid σ) :
    s.increment_size.size = s.size + 1 ∧
    s.increment_size.is_large = s.is_large ∧ s.increment_size.data = s.data ∧
    s.increment_size.capacity = s.capacity ∧
    (s.is_large = true →
      s.increment_size.size_or_first_byte_of_capacity_ = s.size_or_first_byte_of_capacity_) := by
  rcases bf_valid_cases s σ hv with ⟨n, e, h1⟩ | ⟨x, bytes, n, p, e, h1, h2, h3, h4, h5, h6, h7⟩
  · rw [e]
    have e2 : string.increment_size ⟨s.self, false, n, U.small⟩ =
        ⟨s.self, false, n + 1, U.small⟩ := by
      have hm : (n + 1) % 2 ^ 7 = n + 1 := by omega
      simp only [string.increment_size, bf_inline_is_large, hm, Bool.false_eq_true, if_false]
    rw [e2]
    exact ⟨rfl, rfl, rfl, rfl, fun h => by cases h⟩
  · rw [e] at h1 h2 h3 h4 ⊢
    have e2 : string.increment_size ⟨s.self, true, x, U.large ⟨bytes, n, ⟨region.arena, p⟩⟩⟩ =
        ⟨s.self, true, x, U.large ⟨bytes, n + 1, ⟨region.arena, p⟩⟩⟩ := by
      have hm : (n + 1) % 2 ^ 64 = n + 1 := by omega
      simp only [string.increment_size, bf_heap_is_large, U.get_large, hm, if_true]
    rw [e2]
    exact ⟨rfl, rfl, rfl, rfl, fun _ => rfl⟩

/-- The private member function `decrement_size` on a valid string that is not empty. -/
theorem bf_decrement_size_frame (s : string) (σ : Machine) (hv : s.valid σ)
    (hpos : 0 < s.size) :
    s.decrement_size.size = s.size - 1 ∧
    s.decrement_size.is_large = s.is_large ∧ s.decrement_size.data = s.data ∧
    s.decrement_size.capacity = s.capacity ∧
    (s.is_large = true →
      s.decrement_size.size_or_first_byte_of_capacity_ = s.size_or_first_byte_of_capacity_) := by
  rcases bf_valid_cases s σ hv with ⟨n, e, h1⟩ | ⟨x, bytes, n, p, e, h1, h2, h3, h4, h5, h6, h7⟩
  · rw [e] at hpos ⊢
    rw [bf_inline_size] at hpos
    have e2 : string.decrement_size ⟨s.self, false, n, U.small⟩ =
        ⟨s.self, false, n - 1, U.small⟩ := by
      have hm : (n + 2 ^ 7 - 1) % 2 ^ 7 = n - 1 := by omega
      simp only [string.decrement_size, bf_inline_is_large, hm, Bool.false_eq_true, if_false]
    rw [e2]
    exact ⟨rfl, rfl, rfl, rfl, fun h => by cases h⟩
  · rw [e] at hpos h1 h2 h3 h4 ⊢
    rw [bf_heap_size] at hpos
    have e2 : string.decrement_size ⟨s.self, true, x, U.large ⟨bytes, n, ⟨region.arena, p⟩⟩⟩ =
        ⟨s.self, true, x, U.large ⟨bytes, n - 1, ⟨region.arena, p⟩⟩⟩ := by
      have hm : (n + 2 ^ 64 - 1) % 2 ^ 64 = n - 1 := by simp only at hpos; omega
      simp only [string.decrement_size, bf_heap_is_large, U.get_large, hm, if_true]
    rw [e2]
    exact ⟨rfl, rfl, rfl, rfl, fun _ => rfl⟩

theorem bf_relocate_eq (s : string) (σ : Machine) (p : pointer) (c : Nat) :
    (s.relocate σ p c).2 =
      ⟨s.self, true, (c / 2 ^ (8 * 7)) % 2 ^ 7, U.large (large_t.ctor s.size c p)⟩ := rfl

/-- The capacity that `relocate` packs is the capacity that `capacity` reads back. -/
theorem bf_relocate_capacity (s : string) (σ : Machine) (p : pointer) (c : Nat)
    (hc : c < 2 ^ 63) :
    (s.relocate σ p c).2.capacity = c ∧
    (s.relocate σ p c).2.size_or_first_byte_of_capacity_ = c / 2 ^ 56 % 2 ^ 7 ∧
    (s.relocate σ p c).2.u_.get_large.rest_of_capacity =
      [c / 2 ^ 48 % 256, c / 2 ^ 40 % 256, c / 2 ^ 32 % 256, c / 2 ^ 24 % 256,
        c / 2 ^ 16 % 256, c / 2 ^ 8 % 256, c % 256] := by
  rw [bf_relocate_eq]
  refine ⟨bf_capacity_relocated s.self s.size c p hc, rfl, ?_⟩
  show large_t.fill 7 c = _
  rw [bf_fill_seven]
  simp only [Nat.div_div_eq_div_mul]
  norm_num

end clang_bit_field

/-! ## The reallocation path of `insert` leaves the old storage alone -/

/-- A machine whose memory is the old memory except inside the new block of `size + 1`
elements at the bump pointer. -/
theorem realloc_writes_new_block (σ : Machine) (mem' : pointer → char) (d : pointer)
    (bp size k : Nat) (v : char) (hk : k ≤ size)
    (hm : ∀ q : pointer, mem' q =
      if q.base = region.arena ∧ bp ≤ q.index ∧ q.index < bp + size ∧ q.index ≠ bp + k then
        σ.mem ⟨d.base, d.index + (q.index - bp)⟩
      else if q = ⟨region.arena, bp + k⟩ then v else σ.mem q) :
    ∀ q : pointer, ¬ (q.base = region.arena ∧ bp ≤ q.index ∧ q.index < bp + size + 1) →
      mem' q = σ.mem q := by
  intro q hq
  rw [hm]
  have h1 : ¬ (q.base = region.arena ∧ bp ≤ q.index ∧ q.index < bp + size ∧
      q.index ≠ bp + k) := by
    rintro ⟨a, b, c, -⟩
    exact hq ⟨a, b, by omega⟩
  have h2 : ¬ q = ⟨region.arena, bp + k⟩ := by
    intro e
    apply hq
    rw [e]
    exact ⟨rfl, by show bp ≤ bp + k; omega, by show bp + k < bp + size + 1; omega⟩
  rw [if_neg h1, if_neg h2]

namespace clang_bit_field

theorem bf_insert_realloc_frame (s : string) (σ : Machine) (k : Nat) (v : char)
    (hv : s.valid σ) (hfull : s.size = s.capacity) (hk : k ≤ s.size) :
    ∀ q : pointer, ¬ (q.base = region.arena ∧ σ.buff_pointer ≤ q.index ∧
        q.index < σ.buff_pointer + s.size + 1) →
      (s.insert σ k v).1.mem q = σ.mem q := by
  have hnlt : ¬ s.size < s.capacity := by omega
  have hb := bf_valid_bounds s σ hv
  have hmod2 : s.capacity * 2 % 2 ^ 64 = s.capacity * 2 := Nat.mod_eq_of_lt (by omega)
  refine realloc_writes_new_block σ _ s.data σ.buff_pointer s.size k v hk (fun q => ?_)
  simp only [string.insert, hnlt, if_false, hmod2, string.end, string.relocate,
    bf_deallocate_mem]
  exact insert_realloc_mem σ s.begin s.size k (s.capacity * 2) v hk (bf_data_disjoint s σ hv) q

end clang_bit_field

namespace clang_common_initial_subsequence

theorem cis_insert_realloc_frame (s : string) (σ : Machine) (k : Nat) (v : char)
    (hv : s.valid σ) (hfull : s.size = s.capacity) (hk : k ≤ s.size) :
    ∀ q : pointer, ¬ (q.base = region.arena ∧ σ.buff_pointer ≤ q.index ∧
        q.index < σ.buff_pointer + s.size + 1) →
      (s.insert σ k v).1.mem q = σ.mem q := by
  have hnlt : ¬ s.size < s.capacity := by omega
  have hb := cis_valid_bounds s σ hv
  have hmod2 : s.capacity * 2 % 2 ^ 64 = s.capacity * 2 := Nat.mod_eq_of_lt (by omega)
  refine realloc_writes_new_block σ _ s.data σ.buff_pointer s.size k v hk (fun q => ?_)
  simp only [string.insert, hnlt, if_false, hmod2, string.end, string.relocate,
    cis_deallocate_mem]
  exact insert_realloc_mem σ s.begin s.size k (s.capacity * 2) v hk (cis_data_disjoint s σ hv) q

end clang_common_initial_subsequence

namespace gcc_msvc_abi

theorem gcc_insert_realloc_frame (s : string) (σ : Machine) (k : Nat) (v : char)
    (hv : s.valid σ) (hfull : s.size = s.capacity) (hk : k ≤ s.size) :
    ∀ q : pointer, ¬ (q.base = region.arena ∧ σ.buff_pointer ≤ q.index ∧
        q.index < σ.buff_pointer + s.size + 1) →
      (s.insert σ k v).1.mem q = σ.mem q := by
  have hnlt : ¬ s.size < s.capacity := by omega
  have hb := gcc_valid_bounds s σ hv
  have hmod2 : s.capacity * 2 % 2 ^ 64 = s.capacity * 2 := Nat.mod_eq_of_lt (by omega)
  refine realloc_writes_new_block σ _ s.data σ.buff_pointer s.size k v hk (fun q => ?_)
  simp only [string.insert, hnlt, if_false, hmod2, string.relocate, string.end,
    gcc_deallocate_mem]
  exact insert_realloc_mem σ s.begin s.size k (s.capacity * 2) v hk (gcc_data_disjoint s σ hv) q

end gcc_msvc_abi

section generic_claims_five

variable {string : Type} {N : Nat}
  {ctor : Machine → Nat → Machine × string}
  {ctor_move : Machine → Nat → string → Machine × string × string}
  {operator_assign : string → Machine → string → Machine × string × string}
  {reserve : string → Machine → Nat → Machine × string}
  {shrink_to_fit : string → Machine → Machine × string}
  {insert : string → Machine → Nat → char → Machine × string × pointer}
  {pop_back : string → Machine → Machine × string}
  {identity : string → Nat} {is_large : string → Bool} {data : string → pointer}
  {size : string → Nat} {capacity : string → Nat}
  {valid : string → Machine → Prop}
  (L : laws string N ctor ctor_move operator_assign reserve shrink_to_fit insert pop_back
    identity is_large data size capacity valid)

include L

/-- The old block of a heap string lies below the bump pointer, so a step that writes only
at or above the bump pointer leaves every byte of it as it was. -/
theorem laws_old_block_kept (s : string) (σ : Machine) (mem' : pointer → char) (n : Nat)
    (hv : valid s σ) (hl : is_large s = true)
    (hfr : ∀ q : pointer, ¬ (q.base = region.arena ∧ σ.buff_pointer ≤ q.index ∧
        q.index < σ.buff_pointer + n + 1) → mem' q = σ.mem q) :
    ∀ i, i < capacity s → mem' ((data s).add i) = σ.mem ((data s).add i) := by
  intro i hi
  obtain ⟨-, -, h3⟩ := L.valid_large s σ hv hl
  apply hfr
  rintro ⟨-, h, -⟩
  have h' : σ.buff_pointer ≤ (data s).index + i := h
  omega

/-- A freshly constructed string. -/
theorem laws_ctor_fresh (σ : Machine) (object : Nat) :
    size (ctor σ object).2 = 0 ∧
    is_large (ctor σ object).2 = false ∧
    data (ctor σ object).2 = ⟨region.small object, 0⟩ ∧
    capacity (ctor σ object).2 = N ∧
    (ctor σ object).1.calls = σ.calls ∧
    (ctor σ object).1.buff_pointer = σ.buff_pointer := by
  obtain ⟨c1, c2, c3, c4, c5, c6, -⟩ := L.ctor_spec σ object
  obtain ⟨v1, v2⟩ := L.valid_small _ _ c1 c3
  exact ⟨c4, c3, by rw [v2, c2], v1, c6, c5⟩

/-- The capacity after appending the bytes of `w`: the capacity doubles `k` times, where `k`
is the least number of doublings that makes room for all the bytes, and each doubling is one
`allocate` call. -/
theorem laws_append_capacity (w : List char) : ∀ (s : string) (σ : Machine) (k : Nat),
    valid s σ → size s + w.length ≤ capacity s * 2 ^ k →
    (∀ j, j < k → capacity s * 2 ^ j < size s + w.length) →
    capacity s * 2 ^ k < max_elements →
    capacity (append_all insert size s σ w).2 = capacity s * 2 ^ k ∧
    (allocate_sizes (append_all insert size s σ w).1.calls).length =
      (allocate_sizes σ.calls).length + k := by
  induction w with
  | nil =>
    intro s σ k hv _ h2 _
    have hs := (L.valid_size s σ hv).1
    have hk : k = 0 := by
      cases k with
      | zero => rfl
      | succ k' =>
        have := h2 0 (Nat.succ_pos k')
        simp only [pow_zero, Nat.mul_one, List.length_nil, Nat.add_zero] at this
        omega
    subst hk
    exact ⟨by simp [append_all], rfl⟩
  | cons c rest ih =>
    intro s σ k hv h1 h2 h3
    have hs := (L.valid_size s σ hv).1
    have e : append_all insert size s σ (c :: rest) =
        append_all insert size (insert s σ (size s) c).2.1 (insert s σ (size s) c).1 rest := rfl
    rw [e]
    simp only [List.length_cons] at h1 h2
    by_cases hlt : size s < capacity s
    · obtain ⟨a1, -, -, -, a5, a6, -, -, a9, -⟩ :=
        L.insert_in_place s σ (size s) c hv hlt (Nat.le_refl _)
      obtain ⟨i1, i2⟩ := ih _ _ k a1 (by rw [a5, a6]; omega)
        (fun j hj => by rw [a5, a6]; have := h2 j hj; omega) (by rw [a6]; exact h3)
      rw [a6] at i1
      rw [a9] at i2
      exact ⟨i1, i2⟩
    · have hfull : size s = capacity s := by omega
      cases k with
      | zero =>
        simp only [pow_zero, Nat.mul_one] at h1
        omega
      | succ k' =>
        have hp : capacity s * 2 ^ (k' + 1) = capacity s * 2 * 2 ^ k' := by
          rw [pow_succ]
          ring
        have hpos : 0 < 2 ^ k' := Nat.two_pow_pos k'
        have hc : capacity s * 2 < max_elements := by
          have : capacity s * 2 * 1 ≤ capacity s * 2 * 2 ^ k' := Nat.mul_le_mul_left _ hpos
          rw [hp] at h3
          omega
        obtain ⟨a1, -, -, -, a5, a6, -, -, a9, -⟩ :=
          L.insert_realloc s σ (size s) c hv hfull (Nat.le_refl _) hc
        obtain ⟨i1, i2⟩ := ih _ _ k' a1 (by rw [a5, a6, ← hp]; omega)
          (fun j hj => by
            rw [a5, a6]
            have := h2 (j + 1) (by omega)
            have hq : capacity s * 2 ^ (j + 1) = capacity s * 2 * 2 ^ j := by
              rw [pow_succ]
              ring
            rw [hq] at this
            omega)
          (by rw [a6, ← hp]; exact h3)
        rw [a6, ← hp] at i1
        rw [a9, allocate_sizes_grow, List.length_append, List.length_singleton] at i2
        exact ⟨i1, by rw [i2]; omega⟩

/-- The capacity after appending the bytes of `w` to a freshly constructed string. -/
theorem laws_append_capacity_fresh (σ : Machine) (object : Nat) (w : List char) (k : Nat)
    (h1 : w.length ≤ N * 2 ^ k) (h2 : ∀ j, j < k → N * 2 ^ j < w.length)
    (h3 : N * 2 ^ k < 2 ^ 63) :
    capacity (append_all insert size (ctor σ object).2 (ctor σ object).1 w).2 = N * 2 ^ k ∧
    (allocate_sizes (append_all insert size (ctor σ object).2 (ctor σ object).1 w).1.calls).length =
      (allocate_sizes σ.calls).length + k := by
  obtain ⟨c1, -, c3, c4, -, c6, -⟩ := L.ctor_spec σ object
  obtain ⟨v1, -⟩ := L.valid_small _ _ c1 c3
  obtain ⟨i1, i2⟩ := laws_append_capacity L w (ctor σ object).2 (ctor σ object).1 k c1
    (by rw [c4, v1]; omega) (fun j hj => by rw [c4, v1]; have := h2 j hj; omega)
    (by rw [v1]; exact h3)
  rw [v1] at i1
  rw [c6] at i2
  exact ⟨i1, i2⟩

end generic_claims_five

section programs_three

variable (V : variant) {valid : V.string → Machine → Prop}
  (L : laws V.string V.small_buffer_capacity V.ctor V.ctor_move V.operator_assign V.reserve
    V.shrink_to_fit V.insert V.pop_back V.self V.is_large V.data V.size V.capacity valid)

include L

/-- In every state a program reaches from the empty system, a heap string has a capacity
above the inline capacity, so no capacity is below the inline capacity or zero, and doubling
the capacity of a full string makes room for one more byte. -/
theorem run_heap_capacity (junk : pointer → char) (ops : List operation) (sys : System V)
    (h : System.run V (System.init V junk) ops = some sys) :
    ∀ s ∈ sys.objs,
      (V.is_large s = true → V.small_buffer_capacity < V.capacity s) ∧
      V.small_buffer_capacity ≤ V.capacity s ∧ 0 < V.capacity s ∧
      (V.size s = V.capacity s → V.size s + 1 ≤ V.capacity s * 2) := by
  intro s hs
  obtain ⟨j, hj⟩ := List.mem_iff_getElem?.mp hs
  have hinv : ∀ j s, (System.init V junk).objs[j]? = some s →
      valid s (System.init V junk).σ ∧ V.self s = j := by
    intro j s hj
    simp [System.init] at hj
  have hv := (run_valid V L ops _ sys hinv h j s hj).1
  have hp := L.small_pos
  have hcap : V.small_buffer_capacity ≤ V.capacity s := by
    cases hl : V.is_large s with
    | false => rw [(L.valid_small s sys.σ hv hl).1]
    | true => exact Nat.le_of_lt (L.valid_large s sys.σ hv hl).1
  exact ⟨fun hl => (L.valid_large s sys.σ hv hl).1, hcap, by omega, fun _ => by omega⟩

end programs_three

/-! ## The data pointer of a fresh string -/

namespace clang_bit_field

theorem bf_ctor_data (σ : Machine) (object : Nat) :
    (string.ctor σ object).2.data = (string.ctor σ object).2.small_data := rfl

end clang_bit_field

namespace clang_common_initial_subsequence

theorem cis_ctor_data (σ : Machine) (object : Nat) :
    (string.ctor σ object).2.data = (string.ctor σ object).2.small_data := rfl

end clang_common_initial_subsequence

namespace gcc_msvc_abi

theorem gcc_ctor_data (σ : Machine) (object : Nat) :
    (string.ctor σ object).2.data = (string.ctor σ object).2.buffer := rfl

end gcc_msvc_abi

/-- C21 (the code departs from the claim): `shrink_to_fit()` on the heap string `"0123"`
with capacity 50 returns it to the inline representation in every variant, but only
`clang-bit-field.cpp` calls `deallocate`, once, with the former pointer and the former
capacity; in `clang-common-initial-subsequence.cpp` and in `gcc-msvc-abi.cpp` the log of
allocator calls is unchanged, so the block is never released. -/
theorem C21_shrink_to_fit_keeps_block :
    (clang_bit_field.reserved_str.2.is_large = true ∧
      clang_bit_field.reserved_str.2.size ≤ clang_bit_field.small_buffer_capacity ∧
      (clang_bit_field.reserved_str.2.shrink_to_fit
        clang_bit_field.reserved_str.1).2.is_large = false ∧
      (clang_bit_field.reserved_str.2.shrink_to_fit clang_bit_field.reserved_str.1).1.calls =
        clang_bit_field.reserved_str.1.calls ++
          [call.deallocate clang_bit_field.reserved_str.2.data
            clang_bit_field.reserved_str.2.capacity]) ∧
    (clang_common_initial_subsequence.reserved_str.2.is_large = true ∧
      clang_common_initial_subsequence.reserved_str.2.size ≤
        clang_common_initial_subsequence.small_buffer_capacity ∧
      (clang_common_initial_subsequence.reserved_str.2.shrink_to_fit
        clang_common_initial_subsequence.reserved_str.1).2.is_large = false ∧
      (clang_common_initial_subsequence.reserved_str.2.shrink_to_fit
        clang_common_initial_subsequence.reserved_str.1).1.calls =
        clang_common_initial_subsequence.reserved_str.1.calls ∧
      deallocate_blocks (clang_common_initial_subsequence.reserved_str.2.shrink_to_fit
        clang_common_initial_subsequence.reserved_str.1).1.calls = []) ∧
    (gcc_msvc_abi.reserved_str.2.is_large = true ∧
      gcc_msvc_abi.reserved_str.2.size ≤ gcc_msvc_abi.small_buffer_capacity ∧
      (gcc_msvc_abi.reserved_str.2.shrink_to_fit gcc_msvc_abi.reserved_str.1).2.is_large =
        false ∧
      (gcc_msvc_abi.reserved_str.2.shrink_to_fit gcc_msvc_abi.reserved_str.1).1.calls =
        gcc_msvc_abi.reserved_str.1.calls ∧
      deallocate_blocks (gcc_msvc_abi.reserved_str.2.shrink_to_fit
        gcc_msvc_abi.reserved_str.1).1.calls = []) := by
  decide

/-- C22: a freshly constructed string is empty and inline.  In every variant, `string(alloc)`
has `size() == 0`, is inline, `data()` is the address of the buffer embedded in the object,
`capacity()` is the inline capacity (23 in the two clang variants, 16 in `gcc-msvc-abi.cpp`),
and the construction leaves the log of allocator calls and the bump pointer as they were. -/
theorem C22_fresh_string_empty_inline :
    (∀ (σ : Machine) (object : Nat),
      (clang_bit_field.string.ctor σ object).2.size = 0 ∧
      (clang_bit_field.string.ctor σ object).2.is_large = false ∧
      (clang_bit_field.string.ctor σ object).2.data = (clang_bit_field.string.ctor σ object).2.small_data ∧
      (clang_bit_field.string.ctor σ object).2.data = ⟨region.small object, 0⟩ ∧
      (clang_bit_field.string.ctor σ object).2.capacity = clang_bit_field.small_buffer_capacity ∧
      (clang_bit_field.string.ctor σ object).1.calls = σ.calls ∧
      (clang_bit_field.string.ctor σ object).1.buff_pointer = σ.buff_pointer) ∧
    (∀ (σ : Machine) (object : Nat),
      (clang_common_initial_subsequence.string.ctor σ object).2.size = 0 ∧
      (clang_common_initial_subsequence.string.ctor σ object).2.is_large = false ∧
      (clang_common_initial_subsequence.string.ctor σ object).2.data = (clang_common_initial_subsequence.string.ctor σ object).2.small_data ∧
      (clang_common_initial_subsequence.string.ctor σ object).2.data = ⟨region.small object, 0⟩ ∧
      (clang_common_initial_subsequence.string.ctor σ object).2.capacity = clang_common_initial_subsequence.small_buffer_capacity ∧
      (clang_common_initial_subsequence.string.ctor σ object).1.calls = σ.calls ∧
      (clang_common_initial_subsequence.string.ctor σ object).1.buff_pointer = σ.buff_pointer) ∧
    (∀ (σ : Machine) (object : Nat),
      (gcc_msvc_abi.string.ctor σ object).2.size = 0 ∧
      (gcc_msvc_abi.string.ctor σ object).2.is_large = false ∧
      (gcc_msvc_abi.string.ctor σ object).2.data = (gcc_msvc_abi.string.ctor σ object).2.buffer ∧
      (gcc_msvc_abi.string.ctor σ object).2.data = ⟨region.small object, 0⟩ ∧
      (gcc_msvc_abi.string.ctor σ object).2.capacity = gcc_msvc_abi.small_buffer_capacity ∧
      (gcc_msvc_abi.string.ctor σ object).1.calls = σ.calls ∧
      (gcc_msvc_abi.string.ctor σ object).1.buff_pointer = σ.buff_pointer) ∧
    clang_bit_field.small_buffer_capacity = 23 ∧
    clang_common_initial_subsequence.small_buffer_capacity = 23 ∧
    gcc_msvc_abi.small_buffer_capacity = 16 :=
  ⟨fun σ object =>
      ⟨(laws_ctor_fresh clang_bit_field.bf_impl_laws σ object).1, (laws_ctor_fresh clang_bit_field.bf_impl_laws σ object).2.1,
        clang_bit_field.bf_ctor_data σ object, (laws_ctor_fresh clang_bit_field.bf_impl_laws σ object).2.2.1,
        (laws_ctor_fresh clang_bit_field.bf_impl_laws σ object).2.2.2.1, (laws_ctor_fresh clang_bit_field.bf_impl_laws σ object).2.2.2.2.1,
        (laws_ctor_fresh clang_bit_field.bf_impl_laws σ object).2.2.2.2.2⟩,
    fun σ object =>
      ⟨(laws_ctor_fresh clang_common_initial_subsequence.cis_impl_laws σ object).1, (laws_ctor_fresh clang_common_initial_subsequence.cis_impl_laws σ object).2.1,
        clang_common_initial_subsequence.cis_ctor_data σ object, (laws_ctor_fresh clang_common_initial_subsequence.cis_impl_laws σ object).2.2.1,
        (laws_ctor_fresh clang_common_initial_subsequence.cis_impl_laws σ object).2.2.2.1, (laws_ctor_fresh clang_common_initial_subsequence.cis_impl_laws σ object).2.2.2.2.1,
        (laws_ctor_fresh clang_common_initial_subsequence.cis_impl_laws σ object).2.2.2.2.2⟩,
    fun σ object =>
      ⟨(laws_ctor_fresh gcc_msvc_abi.gcc_impl_laws σ object).1, (laws_ctor_fresh gcc_msvc_abi.gcc_impl_laws σ object).2.1,
        gcc_msvc_abi.gcc_ctor_data σ object, (laws_ctor_fresh gcc_msvc_abi.gcc_impl_laws σ object).2.2.1,
        (laws_ctor_fresh gcc_msvc_abi.gcc_impl_laws σ object).2.2.2.1, (laws_ctor_fresh gcc_msvc_abi.gcc_impl_laws σ object).2.2.2.2.1,
        (laws_ctor_fresh gcc_msvc_abi.gcc_impl_laws σ object).2.2.2.2.2⟩,
    rfl, rfl, rfl⟩

/-- C23: the reallocation path of `insert` never writes to the old storage.  In every variant,
for every valid heap string with `size() == capacity()`, every offset `k <= size()` and every
byte `v`, after `insert(begin() + k, v)` every byte of the old block
`[data(), data() + capacity())` holds the value it held before; every byte outside the
`size() + 1` first elements of the new block, which starts at the old bump pointer, is
unchanged; and `data()` is the new block. -/
theorem C23_realloc_keeps_old_storage :
    (∀ (s : clang_bit_field.string) (σ : Machine) (k : Nat) (v : char),
      s.valid σ → s.is_large = true → s.size = s.capacity → k ≤ s.size →
      (∀ i, i < s.capacity → (s.insert σ k v).1.mem (s.data.add i) = σ.mem (s.data.add i)) ∧
      (∀ q : pointer, ¬ (q.base = region.arena ∧ σ.buff_pointer ≤ q.index ∧
          q.index < σ.buff_pointer + s.size + 1) → (s.insert σ k v).1.mem q = σ.mem q) ∧
      (s.insert σ k v).2.1.data = ⟨region.arena, σ.buff_pointer⟩) ∧
    (∀ (s : clang_common_initial_subsequence.string) (σ : Machine) (k : Nat) (v : char),
      s.valid σ → s.is_large = true → s.size = s.capacity → k ≤ s.size →
      (∀ i, i < s.capacity → (s.insert σ k v).1.mem (s.data.add i) = σ.mem (s.data.add i)) ∧
      (∀ q : pointer, ¬ (q.base = region.arena ∧ σ.buff_pointer ≤ q.index ∧
          q.index < σ.buff_pointer + s.size + 1) → (s.insert σ k v).1.mem q = σ.mem q) ∧
      (s.insert σ k v).2.1.data = ⟨region.arena, σ.buff_pointer⟩) ∧
    (∀ (s : gcc_msvc_abi.string) (σ : Machine) (k : Nat) (v : char),
      s.valid σ → s.is_large = true → s.size = s.capacity → k ≤ s.size →
      (∀ i, i < s.capacity → (s.insert σ k v).1.mem (s.data.add i) = σ.mem (s.data.add i)) ∧
      (∀ q : pointer, ¬ (q.base = region.arena ∧ σ.buff_pointer ≤ q.index ∧
          q.index < σ.buff_pointer + s.size + 1) → (s.insert σ k v).1.mem q = σ.mem q) ∧
      (s.insert σ k v).2.1.data = ⟨region.arena, σ.buff_pointer⟩) :=
  ⟨fun s σ k v hv hl hfull hk =>
      ⟨laws_old_block_kept clang_bit_field.bf_impl_laws s σ _ s.size hv hl (clang_bit_field.bf_insert_realloc_frame s σ k v hv hfull hk),
        clang_bit_field.bf_insert_realloc_frame s σ k v hv hfull hk,
        (clang_bit_field.bf_insert_realloc_value s σ k v hv hfull hk).1⟩,
    fun s σ k v hv hl hfull hk =>
      ⟨laws_old_block_kept clang_common_initial_subsequence.cis_impl_laws s σ _ s.size hv hl (clang_common_initial_subsequence.cis_insert_realloc_frame s σ k v hv hfull hk),
        clang_common_initial_subsequence.cis_insert_realloc_frame s σ k v hv hfull hk,
        (clang_common_initial_subsequence.cis_insert_realloc_value s σ k v hv hfull hk).1⟩,
    fun s σ k v hv hl hfull hk =>
      ⟨laws_old_block_kept gcc_msvc_abi.gcc_impl_laws s σ _ s.size hv hl (gcc_msvc_abi.gcc_insert_realloc_frame s σ k v hv hfull hk),
        gcc_msvc_abi.gcc_insert_realloc_frame s σ k v hv hfull hk,
        (gcc_msvc_abi.gcc_insert_realloc_value s σ k v hv hfull hk).1⟩⟩

set_option maxRecDepth 1000000 in
/-- C23 at a concrete input: `insert(begin() + 3, 97)` into the full heap string `1, ..., 24`,
in each variant: the fourth byte of the old block is unchanged. -/
theorem C23_realloc_keeps_old_storage_witness :
    (clang_bit_field.exact_str.2.valid clang_bit_field.exact_str.1 ∧ clang_bit_field.exact_str.2.is_large = true ∧
      clang_bit_field.exact_str.2.size = clang_bit_field.exact_str.2.capacity ∧
      (clang_bit_field.exact_str.2.insert clang_bit_field.exact_str.1 3 97).1.mem (clang_bit_field.exact_str.2.data.add 3) =
        clang_bit_field.exact_str.1.mem (clang_bit_field.exact_str.2.data.add 3)) ∧
    (clang_common_initial_subsequence.exact_str.2.valid clang_common_initial_subsequence.exact_str.1 ∧ clang_common_initial_subsequence.exact_str.2.is_large = true ∧
      clang_common_initial_subsequence.exact_str.2.size = clang_common_initial_subsequence.exact_str.2.capacity ∧
      (clang_common_initial_subsequence.exact_str.2.insert clang_common_initial_subsequence.exact_str.1 3 97).1.mem (clang_common_initial_subsequence.exact_str.2.data.add 3) =
        clang_common_initial_subsequence.exact_str.1.mem (clang_common_initial_subsequence.exact_str.2.data.add 3)) ∧
    (gcc_msvc_abi.exact_str.2.valid gcc_msvc_abi.exact_str.1 ∧ gcc_msvc_abi.exact_str.2.is_large = true ∧
      gcc_msvc_abi.exact_str.2.size = gcc_msvc_abi.exact_str.2.capacity ∧
      (gcc_msvc_abi.exact_str.2.insert gcc_msvc_abi.exact_str.1 3 97).1.mem (gcc_msvc_abi.exact_str.2.data.add 3) =
        gcc_msvc_abi.exact_str.1.mem (gcc_msvc_abi.exact_str.2.data.add 3)) :=
  ⟨⟨by decide, by decide, by decide,
      (C23_realloc_keeps_old_storage.1 _ _ 3 97 (by decide) (by decide) (by decide)
        (by decide)).1 3 (by decide)⟩,
    ⟨by decide, by decide, by decide,
      (C23_realloc_keeps_old_storage.2.1 _ _ 3 97 (by decide) (by decide) (by decide)
        (by decide)).1 3 (by decide)⟩,
    ⟨by decide, by decide, by decide,
      (C23_realloc_keeps_old_storage.2.2 _ _ 3 97 (by decide) (by decide) (by decide)
        (by decide)).1 3 (by decide)⟩⟩

/-- C24: changing the length touches only the length.  In `clang-bit-field.cpp`, for every
valid string, `increment_size()` makes `size()` one more and, when `size() > 0`,
`decrement_size()` makes it one less; both leave `is_large()`, `data()` and `capacity()`
unchanged, and in the heap state they leave the 7-bit field
`size_or_first_byte_of_capacity_` unchanged. -/
theorem C24_size_change_touches_only_size :
    ∀ (s : clang_bit_field.string) (σ : Machine), s.valid σ →
      (s.increment_size.size = s.size + 1 ∧
        s.increment_size.is_large = s.is_large ∧ s.increment_size.data = s.data ∧
        s.increment_size.capacity = s.capacity ∧
        (s.is_large = true →
          s.increment_size.size_or_first_byte_of_capacity_ =
            s.size_or_first_byte_of_capacity_)) ∧
      (0 < s.size →
        s.decrement_size.size = s.size - 1 ∧
        s.decrement_size.is_large = s.is_large ∧ s.decrement_size.data = s.data ∧
        s.decrement_size.capacity = s.capacity ∧
        (s.is_large = true →
          s.decrement_size.size_or_first_byte_of_capacity_ =
            s.size_or_first_byte_of_capacity_)) :=
  fun s σ hv => ⟨clang_bit_field.bf_increment_size_frame s σ hv,
    fun hpos => clang_bit_field.bf_decrement_size_frame s σ hv hpos⟩

/-- C24 at concrete inputs: the inline string `"0123"` and the heap string `"0123"` with
capacity 50. -/
theorem C24_size_change_touches_only_size_witness :
    clang_bit_field.short_str.2.valid clang_bit_field.short_str.1 ∧
    clang_bit_field.short_str.2.increment_size.size = clang_bit_field.short_str.2.size + 1 ∧
    clang_bit_field.reserved_str.2.is_large = true ∧
    clang_bit_field.reserved_str.2.decrement_size.capacity =
      clang_bit_field.reserved_str.2.capacity ∧
    clang_bit_field.reserved_str.2.decrement_size.size_or_first_byte_of_capacity_ =
      clang_bit_field.reserved_str.2.size_or_first_byte_of_capacity_ :=
  ⟨by decide,
    (C24_size_change_touches_only_size clang_bit_field.short_str.2 clang_bit_field.short_str.1
      (by decide)).1.1,
    by decide,
    ((C24_size_change_touches_only_size clang_bit_field.reserved_str.2
      clang_bit_field.reserved_str.1 (by decide)).2 (by decide)).2.2.2.1,
    ((C24_size_change_touches_only_size clang_bit_field.reserved_str.2
      clang_bit_field.reserved_str.1 (by decide)).2 (by decide)).2.2.2.2 (by decide)⟩

/-- C25: the packed capacity round trip of `clang-bit-field.cpp`.  For every string, every
pointer `p` and every `c < 2^63`, after `relocate(p, c)` the function `capacity()` returns
`c`; the 7-bit field `size_or_first_byte_of_capacity_` holds bits 56-62 of `c` and the seven
bytes of `rest_of_capacity` hold bits 0-55, least significant byte last. -/
theorem C25_packed_capacity_round_trip :
    ∀ (s : clang_bit_field.string) (σ : Machine) (p : pointer) (c : Nat), c < 2 ^ 63 →
      (s.relocate σ p c).2.capacity = c ∧
      (s.relocate σ p c).2.size_or_first_byte_of_capacity_ = c / 2 ^ 56 % 2 ^ 7 ∧
      (s.relocate σ p c).2.u_.get_large.rest_of_capacity =
        [c / 2 ^ 48 % 256, c / 2 ^ 40 % 256, c / 2 ^ 32 % 256, c / 2 ^ 24 % 256,
          c / 2 ^ 16 % 256, c / 2 ^ 8 % 256, c % 256] :=
  fun s σ p c hc => clang_bit_field.bf_relocate_capacity s σ p c hc

/-- C25 at concrete inputs: the capacities `50` and `2^62 + 2^56 + 300`, which uses the 7-bit
field. -/
theorem C25_packed_capacity_round_trip_witness :
    (clang_bit_field.short_str.2.relocate clang_bit_field.short_str.1 ⟨region.arena, 0⟩
      50).2.capacity = 50 ∧
    (clang_bit_field.short_str.2.relocate clang_bit_field.short_str.1 ⟨region.arena, 0⟩
      (2 ^ 62 + 2 ^ 56 + 300)).2.capacity = 2 ^ 62 + 2 ^ 56 + 300 ∧
    (clang_bit_field.short_str.2.relocate clang_bit_field.short_str.1 ⟨region.arena, 0⟩
      (2 ^ 62 + 2 ^ 56 + 300)).2.size_or_first_byte_of_capacity_ =
        (2 ^ 62 + 2 ^ 56 + 300) / 2 ^ 56 % 2 ^ 7 :=
  ⟨(C25_packed_capacity_round_trip _ _ _ 50 (by norm_num)).1,
    (C25_packed_capacity_round_trip _ _ _ (2 ^ 62 + 2 ^ 56 + 300) (by norm_num)).1,
    (C25_packed_capacity_round_trip _ _ _ (2 ^ 62 + 2 ^ 56 + 300) (by norm_num)).2.1⟩

/-- C26: a heap block is always strictly larger than the inline buffer.  In every variant with
inline capacity `N`, for every string object of every state that a program of constructions,
`insert`, `pop_back`, `reserve`, `shrink_to_fit` and moves reaches from an empty system
(capacities below `2^63`): a heap string has `capacity() > N`; `capacity() >= N`;
`capacity()` is not 0; and when the string is full, twice its capacity makes room for one more
byte. -/
theorem C26_heap_capacity_above_inline :
    (∀ (junk : pointer → char) (ops : List operation) (sys : System clang_bit_field.impl),
      System.run clang_bit_field.impl (System.init clang_bit_field.impl junk) ops = some sys →
      ∀ s ∈ sys.objs,
        (clang_bit_field.string.is_large s = true → clang_bit_field.small_buffer_capacity < clang_bit_field.string.capacity s) ∧
        clang_bit_field.small_buffer_capacity ≤ clang_bit_field.string.capacity s ∧ 0 < clang_bit_field.string.capacity s ∧
        (clang_bit_field.string.size s = clang_bit_field.string.capacity s →
          clang_bit_field.string.size s + 1 ≤ clang_bit_field.string.capacity s * 2)) ∧
    (∀ (junk : pointer → char) (ops : List operation) (sys : System clang_common_initial_subsequence.impl),
      System.run clang_common_initial_subsequence.impl (System.init clang_common_initial_subsequence.impl junk) ops = some sys →
      ∀ s ∈ sys.objs,
        (clang_common_initial_subsequence.string.is_large s = true → clang_common_initial_subsequence.small_buffer_capacity < clang_common_initial_subsequence.string.capacity s) ∧
        clang_common_initial_subsequence.small_buffer_capacity ≤ clang_common_initial_subsequence.string.capacity s ∧ 0 < clang_common_initial_subsequence.string.capacity s ∧
        (clang_common_initial_subsequence.string.size s = clang_common_initial_subsequence.string.capacity s →
          clang_common_initial_subsequence.string.size s + 1 ≤ clang_common_initial_subsequence.string.capacity s * 2)) ∧
    (∀ (junk : pointer → char) (ops : List operation) (sys : System gcc_msvc_abi.impl),
      System.run gcc_msvc_abi.impl (System.init gcc_msvc_abi.impl junk) ops = some sys →
      ∀ s ∈ sys.objs,
        (gcc_msvc_abi.string.is_large s = true → gcc_msvc_abi.small_buffer_capacity < gcc_msvc_abi.string.capacity s) ∧
        gcc_msvc_abi.small_buffer_capacity ≤ gcc_msvc_abi.string.capacity s ∧ 0 < gcc_msvc_abi.string.capacity s ∧
        (gcc_msvc_abi.string.size s = gcc_msvc_abi.string.capacity s →
          gcc_msvc_abi.string.size s + 1 ≤ gcc_msvc_abi.string.capacity s * 2)) :=
  ⟨fun junk ops sys h => run_heap_capacity clang_bit_field.impl clang_bit_field.bf_impl_laws junk ops sys h,
    fun junk ops sys h => run_heap_capacity clang_common_initial_subsequence.impl clang_common_initial_subsequence.cis_impl_laws junk ops sys h,
    fun junk ops sys h => run_heap_capacity gcc_msvc_abi.impl gcc_msvc_abi.gcc_impl_laws junk ops sys h⟩

set_option maxRecDepth 100000 in
/-- C26 at a concrete input: the object left by `heap_program`, a heap string, in each
variant. -/
theorem C26_heap_capacity_above_inline_witness :
    (∃ sys, System.run clang_bit_field.impl (System.init clang_bit_field.impl (fun _ => 0)) heap_program =
        some sys ∧
      sys.objs.any clang_bit_field.string.is_large = true ∧
      ∀ s ∈ sys.objs, clang_bit_field.string.is_large s = true →
        clang_bit_field.small_buffer_capacity < clang_bit_field.string.capacity s) ∧
    (∃ sys, System.run clang_common_initial_subsequence.impl (System.init clang_common_initial_subsequence.impl (fun _ => 0)) heap_program =
        some sys ∧
      sys.objs.any clang_common_initial_subsequence.string.is_large = true ∧
      ∀ s ∈ sys.objs, clang_common_initial_subsequence.string.is_large s = true →
        clang_common_initial_subsequence.small_buffer_capacity < clang_common_initial_subsequence.string.capacity s) ∧
    (∃ sys, System.run gcc_msvc_abi.impl (System.init gcc_msvc_abi.impl (fun _ => 0)) heap_program =
        some sys ∧
      sys.objs.any gcc_msvc_abi.string.is_large = true ∧
      ∀ s ∈ sys.objs, gcc_msvc_abi.string.is_large s = true →
        gcc_msvc_abi.small_buffer_capacity < gcc_msvc_abi.string.capacity s) := by
  refine ⟨?_, ?_, ?_⟩
  · have hd : (System.run clang_bit_field.impl (System.init clang_bit_field.impl (fun _ => 0))
        heap_program).map (fun sys => sys.objs.any clang_bit_field.string.is_large) = some true := by
      decide
    cases h : System.run clang_bit_field.impl (System.init clang_bit_field.impl (fun _ => 0)) heap_program with
    | none =>
      rw [h] at hd
      cases hd
    | some sys =>
      rw [h] at hd
      exact ⟨sys, rfl, Option.some.inj hd,
        fun s hs => (C26_heap_capacity_above_inline.1 _ _ sys h s hs).1⟩
  · have hd : (System.run clang_common_initial_subsequence.impl (System.init clang_common_initial_subsequence.impl (fun _ => 0))
        heap_program).map (fun sys => sys.objs.any clang_common_initial_subsequence.string.is_large) = some true := by
      decide
    cases h : System.run clang_common_initial_subsequence.impl (System.init clang_common_initial_subsequence.impl (fun _ => 0)) heap_program with
    | none =>
      rw [h] at hd
      cases hd
    | some sys =>
      rw [h] at hd
      exact ⟨sys, rfl, Option.some.inj hd,
        fun s hs => (C26_heap_capacity_above_inline.2.1 _ _ sys h s hs).1⟩
  · have hd : (System.run gcc_msvc_abi.impl (System.init gcc_msvc_abi.impl (fun _ => 0))
        heap_program).map (fun sys => sys.objs.any gcc_msvc_abi.string.is_large) = some true := by
      decide
    cases h : System.run gcc_msvc_abi.impl (System.init gcc_msvc_abi.impl (fun _ => 0)) heap_program with
    | none =>
      rw [h] at hd
      cases hd
    | some sys =>
      rw [h] at hd
      exact ⟨sys, rfl, Option.some.inj hd,
        fun s hs => (C26_heap_capacity_above_inline.2.2 _ _ sys h s hs).1⟩

/-- C27: the closed form of the capacity under appends.  In every variant with inline capacity
`N`, for every byte sequence `w` and every `k` that is the least natural number with
`N * 2^k >= |w|` (with `N * 2^k < 2^63`), after the bytes of `w` are inserted one at a time at
`end()` of a freshly constructed string, `capacity() == N * 2^k` and exactly `k` `allocate`
calls have been added to the log. -/
theorem C27_capacity_closed_form :
    (∀ (σ : Machine) (object : Nat) (w : List char) (k : Nat),
      w.length ≤ clang_bit_field.small_buffer_capacity * 2 ^ k →
      (∀ j, j < k → clang_bit_field.small_buffer_capacity * 2 ^ j < w.length) →
      clang_bit_field.small_buffer_capacity * 2 ^ k < 2 ^ 63 →
      (append_all clang_bit_field.string.insert clang_bit_field.string.size (clang_bit_field.string.ctor σ object).2
        (clang_bit_field.string.ctor σ object).1 w).2.capacity = clang_bit_field.small_buffer_capacity * 2 ^ k ∧
      (allocate_sizes (append_all clang_bit_field.string.insert clang_bit_field.string.size (clang_bit_field.string.ctor σ object).2
        (clang_bit_field.string.ctor σ object).1 w).1.calls).length = (allocate_sizes σ.calls).length + k) ∧
    (∀ (σ : Machine) (object : Nat) (w : List char) (k : Nat),
      w.length ≤ clang_common_initial_subsequence.small_buffer_capacity * 2 ^ k →
      (∀ j, j < k → clang_common_initial_subsequence.small_buffer_capacity * 2 ^ j < w.length) →
      clang_common_initial_subsequence.small_buffer_capacity * 2 ^ k < 2 ^ 63 →
      (append_all clang_common_initial_subsequence.string.insert clang_common_initial_subsequence.string.size (clang_common_initial_subsequence.string.ctor σ object).2
        (clang_common_initial_subsequence.string.ctor σ object).1 w).2.capacity = clang_common_initial_subsequence.small_buffer_capacity * 2 ^ k ∧
      (allocate_sizes (append_all clang_common_initial_subsequence.string.insert clang_common_initial_subsequence.string.size (clang_common_initial_subsequence.string.ctor σ object).2
        (clang_common_initial_subsequence.string.ctor σ object).1 w).1.calls).length = (allocate_sizes σ.calls).length + k) ∧
    (∀ (σ : Machine) (object : Nat) (w : List char) (k : Nat),
      w.length ≤ gcc_msvc_abi.small_buffer_capacity * 2 ^ k →
      (∀ j, j < k → gcc_msvc_abi.small_buffer_capacity * 2 ^ j < w.length) →
      gcc_msvc_abi.small_buffer_capacity * 2 ^ k < 2 ^ 63 →
      (append_all gcc_msvc_abi.string.insert gcc_msvc_abi.string.size (gcc_msvc_abi.string.ctor σ object).2
        (gcc_msvc_abi.string.ctor σ object).1 w).2.capacity = gcc_msvc_abi.small_buffer_capacity * 2 ^ k ∧
      (allocate_sizes (append_all gcc_msvc_abi.string.insert gcc_msvc_abi.string.size (gcc_msvc_abi.string.ctor σ object).2
        (gcc_msvc_abi.string.ctor σ object).1 w).1.calls).length = (allocate_sizes σ.calls).length + k) :=
  ⟨fun σ object w k h1 h2 h3 => laws_append_capacity_fresh clang_bit_field.bf_impl_laws σ object w k h1 h2 h3,
    fun σ object w k h1 h2 h3 => laws_append_capacity_fresh clang_common_initial_subsequence.cis_impl_laws σ object w k h1 h2 h3,
    fun σ object w k h1 h2 h3 => laws_append_capacity_fresh gcc_msvc_abi.gcc_impl_laws σ object w k h1 h2 h3⟩

/-- C27 at concrete inputs: the 4 bytes of `short_source` leave the capacity at 23 with no
allocation, the 50 bytes of `long_source` give the capacity 92 after two allocations in the
clang variants and 64 after two allocations in `gcc-msvc-abi.cpp`. -/
theorem C27_capacity_closed_form_witness :
    (append_all clang_bit_field.string.insert clang_bit_field.string.size
      (clang_bit_field.string.ctor fresh_machine 0).2
      (clang_bit_field.string.ctor fresh_machine 0).1 short_source).2.capacity =
        clang_bit_field.small_buffer_capacity * 2 ^ 0 ∧
    clang_common_initial_subsequence.small_buffer_capacity * 2 ^ 2 = 92 ∧
    ((append_all clang_common_initial_subsequence.string.insert
      clang_common_initial_subsequence.string.size
      (clang_common_initial_subsequence.string.ctor fresh_machine 0).2
      (clang_common_initial_subsequence.string.ctor fresh_machine 0).1
      long_source).2.capacity = clang_common_initial_subsequence.small_buffer_capacity * 2 ^ 2 ∧
      (allocate_sizes (append_all clang_common_initial_subsequence.string.insert
        clang_common_initial_subsequence.string.size
        (clang_common_initial_subsequence.string.ctor fresh_machine 0).2
        (clang_common_initial_subsequence.string.ctor fresh_machine 0).1
        long_source).1.calls).length = (allocate_sizes fresh_machine.calls).length + 2) ∧
    gcc_msvc_abi.small_buffer_capacity * 2 ^ 2 = 64 ∧
    (append_all gcc_msvc_abi.string.insert gcc_msvc_abi.string.size
      (gcc_msvc_abi.string.ctor fresh_machine 0).2
      (gcc_msvc_abi.string.ctor fresh_machine 0).1 long_source).2.capacity =
        gcc_msvc_abi.small_buffer_capacity * 2 ^ 2 :=
  ⟨(C27_capacity_closed_form.1 fresh_machine 0 short_source 0 (by decide) (by decide)
      (by decide)).1,
    by decide,
    C27_capacity_closed_form.2.1 fresh_machine 0 long_source 2 (by decide) (by decide)
      (by decide),
    by decide,
    (C27_capacity_closed_form.2.2 fresh_machine 0 long_source 2 (by decide) (by decide)
      (by decide)).1⟩

end constexpr_string
